import Mathlib

/-!
# templ: the template-to-Go generator and its runtime

A shallow embedding of `generator/generator.go` and `runtime.go`.

Conventions of the embedding.

* A Go `string` is a `String`: the sequence of runes that a Go `range` loop
  yields on well-formed UTF-8 text. `len(s)` is `s.utf8ByteSize`.
* Go `int` and `int64` are `Int`; the cursor counts bytes, lines and columns of
  the text written so far, far below the 64-bit range.
* A Go `error` is `Option GenError` (`none` is `nil`).
* A method of `*generator` is a function in `Gen`, the state monad over the
  generator record. Results are returned the way Go returns them, the error
  as the last component, and every `if err != nil` is spelled out.
* Go slices alias their backing array: `n.Attributes[i] = attr` inside
  `writeElementCSS` is visible through every copy of the element, the
  caller's AST included. The functions that walk the body of a template
  therefore return the node as it stands after the call.
-/

set_option linter.unusedTactic false
set_option linter.unreachableTactic false
set_option linter.unusedVariables false

namespace Templ

/-! ## parser: positions, ranges, expressions, the source map -/

/-- Position of the parser package: byte index, line and column. -/
structure Position where
  Index : Int
  Line : Int
  Col : Int
  deriving DecidableEq, Repr

/-- The Go zero value of `Position`. -/
instance : Inhabited Position := ⟨⟨0, 0, 0⟩⟩

/-- Modelled from the spec: `parser.NewPosition` is not among the source files.
The cursor is the running byte, line and column count of the text streamed so
far, so a new tracker is at byte index 0 (first line, no column consumed). -/
def NewPosition : Position := ⟨0, 1, 0⟩

/-- Range of the parser package. -/
structure Range where
  From : Position
  To : Position
  deriving DecidableEq, Repr

instance : Inhabited Range := ⟨⟨default, default⟩⟩

/-- Expression of the parser package: a verbatim snippet and its source range. -/
structure Expression where
  Value : String
  Range : Range
  deriving DecidableEq, Repr

/-- One association of the source map. -/
structure SourceExpressionTo where
  Source : Expression
  Target : Range
  deriving DecidableEq, Repr

/-- Modelled from the spec: the source map type is not among the source files.
It is the write-once list of (expression, generated range) pairs, in the order
they were added. -/
structure SourceMap where
  Items : List SourceExpressionTo
  deriving DecidableEq, Repr

/-- Modelled from the spec: `parser.NewSourceMap`, the empty map. -/
def NewSourceMap : SourceMap := ⟨[]⟩

/-- Modelled from the spec: `add(expression, generatedRange)` records one
association. -/
def SourceMap.Add (sm : SourceMap) (src : Expression) (tgt : Range) : SourceMap :=
  ⟨sm.Items ++ [⟨src, tgt⟩]⟩

/-! ## Errors and the output sink -/

/-- The errors of one generation pass. -/
inductive GenError where
  /-- An error returned by the sink. -/
  | sink (msg : String)
  /-- The error of `writeVoidElement`: void element with child elements. -/
  | voidElementChildren (name : String)
  /-- The error of `writeTemplateNodes`: unknown node type. -/
  | unknownNodeType (typeName : String)
  /-- The error of `writeCSS`: unknown CSS property type. -/
  | unknownCSSPropertyType (typeName : String)
  /-- The error of `writeElementAttributes`: unknown attribute type. -/
  | unknownAttributeType (typeName : String)
  deriving DecidableEq, Repr

/-- A Go `error` value. -/
abbrev error := Option GenError

/-- The `io.Writer` the generator writes to: the text accepted so far, the
number of `Write` calls made on it, and for every call number the error that
call returns, if any. A failing call accepts nothing. -/
structure Sink where
  out : String
  calls : Nat
  fail : Nat → Option String

/-- A sink that accepts all writes. -/
def Sink.accepts (w : Sink) : Prop := ∀ k, w.fail k = none

/-- The call `io.WriteString(w, s)`: the sink after the call, the number of
bytes written and the error. -/
def Sink.WriteString (w : Sink) (s : String) : Sink × Int × error :=
  match w.fail w.calls with
  | none => ({ w with out := w.out ++ s, calls := w.calls + 1 }, s.utf8ByteSize, none)
  | some e => ({ w with calls := w.calls + 1 }, 0, some (.sink e))

/-! ## RangeWriter -/

/-- RangeWriter of the generator package. -/
structure RangeWriter where
  Current : Position
  w : Sink

def NewRangeWriter (w : Sink) : RangeWriter :=
  { Current := NewPosition, w := w }

/-- The loop `for _, c := range s` of `RangeWriter.Write`. -/
def RangeWriter.writeRunes (rw : RangeWriter) : List Char → RangeWriter × error
  | [] => (rw, none)
  | c :: cs =>
    let cur := rw.Current
    let cur := if c = '\n' then { cur with Line := cur.Line + 1, Col := 0 } else cur
    let cur := { cur with Col := cur.Col + 1 }
    match rw.w.WriteString (String.singleton c) with
    | (w, n, err) =>
      let rw : RangeWriter := { Current := { cur with Index := cur.Index + n }, w := w }
      match err with
      | some e => (rw, some e)
      | none => rw.writeRunes cs

def RangeWriter.Write (rw : RangeWriter) (s : String) : RangeWriter × Range × error :=
  let r : Range := { From := ⟨rw.Current.Index, rw.Current.Line, rw.Current.Col⟩, To := default }
  match rw.writeRunes s.data with
  | (rw, some e) => (rw, r, some e)
  | (rw, none) => (rw, { r with To := rw.Current }, none)

def RangeWriter.WriteIndent (rw : RangeWriter) (level : Nat) (s : String) :
    RangeWriter × Range × error :=
  match rw.Write (String.mk (List.replicate level '\t')) with
  | (rw, _, some e) => (rw, default, some e)
  | (rw, _, none) => rw.Write s

/-! ## parser: the template AST -/

/-- An attribute of an element. `Other` stands for a value of any further type
that implements the interface; it carries what `reflect.TypeOf` prints. -/
inductive Attribute where
  | BoolConstantAttribute (Name : String)
  | ConstantAttribute (Name : String) (Value : String)
  | BoolExpressionAttribute (Name : String) (Expression : Expression)
  | ExpressionAttribute (Name : String) (Expression : Expression)
  | Other (typeName : String)
  deriving DecidableEq, Repr

/-- Modelled from the spec: the element record is not among the source files.
Elements carry tag name, void flag, attribute list and children. -/
structure ElementOf (N : Type) where
  Name : String
  Void : Bool
  Attributes : List Attribute
  Children : List N

structure ForExpressionOf (N : Type) where
  Expression : Expression
  Children : List N

structure IfExpressionOf (N : Type) where
  Expression : Expression
  Then : List N
  Else : List N

structure CaseExpressionOf (N : Type) where
  Expression : Expression
  Children : List N

structure SwitchExpressionOf (N : Type) where
  Expression : Expression
  Cases : List (CaseExpressionOf N)
  Default : List N

structure DocType where
  Value : String
  deriving DecidableEq, Repr

structure CallTemplateExpression where
  Expression : Expression
  deriving DecidableEq, Repr

structure StringExpression where
  Expression : Expression
  deriving DecidableEq, Repr

structure Whitespace where
  Value : String
  deriving DecidableEq, Repr

structure Text where
  Value : String
  deriving DecidableEq, Repr

/-- A node of a template body. `Other` stands for a value of any further type
that implements the interface. -/
inductive Node where
  | DocType (n : DocType)
  | Element (n : ElementOf Node)
  | ForExpression (n : ForExpressionOf Node)
  | CallTemplateExpression (n : CallTemplateExpression)
  | IfExpression (n : IfExpressionOf Node)
  | SwitchExpression (n : SwitchExpressionOf Node)
  | StringExpression (n : StringExpression)
  | Whitespace (n : Whitespace)
  | Text (n : Text)
  | Other (typeName : String)

abbrev Element := ElementOf Node
abbrev ForExpression := ForExpressionOf Node
abbrev IfExpression := IfExpressionOf Node
abbrev CaseExpression := CaseExpressionOf Node
abbrev SwitchExpression := SwitchExpressionOf Node

def ElementOf.IsVoidElement {N : Type} (e : ElementOf N) : Bool := e.Void

/-- A property of a CSS template. -/
inductive CSSProperty where
  | ConstantCSSProperty (Name : String) (Value : String)
  | ExpressionCSSProperty (Name : String) (Value : StringExpression)
  | Other (typeName : String)
  deriving DecidableEq, Repr

structure HTMLTemplate where
  Name : Expression
  Parameters : Expression
  Children : List Node

structure CSSTemplate where
  Name : Expression
  Properties : List CSSProperty
  deriving DecidableEq, Repr

structure ScriptTemplate where
  Name : Expression
  Parameters : Expression
  Value : String
  deriving DecidableEq, Repr

/-- A top-level declaration. -/
inductive TemplateFileNode where
  | HTMLTemplate (n : HTMLTemplate)
  | CSSTemplate (n : CSSTemplate)
  | ScriptTemplate (n : ScriptTemplate)
  | Other (typeName : String)

structure Package where
  Expression : Expression
  deriving DecidableEq, Repr

structure Import where
  Expression : Expression
  deriving DecidableEq, Repr

structure TemplateFile where
  Package : Package
  Imports : List Import
  Nodes : List TemplateFileNode

/-! ## Library functions the generator calls -/

/-- The replacement `html.EscapeString` makes for one rune. -/
def html.escapeRune (c : Char) : List Char :=
  if c = '&' then "&amp;".data
  else if c = '\'' then "&#39;".data
  else if c = '<' then "&lt;".data
  else if c = '>' then "&gt;".data
  else if c = '"' then "&#34;".data
  else [c]

/-- Go `html.EscapeString`: escapes the five runes `<`, `>`, `&`, single and
double quote. -/
def html.EscapeString (s : String) : String :=
  String.mk (s.data.flatMap html.escapeRune)

/-- Go `strings.HasPrefix`. -/
def strings.HasPrefix (s p : String) : Bool := p.data.isPrefixOf s.data

/-- Go `strings.Join`. -/
def strings.Join (elems : List String) (sep : String) : String :=
  String.mk (List.intercalate sep.data (elems.map String.data))

/-- Go `strings.Repeat` of a single rune. -/
def strings.Repeat (c : Char) (count : Nat) : String := String.mk (List.replicate count c)

/-- The pieces of a text between the occurrences of a separator rune. -/
def strings.splitRunes (sep : Char) : List Char → List (List Char)
  | [] => [[]]
  | c :: cs =>
    if c = sep then [] :: strings.splitRunes sep cs
    else match strings.splitRunes sep cs with
      | [] => [[c]]
      | p :: ps => (c :: p) :: ps

/-- Go `strings.Split` for a separator that is a single rune. -/
def strings.Split (s : String) (sep : Char) : List String :=
  (strings.splitRunes sep s.data).map String.mk

/-- Go `unicode.IsSpace`. -/
def unicode.IsSpace (c : Char) : Bool :=
  c = '\t' || c = '\n' || c.val = 0x0B || c.val = 0x0C || c = '\r' || c = ' ' ||
  c.val = 0x85 || c.val = 0xA0 || c.val = 0x1680 || (0x2000 ≤ c.val && c.val ≤ 0x200A) ||
  c.val = 0x2028 || c.val = 0x2029 || c.val = 0x202F || c.val = 0x205F || c.val = 0x3000

/-- Go `strings.TrimSpace`. -/
def strings.TrimSpace (s : String) : String :=
  String.mk ((s.data.dropWhile unicode.IsSpace).reverse.dropWhile unicode.IsSpace).reverse

/-- What the generator takes from outside its package: the version string set
at build time, the version of the build information if there is one,
hex-encoded SHA-256, and the CSS sanitizer of the `safehtml` package. -/
structure Env where
  version : String
  buildInfo : Option String
  sha256Hex : String → String
  safehtmlSanitizeCSS : String → String → String × String

def goInstallVersion (env : Env) : String :=
  match env.buildInfo with
  | none => "unknown"
  | some v => v

def getVersion (env : Env) : String :=
  if env.version ≠ "" then env.version else goInstallVersion env

/-- SanitizeCSS of the runtime. -/
def SanitizeCSS (env : Env) (property value : String) : String :=
  match env.safehtmlSanitizeCSS property value with
  | (p, v) => p ++ ":" ++ v ++ ";"

/-! ## The generator -/

structure generator where
  tf : TemplateFile
  w : RangeWriter
  sourceMap : SourceMap
  variableID : Int

/-- A method of `*generator`: it returns its results and the generator as it
stands after the call. -/
def Gen (α : Type) : Type := generator → α × generator

instance : Monad Gen where
  pure a := fun g => (a, g)
  bind m f := fun g => match m g with
    | (a, g) => f a g

/-- The call `g.w.Write(s)`. -/
def Gen.Write (s : String) : Gen (Range × error) := fun g =>
  match g.w.Write s with
  | (rw, r, err) => ((r, err), { g with w := rw })

/-- The call `g.w.WriteIndent(level, s)`. -/
def Gen.WriteIndent (level : Nat) (s : String) : Gen (Range × error) := fun g =>
  match g.w.WriteIndent level s with
  | (rw, r, err) => ((r, err), { g with w := rw })

/-- The call `g.sourceMap.Add(src, tgt)`. -/
def Gen.sourceMapAdd (src : Expression) (tgt : Range) : Gen Unit := fun g =>
  ((), { g with sourceMap := g.sourceMap.Add src tgt })

/-- Reads `g.tf`. -/
def Gen.tf : Gen TemplateFile := fun g => (g.tf, g)

/-- The top-level declarations as they stand after the pass: the slice
`g.tf.Nodes` shares its backing arrays with the nodes the pass went through. -/
def Gen.storeNodes (nodes : List TemplateFileNode) : Gen Unit := fun g =>
  ((), { g with tf := { g.tf with Nodes := nodes } })

def generator.createVariableName : Gen String := fun g =>
  ("var_" ++ toString (g.variableID + 1), { g with variableID := g.variableID + 1 })

def generator.writeCodeGeneratedComment (env : Env) : Gen error := do
  let (_, err) ← Gen.Write ("// Code generated by templ@" ++ getVersion env ++ " DO NOT EDIT.\n\n")
  return err

def generator.writePackage : Gen error := do
  let tf ← Gen.tf
  -- package
  let (_, err) ← Gen.Write "package "
  if err ≠ none then return err
  let (r, err) ← Gen.Write tf.Package.Expression.Value
  if err ≠ none then return err
  Gen.sourceMapAdd tf.Package.Expression r
  let (_, err) ← Gen.Write "\n\n"
  if err ≠ none then return err
  let (_, err) ← Gen.Write "//lint:file-ignore SA4006 This context is only used if a nested component is present.\n\n"
  if err ≠ none then return err
  return none

/-- The loop of `templateNodeInfo`, entered with the flags found so far. -/
def generator.templateNodeInfo.loop (hasTemplates hasCSS : Bool) :
    List TemplateFileNode → Bool × Bool
  | [] => (hasTemplates, hasCSS)
  | n :: rest =>
    let hasTemplates := match n with
      | .HTMLTemplate _ => true
      | _ => hasTemplates
    let hasCSS := match n with
      | .CSSTemplate _ => true
      | _ => hasCSS
    if hasTemplates && hasCSS then (hasTemplates, hasCSS)
    else generator.templateNodeInfo.loop hasTemplates hasCSS rest

def generator.templateNodeInfo : Gen (Bool × Bool) := do
  let tf ← Gen.tf
  return generator.templateNodeInfo.loop false false tf.Nodes

/-- The loop over `g.tf.Imports` of `writeImports`. -/
def generator.writeImports.loop : List Import → Gen error
  | [] => return none
  | im :: rest => do
    -- import
    let (_, err) ← Gen.Write "import "
    if err ≠ none then return err
    let (r, err) ← Gen.Write im.Expression.Value
    if err ≠ none then return err
    Gen.sourceMapAdd im.Expression r
    let (_, err) ← Gen.Write "\n"
    if err ≠ none then return err
    generator.writeImports.loop rest

def generator.writeImports : Gen error := do
  let tf ← Gen.tf
  -- Always import templ because it's the interface type of all templates.
  let (_, err) ← Gen.Write "import \"github.com/a-h/templ\"\n"
  if err ≠ none then return err
  let (hasTemplates, hasCSS) ← generator.templateNodeInfo
  if hasTemplates then
    -- The first parameter of a template function.
    let (_, err) ← Gen.Write "import \"context\"\n"
    if err ≠ none then return err
    -- The second parameter of a template function.
    let (_, err) ← Gen.Write "import \"io\"\n"
    if err ≠ none then return err
    -- Used to buffer writes.
    let (_, err) ← Gen.Write "import \"bufio\"\n"
    if err ≠ none then return err
  if hasCSS then
    -- strings.Builder is used to create CSS.
    let (_, err) ← Gen.Write "import \"strings\"\n"
    if err ≠ none then return err
  let err ← generator.writeImports.loop tf.Imports
  if err ≠ none then return err
  let (_, err) ← Gen.Write "\n"
  if err ≠ none then return err
  return none

def generator.writeErrorHandler (indentLevel : Nat) : Gen error := do
  let (_, err) ← Gen.WriteIndent indentLevel "if err != nil \x7b\n"
  if err ≠ none then return err
  let (_, err) ← Gen.WriteIndent (indentLevel + 1) "return err\n"
  if err ≠ none then return err
  let (_, err) ← Gen.WriteIndent indentLevel "\x7d\n"
  if err ≠ none then return err
  return err

/-- One turn of the loop over `n.Properties` of `writeCSS`: the switch on the
type of the property. -/
def generator.writeCSS.property (env : Env) (indentLevel : Nat) : CSSProperty → Gen error
  | .ConstantCSSProperty name value => do
    -- Carry out sanitization at compile time for constants.
    let (_, err) ← Gen.WriteIndent indentLevel
      ("templCSSBuilder.WriteString(`" ++ SanitizeCSS env name value ++ "`)\n")
    if err ≠ none then return err
    return none
  | .ExpressionCSSProperty name value => do
    -- templCSSBuilder.WriteString(templ.SanitizeCSS('name', p.Expression()))
    let (_, err) ← Gen.WriteIndent indentLevel
      ("templCSSBuilder.WriteString(string(templ.SanitizeCSS(`" ++ name ++ "`, ")
    if err ≠ none then return err
    let (r, err) ← Gen.Write value.Expression.Value
    if err ≠ none then return err
    Gen.sourceMapAdd value.Expression r
    let (_, err) ← Gen.Write ")))\n"
    if err ≠ none then return err
    return none
  | .Other typeName =>
    return some (.unknownCSSPropertyType typeName)

/-- The loop over `n.Properties` of `writeCSS`: it ends at the first turn that
returns an error. -/
def generator.writeCSS.loop (env : Env) (indentLevel : Nat) : List CSSProperty → Gen error
  | [] => return none
  | p :: rest => do
    let err ← generator.writeCSS.property env indentLevel p
    if err ≠ none then return err
    generator.writeCSS.loop env indentLevel rest

def generator.writeCSS (env : Env) (n : CSSTemplate) : Gen error := do
  -- func
  let (_, err) ← Gen.Write "func "
  if err ≠ none then return err
  let (r, err) ← Gen.Write n.Name.Value
  if err ≠ none then return err
  Gen.sourceMapAdd n.Name r
  -- () templ.CSSClass {
  let (_, err) ← Gen.Write "() templ.CSSClass \x7b\n"
  if err ≠ none then return err
  -- var templCSSBuilder strings.Builder
  let (_, err) ← Gen.WriteIndent 1 "var templCSSBuilder strings.Builder\n"
  if err ≠ none then return err
  let err ← generator.writeCSS.loop env 1 n.Properties
  if err ≠ none then return err
  let (_, err) ← Gen.WriteIndent 1
    ("templCSSID := templ.CSSID(`" ++ n.Name.Value ++ "`, templCSSBuilder.String())\n")
  if err ≠ none then return err
  -- return templ.CSS {
  let (_, err) ← Gen.WriteIndent 1 "return templ.ComponentCSSClass\x7b\n"
  if err ≠ none then return err
  -- ID: templCSSID,
  let (_, err) ← Gen.WriteIndent 2 "ID: templCSSID,\n"
  if err ≠ none then return err
  -- Class: templ.SafeCSS(".cssID{" + templ.CSSBuilder.String() + "}"),
  let (_, err) ← Gen.WriteIndent 2
    "Class: templ.SafeCSS(`.` + templCSSID + `\x7b` + templCSSBuilder.String() + `\x7d`),\n"
  if err ≠ none then return err
  let (_, err) ← Gen.WriteIndent 1 "\x7d\n"
  if err ≠ none then return err
  -- }
  let (_, err) ← Gen.WriteIndent 0 "\x7d\n\n"
  if err ≠ none then return err
  return none

def generator.writeDocType (indentLevel : Nat) (n : DocType) : Gen error := do
  let (_, err) ← Gen.WriteIndent indentLevel
    ("_, err = w.WriteString(`<!doctype " ++ n.Value ++ ">`)\n")
  if err ≠ none then return err
  let err ← generator.writeErrorHandler indentLevel
  if err ≠ none then return err
  return none

def generator.writeCallTemplateExpression (indentLevel : Nat) (n : CallTemplateExpression) :
    Gen error := do
  let (_, err) ← Gen.WriteIndent indentLevel "err = "
  if err ≠ none then return err
  -- Template expression.
  let (r, err) ← Gen.Write n.Expression.Value
  if err ≠ none then return err
  Gen.sourceMapAdd n.Expression r
  -- .Render(ctx, w.(io.Writer))
  let (_, err) ← Gen.Write ".Render(ctx, w.(io.Writer))\n"
  if err ≠ none then return err
  let err ← generator.writeErrorHandler indentLevel
  if err ≠ none then return err
  return none

/-- One turn of the loop over `n.Attributes` of `writeElementCSS`. It returns
the attribute as the assignment `n.Attributes[i] = attr` leaves it. -/
def generator.writeElementCSS.attribute (indentLevel : Nat) :
    Attribute → Gen (Attribute × error)
  | .ExpressionAttribute attrName expression => do
    let name := html.EscapeString attrName
    if name ≠ "class" then
      return (.ExpressionAttribute attrName expression, none)
    else
      -- Create a class name for the style.
      -- var templCSSClassess templ.CSSClasses =
      let classesName ← generator.createVariableName
      let (_, err) ← Gen.WriteIndent indentLevel ("var " ++ classesName ++ " templ.CSSClasses = ")
      if err ≠ none then return (.ExpressionAttribute attrName expression, err)
      -- p.Name()
      let (r, err) ← Gen.Write expression.Value
      if err ≠ none then return (.ExpressionAttribute attrName expression, err)
      Gen.sourceMapAdd expression r
      let (_, err) ← Gen.Write "\n"
      if err ≠ none then return (.ExpressionAttribute attrName expression, err)
      -- Render the CSS before the element if required.
      -- err = templ.RenderCSS(ctx, w, templCSSClassess)
      let (_, err) ← Gen.WriteIndent indentLevel
        ("err = templ.RenderCSS(ctx, w, " ++ classesName ++ ")\n")
      if err ≠ none then return (.ExpressionAttribute attrName expression, err)
      let err ← generator.writeErrorHandler indentLevel
      if err ≠ none then return (.ExpressionAttribute attrName expression, err)
      -- Rewrite the ExpressionAttribute to point at the new variable.
      return (.ExpressionAttribute attrName
        { Value := classesName ++ ".String()", Range := default }, none)
  | attr => return (attr, none)

/-- The loop over `n.Attributes` of `writeElementCSS`: it ends at the first turn
that returns an error. It returns the attribute list as the assignments
`n.Attributes[i] = attr` leave it. -/
def generator.writeElementCSS.loop (indentLevel : Nat) :
    List Attribute → Gen (List Attribute × error)
  | [] => return ([], none)
  | attr :: rest => do
    let (attr, err) ← generator.writeElementCSS.attribute indentLevel attr
    if err ≠ none then return (attr :: rest, err)
    let (rest, err) ← generator.writeElementCSS.loop indentLevel rest
    return (attr :: rest, err)

def generator.writeElementCSS (indentLevel : Nat) (n : Element) :
    Gen (List Attribute × error) :=
  generator.writeElementCSS.loop indentLevel n.Attributes

/-- The loop over `n.Attributes` of `writeElementScript`. -/
def generator.writeElementScript.loop : List Attribute → List String
  | [] => []
  | .ExpressionAttribute attrName expression :: rest =>
    let name := html.EscapeString attrName
    if strings.HasPrefix name "on" then
      expression.Value :: generator.writeElementScript.loop rest
    else generator.writeElementScript.loop rest
  | _ :: rest => generator.writeElementScript.loop rest

def generator.writeElementScript (indentLevel : Nat) (n : Element) : Gen error := do
  let scriptExpressions := generator.writeElementScript.loop n.Attributes
  -- Render the scripts before the element if required.
  -- err = templ.RenderScripts(ctx, w, a, b, c)
  let (_, err) ← Gen.WriteIndent indentLevel
    ("err = templ.RenderScripts(ctx, w, " ++ strings.Join scriptExpressions ", " ++ ")\n")
  if err ≠ none then return err
  let err ← generator.writeErrorHandler indentLevel
  if err ≠ none then return err
  return err

/-- One turn of the loop over `n.Attributes` of `writeElementAttributes`: the
switch on the type of the attribute. -/
def generator.writeElementAttributes.attribute (indentLevel : Nat) (n : Element) :
    Attribute → Gen error
  | .BoolConstantAttribute attrName => do
    let name := html.EscapeString attrName
    let (_, err) ← Gen.WriteIndent indentLevel ("_, err = w.WriteString(\" " ++ name ++ "\")\n")
    if err ≠ none then return err
    let err ← generator.writeErrorHandler indentLevel
    if err ≠ none then return err
    return none
  | .ConstantAttribute attrName attrValue => do
    let name := html.EscapeString attrName
    let value := html.EscapeString attrValue
    let (_, err) ← Gen.WriteIndent indentLevel
      ("_, err = w.WriteString(\" " ++ name ++ "=\\\"" ++ value ++ "\\\"\")\n")
    if err ≠ none then return err
    let err ← generator.writeErrorHandler indentLevel
    if err ≠ none then return err
    return none
  | .BoolExpressionAttribute attrName expression => do
    let name := html.EscapeString attrName
    -- if
    let (_, err) ← Gen.WriteIndent indentLevel "if "
    if err ≠ none then return err
    -- x == y
    let (r, err) ← Gen.Write expression.Value
    if err ≠ none then return err
    Gen.sourceMapAdd expression r
    -- {
    let (_, err) ← Gen.Write " \x7b\n"
    if err ≠ none then return err
    let (_, err) ← Gen.WriteIndent (indentLevel + 1)
      ("_, err = w.WriteString(\" " ++ name ++ "\")\n")
    if err ≠ none then return err
    let err ← generator.writeErrorHandler (indentLevel + 1)
    if err ≠ none then return err
    -- }
    let (_, err) ← Gen.WriteIndent indentLevel "\x7d\n"
    if err ≠ none then return err
    return none
  | .ExpressionAttribute attrName expression => do
    let name := html.EscapeString attrName
    -- Name
    let (_, err) ← Gen.WriteIndent indentLevel ("_, err = w.WriteString(\" " ++ name ++ "=\")\n")
    if err ≠ none then return err
    let err ← generator.writeErrorHandler indentLevel
    if err ≠ none then return err
    -- Value.
    -- Open quote.
    let (_, err) ← Gen.WriteIndent indentLevel "_, err = w.WriteString(\"\\\"\")\n"
    if err ≠ none then return err
    let err ← generator.writeErrorHandler indentLevel
    if err ≠ none then return err
    if n.Name = "a" ∧ attrName = "href" then
      let vn ← generator.createVariableName
      -- var vn templ.SafeURL =
      let (_, err) ← Gen.WriteIndent indentLevel ("var " ++ vn ++ " templ.SafeURL = ")
      if err ≠ none then return err
      -- p.Name()
      let (r, err) ← Gen.Write expression.Value
      if err ≠ none then return err
      Gen.sourceMapAdd expression r
      let (_, err) ← Gen.Write "\n"
      if err ≠ none then return err
      let (_, err) ← Gen.WriteIndent indentLevel
        ("_, err = w.WriteString(templ.EscapeString(string(" ++ vn ++ ")))\n")
      if err ≠ none then return err
      let err ← generator.writeErrorHandler indentLevel
      if err ≠ none then return err
    else
      if strings.HasPrefix attrName "on" then
        -- It's a JavaScript handler, and requires special handling, because we expect a JavaScript expression.
        let vn ← generator.createVariableName
        -- var vn templ.ComponentScript =
        let (_, err) ← Gen.WriteIndent indentLevel ("var " ++ vn ++ " templ.ComponentScript = ")
        if err ≠ none then return err
        -- p.Name()
        let (r, err) ← Gen.Write expression.Value
        if err ≠ none then return err
        Gen.sourceMapAdd expression r
        let (_, err) ← Gen.Write "\n"
        if err ≠ none then return err
        let (_, err) ← Gen.WriteIndent indentLevel ("_, err = w.WriteString(" ++ vn ++ ".Call)\n")
        if err ≠ none then return err
        let err ← generator.writeErrorHandler indentLevel
        if err ≠ none then return err
      else
        -- w.WriteString(templ.EscapeString(
        let (_, err) ← Gen.WriteIndent indentLevel "_, err = w.WriteString(templ.EscapeString("
        if err ≠ none then return err
        -- p.Name()
        let (r, err) ← Gen.Write expression.Value
        if err ≠ none then return err
        Gen.sourceMapAdd expression r
        -- ))
        let (_, err) ← Gen.Write "))\n"
        if err ≠ none then return err
        let err ← generator.writeErrorHandler indentLevel
        if err ≠ none then return err
    -- Close quote.
    let (_, err) ← Gen.WriteIndent indentLevel "_, err = w.WriteString(\"\\\"\")\n"
    if err ≠ none then return err
    let err ← generator.writeErrorHandler indentLevel
    if err ≠ none then return err
    return none
  | .Other typeName =>
    return some (.unknownAttributeType typeName)

/-- The loop over `n.Attributes` of `writeElementAttributes`: it ends at the
first turn that returns an error. -/
def generator.writeElementAttributes.loop (indentLevel : Nat) (n : Element) :
    List Attribute → Gen error
  | [] => return none
  | attr :: rest => do
    let err ← generator.writeElementAttributes.attribute indentLevel n attr
    if err ≠ none then return err
    generator.writeElementAttributes.loop indentLevel n rest

def generator.writeElementAttributes (indentLevel : Nat) (n : Element) : Gen error :=
  generator.writeElementAttributes.loop indentLevel n n.Attributes

def generator.writeVoidElement (indentLevel : Nat) (n : Element) : Gen error := do
  if n.Children.length > 0 then
    return some (.voidElementChildren n.Name)
  if n.Attributes.length = 0 then
    -- <br>
    let (_, err) ← Gen.WriteIndent indentLevel
      ("_, err = w.WriteString(\"<" ++ html.EscapeString n.Name ++ ">\")\n")
    if err ≠ none then return err
    let err ← generator.writeErrorHandler indentLevel
    if err ≠ none then return err
    return err
  else
    -- <hr
    let (_, err) ← Gen.WriteIndent indentLevel
      ("_, err = w.WriteString(\"<" ++ html.EscapeString n.Name ++ "\")\n")
    if err ≠ none then return err
    let err ← generator.writeErrorHandler indentLevel
    if err ≠ none then return err
    let err ← generator.writeElementAttributes indentLevel n
    if err ≠ none then return err
    -- >
    let (_, err) ← Gen.WriteIndent indentLevel "_, err = w.WriteString(\">\")\n"
    if err ≠ none then return err
    let err ← generator.writeErrorHandler indentLevel
    if err ≠ none then return err
    return err

/-- The second argument of `writeStandardElement` is the element; `writeChildren`
is its call `g.writeNodes(indentLevel, n.Children)`. The element is returned as
it stands after the call. -/
def generator.writeStandardElement (indentLevel : Nat) (n : Element)
    (writeChildren : Gen (List Node × error)) : Gen (Element × error) := do
  let mut n := n
  if n.Attributes.length = 0 then
    -- <div>
    let (_, err) ← Gen.WriteIndent indentLevel
      ("_, err = w.WriteString(\"<" ++ html.EscapeString n.Name ++ ">\")\n")
    if err ≠ none then return (n, err)
    let err ← generator.writeErrorHandler indentLevel
    if err ≠ none then return (n, err)
  else
    -- <style type="text/css"></style>
    let (attributes, err) ← generator.writeElementCSS indentLevel n
    n := { n with Attributes := attributes }
    if err ≠ none then return (n, err)
    -- <script type="text/javascript"></script>
    let err ← generator.writeElementScript indentLevel n
    if err ≠ none then return (n, err)
    -- <div
    let (_, err) ← Gen.WriteIndent indentLevel
      ("_, err = w.WriteString(\"<" ++ html.EscapeString n.Name ++ "\")\n")
    if err ≠ none then return (n, err)
    let err ← generator.writeErrorHandler indentLevel
    if err ≠ none then return (n, err)
    let err ← generator.writeElementAttributes indentLevel n
    if err ≠ none then return (n, err)
    -- >
    let (_, err) ← Gen.WriteIndent indentLevel "_, err = w.WriteString(\">\")\n"
    if err ≠ none then return (n, err)
    let err ← generator.writeErrorHandler indentLevel
    if err ≠ none then return (n, err)
  -- Children.
  let (children, _) ← writeChildren
  n := { n with Children := children }
  -- </div>
  let (_, err) ← Gen.WriteIndent indentLevel
    ("_, err = w.WriteString(\"</" ++ html.EscapeString n.Name ++ ">\")\n")
  if err ≠ none then return (n, err)
  let err ← generator.writeErrorHandler indentLevel
  if err ≠ none then return (n, err)
  return (n, err)

def generator.writeStringExpression (indentLevel : Nat) (e : Expression) : Gen error := do
  -- w.WriteString(templ.EscapeString(
  let (_, err) ← Gen.WriteIndent indentLevel "_, err = w.WriteString(templ.EscapeString("
  if err ≠ none then return err
  -- p.Name()
  let (r, err) ← Gen.Write e.Value
  if err ≠ none then return err
  Gen.sourceMapAdd e r
  -- ))
  let (_, err) ← Gen.Write "))\n"
  if err ≠ none then return err
  let err ← generator.writeErrorHandler indentLevel
  if err ≠ none then return err
  return none

/-- The backtick, delimiter of Go raw string literals. -/
def backtick : Char := Char.ofNat 96

/-- The loop over `sects` of `createGoString`: each section, followed by the
text that closes the raw literal, adds an interpreted backtick and opens the
next raw literal unless the section is the last one. -/
def createGoString.loop : List String → String
  | [] => ""
  | [sect] => sect
  | sect :: rest => sect ++ "` + \"`\" + `" ++ createGoString.loop rest

def createGoString (s : String) : String :=
  "`" ++ createGoString.loop (strings.Split s backtick) ++ "`"

def generator.writeText (indentLevel : Nat) (e : Text) : Gen error := do
  let vn ← generator.createVariableName
  -- vn := sExpr
  let (_, err) ← Gen.WriteIndent indentLevel (vn ++ " := " ++ createGoString e.Value ++ "\n")
  if err ≠ none then return err
  -- _, err = w.WriteString(vn)
  let (_, err) ← Gen.WriteIndent indentLevel ("_, err = w.WriteString(" ++ vn ++ ")\n")
  if err ≠ none then return err
  let err ← generator.writeErrorHandler indentLevel
  if err ≠ none then return err
  return none

mutual

/-- The error of every node writer is dropped here, as in the source: the
calls are statements and the function ends with `return nil`. -/
def generator.writeNode (indentLevel : Nat) : Node → Gen (Node × error)
  | .DocType n => do
    let _ ← generator.writeDocType indentLevel n
    return (.DocType n, none)
  | .Element n => do
    let (n, _) ← generator.writeElement indentLevel n
    return (.Element n, none)
  | .ForExpression n => do
    let (n, _) ← generator.writeForExpression indentLevel n
    return (.ForExpression n, none)
  | .CallTemplateExpression n => do
    let _ ← generator.writeCallTemplateExpression indentLevel n
    return (.CallTemplateExpression n, none)
  | .IfExpression n => do
    let (n, _) ← generator.writeIfExpression indentLevel n
    return (.IfExpression n, none)
  | .SwitchExpression n => do
    let (n, _) ← generator.writeSwitchExpression indentLevel n
    return (.SwitchExpression n, none)
  | .StringExpression n => do
    let _ ← generator.writeStringExpression indentLevel n.Expression
    return (.StringExpression n, none)
  | .Whitespace n =>
    -- Whitespace is not included in template output to minify HTML.
    return (.Whitespace n, none)
  | .Text n => do
    let _ ← generator.writeText indentLevel n
    return (.Text n, none)
  | .Other typeName => do
    let _ ← Gen.Write ("Unhandled type: " ++ typeName ++ "\n")
    return (.Other typeName, none)

def generator.writeNodes (indentLevel : Nat) : List Node → Gen (List Node × error)
  | [] => return ([], none)
  | node :: rest => do
    let (node, err) ← generator.writeNode indentLevel node
    if err ≠ none then return (node :: rest, err)
    let (rest, err) ← generator.writeNodes indentLevel rest
    return (node :: rest, err)

def generator.writeElement (indentLevel : Nat) : Element → Gen (Element × error)
  | n => do
    if n.IsVoidElement then
      let err ← generator.writeVoidElement indentLevel n
      return (n, err)
    generator.writeStandardElement indentLevel n (generator.writeNodes indentLevel n.Children)

def generator.writeForExpression (indentLevel : Nat) :
    ForExpression → Gen (ForExpression × error)
  | n => do
    -- for
    let (_, err) ← Gen.WriteIndent indentLevel "for "
    if err ≠ none then return (n, err)
    -- i, v := range p.Stuff
    let (r, err) ← Gen.Write n.Expression.Value
    if err ≠ none then return (n, err)
    Gen.sourceMapAdd n.Expression r
    -- {
    let (_, err) ← Gen.Write " \x7b\n"
    if err ≠ none then return (n, err)
    -- Children.
    let (children, _) ← generator.writeNodes (indentLevel + 1) n.Children
    let n := { n with Children := children }
    -- }
    let (_, err) ← Gen.WriteIndent indentLevel "\x7d\n"
    if err ≠ none then return (n, err)
    return (n, none)

def generator.writeIfExpression (indentLevel : Nat) :
    IfExpression → Gen (IfExpression × error)
  | n => do
    -- if
    let (_, err) ← Gen.WriteIndent indentLevel "if "
    if err ≠ none then return (n, err)
    -- x == y
    let (r, err) ← Gen.Write n.Expression.Value
    if err ≠ none then return (n, err)
    Gen.sourceMapAdd n.Expression r
    -- Then.
    -- {
    let (_, err) ← Gen.Write " \x7b\n"
    if err ≠ none then return (n, err)
    let (thenNodes, _) ← generator.writeNodes (indentLevel + 1) n.Then
    if n.Else.length > 0 then
      -- } else {
      let (_, err) ← Gen.WriteIndent indentLevel "\x7d else \x7b\n"
      if err ≠ none then return ({ n with Then := thenNodes }, err)
      let (elseNodes, _) ← generator.writeNodes (indentLevel + 1) n.Else
      -- }
      let (_, err) ← Gen.WriteIndent indentLevel "\x7d\n"
      if err ≠ none then return ({ n with Then := thenNodes, Else := elseNodes }, err)
      return ({ n with Then := thenNodes, Else := elseNodes }, none)
    else
      -- }
      let (_, err) ← Gen.WriteIndent indentLevel "\x7d\n"
      if err ≠ none then return ({ n with Then := thenNodes }, err)
      return ({ n with Then := thenNodes }, none)

/-- The loop `for _, c := range n.Cases` of `writeSwitchExpression`. -/
def generator.writeSwitchExpression.cases (indentLevel : Nat) :
    List CaseExpression → Gen (List CaseExpression × error)
  | [] => return ([], none)
  | c :: rest => do
    -- case
    let (_, err) ← Gen.WriteIndent indentLevel "case "
    if err ≠ none then return (c :: rest, err)
    -- val
    let (r, err) ← Gen.Write c.Expression.Value
    if err ≠ none then return (c :: rest, err)
    Gen.sourceMapAdd c.Expression r
    let (_, err) ← Gen.Write ":\n"
    if err ≠ none then return (c :: rest, err)
    let (children, _) ← generator.writeNodes (indentLevel + 1) c.Children
    let (rest, err) ← generator.writeSwitchExpression.cases indentLevel rest
    return ({ c with Children := children } :: rest, err)

def generator.writeSwitchExpression (indentLevel : Nat) :
    SwitchExpression → Gen (SwitchExpression × error)
  | n => do
    -- switch
    let (_, err) ← Gen.WriteIndent indentLevel "switch "
    if err ≠ none then return (n, err)
    -- val
    let (r, err) ← Gen.Write n.Expression.Value
    if err ≠ none then return (n, err)
    Gen.sourceMapAdd n.Expression r
    -- {
    let (_, err) ← Gen.Write " \x7b\n"
    if err ≠ none then return (n, err)
    let (cases, err) ← generator.writeSwitchExpression.cases indentLevel n.Cases
    if err ≠ none then return ({ n with Cases := cases }, err)
    if n.Default.length > 0 then
      let (_, err) ← Gen.WriteIndent indentLevel "default:"
      if err ≠ none then return ({ n with Cases := cases }, err)
      let (defaultNodes, _) ← generator.writeNodes (indentLevel + 1) n.Default
      -- }
      let (_, err) ← Gen.WriteIndent indentLevel "\x7d\n"
      if err ≠ none then return ({ n with Cases := cases, Default := defaultNodes }, err)
      return ({ n with Cases := cases, Default := defaultNodes }, none)
    else
      -- }
      let (_, err) ← Gen.WriteIndent indentLevel "\x7d\n"
      if err ≠ none then return ({ n with Cases := cases }, err)
      return ({ n with Cases := cases }, none)

end

def generator.writeTemplate (t : HTMLTemplate) : Gen (HTMLTemplate × error) := do
  -- func
  let (_, err) ← Gen.Write "func "
  if err ≠ none then return (t, err)
  let (r, err) ← Gen.Write t.Name.Value
  if err ≠ none then return (t, err)
  Gen.sourceMapAdd t.Name r
  -- (
  let (_, err) ← Gen.Write "("
  if err ≠ none then return (t, err)
  -- Write parameters.
  let (r, err) ← Gen.Write t.Parameters.Value
  if err ≠ none then return (t, err)
  Gen.sourceMapAdd t.Parameters r
  -- ) templ.Component {
  let (_, err) ← Gen.Write ") templ.Component \x7b\n"
  if err ≠ none then return (t, err)
  -- return templ.ComponentFunc(func(ctx context.Context, writer io.Writer) error {
  let (_, err) ← Gen.WriteIndent 1
    "return templ.ComponentFunc(func(ctx context.Context, writer io.Writer) (err error) \x7b\n"
  if err ≠ none then return (t, err)
  -- ctx, _ = templ.RenderedCSSClassesFromContext(ctx)
  let (_, err) ← Gen.WriteIndent 2 "ctx, _ = templ.RenderedCSSClassesFromContext(ctx)\n"
  if err ≠ none then return (t, err)
  -- ctx, _ = templ.RenderedScriptsFromContext(ctx)
  let (_, err) ← Gen.WriteIndent 2 "ctx, _ = templ.RenderedScriptsFromContext(ctx)\n"
  if err ≠ none then return (t, err)
  -- Create StringWriter.
  let (_, err) ← Gen.WriteIndent 2 "w, ok := writer.(io.StringWriter)\n"
  if err ≠ none then return (t, err)
  let (_, err) ← Gen.WriteIndent 2 "if !ok \x7b\n"
  if err ≠ none then return (t, err)
  let (_, err) ← Gen.WriteIndent 3 "templw := bufio.NewWriter(writer)\n"
  if err ≠ none then return (t, err)
  let (_, err) ← Gen.WriteIndent 3 "w = templw\n"
  if err ≠ none then return (t, err)
  let (_, err) ← Gen.WriteIndent 3 "defer templw.Flush()\n"
  if err ≠ none then return (t, err)
  let (_, err) ← Gen.WriteIndent 2 "\x7d\n"
  if err ≠ none then return (t, err)
  -- Nodes.
  let (children, err) ← generator.writeNodes 2 t.Children
  let t := { t with Children := children }
  if err ≠ none then return (t, err)
  -- return nil
  let (_, err) ← Gen.WriteIndent 2 "return err\n"
  if err ≠ none then return (t, err)
  -- })
  let (_, err) ← Gen.WriteIndent 1 "\x7d)\n"
  if err ≠ none then return (t, err)
  -- }
  let (_, err) ← Gen.WriteIndent 0 "\x7d\n\n"
  if err ≠ none then return (t, err)
  return (t, none)

/-- Go `hex.EncodeToString(h.Sum(nil))[0:4]` after `h.Write([]byte(body))`. -/
def hashPrefix (env : Env) (body : String) : String :=
  String.mk ((env.sha256Hex body).data.take 4)

def functionName (env : Env) (name : String) (body : String) : String :=
  "__templ_" ++ name ++ "_" ++ hashPrefix env body

def stripTypes (parameters : String) : String :=
  let params := strings.Split parameters ','
  let variableNames := params.map fun param =>
    let p := strings.Split (strings.TrimSpace param) ' '
    strings.TrimSpace (p.headD "")
  strings.Join variableNames ", "

def generator.writeScript (env : Env) (t : ScriptTemplate) : Gen error := do
  -- func
  let (_, err) ← Gen.Write "func "
  if err ≠ none then return err
  let (r, err) ← Gen.Write t.Name.Value
  if err ≠ none then return err
  Gen.sourceMapAdd t.Name r
  -- (
  let (_, err) ← Gen.Write "("
  if err ≠ none then return err
  -- Write parameters.
  let (r, err) ← Gen.Write t.Parameters.Value
  if err ≠ none then return err
  Gen.sourceMapAdd t.Parameters r
  -- ) templ.ComponentScript {
  let (_, err) ← Gen.Write ") templ.ComponentScript \x7b\n"
  if err ≠ none then return err
  -- return templ.ComponentScript{
  let (_, err) ← Gen.WriteIndent 1 "return templ.ComponentScript\x7b\n"
  if err ≠ none then return err
  let fn := functionName env t.Name.Value t.Value
  let goFn := createGoString fn
  -- Name: "scriptName",
  let (_, err) ← Gen.WriteIndent 2 ("Name: " ++ goFn ++ ",\n")
  if err ≠ none then return err
  -- Function: `function scriptName(a, b, c){` + `constantScriptValue` + `}`,
  let pfx := "function " ++ fn ++ "(" ++ stripTypes t.Parameters.Value ++ ")\x7b"
  let suffix := "\x7d"
  let (_, err) ← Gen.WriteIndent 2
    ("Function: " ++ createGoString (pfx ++ strings.TrimSpace t.Value ++ suffix) ++ ",\n")
  if err ≠ none then return err
  -- Call: templ.SafeScript(scriptName, a, b, c)
  let (_, err) ← Gen.WriteIndent 2
    ("Call: templ.SafeScript(" ++ goFn ++ ", " ++ stripTypes t.Parameters.Value ++ "),\n")
  if err ≠ none then return err
  -- }
  let (_, err) ← Gen.WriteIndent 1 "\x7d\n"
  if err ≠ none then return err
  -- }
  let (_, err) ← Gen.WriteIndent 0 "\x7d\n\n"
  if err ≠ none then return err
  return none

/-- The loop over `g.tf.Nodes` of `writeTemplateNodes`. It returns the
declarations as they stand after the loop. -/
def generator.writeTemplateNodes.loop (env : Env) :
    List TemplateFileNode → Gen (List TemplateFileNode × error)
  | [] => return ([], none)
  | .HTMLTemplate n :: rest => do
    let (n, err) ← generator.writeTemplate n
    if err ≠ none then return (.HTMLTemplate n :: rest, err)
    let (rest, err) ← generator.writeTemplateNodes.loop env rest
    return (.HTMLTemplate n :: rest, err)
  | .CSSTemplate n :: rest => do
    let err ← generator.writeCSS env n
    if err ≠ none then return (.CSSTemplate n :: rest, err)
    let (rest, err) ← generator.writeTemplateNodes.loop env rest
    return (.CSSTemplate n :: rest, err)
  | .ScriptTemplate n :: rest => do
    let err ← generator.writeScript env n
    if err ≠ none then return (.ScriptTemplate n :: rest, err)
    let (rest, err) ← generator.writeTemplateNodes.loop env rest
    return (.ScriptTemplate n :: rest, err)
  | .Other typeName :: rest =>
    return (.Other typeName :: rest, some (.unknownNodeType typeName))

def generator.writeTemplateNodes (env : Env) : Gen error := do
  let tf ← Gen.tf
  let (nodes, err) ← generator.writeTemplateNodes.loop env tf.Nodes
  Gen.storeNodes nodes
  return err

def generator.generate (env : Env) : Gen error := do
  let err ← generator.writeCodeGeneratedComment env
  if err ≠ none then return err
  let err ← generator.writePackage
  if err ≠ none then return err
  let err ← generator.writeImports
  if err ≠ none then return err
  let err ← generator.writeTemplateNodes env
  if err ≠ none then return err
  return err

/-- What a call of `Generate` leaves behind: the returned source map and error,
the sink, and the caller's template file. -/
structure GenerateResult where
  sm : SourceMap
  err : error
  w : Sink
  template : TemplateFile

def Generate (env : Env) (template : TemplateFile) (w : Sink) : GenerateResult :=
  let g : generator :=
    { tf := template, w := NewRangeWriter w, sourceMap := NewSourceMap, variableID := 0 }
  match generator.generate env g with
  | (err, g) => { sm := g.sourceMap, err := err, w := g.w.w, template := g.tf }

/-! ## Definitions used to state the properties -/

/-- Number of runes after the last newline of a text without further newline
to the right: the runes of the longest newline-free suffix. -/
def runesAfterLastNewline (cs : List Char) : Nat :=
  (cs.reverse.takeWhile (fun c => c != '\n')).length

/-- The column after writing the runes `cs` from column `col`. -/
def colAfter (col : Int) (cs : List Char) : Int :=
  if '\n' ∈ cs then 1 + (runesAfterLastNewline cs : Int) else col + (cs.length : Int)

/-! ## Definitions used to reason about the generator -/

/-- Hoare triple for a method of the generator: from a generator that satisfies
`P`, the results and the generator after the call satisfy `Q`. -/
structure Triple {α : Type} (P : generator → Prop) (m : Gen α)
    (Q : α → generator → Prop) : Prop where
  run : ∀ g, P g → Q (m g).1 (m g).2

/-- The generators that a pass started at `g0` goes through: it writes to the
sink, takes a new variable name, or adds to the source map the expression it
has just written, with the range that write returned. `A` holds of every
expression added. -/
inductive Reach (A : Expression → Prop) (g0 : generator) : generator → Prop where
  | refl : Reach A g0 g0
  | write (s : String) {g : generator} : Reach A g0 g → Reach A g0 (Gen.Write s g).2
  | add (e : Expression) (r : Range) {g : generator} : Reach A g0 g →
      (Gen.Write e.Value g).1 = (r, none) → A e →
      Reach A g0 (Gen.sourceMapAdd e r (Gen.Write e.Value g).2).2
  | var {g : generator} : Reach A g0 g → Reach A g0 (generator.createVariableName g).2

/-- The generator `g` is the one left by a write of `v` that returned `r`. -/
def Just (A : Expression → Prop) (g0 : generator) (r : Range) (v : String)
    (g : generator) : Prop :=
  ∃ g1, Reach A g0 g1 ∧ Gen.Write v g1 = ((r, none), g)

/-- Within reach of `g0`, and `F` holds. -/
def Inv (A : Expression → Prop) (g0 : generator) (F : generator → Prop)
    (g : generator) : Prop :=
  Reach A g0 g ∧ F g

/-- Within reach of `g0`, and the fact `φ` about the results so far holds. -/
def InvP (A : Expression → Prop) (g0 : generator) (φ : Prop) (g : generator) : Prop :=
  Reach A g0 g ∧ φ

/-- A method keeps the generator within reach. -/
def Keeps (A : Expression → Prop) {α : Type} (m : Gen α) : Prop :=
  ∀ g0 F, Triple (Inv A g0 F) m (fun _ => Inv A g0 (fun _ => True))

/-- The expressions of an attribute. -/
def Attribute.exprs : Attribute → List Expression
  | .BoolExpressionAttribute _ e => [e]
  | .ExpressionAttribute _ e => [e]
  | _ => []

mutual

/-- The expressions that occur in a node of a template body. -/
def Node.exprs : Node → List Expression
  | .DocType _ => []
  | .Element n => n.Attributes.flatMap Attribute.exprs ++ Node.exprsList n.Children
  | .ForExpression n => n.Expression :: Node.exprsList n.Children
  | .CallTemplateExpression n => [n.Expression]
  | .IfExpression n => n.Expression :: (Node.exprsList n.Then ++ Node.exprsList n.Else)
  | .SwitchExpression n =>
    n.Expression :: (Node.exprsCases n.Cases ++ Node.exprsList n.Default)
  | .StringExpression n => [n.Expression]
  | .Whitespace _ => []
  | .Text _ => []
  | .Other _ => []

/-- The expressions that occur in a list of nodes. -/
def Node.exprsList : List Node → List Expression
  | [] => []
  | n :: rest => Node.exprs n ++ Node.exprsList rest

/-- The expressions that occur in the cases of a switch. -/
def Node.exprsCases : List CaseExpression → List Expression
  | [] => []
  | c :: rest => c.Expression :: (Node.exprsList c.Children ++ Node.exprsCases rest)

end

/-- The expressions of a property of a CSS template. -/
def CSSProperty.exprs : CSSProperty → List Expression
  | .ExpressionCSSProperty _ v => [v.Expression]
  | _ => []

/-- The expressions that occur in a top-level declaration. -/
def TemplateFileNode.exprs : TemplateFileNode → List Expression
  | .HTMLTemplate n => n.Name :: n.Parameters :: Node.exprsList n.Children
  | .CSSTemplate n => n.Name :: n.Properties.flatMap CSSProperty.exprs
  | .ScriptTemplate n => [n.Name, n.Parameters]
  | .Other _ => []

/-- The expressions that occur in a template file. -/
def TemplateFile.exprs (tf : TemplateFile) : List Expression :=
  tf.Package.Expression :: (tf.Imports.map (fun im => im.Expression)
    ++ tf.Nodes.flatMap TemplateFileNode.exprs)

/-- The expression that `writeElementCSS` puts in the place of the expression of
a `class` attribute: `var_N.String()` without source range. -/
def synthesized (e : Expression) : Prop :=
  ∃ k : Int, e = { Value := "var_" ++ toString k ++ ".String()", Range := default }

/-- What `writeElementCSS` does to an attribute: it leaves it as it is, or it
puts a synthesized expression in the place of the expression of an expression
attribute named `class`. -/
def Attribute.rewritten (a b : Attribute) : Prop :=
  b = a ∨ ∃ name e e', a = .ExpressionAttribute name e ∧ html.EscapeString name = "class" ∧
    synthesized e' ∧ b = .ExpressionAttribute name e'

/-- The results of a method satisfy `V`, whatever the generator it is called on. -/
structure Val {α : Type} (m : Gen α) (V : α → Prop) : Prop where
  run : ∀ g, V (m g).1

/-- The sink, the cursor and the source map of `g` are those of a generator
within reach of `g0`. -/
def Near (A : Expression → Prop) (g0 : generator) (g : generator) : Prop :=
  ∃ g1, Reach A g0 g1 ∧ g.w = g1.w ∧ g.sourceMap = g1.sourceMap

/-- The bytes of a Go string: its UTF-8 encoding. -/
def goBytes (s : String) : List UInt8 := s.toUTF8.data.toList

/-- The Go slice expression `b[i:j]` on a list of bytes. -/
def sliceBytes (b : List UInt8) (i j : Int) : List UInt8 :=
  (b.drop i.toNat).take (j.toNat - i.toNat)

/-- What the source map of `g` says about the text `o` written since `g0`: an
entry is one of `g0`, or its range covers, in bytes counted from the index of
`g0`, an occurrence of the text of its expression in `o`. -/
def Covered (g0 g : generator) (o : List Char) : Prop :=
  ∀ item ∈ g.sourceMap.Items, item ∈ g0.sourceMap.Items ∨
    ∃ a b, o = a ++ item.Source.Value.data ++ b ∧
      item.Target.From.Index = g0.w.Current.Index + (String.utf8Len a : Int) ∧
      item.Target.To.Index =
        g0.w.Current.Index + (String.utf8Len a : Int) + (String.utf8Len item.Source.Value.data : Int)

/-- The state of the sink, the cursor and the source map of `g` in a pass that
started at `g0` on a sink that accepts all writes. -/
def Tracks (g0 g : generator) : Prop :=
  g.w.w.fail = g0.w.w.fail ∧
  ∃ o : List Char, g.w.w.out = g0.w.w.out ++ String.mk o ∧
    g.w.Current.Index = g0.w.Current.Index + (String.utf8Len o : Int) ∧
    Covered g0 g o

/-! ## Inputs of the examples -/

/-- An environment: a released version, and stand-ins for the hash and the CSS
sanitizer, which no example depends on. -/
def exampleEnv : Env :=
  { version := "v0.2.0", buildInfo := none, sha256Hex := fun _ => "0000",
    safehtmlSanitizeCSS := fun p v => (p, v) }

/-- An empty sink that accepts all writes. -/
def acceptingSink : Sink := { out := "", calls := 0, fail := fun _ => none }

/-- An empty sink whose write number `k` fails and that accepts all others. -/
def failingSink (k : Nat) : Sink :=
  { out := "", calls := 0, fail := fun i => if i = k then some "short write" else none }

/-- The body `<div class={ x }></div>`; the expression `x` is at bytes 30 to 31
of the template source. -/
def classElement : Element :=
  { Name := "div", Void := false,
    Attributes := [.ExpressionAttribute "class" ⟨"x", ⟨⟨30, 3, 12⟩, ⟨31, 3, 13⟩⟩⟩],
    Children := [] }

/-- A template file with one HTML template of the given body. -/
def templateOf (body : List Node) : TemplateFile :=
  { Package := ⟨⟨"main", ⟨⟨8, 1, 8⟩, ⟨12, 1, 12⟩⟩⟩⟩, Imports := [],
    Nodes := [.HTMLTemplate ⟨⟨"render", ⟨⟨20, 3, 6⟩, ⟨26, 3, 12⟩⟩⟩,
      ⟨"", ⟨⟨27, 3, 13⟩, ⟨27, 3, 13⟩⟩⟩, body⟩] }

/-! ## The AST up to the expressions of `class` attributes -/

/-- The attribute with its expression blanked when it is an expression
attribute named `class`. -/
def Attribute.eraseClass : Attribute → Attribute
  | .ExpressionAttribute name e =>
    if html.EscapeString name = "class" then .ExpressionAttribute name ⟨"", default⟩
    else .ExpressionAttribute name e
  | a => a

mutual

/-- The node with the expression of every expression attribute named `class`
blanked. -/
def Node.eraseClass : Node → Node
  | .DocType n => .DocType n
  | .Element n =>
    .Element { n with Attributes := n.Attributes.map Attribute.eraseClass,
                      Children := Node.eraseClassList n.Children }
  | .ForExpression n => .ForExpression { n with Children := Node.eraseClassList n.Children }
  | .CallTemplateExpression n => .CallTemplateExpression n
  | .IfExpression n =>
    .IfExpression { n with Then := Node.eraseClassList n.Then,
                           Else := Node.eraseClassList n.Else }
  | .SwitchExpression n =>
    .SwitchExpression { n with Cases := Node.eraseClassCases n.Cases,
                               Default := Node.eraseClassList n.Default }
  | .StringExpression n => .StringExpression n
  | .Whitespace n => .Whitespace n
  | .Text n => .Text n
  | .Other typeName => .Other typeName

/-- `Node.eraseClass` on the nodes of a list. -/
def Node.eraseClassList : List Node → List Node
  | [] => []
  | n :: rest => Node.eraseClass n :: Node.eraseClassList rest

/-- `Node.eraseClass` on the nodes of the cases of a switch. -/
def Node.eraseClassCases : List CaseExpression → List CaseExpression
  | [] => []
  | c :: rest =>
    { c with Children := Node.eraseClassList c.Children } :: Node.eraseClassCases rest

end

/-- `Node.eraseClass` on the body of a top-level declaration. -/
def TemplateFileNode.eraseClass : TemplateFileNode → TemplateFileNode
  | .HTMLTemplate n => .HTMLTemplate { n with Children := Node.eraseClassList n.Children }
  | n => n

/-- The template file with the expression of every expression attribute named
`class` blanked. -/
def TemplateFile.eraseClass (tf : TemplateFile) : TemplateFile :=
  { tf with Nodes := tf.Nodes.map TemplateFileNode.eraseClass }

/-- The attribute list of the first node of the body of the first declaration
of a template file, when that node is an element. -/
def firstElementAttributes (tf : TemplateFile) : List Attribute :=
  match tf.Nodes with
  | .HTMLTemplate t :: _ =>
    match t.Children with
    | .Element n :: _ => n.Attributes
    | _ => []
  | _ => []

/-! ## Two passes that differ in their sinks only -/

/-- The cursor after the runes `cs` have been written from the cursor `cur`. -/
def Position.advance (cur : Position) (cs : List Char) : Position :=
  { Index := cur.Index + (String.utf8Len cs : Int),
    Line := cur.Line + (cs.count '\n' : Int),
    Col := colAfter cur.Col cs }

/-- Two generators that differ in their sinks only: both sinks accept all
writes, and they hold the same text after the texts `u` and `v` they held at
the start. -/
def Sim (u v : String) (g1 g2 : generator) : Prop :=
  g1.tf = g2.tf ∧ g1.sourceMap = g2.sourceMap ∧ g1.variableID = g2.variableID ∧
  g1.w.Current = g2.w.Current ∧ g1.w.w.accepts ∧ g2.w.w.accepts ∧
  ∃ o : String, g1.w.w.out = u ++ o ∧ g2.w.w.out = v ++ o

/-- A method returns the same results on two generators that differ in their
sinks only, and leaves two such generators. -/
structure Same (u v : String) {α : Type} (m : Gen α) : Prop where
  run : ∀ g1 g2, Sim u v g1 g2 → (m g1).1 = (m g2).1 ∧ Sim u v (m g1).2 (m g2).2

/-! ## Inputs and predicates for the error paths -/

/-- The void element `<br>` with the text `hi` as a child. -/
def voidElementWithChild : Element :=
  { Name := "br", Void := true, Attributes := [], Children := [.Text ⟨"hi"⟩] }

/-- A top-level declaration that `writeTemplateNodes` or `writeCSS` answers
with an error: a declaration that is no HTML, CSS or script template, or a CSS
template with a property of unknown kind. -/
def TemplateFileNode.unhandled : TemplateFileNode → Prop
  | .CSSTemplate n => ∃ typeName, CSSProperty.Other typeName ∈ n.Properties
  | .Other _ => True
  | _ => False

/-! ## runtime: the URL sanitizer -/

/-- The loop of Go `strings.IndexRune` over the runes of a text that starts at
byte `i`. -/
def strings.indexRuneFrom (r : Char) : Int → List Char → Int
  | _, [] => -1
  | i, c :: cs => if c = r then i else strings.indexRuneFrom r (i + (c.utf8Size : Int)) cs

/-- Go `strings.IndexRune`: the byte index of the first occurrence of the rune,
or -1 when there is none. -/
def strings.IndexRune (s : String) (r : Char) : Int := strings.indexRuneFrom r 0 s.data

/-- Go `strings.ContainsRune`. -/
def strings.ContainsRune (s : String) (r : Char) : Bool := strings.IndexRune s r ≥ 0

/-- The runes of a text that start before byte `i`. -/
def sliceTo.runes : Int → List Char → List Char
  | _, [] => []
  | i, c :: cs => if i ≤ 0 then [] else c :: sliceTo.runes (i - (c.utf8Size : Int)) cs

/-- Go slice expression `s[:i]` for a byte index `i` at which a rune starts, or
the length of `s`. -/
def sliceTo (s : String) (i : Int) : String := String.mk (sliceTo.runes i s.data)

/-- The rune that stands for the orbit of `c` under Go `unicode.SimpleFold`,
for the orbits that hold an ASCII rune: an upper-case ASCII letter, the long s
(U+017F) and the Kelvin sign (U+212A) fold to their lower-case ASCII letter.
Every other rune stands for itself. -/
def unicode.foldASCII (c : Char) : Char :=
  if 'A' ≤ c ∧ c ≤ 'Z' then Char.ofNat (c.toNat + 32)
  else if c.val = 0x017F then 's'
  else if c.val = 0x212A then 'k'
  else c

/-- Go `strings.EqualFold`, equality under simple Unicode case folding, for
two texts one of which is ASCII, as in the calls of `URL`. -/
def strings.EqualFold (s t : String) : Bool :=
  s.data.map unicode.foldASCII == t.data.map unicode.foldASCII

/-- SafeURL of the runtime: a URL that has been sanitized. -/
abbrev SafeURL := String

/-- FailedSanitizationURL is returned if a URL fails sanitization checks. -/
def FailedSanitizationURL : SafeURL := "about:invalid#TemplFailedSanitizationURL"

/-- URL sanitizes the input string s and returns a SafeURL. -/
def URL (s : String) : SafeURL :=
  let i := strings.IndexRune s ':'
  if i ≥ 0 ∧ ¬ strings.ContainsRune (sliceTo s i) '/' then
    let protocol := sliceTo s i
    if ¬ strings.EqualFold protocol "http" ∧ ¬ strings.EqualFold protocol "https" ∧
        ¬ strings.EqualFold protocol "mailto" then
      FailedSanitizationURL
    else s
  else s

/-- The text before the first `:` of `s`; all of `s` when it has none. -/
def beforeFirstColon (s : String) : String := String.mk (s.data.takeWhile (fun c => c ≠ ':'))

/-- The condition under which the sanitizer rejects `s`: it has a `:`, and the
text before the first one has no `/` and is none of `http`, `https` and
`mailto` up to letter case. -/
def rejectedScheme (s : String) : Prop :=
  ':' ∈ s.data ∧ '/' ∉ (beforeFirstColon s).data ∧
    ¬ strings.EqualFold (beforeFirstColon s) "http" ∧
    ¬ strings.EqualFold (beforeFirstColon s) "https" ∧
    ¬ strings.EqualFold (beforeFirstColon s) "mailto"

instance (s : String) : Decidable (rejectedScheme s) := by
  unfold rejectedScheme; infer_instance

/-! ## Go string literals, as `createGoString` writes them -/

/-- A string literal of the expression that `createGoString` writes: a raw
string literal with the given text between its backticks, or the interpreted
literal that holds one backtick. -/
inductive GoLiteral where
  | raw (body : String)
  | quotedBacktick
  deriving DecidableEq, Repr

/-- The source text of a literal. -/
def GoLiteral.text : GoLiteral → String
  | .raw body => "`" ++ body ++ "`"
  | .quotedBacktick => "\"`\""

/-- The value of a literal in Go: the value of a raw string literal is the text
between the backticks without its carriage returns. -/
def GoLiteral.value : GoLiteral → String
  | .raw body => String.mk (body.data.filter (fun c => c ≠ '\r'))
  | .quotedBacktick => "`"

/-- A raw string literal cannot hold a backtick. -/
def GoLiteral.wellFormed : GoLiteral → Prop
  | .raw body => backtick ∉ body.data
  | .quotedBacktick => True

/-- The source text of the concatenation `l₁ + l₂ + …` of literals. -/
def GoLiteral.concatText (ls : List GoLiteral) : String :=
  strings.Join (ls.map GoLiteral.text) " + "

/-- The value of the concatenation of literals in Go. -/
def GoLiteral.concatValue (ls : List GoLiteral) : String :=
  String.join (ls.map GoLiteral.value)

/-- The literals for the pieces of a text between its backticks: a raw literal
for each piece, and the interpreted backtick between two of them. -/
def GoLiteral.ofPieces : List String → List GoLiteral
  | [] => []
  | [piece] => [.raw piece]
  | piece :: rest => .raw piece :: .quotedBacktick :: GoLiteral.ofPieces rest

/-! ## Predicates on nodes -/

/-- Whether a node is a whitespace node. -/
def Node.isWhitespace : Node → Bool
  | .Whitespace _ => true
  | _ => false

/-! ## The names of the variables -/

/-- The variable names synthesized on the way from the generator `g0` to the
generator `g`, in the order of the calls of `createVariableName`: the way is
made of writes to the sink, additions to the source map and calls of
`createVariableName`. -/
inductive Synth (g0 : generator) : generator → List String → Prop where
  | refl : Synth g0 g0 []
  | write (s : String) {g : generator} {names : List String} :
      Synth g0 g names → Synth g0 (Gen.Write s g).2 names
  | add (e : Expression) (r : Range) {g : generator} {names : List String} :
      Synth g0 g names → Synth g0 (Gen.sourceMapAdd e r g).2 names
  | var {g : generator} {names : List String} :
      Synth g0 g names →
      Synth g0 (generator.createVariableName g).2 (names ++ [(generator.createVariableName g).1])

/-- The decimal digits of a text read as a number. -/
def decimalValue (cs : List Char) : Nat :=
  cs.foldl (fun a c => 10 * a + (c.toNat - 48)) 0

/-! ## runtime: escaping -/

/-- EscapeString escapes HTML text within templates. -/
def EscapeString (s : String) : String := html.EscapeString s

/-! ## Go interpreted string literals -/

/-- The value of a hexadecimal digit. -/
def hexDigit (c : Char) : Option Nat :=
  if '0' ≤ c ∧ c ≤ '9' then some (c.toNat - 48)
  else if 'a' ≤ c ∧ c ≤ 'f' then some (c.toNat - 87)
  else if 'A' ≤ c ∧ c ≤ 'F' then some (c.toNat - 55)
  else none

/-- The number that a list of hexadecimal digits writes. -/
def hexNumber : List Char → Option Nat
  | [] => some 0
  | c :: cs =>
    match hexDigit c, hexNumber cs with
    | some d, some n => some (d * 16 ^ cs.length + n)
    | _, _ => none

/-- The number that a list of octal digits writes. -/
def octalNumber : List Char → Option Nat
  | [] => some 0
  | c :: cs =>
    match (if '0' ≤ c ∧ c ≤ '7' then some (c.toNat - 48) else none), octalNumber cs with
    | some d, some n => some (d * 8 ^ cs.length + n)
    | _, _ => none

/-- The rune with the given code point, when the code point is a Unicode scalar
value. -/
def runeOf (n : Nat) : Option Char :=
  if h : n.isValidChar then some (Char.ofNatAux n h) else none

/-- The value in Go of the text between the quotes of an interpreted string
literal: a backslash starts an escape sequence, and neither a newline nor a
double quote stands for itself. The result is `none` for a text that is no
body of an interpreted string literal, and for the escapes `\x` and octal of
a byte above 127, whose value is no well-formed UTF-8 text by itself. -/
def goInterpreted : List Char → Option (List Char)
  | [] => some []
  | '\\' :: 'a' :: rest => (goInterpreted rest).map (Char.ofNat 7 :: ·)
  | '\\' :: 'b' :: rest => (goInterpreted rest).map (Char.ofNat 8 :: ·)
  | '\\' :: 'f' :: rest => (goInterpreted rest).map (Char.ofNat 12 :: ·)
  | '\\' :: 'n' :: rest => (goInterpreted rest).map ('\n' :: ·)
  | '\\' :: 'r' :: rest => (goInterpreted rest).map ('\r' :: ·)
  | '\\' :: 't' :: rest => (goInterpreted rest).map ('\t' :: ·)
  | '\\' :: 'v' :: rest => (goInterpreted rest).map (Char.ofNat 11 :: ·)
  | '\\' :: '\\' :: rest => (goInterpreted rest).map ('\\' :: ·)
  | '\\' :: '"' :: rest => (goInterpreted rest).map ('"' :: ·)
  | '\\' :: 'x' :: a :: b :: rest =>
    match hexNumber [a, b], goInterpreted rest with
    | some n, some v => if n < 128 then some (Char.ofNat n :: v) else none
    | _, _ => none
  | '\\' :: 'u' :: a :: b :: c :: d :: rest =>
    match (hexNumber [a, b, c, d]).bind runeOf, goInterpreted rest with
    | some r, some v => some (r :: v)
    | _, _ => none
  | '\\' :: 'U' :: a :: b :: c :: d :: e :: f :: g :: h :: rest =>
    match (hexNumber [a, b, c, d, e, f, g, h]).bind runeOf, goInterpreted rest with
    | some r, some v => some (r :: v)
    | _, _ => none
  | '\\' :: a :: b :: c :: rest =>
    match octalNumber [a, b, c], goInterpreted rest with
    | some n, some v => if n < 128 then some (Char.ofNat n :: v) else none
    | _, _ => none
  | '\\' :: _ => none
  | '"' :: _ => none
  | '\n' :: _ => none
  | c :: rest => (goInterpreted rest).map (c :: ·)

/-- The value in Go of an interpreted string literal, quotes included. -/
def goStringLiteral (s : String) : Option String :=
  match s.data with
  | '"' :: rest =>
    match rest.reverse with
    | '"' :: body => (goInterpreted body.reverse).map String.mk
    | _ => none
  | _ => none

/-! ## Inputs of the examples for attributes -/

/-- A generator at the start of a pass over an empty template, on the empty
sink that accepts all writes. -/
def exampleGenerator : generator :=
  ⟨templateOf [], NewRangeWriter acceptingSink, NewSourceMap, 0⟩

/-- The element `<div>` without attributes and children. -/
def divElement : Element := { Name := "div", Void := false, Attributes := [], Children := [] }

/-- The void element `<input onclick={ handler }>`. -/
def inputElement : Element :=
  { Name := "input", Void := true,
    Attributes := [.ExpressionAttribute "onclick" ⟨"handler", default⟩], Children := [] }

/-- The element `<a href={ link }></a>`. -/
def anchorElement : Element :=
  { Name := "a", Void := false,
    Attributes := [.ExpressionAttribute "href" ⟨"link", default⟩], Children := [] }

/-! ## The text a method writes on a sink that accepts all writes -/

/-- The tabs that `WriteIndent` writes before a text. -/
def indent (level : Nat) : String := String.mk (List.replicate level '\t')

/-- The name that `createVariableName` returns for the counter value `k`. -/
def varName (k : Int) : String := "var_" ++ toString k

/-- The expressions recorded in a source map, in the order they were added. -/
def SourceMap.sources (sm : SourceMap) : List Expression := sm.Items.map (fun item => item.Source)

/-- What a method does on a generator over the template file `tf` whose sink
accepts all writes and whose counter of variable names is `i`: its results
satisfy `V`, it appends the text `t` to the sink and the expressions `e` to the
source map, it leaves the counter at `j`, the template file as it was, and a
sink that accepts all writes. -/
structure Emits {α : Type} (tf : TemplateFile) (m : Gen α) (V : α → Prop) (i : Int) (t : String)
    (e : List Expression) (j : Int) : Prop where
  run : ∀ g : generator, g.tf = tf → g.w.w.accepts → g.variableID = i →
    V (m g).1 ∧ (m g).2.tf = tf ∧ (m g).2.w.w.accepts ∧ (m g).2.variableID = j ∧
    (m g).2.w.w.out = g.w.w.out ++ t ∧
    (m g).2.sourceMap.sources = g.sourceMap.sources ++ e

/-- The three lines of the error check that follows a statement at the given
indent level. -/
def errorCheck (level : Nat) : String :=
  indent level ++ "if err != nil \x7b\n" ++ indent (level + 1) ++ "return err\n"
    ++ indent level ++ "\x7d\n"

/-! ## The pieces of the text of a template body

The text that the generator writes for the body of a template, described
piece by piece: a statement that assigns the render error, the error check,
or any other text. -/

/-- A piece of the text written for the body of a template, with the
expressions that are recorded in the source map while it is written.
`assign` is a statement that assigns the render error `err`, `check` is the
error check, and `plain` is any other text. The code of `assign` and `plain`
follows the tabs of the indent level. -/
inductive Piece where
  | assign (level : Nat) (code : String) (sources : List Expression)
  | check (level : Nat)
  | plain (level : Nat) (code : String) (sources : List Expression)

/-- The text of a piece. -/
def Piece.text : Piece → String
  | .assign level code _ => indent level ++ code
  | .check level => errorCheck level
  | .plain level code _ => indent level ++ code

/-- The expressions recorded in the source map while a piece is written. -/
def Piece.sources : Piece → List Expression
  | .assign _ _ sources => sources
  | .check _ => []
  | .plain _ _ sources => sources

/-- The text of a list of pieces. -/
def render : List Piece → String
  | [] => ""
  | p :: ps => p.text ++ render ps

/-- The expressions recorded in the source map while a list of pieces is
written. -/
def sourcesOf : List Piece → List Expression
  | [] => []
  | p :: ps => p.sources ++ sourcesOf ps

/-! ### Attributes -/

/-- Whether `writeElementCSS` lifts the attribute: an expression attribute
whose escaped name is `class`. -/
def Attribute.isClass : Attribute → Bool
  | .ExpressionAttribute name _ => html.EscapeString name = "class"
  | _ => false

/-- The number of variable names that `writeElementCSS` takes for a list of
attributes. -/
def classCount : List Attribute → Int
  | [] => 0
  | a :: rest => (if a.isClass then 1 else 0) + classCount rest

/-- The pieces that `writeElementCSS` writes for an attribute when the counter
of variable names is `i`: for a class attribute the declaration of a variable
of type `templ.CSSClasses` holding the expression, and the call of
`templ.RenderCSS` on it. -/
def Attribute.liftPieces (level : Nat) (i : Int) : Attribute → List Piece
  | .ExpressionAttribute name e =>
    if html.EscapeString name = "class" then
      [.plain level ("var " ++ varName (i + 1) ++ " templ.CSSClasses = " ++ e.Value ++ "\n") [e],
       .assign level ("err = templ.RenderCSS(ctx, w, " ++ varName (i + 1) ++ ")\n") [],
       .check level]
    else []
  | _ => []

/-- The attribute as `writeElementCSS` leaves it when the counter of variable
names is `i`: the expression of a class attribute is the string form of the
variable. -/
def Attribute.lift (i : Int) : Attribute → Attribute
  | .ExpressionAttribute name e =>
    if html.EscapeString name = "class" then
      .ExpressionAttribute name { Value := varName (i + 1) ++ ".String()", Range := default }
    else .ExpressionAttribute name e
  | a => a

/-- The pieces that `writeElementCSS` writes for a list of attributes. -/
def liftPieces (level : Nat) : Int → List Attribute → List Piece
  | _, [] => []
  | i, a :: rest =>
    a.liftPieces level i ++ liftPieces level (i + (if a.isClass then 1 else 0)) rest

/-- The attributes as `writeElementCSS` leaves them. -/
def liftAttributes : Int → List Attribute → List Attribute
  | _, [] => []
  | i, a :: rest => a.lift i :: liftAttributes (i + (if a.isClass then 1 else 0)) rest

/-- The expressions of the event handlers of a list of attributes: the
expression attributes whose escaped name begins with `on`. -/
def handlerExpressions (attributes : List Attribute) : List String :=
  attributes.filterMap (fun a =>
    match a with
    | .ExpressionAttribute name e =>
      if strings.HasPrefix (html.EscapeString name) "on" then some e.Value else none
    | _ => none)

/-- The pieces that `writeElementScript` writes: one call of
`templ.RenderScripts` on the expressions of the event handlers. -/
def scriptPieces (level : Nat) (attributes : List Attribute) : List Piece :=
  [.assign level
    ("err = templ.RenderScripts(ctx, w, " ++ strings.Join (handlerExpressions attributes) ", "
      ++ ")\n") [],
   .check level]

/-- Whether the attribute is of one of the four kinds the generator knows. -/
def Attribute.known : Attribute → Bool
  | .Other _ => false
  | _ => true

/-- The number of variable names that `writeElementAttributes` takes for an
attribute of the element named `elementName`. -/
def Attribute.names (elementName : String) : Attribute → Int
  | .ExpressionAttribute name _ =>
    if elementName = "a" ∧ name = "href" then 1
    else if strings.HasPrefix name "on" then 1
    else 0
  | _ => 0

/-- The pieces that `writeElementAttributes` writes for an attribute of the
element named `elementName` when the counter of variable names is `i`. -/
def Attribute.pieces (level : Nat) (elementName : String) (i : Int) : Attribute → List Piece
  | .BoolConstantAttribute name =>
    [.assign level ("_, err = w.WriteString(\" " ++ html.EscapeString name ++ "\")\n") [],
     .check level]
  | .ConstantAttribute name value =>
    [.assign level
      ("_, err = w.WriteString(\" " ++ html.EscapeString name ++ "=\\\""
        ++ html.EscapeString value ++ "\\\"\")\n") [],
     .check level]
  | .BoolExpressionAttribute name e =>
    [.plain level ("if " ++ e.Value ++ " \x7b\n") [e],
     .assign (level + 1) ("_, err = w.WriteString(\" " ++ html.EscapeString name ++ "\")\n") [],
     .check (level + 1),
     .plain level "\x7d\n" []]
  | .ExpressionAttribute name e =>
    [.assign level ("_, err = w.WriteString(\" " ++ html.EscapeString name ++ "=\")\n") [],
     .check level,
     .assign level "_, err = w.WriteString(\"\\\"\")\n" [],
     .check level]
      ++ (if elementName = "a" ∧ name = "href" then
          [.plain level ("var " ++ varName (i + 1) ++ " templ.SafeURL = " ++ e.Value ++ "\n") [e],
           .assign level
             ("_, err = w.WriteString(templ.EscapeString(string(" ++ varName (i + 1) ++ ")))\n") [],
           .check level]
        else if strings.HasPrefix name "on" then
          [.plain level
             ("var " ++ varName (i + 1) ++ " templ.ComponentScript = " ++ e.Value ++ "\n") [e],
           .assign level ("_, err = w.WriteString(" ++ varName (i + 1) ++ ".Call)\n") [],
           .check level]
        else
          [.assign level ("_, err = w.WriteString(templ.EscapeString(" ++ e.Value ++ "))\n") [e],
           .check level])
      ++ [.assign level "_, err = w.WriteString(\"\\\"\")\n" [], .check level]
  | .Other _ => []

/-- The pieces that `writeElementAttributes` writes for a list of attributes:
the pieces of the attributes before the first one of unknown kind. -/
def attributePieces (level : Nat) (elementName : String) : Int → List Attribute → List Piece
  | _, [] => []
  | i, a :: rest =>
    if a.known then
      a.pieces level elementName i
        ++ attributePieces level elementName (i + a.names elementName) rest
    else []

/-- The number of variable names that `writeElementAttributes` takes for a
list of attributes. -/
def attributeNames (elementName : String) : List Attribute → Int
  | [] => 0
  | a :: rest => if a.known then a.names elementName + attributeNames elementName rest else 0

/-- The error that `writeElementAttributes` returns for a list of attributes:
the one for the first attribute of unknown kind. -/
def attributeError : List Attribute → error
  | [] => none
  | .Other typeName :: _ => some (.unknownAttributeType typeName)
  | _ :: rest => attributeError rest

/-! ### Elements -/

/-- The number of variable names the generator takes for a void element. -/
def voidElementNames (n : Element) : Int :=
  if n.Children.length > 0 then 0
  else if n.Attributes.length = 0 then 0
  else attributeNames n.Name n.Attributes

/-- The number of variable names the generator takes for an element that is
not void and whose children take `children` names. -/
def standardElementNames (n : Element) (children : Int) : Int :=
  if n.Attributes.length = 0 then children
  else
    classCount n.Attributes + attributeNames n.Name n.Attributes
      + (if attributeError n.Attributes ≠ none then 0 else children)

/-- The pieces that the generator writes for a void element: nothing when the
element has children, and otherwise the opening tag with the attributes.
There is no class lifting and no call of `templ.RenderScripts`. -/
def voidElementPieces (level : Nat) (i : Int) (n : Element) : List Piece :=
  if n.Children.length > 0 then []
  else if n.Attributes.length = 0 then
    [.assign level ("_, err = w.WriteString(\"<" ++ html.EscapeString n.Name ++ ">\")\n") [],
     .check level]
  else
    [.assign level ("_, err = w.WriteString(\"<" ++ html.EscapeString n.Name ++ "\")\n") [],
     .check level]
      ++ attributePieces level n.Name i n.Attributes
      ++ (if attributeError n.Attributes ≠ none then []
          else [.assign level "_, err = w.WriteString(\">\")\n" [], .check level])

/-- The pieces that the generator writes for an element that is not void,
given the pieces `children j` of its children when the counter of variable
names is `j`: for an element with attributes the class lifting, the call of
`templ.RenderScripts`, the opening tag with the attributes as the lifting
leaves them, the children and the closing tag. After an attribute of unknown
kind the element ends. -/
def standardElementPieces (level : Nat) (i : Int) (n : Element)
    (children : Int → List Piece) : List Piece :=
  if n.Attributes.length = 0 then
    [.assign level ("_, err = w.WriteString(\"<" ++ html.EscapeString n.Name ++ ">\")\n") [],
     .check level]
      ++ children i
      ++ [.assign level ("_, err = w.WriteString(\"</" ++ html.EscapeString n.Name ++ ">\")\n") [],
          .check level]
  else
    liftPieces level i n.Attributes
      ++ scriptPieces level n.Attributes
      ++ [.assign level ("_, err = w.WriteString(\"<" ++ html.EscapeString n.Name ++ "\")\n") [],
          .check level]
      ++ attributePieces level n.Name (i + classCount n.Attributes)
          (liftAttributes i n.Attributes)
      ++ (if attributeError n.Attributes ≠ none then []
          else
            [.assign level "_, err = w.WriteString(\">\")\n" [], .check level]
              ++ children (i + classCount n.Attributes + attributeNames n.Name n.Attributes)
              ++ [.assign level
                    ("_, err = w.WriteString(\"</" ++ html.EscapeString n.Name ++ ">\")\n") [],
                  .check level])

/-! ### Nodes -/

mutual

/-- The number of variable names the generator takes for a node. -/
def Node.names : Node → Int
  | .DocType _ => 0
  | .Element n =>
    if n.Void then voidElementNames n
    else standardElementNames n (Node.listNames n.Children)
  | .ForExpression n => Node.listNames n.Children
  | .CallTemplateExpression _ => 0
  | .IfExpression n => Node.listNames n.Then + Node.listNames n.Else
  | .SwitchExpression n => Node.caseNames n.Cases + Node.listNames n.Default
  | .StringExpression _ => 0
  | .Whitespace _ => 0
  | .Text _ => 1
  | .Other _ => 0

/-- The number of variable names the generator takes for a list of nodes. -/
def Node.listNames : List Node → Int
  | [] => 0
  | node :: rest => Node.names node + Node.listNames rest

/-- The number of variable names the generator takes for the cases of a
switch. -/
def Node.caseNames : List CaseExpression → Int
  | [] => 0
  | c :: rest => Node.listNames c.Children + Node.caseNames rest

end

mutual

/-- The pieces that the generator writes for a node at the given indent level
when the counter of variable names is `i`. -/
def Node.pieces (level : Nat) (i : Int) : Node → List Piece
  | .DocType n =>
    [.assign level ("_, err = w.WriteString(`<!doctype " ++ n.Value ++ ">`)\n") [],
     .check level]
  | .Element n =>
    if n.Void then voidElementPieces level i n
    else standardElementPieces level i n (fun j => Node.listPieces level j n.Children)
  | .ForExpression n =>
    [.plain level ("for " ++ n.Expression.Value ++ " \x7b\n") [n.Expression]]
      ++ Node.listPieces (level + 1) i n.Children
      ++ [.plain level "\x7d\n" []]
  | .CallTemplateExpression n =>
    [.assign level ("err = " ++ n.Expression.Value ++ ".Render(ctx, w.(io.Writer))\n")
      [n.Expression],
     .check level]
  | .IfExpression n =>
    [.plain level ("if " ++ n.Expression.Value ++ " \x7b\n") [n.Expression]]
      ++ Node.listPieces (level + 1) i n.Then
      ++ (if n.Else.length > 0 then
            [.plain level "\x7d else \x7b\n" []]
              ++ Node.listPieces (level + 1) (i + Node.listNames n.Then) n.Else
              ++ [.plain level "\x7d\n" []]
          else [.plain level "\x7d\n" []])
  | .SwitchExpression n =>
    [.plain level ("switch " ++ n.Expression.Value ++ " \x7b\n") [n.Expression]]
      ++ Node.casePieces level i n.Cases
      ++ (if n.Default.length > 0 then
            [.plain level "default:" []]
              ++ Node.listPieces (level + 1) (i + Node.caseNames n.Cases) n.Default
              ++ [.plain level "\x7d\n" []]
          else [.plain level "\x7d\n" []])
  | .StringExpression n =>
    [.assign level ("_, err = w.WriteString(templ.EscapeString(" ++ n.Expression.Value ++ "))\n")
      [n.Expression],
     .check level]
  | .Whitespace _ => []
  | .Text n =>
    [.plain level (varName (i + 1) ++ " := " ++ createGoString n.Value ++ "\n") [],
     .assign level ("_, err = w.WriteString(" ++ varName (i + 1) ++ ")\n") [],
     .check level]
  | .Other typeName => [.plain 0 ("Unhandled type: " ++ typeName ++ "\n") []]

/-- The pieces that the generator writes for a list of nodes. -/
def Node.listPieces (level : Nat) (i : Int) : List Node → List Piece
  | [] => []
  | node :: rest =>
    Node.pieces level i node ++ Node.listPieces level (i + Node.names node) rest

/-- The pieces that the generator writes for the cases of a switch: for each
case the line `case <expression>:` and the pieces of its children. -/
def Node.casePieces (level : Nat) (i : Int) : List CaseExpression → List Piece
  | [] => []
  | c :: rest =>
    [.plain level ("case " ++ c.Expression.Value ++ ":\n") [c.Expression]]
      ++ Node.listPieces (level + 1) i c.Children
      ++ Node.casePieces level (i + Node.listNames c.Children) rest

end

/-- The pieces that the generator writes for an HTML template: the head of the
function, the pieces of the body at indent level 2, and the end of the
function. -/
def HTMLTemplate.pieces (t : HTMLTemplate) (i : Int) : List Piece :=
  [.plain 0 ("func " ++ t.Name.Value ++ "(" ++ t.Parameters.Value ++ ") templ.Component \x7b\n")
      [t.Name, t.Parameters],
   .plain 1
      "return templ.ComponentFunc(func(ctx context.Context, writer io.Writer) (err error) \x7b\n"
      [],
   .plain 2 "ctx, _ = templ.RenderedCSSClassesFromContext(ctx)\n" [],
   .plain 2 "ctx, _ = templ.RenderedScriptsFromContext(ctx)\n" [],
   .plain 2 "w, ok := writer.(io.StringWriter)\n" [],
   .plain 2 "if !ok \x7b\n" [],
   .plain 3 "templw := bufio.NewWriter(writer)\n" [],
   .plain 3 "w = templw\n" [],
   .plain 3 "defer templw.Flush()\n" [],
   .plain 2 "\x7d\n" []]
    ++ Node.listPieces 2 i t.Children
    ++ [.plain 2 "return err\n" [], .plain 1 "\x7d)\n" [], .plain 0 "\x7d\n\n" []]

/-! ### The import block -/

/-- Whether a top-level declaration is an HTML template. -/
def TemplateFileNode.isHTMLTemplate : TemplateFileNode → Bool
  | .HTMLTemplate _ => true
  | _ => false

/-- Whether a top-level declaration is a CSS template. -/
def TemplateFileNode.isCSSTemplate : TemplateFileNode → Bool
  | .CSSTemplate _ => true
  | _ => false

/-- The lines of the user imports: `import <text>` for each, in source order. -/
def userImportLines : List Import → String
  | [] => ""
  | im :: rest => "import " ++ im.Expression.Value ++ "\n" ++ userImportLines rest

/-- The import block of a template file as the specification describes it:
the runtime module always, `context`, `io` and `bufio` when a top-level
declaration is an HTML template, `strings` when one is a CSS template, the
user imports, and an empty line. -/
def importBlock (tf : TemplateFile) : String :=
  "import \"github.com/a-h/templ\"\n"
    ++ (if tf.Nodes.any TemplateFileNode.isHTMLTemplate then
          "import \"context\"\n" ++ "import \"io\"\n" ++ "import \"bufio\"\n"
        else "")
    ++ (if tf.Nodes.any TemplateFileNode.isCSSTemplate then "import \"strings\"\n" else "")
    ++ userImportLines tf.Imports
    ++ "\n"

/-! ### Statements that assign the render error -/

/-- Whether a statement assigns the render error: its text begins with
`_, err = ` or with `err = `. -/
def assignsRenderError (code : String) : Bool :=
  strings.HasPrefix code "_, err = " || strings.HasPrefix code "err = "

/-- Whether a text begins with a character other than `e` and `_`. -/
def startsOther (code : String) : Bool :=
  match code.data with
  | c :: _ => c != 'e' && c != '_'
  | [] => false

/-- A piece is tagged as its text is: the code of an `assign` piece assigns
the render error, and the code of a `plain` piece does not. -/
def Piece.tagged : Piece → Prop
  | .assign _ code _ => assignsRenderError code = true
  | .check _ => True
  | .plain _ code _ => assignsRenderError code = false

/-- Every statement that assigns the render error is followed at once by the
error check at its indent level. -/
def Checked : List Piece → Prop
  | [] => True
  | .assign level _ _ :: .check level2 :: rest => level = level2 ∧ Checked rest
  | .assign _ _ _ :: _ => False
  | _ :: rest => Checked rest

/-- The pieces are tagged as their texts are, and every statement that assigns
the render error is followed at once by the error check. -/
def Sound (pieces : List Piece) : Prop := Checked pieces ∧ ∀ p ∈ pieces, p.tagged

/-- The template `render` whose body is `<div class={ x }></div>`. -/
def classTemplate : HTMLTemplate :=
  ⟨⟨"render", ⟨⟨20, 3, 6⟩, ⟨26, 3, 12⟩⟩⟩, ⟨"", ⟨⟨27, 3, 13⟩, ⟨27, 3, 13⟩⟩⟩, [.Element classElement]⟩

/-- The switch on `x` with the case `1` and a default, each holding a
`<div></div>`. -/
def exampleSwitch : SwitchExpression :=
  { Expression := ⟨"x", default⟩,
    Cases := [{ Expression := ⟨"1", default⟩, Children := [.Element divElement] }],
    Default := [.Element divElement] }

/-- The ranges that the writes of the texts, one after the other through one
`RangeWriter`, return. -/
def RangeWriter.writeAll (rw : RangeWriter) : List String → List Range
  | [] => []
  | s :: rest => (rw.Write s).2.1 :: (rw.Write s).1.writeAll rest

/-- The generated ranges of a source map, in the order they were added. -/
def SourceMap.targets (sm : SourceMap) : List Range := sm.Items.map (fun item => item.Target)

/-- The range `r` ends where the range `s` starts, or before. -/
def Range.precedes (r s : Range) : Prop := r.To.Index ≤ s.From.Index

/-- The ranges of the source map of `g` do not run backwards, none overlaps a
later one, and none ends after the cursor. -/
def Forward (g : generator) : Prop :=
  g.sourceMap.targets.Pairwise Range.precedes ∧
  ∀ r ∈ g.sourceMap.targets, r.From.Index ≤ r.To.Index ∧ r.To.Index ≤ g.w.Current.Index

/-- One parameter of a parameter list of the form `n1 T1, n2 T2, …`: the
whitespace before the name, the name, and what follows the space after the
name (further spaces and the type). -/
structure Parameter where
  lead : String
  name : String
  type : String

/-- The text of a parameter within the parameter list. -/
def Parameter.text (p : Parameter) : String := p.lead ++ p.name ++ " " ++ p.type

/-- The parameter is well formed: only whitespace stands before the name, the
name is not empty and holds no whitespace and no comma, and the type holds no
comma. -/
def Parameter.wellFormed (p : Parameter) : Prop :=
  (∀ c ∈ p.lead.data, unicode.IsSpace c = true) ∧ p.name.data ≠ [] ∧
  (∀ c ∈ p.name.data, unicode.IsSpace c = false ∧ c ≠ ',') ∧ ∀ c ∈ p.type.data, c ≠ ','

/-- The text the generator writes for a script template: the function that
returns the `templ.ComponentScript` value with the fields `Name`, `Function`
and `Call`. The body of the JavaScript function is the body of the template
without its leading and trailing whitespace. -/
def scriptText (env : Env) (t : ScriptTemplate) : String :=
  "func " ++ t.Name.Value ++ "(" ++ t.Parameters.Value ++ ") templ.ComponentScript \x7b\n"
    ++ indent 1 ++ "return templ.ComponentScript\x7b\n"
    ++ indent 2 ++ ("Name: " ++ createGoString (functionName env t.Name.Value t.Value) ++ ",\n")
    ++ indent 2 ++ ("Function: "
      ++ createGoString ("function " ++ functionName env t.Name.Value t.Value ++ "("
          ++ stripTypes t.Parameters.Value ++ ")\x7b" ++ strings.TrimSpace t.Value ++ "\x7d")
      ++ ",\n")
    ++ indent 2 ++ ("Call: templ.SafeScript("
      ++ createGoString (functionName env t.Name.Value t.Value) ++ ", "
      ++ stripTypes t.Parameters.Value ++ "),\n")
    ++ indent 1 ++ "\x7d\n"
    ++ "\x7d\n\n"

/-- The script template `script f() { x }` whose body is ` x `, with a space
before and after the `x`. -/
def exampleScript : ScriptTemplate :=
  { Name := ⟨"f", default⟩, Parameters := ⟨"", default⟩, Value := " x " }

/-! ## runtime: the set of strings -/

/-- StringSet of the runtime. The field `ss` is a Go map from strings to the
empty struct; it is given by its keys. A map holds a key once; the order of the
list is the order in which the keys came in and means nothing to the map. -/
structure StringSet where
  ss : List String
  deriving DecidableEq, Repr

/-- The value `&StringSet{ss: make(map[string]struct{})}`. -/
def StringSet.empty : StringSet := ⟨[]⟩

/-- The method `Add`: the assignment `rc.ss[s] = struct{}{}`. -/
def StringSet.Add (rc : StringSet) (s : String) : StringSet :=
  if s ∈ rc.ss then rc else ⟨rc.ss ++ [s]⟩

/-- The method `Contains`: the lookup `_, ok := rc.ss[s]`. -/
def StringSet.Contains (rc : StringSet) (s : String) : Bool := decide (s ∈ rc.ss)

/-- The UTF-8 bytes of a Go string as numbers. -/
def byteValues (s : String) : List Nat := (goBytes s).map UInt8.toNat

/-- Go `a <= b` on strings: the comparison of their bytes, in dictionary
order. -/
def stringLE (a b : String) : Prop := byteValues a ≤ byteValues b

instance : DecidableRel stringLE := fun a b =>
  inferInstanceAs (Decidable (byteValues a ≤ byteValues b))

instance : IsTotal String stringLE := ⟨fun a b => le_total (byteValues a) (byteValues b)⟩

instance : IsTrans String stringLE :=
  ⟨fun a b c (h1 : byteValues a ≤ byteValues b) (h2 : byteValues b ≤ byteValues c) =>
    le_trans h1 h2⟩

/-- Go `sort.Strings`. -/
def sort.Strings (values : List String) : List String := values.insertionSort stringLE

/-- The method `All`: the keys of the map, in the order the `range` loop goes
through them, and then sorted. -/
def StringSet.All (rc : StringSet) : List String := sort.Strings rc.ss

/-- The set built from the empty set by adding the strings, one after the
other. -/
def StringSet.ofAdds (adds : List String) : StringSet := adds.foldl StringSet.Add StringSet.empty

/-! ## runtime: contexts and the registries they carry -/

/-- The keys under which values are stored in a context. The keys
`contextKeyChildren`, `contextKeyRenderedClasses` and
`contextKeyRenderedScripts` are of three types of the runtime,
`childrenContextKey`, `cssContextKey` and `scriptContextKey`; keys of different
types are different keys. -/
inductive ContextKey where
  | children
  | renderedClasses
  | renderedScripts
  | other (name : String)
  deriving DecidableEq, Repr

/-- A value stored in a context: a pointer `*StringSet`, given by the address
it points to, or a value of another type. -/
inductive ContextValue where
  | stringSet (address : Nat)
  | other (text : String)
  deriving DecidableEq, Repr

/-- Go `context.Context`: the background context, or the context that
`context.WithValue` derives from a parent. -/
inductive Context where
  | background
  | withValue (parent : Context) (key : ContextKey) (val : ContextValue)
  deriving DecidableEq, Repr

/-- Go `ctx.Value(key)`: the value of the nearest `WithValue` for the key. -/
def Context.Value : Context → ContextKey → Option ContextValue
  | .background, _ => none
  | .withValue parent k val, key => if key = k then some val else parent.Value key

/-- The sets of strings allocated so far; the address of a set is its place in
the list. -/
abbrev Heap := List StringSet

/-- The set at an address. -/
def Heap.get (heap : Heap) (address : Nat) : StringSet := heap.getD address StringSet.empty

/-- The call `rc.Add(s)` through the pointer `rc`. -/
def Heap.Add (heap : Heap) (rc : Nat) (s : String) : Heap := heap.set rc ((heap.get rc).Add s)

/-- The call `rc.Contains(s)` through the pointer `rc`. -/
def Heap.Contains (heap : Heap) (rc : Nat) (s : String) : Bool := (heap.get rc).Contains s

/-- RenderedCSSClassesFromContext of the runtime: the heap after the call, the
returned context and the returned pointer. -/
def RenderedCSSClassesFromContext (heap : Heap) (ctx : Context) : Heap × Context × Nat :=
  match ctx.Value .renderedClasses with
  | some (.stringSet classes) => (heap, ctx, classes)
  | _ =>
    let rc := heap.length
    let heap := heap ++ [StringSet.empty]
    let ctx := Context.withValue ctx .renderedClasses (.stringSet rc)
    (heap, ctx, rc)

/-- RenderedScriptsFromContext of the runtime. -/
def RenderedScriptsFromContext (heap : Heap) (ctx : Context) : Heap × Context × Nat :=
  match ctx.Value .renderedScripts with
  | some (.stringSet classes) => (heap, ctx, classes)
  | _ =>
    let rs := heap.length
    let heap := heap ++ [StringSet.empty]
    let ctx := Context.withValue ctx .renderedScripts (.stringSet rs)
    (heap, ctx, rs)

/-! ## runtime: rendering CSS classes and scripts once -/

/-- CSSClass of the runtime: a constant class name, the class of a CSS
template with its ID and its CSS text, or a value of another type that has a
class name. -/
inductive CSSClass where
  | ConstantCSSClass (name : String)
  | ComponentCSSClass (ID : String) (Class : String)
  | Other (className : String)
  deriving DecidableEq, Repr

/-- The method `ClassName`. -/
def CSSClass.ClassName : CSSClass → String
  | .ConstantCSSClass name => name
  | .ComponentCSSClass ID _ => ID
  | .Other className => className

/-- ComponentScript of the runtime. -/
structure ComponentScript where
  Name : String
  Function : String
  Call : String
  deriving DecidableEq, Repr

/-- The loop over `classes` of `RenderCSS`: the heap and the text of the
string builder after it. -/
def RenderCSS.loop (rc : Nat) : Heap → String → List CSSClass → Heap × String
  | heap, sb, [] => (heap, sb)
  | heap, sb, .ComponentCSSClass ID Class :: rest =>
    if !Heap.Contains heap rc (CSSClass.ClassName (.ComponentCSSClass ID Class)) then
      RenderCSS.loop rc
        (Heap.Add heap rc (CSSClass.ClassName (.ComponentCSSClass ID Class))) (sb ++ Class) rest
    else RenderCSS.loop rc heap sb rest
  | heap, sb, .ConstantCSSClass _ :: rest => RenderCSS.loop rc heap sb rest
  | heap, sb, .Other _ :: rest => RenderCSS.loop rc heap sb rest

/-- RenderCSS of the runtime: the heap and the sink after the call, and the
error. -/
def RenderCSS (heap : Heap) (ctx : Context) (w : Sink) (classes : List CSSClass) :
    Heap × Sink × error :=
  match RenderedCSSClassesFromContext heap ctx with
  | (heap, _, rc) =>
    match RenderCSS.loop rc heap "" classes with
    | (heap, sb) =>
      if sb.utf8ByteSize > 0 then
        match w.WriteString "<style type=\"text/css\">" with
        | (w, _, some err) => (heap, w, some err)
        | (w, _, none) =>
          match w.WriteString sb with
          | (w, _, some err) => (heap, w, some err)
          | (w, _, none) =>
            match w.WriteString "</style>" with
            | (w, _, some err) => (heap, w, some err)
            | (w, _, none) => (heap, w, none)
      else (heap, w, none)

/-- The loop over `scripts` of `RenderScripts`. -/
def RenderScripts.loop (rs : Nat) : Heap → String → List ComponentScript → Heap × String
  | heap, sb, [] => (heap, sb)
  | heap, sb, s :: rest =>
    if !Heap.Contains heap rs s.Name then
      RenderScripts.loop rs (Heap.Add heap rs s.Name) (sb ++ s.Function) rest
    else RenderScripts.loop rs heap sb rest

/-- RenderScripts of the runtime. -/
def RenderScripts (heap : Heap) (ctx : Context) (w : Sink) (scripts : List ComponentScript) :
    Heap × Sink × error :=
  match RenderedScriptsFromContext heap ctx with
  | (heap, _, rs) =>
    match RenderScripts.loop rs heap "" scripts with
    | (heap, sb) =>
      if sb.utf8ByteSize > 0 then
        match w.WriteString "<script type=\"text/javascript\">" with
        | (w, _, some err) => (heap, w, some err)
        | (w, _, none) =>
          match w.WriteString sb with
          | (w, _, some err) => (heap, w, some err)
          | (w, _, none) =>
            match w.WriteString "</script>" with
            | (w, _, some err) => (heap, w, some err)
            | (w, _, none) => (heap, w, none)
      else (heap, w, none)

/-! ### What is rendered, in the words of the specification -/

/-- An entry of a registry: the key under which it is registered (the ID of a
CSS class, the name of a script) and the text that is rendered for it (the CSS
of the class, the function of the script). -/
abbrev Entry := String × String

/-- The entries of a list of classes: those of its component classes. -/
def classEntries : List CSSClass → List Entry
  | [] => []
  | .ComponentCSSClass ID Class :: rest => (ID, Class) :: classEntries rest
  | _ :: rest => classEntries rest

/-- The entries of a list of scripts. -/
def scriptEntries (scripts : List ComponentScript) : List Entry :=
  scripts.map (fun s => (s.Name, s.Function))

/-- The entries that are selected for rendering: those whose key is not in the
registry `registry` and has not occurred earlier in the list; `earlier` holds
the keys of the entries that came before. -/
def selected (registry : StringSet) : List String → List Entry → List Entry
  | _, [] => []
  | earlier, (key, text) :: rest =>
    (if !registry.Contains key && !earlier.contains key then [(key, text)] else [])
      ++ selected registry (earlier ++ [key]) rest

/-- The text of a list of entries: their texts, one after the other. -/
def entriesText : List Entry → String
  | [] => ""
  | (_, text) :: rest => text ++ entriesText rest

/-- The registry together with the keys of the entries. -/
def register (registry : StringSet) (entries : List Entry) : StringSet :=
  entries.foldl (fun rc entry => rc.Add entry.1) registry

/-- The texts of the writes that render a selection between an opening and a
closing tag: none when the text of the selection is empty. -/
def blockWrites (opening closing : String) (entries : List Entry) : List String :=
  if (entriesText entries).utf8ByteSize > 0 then [opening, entriesText entries, closing] else []

/-- The text of a list of writes. -/
def writesText : List String → String
  | [] => ""
  | s :: rest => s ++ writesText rest

/-- The calls of `RenderCSS`, one after the other, on one heap and one sink:
the heap and the sink after them. -/
def RenderCSS.calls : Heap → Sink → List (Context × List CSSClass) → Heap × Sink
  | heap, w, [] => (heap, w)
  | heap, w, (ctx, classes) :: rest =>
    match RenderCSS heap ctx w classes with
    | (heap, w, _) => RenderCSS.calls heap w rest

/-- The calls of `RenderScripts`, one after the other, on one heap and one
sink. -/
def RenderScripts.calls : Heap → Sink → List (Context × List ComponentScript) → Heap × Sink
  | heap, w, [] => (heap, w)
  | heap, w, (ctx, scripts) :: rest =>
    match RenderScripts heap ctx w scripts with
    | (heap, w, _) => RenderScripts.calls heap w rest

/-- The selections of a sequence of calls that share the registry `registry`:
each call selects from its entries against the registry as the calls before
left it. -/
def selections : StringSet → List (List Entry) → List (List Entry)
  | _, [] => []
  | registry, entries :: rest =>
    selected registry [] entries :: selections (register registry entries) rest

/-- The loop of `RenderCSS` and of `RenderScripts` on the entries: an entry
whose key the registry does not contain is rendered and registered. -/
def registerLoop (rc : Nat) : Heap → String → List Entry → Heap × String
  | heap, sb, [] => (heap, sb)
  | heap, sb, (key, text) :: rest =>
    if !Heap.Contains heap rc key then registerLoop rc (Heap.Add heap rc key) (sb ++ text) rest
    else registerLoop rc heap sb rest

/-- The entries that are selected for rendering, against the registry as the
entries before left it. -/
def selectedRun : StringSet → List Entry → List Entry
  | _, [] => []
  | registry, (key, text) :: rest =>
    if !registry.Contains key then (key, text) :: selectedRun (registry.Add key) rest
    else selectedRun registry rest

/-- The writes of a block after the loop: the opening tag, the text and the
closing tag, up to the first write that fails. -/
def writeBlock (opening closing : String) (w : Sink) (sb : String) : Sink × error :=
  if sb.utf8ByteSize > 0 then
    match w.WriteString opening with
    | (w, _, some err) => (w, some err)
    | (w, _, none) =>
      match w.WriteString sb with
      | (w, _, some err) => (w, some err)
      | (w, _, none) =>
        match w.WriteString closing with
        | (w, _, some err) => (w, some err)
        | (w, _, none) => (w, none)
  else (w, none)

/-- Whether a class is the class of a CSS template. -/
def CSSClass.isComponent : CSSClass → Bool
  | .ComponentCSSClass _ _ => true
  | _ => false

/-- The calls of `RenderCSS` or of `RenderScripts` on the entries of their
arguments, with the registry at the address `rc`. -/
def renderCalls (opening closing : String) (rc : Nat) : Heap → Sink → List (List Entry) →
    Heap × Sink
  | heap, w, [] => (heap, w)
  | heap, w, entries :: rest =>
    renderCalls opening closing rc (heap.set rc (register (Heap.get heap rc) entries))
      (writeBlock opening closing w (entriesText (selected (Heap.get heap rc) [] entries))).1 rest

/-- A context that carries the registry of CSS classes at address 0 and the
registry of scripts at address 1. -/
def exampleContext : Context :=
  .withValue (.withValue .background .renderedClasses (.stringSet 0)) .renderedScripts
    (.stringSet 1)

/-- A heap with the registry of CSS classes that holds `a`, and an empty
registry of scripts. -/
def exampleHeap : Heap := [⟨["a"]⟩, StringSet.empty]

/-- The classes of the example: the registered class `a`, the class `b`, a
constant class, and the class `b` again. -/
def exampleClasses : List CSSClass :=
  [.ComponentCSSClass "a" ".a", .ComponentCSSClass "b" ".b", .ConstantCSSClass "c",
   .ComponentCSSClass "b" ".b"]

/-- The scripts of the example: the script `f` twice. -/
def exampleScripts : List ComponentScript :=
  [⟨"f", "function f()", "f()"⟩, ⟨"f", "function f()", "f()"⟩]

/-! ## runtime: the call of a script -/

/-- The loop of `SafeScript` that fills `encodedParams`. The function
`jsonMarshal` is `json.Marshal` of the Go library; it returns the encoding, or
nothing when it returns an error, which `SafeScript` ignores: the bytes are
then `nil`, and the text of the parameter is empty. -/
def SafeScript.loop {P : Type} (jsonMarshal : P → Option String) : List P → List String
  | [] => []
  | p :: rest =>
    let enc := (jsonMarshal p).getD ""
    EscapeString enc :: SafeScript.loop jsonMarshal rest

/-- SafeScript of the runtime, for parameters of a type `P`. -/
def SafeScript {P : Type} (jsonMarshal : P → Option String) (functionName : String)
    (params : List P) : String :=
  let encodedParams := SafeScript.loop jsonMarshal params
  let sb := ""
  let sb := sb ++ functionName
  let sb := sb ++ String.singleton '('
  let sb := sb ++ strings.Join encodedParams ","
  let sb := sb ++ String.singleton ')'
  sb

/-! ## runtime: the names of CSS classes -/

/-- A regular expression of the Go library, as `regexp/syntax` parses it: the
expression that matches nothing, the empty expression, a character class given
by its ranges, concatenation, alternation and repetition. -/
inductive Regexp where
  | none
  | empty
  | charClass (ranges : List (Char × Char))
  | concat (r s : Regexp)
  | alternate (r s : Regexp)
  | star (r : Regexp)
  deriving DecidableEq, Repr

/-- The expression `r?`. -/
def Regexp.quest (r : Regexp) : Regexp := .alternate r .empty

/-- The expression `r+`. -/
def Regexp.plus (r : Regexp) : Regexp := .concat r (.star r)

/-- Whether the expression matches the empty text. -/
def Regexp.nullable : Regexp → Bool
  | .none => false
  | .empty => true
  | .charClass _ => false
  | .concat r s => r.nullable && s.nullable
  | .alternate r s => r.nullable || s.nullable
  | .star _ => true

/-- The expression for what may follow the rune `c` in a match. -/
def Regexp.derive (c : Char) : Regexp → Regexp
  | .none => .none
  | .empty => .none
  | .charClass ranges =>
    if ranges.any (fun range => range.1.val ≤ c.val && c.val ≤ range.2.val) then .empty else .none
  | .concat r s =>
    if r.nullable then .alternate (.concat (r.derive c) s) (s.derive c)
    else .concat (r.derive c) s
  | .alternate r s => .alternate (r.derive c) (s.derive c)
  | .star r => .concat (r.derive c) (.star r)

/-- Whether the expression matches the whole text: `MatchString` for an
expression between `^` and `$`. -/
def Regexp.MatchString (r : Regexp) (s : String) : Bool :=
  (s.data.foldl (fun r c => r.derive c) r).nullable

/-- The expression `^-?[_a-zA-Z]+[_-a-zA-Z0-9]*$` of `safeClassName`, without
its anchors. In the second character class `_-a` is the range from `_` to `a`,
which holds `_`, the backtick and `a`; the `-` after it stands for itself, and
so does the `z` after that; `A-Z` and `0-9` are ranges. -/
def safeClassName : Regexp :=
  .concat (Regexp.quest (.charClass [('-', '-')]))
    (.concat (Regexp.plus (.charClass [('_', '_'), ('a', 'z'), ('A', 'Z')]))
      (.star (.charClass [('_', 'a'), ('-', '-'), ('z', 'z'), ('A', 'Z'), ('0', '9')])))

def fallbackClassName : CSSClass := .ConstantCSSClass "--templ-css-class-safe-name"

/-- SafeClass of the runtime. -/
def SafeClass (name : String) : CSSClass := .ConstantCSSClass name

/-- Class of the runtime. -/
def Class (name : String) : CSSClass :=
  if !safeClassName.MatchString name then fallbackClassName
  else SafeClass name

/-! ## runtime: the handler of requests -/

/-- The `http.ResponseWriter` of the Go library, by its contract: the header
map that `Header()` returns, the status code and the headers that have been
sent, if any, and the body written so far. Headers are sent once, by the first
call of `WriteHeader` or of `Write`; a change of the header map after that has
no effect on the response. The content type that the server detects from the
body when none is sent is left out. -/
structure ResponseWriter where
  header : List (String × String)
  sent : Option (Int × List (String × String))
  body : String
  deriving DecidableEq, Repr

/-- The call `w.Header().Add(key, value)`. -/
def ResponseWriter.HeaderAdd (w : ResponseWriter) (key value : String) : ResponseWriter :=
  { w with header := w.header ++ [(key, value)] }

/-- The call `w.Header().Set(key, value)`. -/
def ResponseWriter.HeaderSet (w : ResponseWriter) (key value : String) : ResponseWriter :=
  { w with header := w.header.filter (fun entry => entry.1 ≠ key) ++ [(key, value)] }

/-- The call `w.WriteHeader(statusCode)`: it sends the status code and the
headers as they stand, unless they have been sent. -/
def ResponseWriter.WriteHeader (w : ResponseWriter) (statusCode : Int) : ResponseWriter :=
  match w.sent with
  | some _ => w
  | none => { w with sent := some (statusCode, w.header) }

/-- The call `w.Write(text)`: when no headers have been sent, it sends them
with the status code 200 first. -/
def ResponseWriter.Write (w : ResponseWriter) (text : String) : ResponseWriter :=
  let w := w.WriteHeader 200
  { w with body := w.body ++ text }

/-- Go `http.Error`. -/
def http.Error (w : ResponseWriter) (error : String) (code : Int) : ResponseWriter :=
  let w := w.HeaderSet "Content-Type" "text/plain; charset=utf-8"
  let w := w.HeaderSet "X-Content-Type-Options" "nosniff"
  let w := w.WriteHeader code
  w.Write (error ++ "\n")

/-- Go `http.StatusInternalServerError`. -/
def http.StatusInternalServerError : Int := 500

/-- A request, by the context it carries. -/
structure Request where
  Context : Context

/-- Component of the runtime: its method `Render`, which takes the context and
the writer and returns the writer after the call and the error, if any. -/
structure Component where
  Render : Context → ResponseWriter → ResponseWriter × Option String

/-- The method `ServeHTTP` of a `http.Handler`. -/
abbrev http.Handler := ResponseWriter → Request → ResponseWriter

/-- ComponentHandler of the runtime. -/
structure ComponentHandler where
  Component : Component
  Status : Int
  ContentType : String
  ErrorHandler : Option (Request → String → http.Handler)

def componentHandlerErrorMessage : String := "templ: failed to render template"

/-- The method `ServeHTTP` of `ComponentHandler`. -/
def ComponentHandler.ServeHTTP (ch : ComponentHandler) (w : ResponseWriter) (r : Request) :
    ResponseWriter :=
  let w := if ch.Status ≠ 0 then w.WriteHeader ch.Status else w
  let w := w.HeaderAdd "Content-Type" ch.ContentType
  match ch.Component.Render r.Context w with
  | (w, some err) =>
    match ch.ErrorHandler with
    | some errorHandler => errorHandler r err w r
    | none => http.Error w componentHandlerErrorMessage http.StatusInternalServerError
  | (w, none) => w

/-- Handler of the runtime. -/
def Handler (c : Component) (options : List (ComponentHandler → ComponentHandler)) :
    ComponentHandler :=
  let ch : ComponentHandler :=
    { Component := c, Status := 0, ContentType := "text/html", ErrorHandler := none }
  options.foldl (fun ch o => o ch) ch

/-- WithStatus of the runtime. -/
def WithStatus (status : Int) : ComponentHandler → ComponentHandler :=
  fun ch => { ch with Status := status }

/-- WithContentType of the runtime. -/
def WithContentType (contentType : String) : ComponentHandler → ComponentHandler :=
  fun ch => { ch with ContentType := contentType }

/-- WithErrorHandler of the runtime. -/
def WithErrorHandler (eh : Request → String → http.Handler) :
    ComponentHandler → ComponentHandler :=
  fun ch => { ch with ErrorHandler := some eh }

/-- NopComponent of the runtime: it renders nothing. -/
def NopComponent : Component := ⟨fun _ w => (w, none)⟩

/-- A response writer to which nothing has been added, sent or written. -/
def newResponseWriter : ResponseWriter := { header := [], sent := none, body := "" }

/-- A component that writes the text `hi`. -/
def hiComponent : Component := ⟨fun _ w => (w.Write "hi", none)⟩

/-- A component that writes nothing and fails. -/
def failingComponent : Component := ⟨fun _ w => (w, some "render failed")⟩

/-- A sink whose first write fails. -/
def refusingSink : Sink := failingSink 0

/-- The script template `f` whose body ends in a line comment:
`script f() {`, the line `alert(1) // done`, and the closing brace on a line
of its own. -/
def commentScript : ScriptTemplate :=
  { Name := ⟨"f", default⟩, Parameters := ⟨"", default⟩, Value := "\n\talert(1) // done\n" }

/-- The element `<div ? class={ x }></div>` whose first attribute is of a kind
the generator does not know. -/
def unknownThenClassElement : Element :=
  { Name := "div", Void := false,
    Attributes := [.Other "parser.Comment",
      .ExpressionAttribute "class" ⟨"x", ⟨⟨30, 3, 12⟩, ⟨31, 3, 13⟩⟩⟩],
    Children := [] }

/-! ## The AST as the pass leaves it -/

/-- An element that is not void as the generator leaves it when the counter of
variable names is `i`, given the children `children j` as the generator leaves
them when the counter is `j`: the attributes of an element with attributes are
the ones `writeElementCSS` leaves, and after an attribute of unknown kind the
children are the ones of the input. -/
def standardElementLifted (i : Int) (n : Element) (children : Int → List Node) : Element :=
  if n.Attributes.length = 0 then { n with Children := children i }
  else if attributeError n.Attributes ≠ none then
    { n with Attributes := liftAttributes i n.Attributes }
  else
    { n with
      Attributes := liftAttributes i n.Attributes,
      Children := children (i + classCount n.Attributes + attributeNames n.Name n.Attributes) }

mutual

/-- The node as the generator leaves it on a sink that accepts all writes, when
the counter of variable names is `i`: the expression of every expression
attribute named `class` of an element that is not void and that the generator
goes through is `var_N.String()`, where `var_N` is the variable that holds the
classes; all else is as in the input. -/
def Node.lifted (i : Int) : Node → Node
  | .DocType n => .DocType n
  | .Element n =>
    if n.Void then .Element n
    else .Element (standardElementLifted i n (fun j => Node.listLifted j n.Children))
  | .ForExpression n => .ForExpression { n with Children := Node.listLifted i n.Children }
  | .CallTemplateExpression n => .CallTemplateExpression n
  | .IfExpression n =>
    .IfExpression { n with
      Then := Node.listLifted i n.Then,
      Else := Node.listLifted (i + Node.listNames n.Then) n.Else }
  | .SwitchExpression n =>
    .SwitchExpression { n with
      Cases := Node.caseLifted i n.Cases,
      Default := Node.listLifted (i + Node.caseNames n.Cases) n.Default }
  | .StringExpression n => .StringExpression n
  | .Whitespace n => .Whitespace n
  | .Text n => .Text n
  | .Other typeName => .Other typeName

/-- The nodes of a list as the generator leaves them. -/
def Node.listLifted (i : Int) : List Node → List Node
  | [] => []
  | node :: rest => Node.lifted i node :: Node.listLifted (i + Node.names node) rest

/-- The cases of a switch as the generator leaves them. -/
def Node.caseLifted (i : Int) : List CaseExpression → List CaseExpression
  | [] => []
  | c :: rest =>
    { c with Children := Node.listLifted i c.Children }
      :: Node.caseLifted (i + Node.listNames c.Children) rest

end

/-- The HTML template as the generator leaves it. -/
def HTMLTemplate.lifted (i : Int) (t : HTMLTemplate) : HTMLTemplate :=
  { t with Children := Node.listLifted i t.Children }

/-! ## The pieces of the text of a template file -/

/-- Whether the CSS property is of one of the two kinds the generator knows. -/
def CSSProperty.known : CSSProperty → Bool
  | .Other _ => false
  | _ => true

/-- The piece that `writeCSS` writes for a property at the given indent
level. -/
def CSSProperty.pieces (env : Env) (level : Nat) : CSSProperty → List Piece
  | .ConstantCSSProperty name value =>
    [.plain level ("templCSSBuilder.WriteString(`" ++ SanitizeCSS env name value ++ "`)\n") []]
  | .ExpressionCSSProperty name value =>
    [.plain level
      ("templCSSBuilder.WriteString(string(templ.SanitizeCSS(`" ++ name ++ "`, "
        ++ value.Expression.Value ++ ")))\n") [value.Expression]]
  | .Other _ => []

/-- The pieces that `writeCSS` writes for a list of properties: the pieces of
the properties before the first one of unknown kind. -/
def propertyPieces (env : Env) (level : Nat) : List CSSProperty → List Piece
  | [] => []
  | p :: rest => if p.known then p.pieces env level ++ propertyPieces env level rest else []

/-- The error that `writeCSS` returns for a list of properties: the one for the
first property of unknown kind. -/
def propertyError : List CSSProperty → error
  | [] => none
  | .Other typeName :: _ => some (.unknownCSSPropertyType typeName)
  | _ :: rest => propertyError rest

/-- The pieces that the generator writes for a CSS template: the head of the
function, the properties, and the value that the function returns. After a
property of unknown kind the template ends. -/
def CSSTemplate.pieces (env : Env) (n : CSSTemplate) : List Piece :=
  [.plain 0 ("func " ++ n.Name.Value ++ "() templ.CSSClass \x7b\n") [n.Name],
   .plain 1 "var templCSSBuilder strings.Builder\n" []]
    ++ propertyPieces env 1 n.Properties
    ++ (if propertyError n.Properties ≠ none then []
        else
          [.plain 1
             ("templCSSID := templ.CSSID(`" ++ n.Name.Value ++ "`, templCSSBuilder.String())\n") [],
           .plain 1 "return templ.ComponentCSSClass\x7b\n" [],
           .plain 2 "ID: templCSSID,\n" [],
           .plain 2
             "Class: templ.SafeCSS(`.` + templCSSID + `\x7b` + templCSSBuilder.String() + `\x7d`),\n"
             [],
           .plain 1 "\x7d\n" [],
           .plain 0 "\x7d\n\n" []])

/-- The pieces that the generator writes for a script template: the lines of
`scriptText`. -/
def ScriptTemplate.pieces (env : Env) (t : ScriptTemplate) : List Piece :=
  [.plain 0
     ("func " ++ t.Name.Value ++ "(" ++ t.Parameters.Value ++ ") templ.ComponentScript \x7b\n")
     [t.Name, t.Parameters],
   .plain 1 "return templ.ComponentScript\x7b\n" [],
   .plain 2 ("Name: " ++ createGoString (functionName env t.Name.Value t.Value) ++ ",\n") [],
   .plain 2 ("Function: "
      ++ createGoString ("function " ++ functionName env t.Name.Value t.Value ++ "("
          ++ stripTypes t.Parameters.Value ++ ")\x7b" ++ strings.TrimSpace t.Value ++ "\x7d")
      ++ ",\n") [],
   .plain 2 ("Call: templ.SafeScript("
      ++ createGoString (functionName env t.Name.Value t.Value) ++ ", "
      ++ stripTypes t.Parameters.Value ++ "),\n") [],
   .plain 1 "\x7d\n" [],
   .plain 0 "\x7d\n\n" []]

/-- The pieces that the generator writes for a top-level declaration when the
counter of variable names is `i`. -/
def TemplateFileNode.pieces (env : Env) (i : Int) : TemplateFileNode → List Piece
  | .HTMLTemplate t => t.pieces i
  | .CSSTemplate n => n.pieces env
  | .ScriptTemplate t => t.pieces env
  | .Other _ => []

/-- The number of variable names the generator takes for a top-level
declaration. -/
def TemplateFileNode.names : TemplateFileNode → Int
  | .HTMLTemplate t => Node.listNames t.Children
  | _ => 0

/-- The error that the generator returns for a top-level declaration on a sink
that accepts all writes. -/
def TemplateFileNode.error : TemplateFileNode → error
  | .CSSTemplate n => propertyError n.Properties
  | .Other typeName => some (.unknownNodeType typeName)
  | _ => none

/-- The top-level declaration as the generator leaves it. -/
def TemplateFileNode.lifted (i : Int) : TemplateFileNode → TemplateFileNode
  | .HTMLTemplate t => .HTMLTemplate (t.lifted i)
  | n => n

/-- The pieces that the generator writes for the top-level declarations: the
pieces of the declarations up to the first one with an error. -/
def declarationPieces (env : Env) : Int → List TemplateFileNode → List Piece
  | _, [] => []
  | i, n :: rest =>
    n.pieces env i
      ++ (if n.error ≠ none then [] else declarationPieces env (i + n.names) rest)

/-- The number of variable names the generator takes for the top-level
declarations. -/
def declarationNames : List TemplateFileNode → Int
  | [] => 0
  | n :: rest => n.names + (if n.error ≠ none then 0 else declarationNames rest)

/-- The error that the generator returns for the top-level declarations: the
first one. -/
def declarationError : List TemplateFileNode → error
  | [] => none
  | n :: rest => if n.error ≠ none then n.error else declarationError rest

/-- The top-level declarations as the generator leaves them: the ones after
the first error are the ones of the input. -/
def declarationsLifted : Int → List TemplateFileNode → List TemplateFileNode
  | _, [] => []
  | i, n :: rest =>
    n.lifted i :: (if n.error ≠ none then rest else declarationsLifted (i + n.names) rest)

/-- The pieces of the import block. -/
def importPieces (tf : TemplateFile) : List Piece :=
  [.plain 0 "import \"github.com/a-h/templ\"\n" []]
    ++ (if tf.Nodes.any TemplateFileNode.isHTMLTemplate then
          [.plain 0 "import \"context\"\n" [], .plain 0 "import \"io\"\n" [],
           .plain 0 "import \"bufio\"\n" []]
        else [])
    ++ (if tf.Nodes.any TemplateFileNode.isCSSTemplate then [.plain 0 "import \"strings\"\n" []]
        else [])
    ++ tf.Imports.map (fun im => .plain 0 ("import " ++ im.Expression.Value ++ "\n")
        [im.Expression])
    ++ [.plain 0 "\n" []]

/-- The pieces that the generator writes for a template file, on a sink that
accepts all writes: the comment, the package, the import block and the
top-level declarations. -/
def TemplateFile.pieces (env : Env) (tf : TemplateFile) : List Piece :=
  [.plain 0 ("// Code generated by templ@" ++ getVersion env ++ " DO NOT EDIT.\n\n") [],
   .plain 0 ("package " ++ tf.Package.Expression.Value ++ "\n\n") [tf.Package.Expression],
   .plain 0
     "//lint:file-ignore SA4006 This context is only used if a nested component is present.\n\n"
     []]
    ++ importPieces tf
    ++ declarationPieces env 0 tf.Nodes

/-- The template file as the generator leaves it on a sink that accepts all
writes. -/
def TemplateFile.lifted (tf : TemplateFile) : TemplateFile :=
  { tf with Nodes := declarationsLifted 0 tf.Nodes }

/-! ## The temporaries that the generated text declares -/

/-- The name of the temporary that a statement declares, if it declares one:
the statement begins with `var var_`, and the name is the word after `var `, or
it begins with `var_`, and the name is its first word. -/
def temporaryName (code : String) : Option String :=
  if strings.HasPrefix code "var var_" then
    some (String.mk ((code.data.drop 4).takeWhile (fun c => c != ' ')))
  else if strings.HasPrefix code "var_" then
    some (String.mk (code.data.takeWhile (fun c => c != ' ')))
  else none

/-- The name of the temporary that a piece declares, if it declares one. -/
def Piece.temporary : Piece → Option String
  | .assign _ code _ => temporaryName code
  | .check _ => none
  | .plain _ code _ => temporaryName code

/-- The names of the temporaries that a list of pieces declares, in the order
of the pieces. -/
def temporaries (ps : List Piece) : List String := ps.filterMap Piece.temporary

/-- Whether a text begins with a character other than `v`. -/
def notVar (code : String) : Bool :=
  match code.data with
  | c :: _ => c != 'v'
  | [] => false

/-- The names `var_(i+1)`, …, `var_j`. -/
def namesBetween (i j : Int) : List String :=
  (List.range (j - i).toNat).map (fun k : Nat => varName (i + 1 + (k : Int)))

/-- The pieces declare the temporaries `var_(i+1)`, …, `var_j`, in this
order, and no others. -/
def Declares (ps : List Piece) (i j : Int) : Prop :=
  i ≤ j ∧ temporaries ps = namesBetween i j

/-- The body `<div class={ x }></div>hi`: an element with a class attribute
and a text. -/
def classThenText : List Node := [.Element classElement, .Text ⟨"hi"⟩]

/-! ## The expressions that the source map records -/

/-- The expressions `es` are recorded from the expressions `xs`: up to their
order they are occurrences of expressions of `xs`, each occurrence taken at
most once, and expressions `var_N.String()` that `writeElementCSS` has put in
the place of the expression of a `class` attribute. -/
def Records (es xs : List Expression) : Prop :=
  ∃ ins syn : List Expression, es.Perm (ins ++ syn) ∧ ins.Subperm xs ∧ ∀ e ∈ syn, synthesized e

/-! ## Template files that the generator goes through to the end -/

mutual

/-- Whether the generator goes through the whole node: no element at or below
it has an attribute of unknown kind, and no void element has children. -/
def Node.regular : Node → Bool
  | .Element n =>
    decide (attributeError n.Attributes = none)
      && (if n.Void then n.Children.isEmpty else Node.listRegular n.Children)
  | .ForExpression n => Node.listRegular n.Children
  | .IfExpression n => Node.listRegular n.Then && Node.listRegular n.Else
  | .SwitchExpression n => Node.casesRegular n.Cases && Node.listRegular n.Default
  | _ => true

/-- Whether the generator goes through all the nodes of a list. -/
def Node.listRegular : List Node → Bool
  | [] => true
  | node :: rest => Node.regular node && Node.listRegular rest

/-- Whether the generator goes through all the cases of a switch. -/
def Node.casesRegular : List CaseExpression → Bool
  | [] => true
  | c :: rest => Node.listRegular c.Children && Node.casesRegular rest

end

/-- Whether the generator goes through the whole top-level declaration. -/
def TemplateFileNode.regular : TemplateFileNode → Bool
  | .HTMLTemplate t => Node.listRegular t.Children
  | .CSSTemplate n => decide (propertyError n.Properties = none)
  | .ScriptTemplate _ => true
  | .Other _ => false

/-- Whether the generator goes through the whole template file: no
declaration, property or attribute is of unknown kind, and no void element has
children. -/
def TemplateFile.regular (tf : TemplateFile) : Bool := tf.Nodes.all TemplateFileNode.regular

/-- The expressions `es` are the expressions `xs`, each occurrence once, and
expressions `var_N.String()` that `writeElementCSS` has put in the place of
the expression of a `class` attribute, up to their order. -/
def Covers (es xs : List Expression) : Prop :=
  ∃ syn : List Expression, es.Perm (xs ++ syn) ∧ ∀ e ∈ syn, synthesized e

/-! ## The expressions of a piece are written in it -/

/-- The texts `vs` occur in `code`, one after the other. -/
def occurIn : List String → String → Prop
  | [], _ => True
  | v :: vs, code => ∃ a b : String, code = a ++ v ++ b ∧ occurIn vs b

/-- The texts of the expressions that are recorded with a piece occur in its
code, in the order in which they are recorded. -/
def Piece.sourced : Piece → Prop
  | .assign _ code sources => occurIn (sources.map (fun e => e.Value)) code
  | .check _ => True
  | .plain _ code sources => occurIn (sources.map (fun e => e.Value)) code

/-- Every piece of the list holds the texts of the expressions recorded with
it. -/
def Sourced (ps : List Piece) : Prop := ∀ p ∈ ps, p.sourced

/-! ## The AST up to the expressions of the `class` attributes that are lifted -/

mutual

/-- The node with the expression of every expression attribute named `class`
of an element that is not void blanked. -/
def Node.eraseLifted : Node → Node
  | .DocType n => .DocType n
  | .Element n =>
    .Element { n with
      Attributes := if n.Void then n.Attributes else n.Attributes.map Attribute.eraseClass,
      Children := Node.eraseLiftedList n.Children }
  | .ForExpression n => .ForExpression { n with Children := Node.eraseLiftedList n.Children }
  | .CallTemplateExpression n => .CallTemplateExpression n
  | .IfExpression n =>
    .IfExpression { n with Then := Node.eraseLiftedList n.Then,
                           Else := Node.eraseLiftedList n.Else }
  | .SwitchExpression n =>
    .SwitchExpression { n with Cases := Node.eraseLiftedCases n.Cases,
                               Default := Node.eraseLiftedList n.Default }
  | .StringExpression n => .StringExpression n
  | .Whitespace n => .Whitespace n
  | .Text n => .Text n
  | .Other typeName => .Other typeName

/-- `Node.eraseLifted` on the nodes of a list. -/
def Node.eraseLiftedList : List Node → List Node
  | [] => []
  | n :: rest => Node.eraseLifted n :: Node.eraseLiftedList rest

/-- `Node.eraseLifted` on the nodes of the cases of a switch. -/
def Node.eraseLiftedCases : List CaseExpression → List CaseExpression
  | [] => []
  | c :: rest =>
    { c with Children := Node.eraseLiftedList c.Children } :: Node.eraseLiftedCases rest

end

/-- `Node.eraseLifted` on the body of a top-level declaration. -/
def TemplateFileNode.eraseLifted : TemplateFileNode → TemplateFileNode
  | .HTMLTemplate n => .HTMLTemplate { n with Children := Node.eraseLiftedList n.Children }
  | n => n

/-- The template file with the expression of every expression attribute named
`class` of an element that is not void blanked. -/
def TemplateFile.eraseLifted (tf : TemplateFile) : TemplateFile :=
  { tf with Nodes := tf.Nodes.map TemplateFileNode.eraseLifted }

/-! # Theorems -/

/-! ## Facts about RangeWriter -/

theorem colAfter_cons (col : Int) (c : Char) (cs : List Char) :
    colAfter ((if c = '\n' then 0 else col) + 1) cs = colAfter col (c :: cs) := by
  unfold colAfter runesAfterLastNewline
  by_cases hcs : '\n' ∈ cs
  · have h1 : '\n' ∈ c :: cs := List.mem_cons_of_mem _ hcs
    have h2 : ((c :: cs).reverse.takeWhile (fun c => c != '\n'))
        = (cs.reverse.takeWhile (fun c => c != '\n')) := by
      rw [List.reverse_cons, List.takeWhile_append]
      have : (cs.reverse.takeWhile (fun c => c != '\n')).length ≠ cs.reverse.length := by
        intro h
        have h3 := List.takeWhile_eq_self_iff.mp (List.IsPrefix.eq_of_length
          (List.takeWhile_prefix _) h)
        have := h3 '\n' (List.mem_reverse.mpr hcs)
        simp at this
      rw [if_neg this]
    simp only [hcs, h1, if_true, h2]
  · by_cases hc : c = '\n'
    · subst hc
      have h2 : (('\n' :: cs).reverse.takeWhile (fun c => c != '\n')) = cs.reverse := by
        rw [List.reverse_cons, List.takeWhile_append]
        have h3 : cs.reverse.takeWhile (fun c => c != '\n') = cs.reverse := by
          apply List.takeWhile_eq_self_iff.mpr
          intro x hx
          have : x ≠ '\n' := fun h => hcs (h ▸ List.mem_reverse.mp hx)
          simpa using this
        simp [h3]
      simp only [hcs, if_false, List.mem_cons, true_or, if_true, h2, List.length_reverse]
      omega
    · have h1 : ¬ '\n' ∈ c :: cs := by
        simp only [List.mem_cons, not_or]
        exact ⟨fun h => hc h.symm, hcs⟩
      simp only [hcs, h1, if_false, hc, List.length_cons]
      push_cast
      omega

theorem colAfter_nil (col : Int) : colAfter col [] = col := by
  simp [colAfter]

/-- One turn of the rune loop on a sink that accepts all writes. -/
theorem writeRunes_cons_accepts (c : Char) (cs : List Char) (rw : RangeWriter)
    (h : rw.w.accepts) :
    rw.writeRunes (c :: cs) = RangeWriter.writeRunes
      { Current := { Index := rw.Current.Index + (c.utf8Size : Int),
                     Line := if c = '\n' then rw.Current.Line + 1 else rw.Current.Line,
                     Col := (if c = '\n' then 0 else rw.Current.Col) + 1 },
        w := { out := rw.w.out ++ String.singleton c, calls := rw.w.calls + 1,
               fail := rw.w.fail } } cs := by
  have hf : rw.w.fail rw.w.calls = none := h _
  have hs : String.utf8ByteSize (String.singleton c) = c.utf8Size := by
    show String.utf8ByteSize ⟨[c]⟩ = c.utf8Size
    simp
  simp only [RangeWriter.writeRunes, Sink.WriteString, hf, hs]
  by_cases hc : c = '\n' <;> simp [hc]

/-- What the rune loop does on a sink that accepts all writes. -/
theorem writeRunes_accepts (cs : List Char) (rw : RangeWriter) (h : rw.w.accepts) :
    (rw.writeRunes cs).2 = none ∧
    (rw.writeRunes cs).1.w.out = rw.w.out ++ String.mk cs ∧
    (rw.writeRunes cs).1.w.fail = rw.w.fail ∧
    (rw.writeRunes cs).1.w.calls = rw.w.calls + cs.length ∧
    (rw.writeRunes cs).1.Current.Index = rw.Current.Index + (String.utf8Len cs : Int) ∧
    (rw.writeRunes cs).1.Current.Line = rw.Current.Line + (cs.count '\n' : Int) ∧
    (rw.writeRunes cs).1.Current.Col = colAfter rw.Current.Col cs := by
  induction cs generalizing rw with
  | nil =>
    refine ⟨rfl, ?_, rfl, rfl, ?_, ?_, ?_⟩
    · show rw.w.out = rw.w.out ++ ""
      simp
    · simp [RangeWriter.writeRunes]
    · simp [RangeWriter.writeRunes]
    · simp [RangeWriter.writeRunes, colAfter_nil]
  | cons c cs ih =>
    rw [writeRunes_cons_accepts c cs rw h]
    obtain ⟨h1, h2, h3, h4, h5, h6, h7⟩ := ih
      { Current := { Index := rw.Current.Index + (c.utf8Size : Int),
                     Line := if c = '\n' then rw.Current.Line + 1 else rw.Current.Line,
                     Col := (if c = '\n' then 0 else rw.Current.Col) + 1 },
        w := { out := rw.w.out ++ String.singleton c, calls := rw.w.calls + 1,
               fail := rw.w.fail } } h
    refine ⟨h1, ?_, ?_, ?_, ?_, ?_, ?_⟩
    · rw [h2]
      apply String.ext
      simp [String.singleton]
    · rw [h3]
    · rw [h4]
      simp only [List.length_cons]
      omega
    · rw [h5]
      simp only [String.utf8Len_cons]
      push_cast
      omega
    · rw [h6]
      by_cases hc : c = '\n'
      · subst hc
        simp only [if_true, List.count_cons_self]
        push_cast
        omega
      · have : List.count '\n' (c :: cs) = List.count '\n' cs := by
          rw [List.count_cons_of_ne (fun h => hc h.symm)]
        simp [hc, this]
    · rw [h7, ← colAfter_cons]

/-- What `Write` does on a sink that accepts all writes, in one statement. -/
theorem Write_accepts (rw : RangeWriter) (s : String) (h : rw.w.accepts) :
    rw.Write s =
      ((rw.writeRunes s.data).1, ⟨rw.Current, (rw.writeRunes s.data).1.Current⟩, none) := by
  have h1 := (writeRunes_accepts s.data rw h).1
  unfold RangeWriter.Write
  generalize rw.writeRunes s.data = x at h1
  obtain ⟨rw1, err⟩ := x
  simp only at h1
  subst h1
  rfl

/-- C1: on a sink that accepts all writes, `Write(s)` returns no error, appends
exactly `s` to the sink, and returns the range from the cursor before the call
to the cursor after it; the index has grown by the UTF-8 byte length of `s`,
the line by the number of newlines of `s`, and the column is the previous
column plus the number of runes of `s` when `s` has no newline, and one plus
the number of runes after the last newline otherwise. -/
theorem RangeWriter.Write_spec (rw : RangeWriter) (s : String) (h : rw.w.accepts) :
    (rw.Write s).2.2 = none ∧
    (rw.Write s).1.w.out = rw.w.out ++ s ∧
    (rw.Write s).2.1.From = rw.Current ∧
    (rw.Write s).2.1.To = (rw.Write s).1.Current ∧
    (rw.Write s).1.Current.Index = rw.Current.Index + (s.utf8ByteSize : Int) ∧
    (rw.Write s).1.Current.Line = rw.Current.Line + (s.data.count '\n' : Int) ∧
    (rw.Write s).1.Current.Col =
      (if '\n' ∈ s.data then 1 + ((s.data.reverse.takeWhile (fun c => c != '\n')).length : Int)
       else rw.Current.Col + (s.length : Int)) := by
  obtain ⟨_, h2, _, _, h5, h6, h7⟩ := writeRunes_accepts s.data rw h
  rw [Write_accepts rw s h]
  refine ⟨rfl, h2, rfl, rfl, ?_, h6, ?_⟩
  · rw [h5]
    cases s
    rfl
  · rw [h7]
    rfl

/-- C1 at the text `a`, newline, `bc`, written at byte 10, line 3, column 7. -/
theorem RangeWriter.Write_spec_witness :
    Sink.accepts ⟨"x", 0, fun _ => none⟩ ∧
    (RangeWriter.Write ⟨⟨10, 3, 7⟩, ⟨"x", 0, fun _ => none⟩⟩ "a\nbc").1.w.out = "x" ++ "a\nbc" ∧
    (RangeWriter.Write ⟨⟨10, 3, 7⟩, ⟨"x", 0, fun _ => none⟩⟩ "a\nbc").2.1.From = ⟨10, 3, 7⟩ ∧
    (RangeWriter.Write ⟨⟨10, 3, 7⟩, ⟨"x", 0, fun _ => none⟩⟩ "a\nbc").2.1.To = ⟨14, 4, 3⟩ :=
  have h := RangeWriter.Write_spec ⟨⟨10, 3, 7⟩, ⟨"x", 0, fun _ => none⟩⟩ "a\nbc" (fun _ => rfl)
  ⟨fun _ => rfl, h.2.1, h.2.2.1, by decide⟩

/-! ## Hoare rules -/

theorem Triple.pure {α : Type} {P : generator → Prop} {Q : α → generator → Prop} (a : α)
    (h : ∀ g, P g → Q a g) : Triple P (Pure.pure a : Gen α) Q := ⟨fun g hg => h g hg⟩

theorem Triple.pure_bind {α β : Type} {P : generator → Prop} {Q : β → generator → Prop} (a : α)
    {f : α → Gen β} (h : Triple P (f a) Q) : Triple P (Pure.pure a >>= f) Q := ⟨h.run⟩

theorem Triple.bind {α β : Type} {P : generator → Prop} {R : α → generator → Prop}
    {Q : β → generator → Prop} {m : Gen α} {f : α → Gen β}
    (h1 : Triple P m R) (h2 : ∀ a, Triple (R a) (f a) Q) : Triple P (m >>= f) Q :=
  ⟨fun g hg => (h2 (m g).1).run (m g).2 (h1.run g hg)⟩

theorem Triple.ite {α : Type} {P : generator → Prop} {Q : α → generator → Prop} {c : Prop}
    [Decidable c] {a b : Gen α} (ha : c → Triple P a Q) (hb : ¬ c → Triple P b Q) :
    Triple P (if c then a else b) Q := by
  by_cases h : c
  · simpa [h] using ha h
  · simpa [h] using hb h

theorem Triple.conseq {α : Type} {P P' : generator → Prop} {Q Q' : α → generator → Prop}
    {m : Gen α} (h : Triple P' m Q') (hP : ∀ g, P g → P' g) (hQ : ∀ a g, Q' a g → Q a g) :
    Triple P m Q := ⟨fun g hg => hQ _ _ (h.run g (hP g hg))⟩

section reach
variable {A : Expression → Prop} {g0 : generator}

theorem Triple.pre_pure {α : Type} {φ : Prop} {Q : α → generator → Prop} {m : Gen α}
    (h : φ → Triple (Inv A g0 (fun _ => True)) m Q) : Triple (InvP A g0 φ) m Q :=
  ⟨fun g hg => (h hg.2).run g ⟨hg.1, trivial⟩⟩

theorem inv_weaken {F : generator → Prop} (g : generator) (h : Inv A g0 F g) :
    Inv A g0 (fun _ => True) g := ⟨h.1, trivial⟩

theorem triple_write {F : generator → Prop} (s : String) :
    Triple (Inv A g0 F) (Gen.Write s)
      (fun a => Inv A g0 (fun g => a.2 = none → Just A g0 a.1 s g)) := by
  refine ⟨fun g hg => ?_⟩
  refine ⟨Reach.write s hg.1, fun h => ⟨g, hg.1, ?_⟩⟩
  apply Prod.ext
  · exact Prod.ext rfl h
  · rfl

theorem reach_writeIndent (level : Nat) (s : String) {g : generator} (h : Reach A g0 g) :
    Reach A g0 (Gen.WriteIndent level s g).2 := by
  have h1 := Reach.write (String.mk (List.replicate level '\t')) h
  have h2 := Reach.write s h1
  unfold Gen.WriteIndent RangeWriter.WriteIndent
  unfold Gen.Write at h1 h2
  generalize hw : g.w.Write (String.mk (List.replicate level '\t')) = x at h1 h2
  obtain ⟨rw, r, err⟩ := x
  cases err with
  | none => exact h2
  | some e => exact h1

theorem triple_writeIndent {F : generator → Prop} (level : Nat) (s : String) :
    Triple (Inv A g0 F) (Gen.WriteIndent level s) (fun _ => Inv A g0 (fun _ => True)) :=
  ⟨fun _ hg => ⟨reach_writeIndent level s hg.1, trivial⟩⟩

theorem triple_add {r : Range} {err : error} {e : Expression} (herr : ¬ err ≠ none)
    (hA : A e) :
    Triple (Inv A g0 (fun g => err = none → Just A g0 r e.Value g)) (Gen.sourceMapAdd e r)
      (fun _ => Inv A g0 (fun _ => True)) := by
  refine ⟨fun g hg => ?_⟩
  obtain ⟨g1, hg1, hw⟩ := hg.2 (not_not.mp herr)
  refine ⟨?_, trivial⟩
  have := Reach.add e r hg1 (by rw [hw]) hA
  rw [hw] at this
  exact this

theorem triple_var {F : generator → Prop} :
    Triple (Inv A g0 F) generator.createVariableName (fun _ => Inv A g0 (fun _ => True)) :=
  ⟨fun _ hg => ⟨Reach.var hg.1, trivial⟩⟩

theorem Reach.tf_eq {g : generator} (h : Reach A g0 g) : g.tf = g0.tf := by
  induction h with
  | refl => rfl
  | write s _ ih => exact ih
  | add e r _ _ _ ih => exact ih
  | var _ ih => exact ih

theorem triple_tf {F : generator → Prop} :
    Triple (Inv A g0 F) Gen.tf (fun a => InvP A g0 (a = g0.tf)) :=
  ⟨fun _ hg => ⟨hg.1, hg.1.tf_eq⟩⟩

theorem Keeps.triple {α : Type} {m : Gen α} (h : Keeps A m) {F : generator → Prop} :
    Triple (Inv A g0 F) m (fun _ => Inv A g0 (fun _ => True)) := h g0 F

end reach

/-! ## Every method keeps the generator within reach -/

section keeps
variable {A : Expression → Prop}

theorem writeErrorHandler_keeps (indentLevel : Nat) :
    Keeps A (generator.writeErrorHandler indentLevel) := by
  intro g0 F
  unfold generator.writeErrorHandler
  with_reducible repeat (first
    | exact Triple.pure _ inv_weaken
    | refine Triple.pure_bind _ ?_
    | refine Triple.bind (triple_writeIndent _ _) ?_
    | refine Triple.ite ?_ ?_
    | intro _
    | rintro ⟨_, _⟩
    | dsimp only)

theorem writeCodeGeneratedComment_keeps (env : Env) :
    Keeps A (generator.writeCodeGeneratedComment env) := by
  intro g0 F
  unfold generator.writeCodeGeneratedComment
  with_reducible repeat (first
    | exact Triple.pure _ inv_weaken
    | exact Keeps.triple (by assumption)
    | refine Triple.pure_bind _ ?_
    | refine Triple.pre_pure (fun _ => ?_)
    | refine Triple.bind (triple_add (by assumption) (by assumption)) ?_
    | refine Triple.bind (triple_write _) ?_
    | refine Triple.bind (triple_writeIndent _ _) ?_
    | refine Triple.bind triple_var ?_
    | refine Triple.bind triple_tf ?_
    | refine Triple.bind (writeErrorHandler_keeps _).triple ?_
    | refine Triple.bind (Keeps.triple (by assumption)) ?_
    | refine Triple.ite ?_ ?_
    | intro _
    | rintro ⟨_, _⟩
    | dsimp only)

theorem writePackage_keeps (g0 : generator) (h : A g0.tf.Package.Expression)
    (F : generator → Prop) :
    Triple (Inv A g0 F) generator.writePackage (fun _ => Inv A g0 (fun _ => True)) := by
  unfold generator.writePackage
  refine Triple.bind triple_tf ?_
  intro tf
  refine Triple.pre_pure (fun htf => ?_)
  subst htf
  with_reducible repeat (first
    | exact Triple.pure _ inv_weaken
    | exact Keeps.triple (by assumption)
    | refine Triple.pure_bind _ ?_
    | refine Triple.pre_pure (fun _ => ?_)
    | refine Triple.bind (triple_add (by assumption) (by assumption)) ?_
    | refine Triple.bind (triple_write _) ?_
    | refine Triple.bind (triple_writeIndent _ _) ?_
    | refine Triple.bind triple_var ?_
    | refine Triple.bind triple_tf ?_
    | refine Triple.bind (writeErrorHandler_keeps _).triple ?_
    | refine Triple.bind (Keeps.triple (by assumption)) ?_
    | refine Triple.ite ?_ ?_
    | intro _
    | rintro ⟨_, _⟩
    | dsimp only)

theorem templateNodeInfo_keeps : Keeps A generator.templateNodeInfo := by
  intro g0 F
  unfold generator.templateNodeInfo
  with_reducible repeat (first
    | exact Triple.pure _ inv_weaken
    | exact Keeps.triple (by assumption)
    | refine Triple.pure_bind _ ?_
    | refine Triple.pre_pure (fun _ => ?_)
    | refine Triple.bind (triple_add (by assumption) (by assumption)) ?_
    | refine Triple.bind (triple_write _) ?_
    | refine Triple.bind (triple_writeIndent _ _) ?_
    | refine Triple.bind triple_var ?_
    | refine Triple.bind triple_tf ?_
    | refine Triple.bind (writeErrorHandler_keeps _).triple ?_
    | refine Triple.bind (Keeps.triple (by assumption)) ?_
    | refine Triple.ite ?_ ?_
    | intro _
    | rintro ⟨_, _⟩
    | dsimp only)

theorem writeImports_loop_keeps (imports : List Import) (h : ∀ im ∈ imports, A im.Expression) :
    Keeps A (generator.writeImports.loop imports) := by
  induction imports with
  | nil =>
    intro g0 F
    unfold generator.writeImports.loop
    exact Triple.pure _ inv_weaken
  | cons im rest ih =>
    have hA : A im.Expression := h im (List.mem_cons_self _ _)
    have ih' := ih (fun x hx => h x (List.mem_cons_of_mem _ hx))
    intro g0 F
    unfold generator.writeImports.loop
    with_reducible repeat (first
      | exact ih'.triple
      | exact Triple.pure _ inv_weaken
      | refine Triple.pure_bind _ ?_
      | refine Triple.bind (triple_add (by assumption) (by assumption)) ?_
      | refine Triple.bind (triple_write _) ?_
      | refine Triple.ite ?_ ?_
      | intro _
      | rintro ⟨_, _⟩
      | dsimp only)

theorem writeImports_keeps (g0 : generator) (h : ∀ im ∈ g0.tf.Imports, A im.Expression)
    (F : generator → Prop) :
    Triple (Inv A g0 F) generator.writeImports (fun _ => Inv A g0 (fun _ => True)) := by
  unfold generator.writeImports
  refine Triple.bind triple_tf ?_
  intro tf
  refine Triple.pre_pure (fun htf => ?_)
  subst htf
  have h1 := writeImports_loop_keeps g0.tf.Imports h
  have h2 : Keeps A generator.templateNodeInfo := templateNodeInfo_keeps
  with_reducible repeat (first
    | exact Triple.pure _ inv_weaken
    | exact Keeps.triple (by assumption)
    | refine Triple.pure_bind _ ?_
    | refine Triple.pre_pure (fun _ => ?_)
    | refine Triple.bind (triple_add (by assumption) (by assumption)) ?_
    | refine Triple.bind (triple_write _) ?_
    | refine Triple.bind (triple_writeIndent _ _) ?_
    | refine Triple.bind triple_var ?_
    | refine Triple.bind triple_tf ?_
    | refine Triple.bind (writeErrorHandler_keeps _).triple ?_
    | refine Triple.bind (Keeps.triple (by assumption)) ?_
    | refine Triple.ite ?_ ?_
    | intro _
    | rintro ⟨_, _⟩
    | dsimp only)

theorem writeCSS_property_keeps (env : Env) (indentLevel : Nat) (p : CSSProperty)
    (h : ∀ e ∈ p.exprs, A e) :
    Keeps A (generator.writeCSS.property env indentLevel p) := by
  intro g0 F
  cases p with
  | ConstantCSSProperty name value =>
    unfold generator.writeCSS.property
    with_reducible repeat (first
      | exact Triple.pure _ inv_weaken
      | exact Keeps.triple (by assumption)
      | refine Triple.pure_bind _ ?_
      | refine Triple.pre_pure (fun _ => ?_)
      | refine Triple.bind (triple_add (by assumption) (by assumption)) ?_
      | refine Triple.bind (triple_write _) ?_
      | refine Triple.bind (triple_writeIndent _ _) ?_
      | refine Triple.bind triple_var ?_
      | refine Triple.bind triple_tf ?_
      | refine Triple.bind (writeErrorHandler_keeps _).triple ?_
      | refine Triple.bind (Keeps.triple (by assumption)) ?_
      | refine Triple.ite ?_ ?_
      | intro _
      | rintro ⟨_, _⟩
      | dsimp only)
  | ExpressionCSSProperty name value =>
    have hA : A value.Expression := h _ (by simp [CSSProperty.exprs])
    unfold generator.writeCSS.property
    with_reducible repeat (first
      | exact Triple.pure _ inv_weaken
      | exact Keeps.triple (by assumption)
      | refine Triple.pure_bind _ ?_
      | refine Triple.pre_pure (fun _ => ?_)
      | refine Triple.bind (triple_add (by assumption) (by assumption)) ?_
      | refine Triple.bind (triple_write _) ?_
      | refine Triple.bind (triple_writeIndent _ _) ?_
      | refine Triple.bind triple_var ?_
      | refine Triple.bind triple_tf ?_
      | refine Triple.bind (writeErrorHandler_keeps _).triple ?_
      | refine Triple.bind (Keeps.triple (by assumption)) ?_
      | refine Triple.ite ?_ ?_
      | intro _
      | rintro ⟨_, _⟩
      | dsimp only)
  | Other typeName =>
    unfold generator.writeCSS.property
    exact Triple.pure _ inv_weaken

theorem writeCSS_loop_keeps (env : Env) (indentLevel : Nat) (props : List CSSProperty)
    (h : ∀ e ∈ props.flatMap CSSProperty.exprs, A e) :
    Keeps A (generator.writeCSS.loop env indentLevel props) := by
  induction props with
  | nil =>
    intro g0 F
    unfold generator.writeCSS.loop
    exact Triple.pure _ inv_weaken
  | cons p rest ih =>
    have ih' := ih (fun e he => h e (by
      rw [List.flatMap_cons]
      exact List.mem_append_right _ he))
    have hp := writeCSS_property_keeps env indentLevel p (fun e he => h e (by
      rw [List.flatMap_cons]
      exact List.mem_append_left _ he))
    intro g0 F
    unfold generator.writeCSS.loop
    with_reducible repeat (first
      | exact ih'.triple
      | exact Triple.pure _ inv_weaken
      | refine Triple.pure_bind _ ?_
      | refine Triple.bind hp.triple ?_
      | refine Triple.ite ?_ ?_
      | intro _
      | dsimp only)

theorem writeCSS_keeps (env : Env) (n : CSSTemplate)
    (h : ∀ e ∈ TemplateFileNode.exprs (.CSSTemplate n), A e) :
    Keeps A (generator.writeCSS env n) := by
  have hA : A n.Name := h _ (by simp [TemplateFileNode.exprs])
  have h1 := writeCSS_loop_keeps env 1 n.Properties (fun e he => h e (by
    simp only [TemplateFileNode.exprs, List.mem_cons]
    exact Or.inr he))
  intro g0 F
  unfold generator.writeCSS
  with_reducible repeat (first
    | exact Triple.pure _ inv_weaken
    | exact Keeps.triple (by assumption)
    | refine Triple.pure_bind _ ?_
    | refine Triple.pre_pure (fun _ => ?_)
    | refine Triple.bind (triple_add (by assumption) (by assumption)) ?_
    | refine Triple.bind (triple_write _) ?_
    | refine Triple.bind (triple_writeIndent _ _) ?_
    | refine Triple.bind triple_var ?_
    | refine Triple.bind triple_tf ?_
    | refine Triple.bind (writeErrorHandler_keeps _).triple ?_
    | refine Triple.bind (Keeps.triple (by assumption)) ?_
    | refine Triple.ite ?_ ?_
    | intro _
    | rintro ⟨_, _⟩
    | dsimp only)

theorem writeDocType_keeps (indentLevel : Nat) (n : DocType) :
    Keeps A (generator.writeDocType indentLevel n) := by
  intro g0 F
  unfold generator.writeDocType
  with_reducible repeat (first
    | exact Triple.pure _ inv_weaken
    | exact Keeps.triple (by assumption)
    | refine Triple.pure_bind _ ?_
    | refine Triple.pre_pure (fun _ => ?_)
    | refine Triple.bind (triple_add (by assumption) (by assumption)) ?_
    | refine Triple.bind (triple_write _) ?_
    | refine Triple.bind (triple_writeIndent _ _) ?_
    | refine Triple.bind triple_var ?_
    | refine Triple.bind triple_tf ?_
    | refine Triple.bind (writeErrorHandler_keeps _).triple ?_
    | refine Triple.bind (Keeps.triple (by assumption)) ?_
    | refine Triple.ite ?_ ?_
    | intro _
    | rintro ⟨_, _⟩
    | dsimp only)

theorem writeCallTemplateExpression_keeps (indentLevel : Nat) (n : CallTemplateExpression)
    (hA : A n.Expression) :
    Keeps A (generator.writeCallTemplateExpression indentLevel n) := by
  intro g0 F
  unfold generator.writeCallTemplateExpression
  with_reducible repeat (first
    | exact Triple.pure _ inv_weaken
    | exact Keeps.triple (by assumption)
    | refine Triple.pure_bind _ ?_
    | refine Triple.pre_pure (fun _ => ?_)
    | refine Triple.bind (triple_add (by assumption) (by assumption)) ?_
    | refine Triple.bind (triple_write _) ?_
    | refine Triple.bind (triple_writeIndent _ _) ?_
    | refine Triple.bind triple_var ?_
    | refine Triple.bind triple_tf ?_
    | refine Triple.bind (writeErrorHandler_keeps _).triple ?_
    | refine Triple.bind (Keeps.triple (by assumption)) ?_
    | refine Triple.ite ?_ ?_
    | intro _
    | rintro ⟨_, _⟩
    | dsimp only)

theorem writeStringExpression_keeps (indentLevel : Nat) (e : Expression) (hA : A e) :
    Keeps A (generator.writeStringExpression indentLevel e) := by
  intro g0 F
  unfold generator.writeStringExpression
  with_reducible repeat (first
    | exact Triple.pure _ inv_weaken
    | exact Keeps.triple (by assumption)
    | refine Triple.pure_bind _ ?_
    | refine Triple.pre_pure (fun _ => ?_)
    | refine Triple.bind (triple_add (by assumption) (by assumption)) ?_
    | refine Triple.bind (triple_write _) ?_
    | refine Triple.bind (triple_writeIndent _ _) ?_
    | refine Triple.bind triple_var ?_
    | refine Triple.bind triple_tf ?_
    | refine Triple.bind (writeErrorHandler_keeps _).triple ?_
    | refine Triple.bind (Keeps.triple (by assumption)) ?_
    | refine Triple.ite ?_ ?_
    | intro _
    | rintro ⟨_, _⟩
    | dsimp only)

theorem writeText_keeps (indentLevel : Nat) (e : Text) :
    Keeps A (generator.writeText indentLevel e) := by
  intro g0 F
  unfold generator.writeText
  with_reducible repeat (first
    | exact Triple.pure _ inv_weaken
    | exact Keeps.triple (by assumption)
    | refine Triple.pure_bind _ ?_
    | refine Triple.pre_pure (fun _ => ?_)
    | refine Triple.bind (triple_add (by assumption) (by assumption)) ?_
    | refine Triple.bind (triple_write _) ?_
    | refine Triple.bind (triple_writeIndent _ _) ?_
    | refine Triple.bind triple_var ?_
    | refine Triple.bind triple_tf ?_
    | refine Triple.bind (writeErrorHandler_keeps _).triple ?_
    | refine Triple.bind (Keeps.triple (by assumption)) ?_
    | refine Triple.ite ?_ ?_
    | intro _
    | rintro ⟨_, _⟩
    | dsimp only)

theorem writeElementScript_keeps (indentLevel : Nat) (n : Element) :
    Keeps A (generator.writeElementScript indentLevel n) := by
  intro g0 F
  unfold generator.writeElementScript
  with_reducible repeat (first
    | exact Triple.pure _ inv_weaken
    | exact Keeps.triple (by assumption)
    | refine Triple.pure_bind _ ?_
    | refine Triple.pre_pure (fun _ => ?_)
    | refine Triple.bind (triple_add (by assumption) (by assumption)) ?_
    | refine Triple.bind (triple_write _) ?_
    | refine Triple.bind (triple_writeIndent _ _) ?_
    | refine Triple.bind triple_var ?_
    | refine Triple.bind triple_tf ?_
    | refine Triple.bind (writeErrorHandler_keeps _).triple ?_
    | refine Triple.bind (Keeps.triple (by assumption)) ?_
    | refine Triple.ite ?_ ?_
    | intro _
    | rintro ⟨_, _⟩
    | dsimp only)

set_option maxRecDepth 8192 in
theorem writeElementAttributes_attribute_keeps (indentLevel : Nat) (n : Element)
    (attr : Attribute) (h : ∀ e ∈ attr.exprs, A e) :
    Keeps A (generator.writeElementAttributes.attribute indentLevel n attr) := by
  intro g0 F
  cases attr with
  | BoolConstantAttribute attrName =>
    unfold generator.writeElementAttributes.attribute
    with_reducible repeat (first
      | exact Triple.pure _ inv_weaken
      | exact Keeps.triple (by assumption)
      | refine Triple.pure_bind _ ?_
      | refine Triple.pre_pure (fun _ => ?_)
      | refine Triple.bind (triple_add (by assumption) (by assumption)) ?_
      | refine Triple.bind (triple_write _) ?_
      | refine Triple.bind (triple_writeIndent _ _) ?_
      | refine Triple.bind triple_var ?_
      | refine Triple.bind triple_tf ?_
      | refine Triple.bind (writeErrorHandler_keeps _).triple ?_
      | refine Triple.bind (Keeps.triple (by assumption)) ?_
      | refine Triple.ite ?_ ?_
      | intro _
      | rintro ⟨_, _⟩
      | dsimp only)
  | ConstantAttribute attrName attrValue =>
    unfold generator.writeElementAttributes.attribute
    with_reducible repeat (first
      | exact Triple.pure _ inv_weaken
      | exact Keeps.triple (by assumption)
      | refine Triple.pure_bind _ ?_
      | refine Triple.pre_pure (fun _ => ?_)
      | refine Triple.bind (triple_add (by assumption) (by assumption)) ?_
      | refine Triple.bind (triple_write _) ?_
      | refine Triple.bind (triple_writeIndent _ _) ?_
      | refine Triple.bind triple_var ?_
      | refine Triple.bind triple_tf ?_
      | refine Triple.bind (writeErrorHandler_keeps _).triple ?_
      | refine Triple.bind (Keeps.triple (by assumption)) ?_
      | refine Triple.ite ?_ ?_
      | intro _
      | rintro ⟨_, _⟩
      | dsimp only)
  | BoolExpressionAttribute attrName expression =>
    have hA : A expression := h _ (by simp [Attribute.exprs])
    unfold generator.writeElementAttributes.attribute
    with_reducible repeat (first
      | exact Triple.pure _ inv_weaken
      | exact Keeps.triple (by assumption)
      | refine Triple.pure_bind _ ?_
      | refine Triple.pre_pure (fun _ => ?_)
      | refine Triple.bind (triple_add (by assumption) (by assumption)) ?_
      | refine Triple.bind (triple_write _) ?_
      | refine Triple.bind (triple_writeIndent _ _) ?_
      | refine Triple.bind triple_var ?_
      | refine Triple.bind triple_tf ?_
      | refine Triple.bind (writeErrorHandler_keeps _).triple ?_
      | refine Triple.bind (Keeps.triple (by assumption)) ?_
      | refine Triple.ite ?_ ?_
      | intro _
      | rintro ⟨_, _⟩
      | dsimp only)
  | ExpressionAttribute attrName expression =>
    have hA : A expression := h _ (by simp [Attribute.exprs])
    unfold generator.writeElementAttributes.attribute
    with_reducible repeat (first
      | exact Triple.pure _ inv_weaken
      | exact Keeps.triple (by assumption)
      | refine Triple.pure_bind _ ?_
      | refine Triple.pre_pure (fun _ => ?_)
      | refine Triple.bind (triple_add (by assumption) (by assumption)) ?_
      | refine Triple.bind (triple_write _) ?_
      | refine Triple.bind (triple_writeIndent _ _) ?_
      | refine Triple.bind triple_var ?_
      | refine Triple.bind triple_tf ?_
      | refine Triple.bind (writeErrorHandler_keeps _).triple ?_
      | refine Triple.bind (Keeps.triple (by assumption)) ?_
      | refine Triple.ite ?_ ?_
      | intro _
      | rintro ⟨_, _⟩
      | dsimp only)
  | Other typeName =>
    unfold generator.writeElementAttributes.attribute
    exact Triple.pure _ inv_weaken

theorem writeElementAttributes_loop_keeps (indentLevel : Nat) (n : Element)
    (attrs : List Attribute) (h : ∀ e ∈ attrs.flatMap Attribute.exprs, A e) :
    Keeps A (generator.writeElementAttributes.loop indentLevel n attrs) := by
  induction attrs with
  | nil =>
    intro g0 F
    unfold generator.writeElementAttributes.loop
    exact Triple.pure _ inv_weaken
  | cons attr rest ih =>
    have ih' := ih (fun e he => h e (by
      rw [List.flatMap_cons]
      exact List.mem_append_right _ he))
    have hp := writeElementAttributes_attribute_keeps indentLevel n attr (fun e he => h e (by
      rw [List.flatMap_cons]
      exact List.mem_append_left _ he))
    intro g0 F
    unfold generator.writeElementAttributes.loop
    with_reducible repeat (first
      | exact ih'.triple
      | exact Triple.pure _ inv_weaken
      | refine Triple.pure_bind _ ?_
      | refine Triple.bind hp.triple ?_
      | refine Triple.ite ?_ ?_
      | intro _
      | dsimp only)

theorem writeElementAttributes_keeps (indentLevel : Nat) (n : Element)
    (h : ∀ e ∈ n.Attributes.flatMap Attribute.exprs, A e) :
    Keeps A (generator.writeElementAttributes indentLevel n) :=
  writeElementAttributes_loop_keeps indentLevel n n.Attributes h

theorem writeVoidElement_keeps (indentLevel : Nat) (n : Element)
    (h : ∀ e ∈ n.Attributes.flatMap Attribute.exprs, A e) :
    Keeps A (generator.writeVoidElement indentLevel n) := by
  have h1 := writeElementAttributes_keeps indentLevel n h
  intro g0 F
  unfold generator.writeVoidElement
  with_reducible repeat (first
    | exact Triple.pure _ inv_weaken
    | exact Keeps.triple (by assumption)
    | refine Triple.pure_bind _ ?_
    | refine Triple.pre_pure (fun _ => ?_)
    | refine Triple.bind (triple_add (by assumption) (by assumption)) ?_
    | refine Triple.bind (triple_write _) ?_
    | refine Triple.bind (triple_writeIndent _ _) ?_
    | refine Triple.bind triple_var ?_
    | refine Triple.bind triple_tf ?_
    | refine Triple.bind (writeErrorHandler_keeps _).triple ?_
    | refine Triple.bind (Keeps.triple (by assumption)) ?_
    | refine Triple.ite ?_ ?_
    | intro _
    | rintro ⟨_, _⟩
    | dsimp only)

theorem writeElementCSS_attribute_keeps (indentLevel : Nat) (attr : Attribute)
    (h : ∀ e ∈ attr.exprs, A e) :
    Keeps A (generator.writeElementCSS.attribute indentLevel attr) := by
  intro g0 F
  cases attr with
  | BoolConstantAttribute attrName =>
    unfold generator.writeElementCSS.attribute
    exact Triple.pure _ inv_weaken
  | ConstantAttribute attrName attrValue =>
    unfold generator.writeElementCSS.attribute
    exact Triple.pure _ inv_weaken
  | BoolExpressionAttribute attrName expression =>
    unfold generator.writeElementCSS.attribute
    exact Triple.pure _ inv_weaken
  | ExpressionAttribute attrName expression =>
    have hA : A expression := h _ (by simp [Attribute.exprs])
    unfold generator.writeElementCSS.attribute
    with_reducible repeat (first
      | exact Triple.pure _ inv_weaken
      | exact Keeps.triple (by assumption)
      | refine Triple.pure_bind _ ?_
      | refine Triple.pre_pure (fun _ => ?_)
      | refine Triple.bind (triple_add (by assumption) (by assumption)) ?_
      | refine Triple.bind (triple_write _) ?_
      | refine Triple.bind (triple_writeIndent _ _) ?_
      | refine Triple.bind triple_var ?_
      | refine Triple.bind triple_tf ?_
      | refine Triple.bind (writeErrorHandler_keeps _).triple ?_
      | refine Triple.bind (Keeps.triple (by assumption)) ?_
      | refine Triple.ite ?_ ?_
      | intro _
      | rintro ⟨_, _⟩
      | dsimp only)
  | Other typeName =>
    unfold generator.writeElementCSS.attribute
    exact Triple.pure _ inv_weaken

theorem writeElementCSS_loop_keeps (indentLevel : Nat) (attrs : List Attribute)
    (h : ∀ e ∈ attrs.flatMap Attribute.exprs, A e) :
    Keeps A (generator.writeElementCSS.loop indentLevel attrs) := by
  induction attrs with
  | nil =>
    intro g0 F
    unfold generator.writeElementCSS.loop
    exact Triple.pure _ inv_weaken
  | cons attr rest ih =>
    have ih' := ih (fun e he => h e (by
      rw [List.flatMap_cons]
      exact List.mem_append_right _ he))
    have hp := writeElementCSS_attribute_keeps indentLevel attr (fun e he => h e (by
      rw [List.flatMap_cons]
      exact List.mem_append_left _ he))
    intro g0 F
    unfold generator.writeElementCSS.loop
    with_reducible repeat (first
      | exact Triple.pure _ inv_weaken
      | refine Triple.pure_bind _ ?_
      | refine Triple.bind hp.triple ?_
      | refine Triple.bind ih'.triple ?_
      | refine Triple.ite ?_ ?_
      | intro _
      | rintro ⟨_, _⟩
      | dsimp only)

end keeps

/-! ## Rules for the results of a method -/

theorem Val.of_pure {α : Type} {V : α → Prop} (a : α) (h : V a) : Val (Pure.pure a : Gen α) V :=
  ⟨fun _ => h⟩

theorem Val.of_pure_bind {α β : Type} {V : β → Prop} (a : α) {f : α → Gen β}
    (h : Val (f a) V) : Val (Pure.pure a >>= f) V := ⟨h.run⟩

theorem Val.of_bind {α β : Type} {V : β → Prop} {m : Gen α} {f : α → Gen β}
    (h : ∀ a, Val (f a) V) : Val (m >>= f) V := ⟨fun g => (h (m g).1).run (m g).2⟩

theorem Val.bind_of {α β : Type} {W : α → Prop} {V : β → Prop} {m : Gen α} {f : α → Gen β}
    (h1 : Val m W) (h2 : ∀ a, W a → Val (f a) V) : Val (m >>= f) V :=
  ⟨fun g => (h2 (m g).1 (h1.run g)).run (m g).2⟩

theorem Val.of_ite {α : Type} {V : α → Prop} {c : Prop} [Decidable c] {a b : Gen α}
    (ha : c → Val a V) (hb : ¬ c → Val b V) : Val (if c then a else b) V := by
  by_cases h : c
  · simpa [h] using ha h
  · simpa [h] using hb h

theorem val_var :
    Val generator.createVariableName (fun a => ∃ k : Int, a = "var_" ++ toString k) :=
  ⟨fun g => ⟨g.variableID + 1, rfl⟩⟩

theorem Attribute.rewritten_refl (a : Attribute) : Attribute.rewritten a a := Or.inl rfl

theorem Attribute.rewritten_class (name : String) (e : Expression) (k : Int)
    (h : html.EscapeString name = "class") :
    Attribute.rewritten (.ExpressionAttribute name e)
      (.ExpressionAttribute name { Value := "var_" ++ toString k ++ ".String()", Range := default }) :=
  Or.inr ⟨name, e, _, rfl, h, ⟨k, rfl⟩, rfl⟩

theorem writeElementCSS_attribute_val (indentLevel : Nat) (attr : Attribute) :
    Val (generator.writeElementCSS.attribute indentLevel attr)
      (fun a => Attribute.rewritten attr a.1) := by
  cases attr with
  | BoolConstantAttribute attrName =>
    unfold generator.writeElementCSS.attribute
    exact Val.of_pure _ (Or.inl rfl)
  | ConstantAttribute attrName attrValue =>
    unfold generator.writeElementCSS.attribute
    exact Val.of_pure _ (Or.inl rfl)
  | BoolExpressionAttribute attrName expression =>
    unfold generator.writeElementCSS.attribute
    exact Val.of_pure _ (Or.inl rfl)
  | ExpressionAttribute attrName expression =>
    unfold generator.writeElementCSS.attribute
    dsimp only
    refine Val.of_ite (fun _ => Val.of_pure _ (Or.inl rfl)) (fun hname => ?_)
    refine Val.bind_of val_var ?_
    rintro _ ⟨k, rfl⟩
    with_reducible repeat (first
      | exact Val.of_pure _ (Attribute.rewritten_refl _)
      | exact Val.of_pure _ (Attribute.rewritten_class _ _ k (not_not.mp hname))
      | refine Val.of_pure_bind _ ?_
      | refine Val.of_bind ?_
      | refine Val.of_ite ?_ ?_
      | intro _
      | rintro ⟨_, _⟩
      | dsimp only)
  | Other typeName =>
    unfold generator.writeElementCSS.attribute
    exact Val.of_pure _ (Or.inl rfl)

theorem writeElementCSS_loop_val (indentLevel : Nat) (attrs : List Attribute) :
    Val (generator.writeElementCSS.loop indentLevel attrs)
      (fun a => List.Forall₂ Attribute.rewritten attrs a.1) := by
  induction attrs with
  | nil =>
    unfold generator.writeElementCSS.loop
    exact Val.of_pure _ List.Forall₂.nil
  | cons attr rest ih =>
    unfold generator.writeElementCSS.loop
    refine Val.bind_of (writeElementCSS_attribute_val indentLevel attr) ?_
    rintro ⟨attr1, err⟩ h1
    dsimp only at h1 ⊢
    refine Val.of_ite (fun _ => Val.of_pure _ ?_) (fun _ => ?_)
    · exact List.Forall₂.cons h1 (List.forall₂_same.mpr (fun a _ => Or.inl rfl))
    · refine Val.of_pure_bind _ ?_
      refine Val.bind_of ih ?_
      rintro ⟨rest1, err1⟩ h2
      exact Val.of_pure _ (List.Forall₂.cons h1 h2)

theorem rewritten_exprs {A : Expression → Prop} (hS : ∀ e, synthesized e → A e)
    {attrs attrs1 : List Attribute} (hr : List.Forall₂ Attribute.rewritten attrs attrs1)
    (h : ∀ e ∈ attrs.flatMap Attribute.exprs, A e) :
    ∀ e ∈ attrs1.flatMap Attribute.exprs, A e := by
  induction hr with
  | nil => exact h
  | cons hab _ ih =>
    rename_i a b l1 l2
    intro e he
    rw [List.flatMap_cons, List.mem_append] at he
    rcases he with he | he
    · rcases hab with rfl | ⟨name, e0, e1, rfl, _, hs, rfl⟩
      · exact h e (by rw [List.flatMap_cons]; exact List.mem_append_left _ he)
      · simp only [Attribute.exprs, List.mem_singleton] at he
        subst he
        exact hS _ hs
    · exact ih (fun e he => h e (by rw [List.flatMap_cons]; exact List.mem_append_right _ he))
        e he

theorem Triple.keeps_val {A : Expression → Prop} {g0 : generator} {F : generator → Prop}
    {α : Type} {m : Gen α} {V : α → Prop} (hk : Keeps A m) (hv : Val m V) :
    Triple (Inv A g0 F) m (fun a => InvP A g0 (V a)) :=
  ⟨fun g hg => ⟨((hk g0 F).run g hg).1, hv.run g⟩⟩

section keeps2
variable {A : Expression → Prop}

theorem writeStandardElement_keeps (indentLevel : Nat) (n : Element)
    (writeChildren : Gen (List Node × error)) (hwc : Keeps A writeChildren)
    (h : ∀ e ∈ n.Attributes.flatMap Attribute.exprs, A e) (hS : ∀ e, synthesized e → A e) :
    Keeps A (generator.writeStandardElement indentLevel n writeChildren) := by
  have hcss : Keeps A (generator.writeElementCSS indentLevel n) :=
    writeElementCSS_loop_keeps indentLevel n.Attributes h
  have hval := writeElementCSS_loop_val indentLevel n.Attributes
  intro g0 F
  unfold generator.writeStandardElement
  dsimp only
  refine Triple.ite ?_ ?_
  · intro _
    with_reducible repeat (first
      | exact Triple.pure _ inv_weaken
      | exact Keeps.triple (by assumption)
      | refine Triple.pure_bind _ ?_
      | refine Triple.pre_pure (fun _ => ?_)
      | refine Triple.bind (triple_add (by assumption) (by assumption)) ?_
      | refine Triple.bind (triple_write _) ?_
      | refine Triple.bind (triple_writeIndent _ _) ?_
      | refine Triple.bind triple_var ?_
      | refine Triple.bind triple_tf ?_
      | refine Triple.bind (writeErrorHandler_keeps _).triple ?_
      | refine Triple.bind (Keeps.triple (by assumption)) ?_
      | refine Triple.ite ?_ ?_
      | intro _
      | rintro ⟨_, _⟩
      | dsimp only)
  · intro _
    refine Triple.bind (Triple.keeps_val hcss hval) ?_
    rintro ⟨attributes, err⟩
    refine Triple.pre_pure (fun hattrs => ?_)
    have hattrs1 := rewritten_exprs hS hattrs h
    with_reducible repeat (first
      | exact Triple.pure _ inv_weaken
      | refine Triple.pure_bind _ ?_
      | refine Triple.bind (triple_writeIndent _ _) ?_
      | refine Triple.bind (writeErrorHandler_keeps _).triple ?_
      | refine Triple.bind (writeElementScript_keeps _ _).triple ?_
      | refine Triple.bind (writeElementAttributes_keeps _ _ hattrs1).triple ?_
      | refine Triple.bind (Keeps.triple (by assumption)) ?_
      | refine Triple.ite ?_ ?_
      | intro _
      | rintro ⟨_, _⟩
      | dsimp only)

end keeps2

/-! ## The clauses of `writeNode` -/

theorem writeNode_DocType (indentLevel : Nat) (n : DocType) :
    generator.writeNode indentLevel (.DocType n) = (do
      let _ ← generator.writeDocType indentLevel n
      return (.DocType n, none)) := rfl

theorem writeNode_Element (indentLevel : Nat) (n : Element) :
    generator.writeNode indentLevel (.Element n) = (do
      let (n, _) ← generator.writeElement indentLevel n
      return (.Element n, none)) := rfl

theorem writeNode_ForExpression (indentLevel : Nat) (n : ForExpression) :
    generator.writeNode indentLevel (.ForExpression n) = (do
      let (n, _) ← generator.writeForExpression indentLevel n
      return (.ForExpression n, none)) := rfl

theorem writeNode_CallTemplateExpression (indentLevel : Nat) (n : CallTemplateExpression) :
    generator.writeNode indentLevel (.CallTemplateExpression n) = (do
      let _ ← generator.writeCallTemplateExpression indentLevel n
      return (.CallTemplateExpression n, none)) := rfl

theorem writeNode_IfExpression (indentLevel : Nat) (n : IfExpression) :
    generator.writeNode indentLevel (.IfExpression n) = (do
      let (n, _) ← generator.writeIfExpression indentLevel n
      return (.IfExpression n, none)) := rfl

theorem writeNode_SwitchExpression (indentLevel : Nat) (n : SwitchExpression) :
    generator.writeNode indentLevel (.SwitchExpression n) = (do
      let (n, _) ← generator.writeSwitchExpression indentLevel n
      return (.SwitchExpression n, none)) := rfl

theorem writeNode_StringExpression (indentLevel : Nat) (n : StringExpression) :
    generator.writeNode indentLevel (.StringExpression n) = (do
      let _ ← generator.writeStringExpression indentLevel n.Expression
      return (.StringExpression n, none)) := rfl

theorem writeNode_Whitespace (indentLevel : Nat) (n : Whitespace) :
    generator.writeNode indentLevel (.Whitespace n) = pure (.Whitespace n, none) := rfl

theorem writeNode_Text (indentLevel : Nat) (n : Text) :
    generator.writeNode indentLevel (.Text n) = (do
      let _ ← generator.writeText indentLevel n
      return (.Text n, none)) := rfl

theorem writeNode_Other (indentLevel : Nat) (typeName : String) :
    generator.writeNode indentLevel (.Other typeName) = (do
      let _ ← Gen.Write ("Unhandled type: " ++ typeName ++ "\n")
      return (.Other typeName, none)) := rfl

section keeps3
variable {A : Expression → Prop}

set_option maxHeartbeats 1000000 in
mutual

theorem writeNode_keeps (hS : ∀ e, synthesized e → A e) :
    ∀ (node : Node) (indentLevel : Nat), (∀ e ∈ Node.exprs node, A e) →
      Keeps A (generator.writeNode indentLevel node)
  | .DocType n, indentLevel, _ => by
    have h1 := writeDocType_keeps (A := A) indentLevel n
    intro g0 F
    rw [writeNode_DocType]
    with_reducible repeat (first
      | exact Triple.pure _ inv_weaken
      | exact Keeps.triple (by assumption)
      | refine Triple.pure_bind _ ?_
      | refine Triple.pre_pure (fun _ => ?_)
      | refine Triple.bind (triple_add (by assumption) (by assumption)) ?_
      | refine Triple.bind (triple_write _) ?_
      | refine Triple.bind (triple_writeIndent _ _) ?_
      | refine Triple.bind triple_var ?_
      | refine Triple.bind triple_tf ?_
      | refine Triple.bind (writeErrorHandler_keeps _).triple ?_
      | refine Triple.bind (Keeps.triple (by assumption)) ?_
      | refine Triple.ite ?_ ?_
      | intro _
      | rintro ⟨_, _⟩
      | dsimp only)
  | .Element n, indentLevel, h => by
    have h1 := writeElement_keeps hS n indentLevel h
    intro g0 F
    rw [writeNode_Element]
    with_reducible repeat (first
      | exact Triple.pure _ inv_weaken
      | exact Keeps.triple (by assumption)
      | refine Triple.pure_bind _ ?_
      | refine Triple.pre_pure (fun _ => ?_)
      | refine Triple.bind (triple_add (by assumption) (by assumption)) ?_
      | refine Triple.bind (triple_write _) ?_
      | refine Triple.bind (triple_writeIndent _ _) ?_
      | refine Triple.bind triple_var ?_
      | refine Triple.bind triple_tf ?_
      | refine Triple.bind (writeErrorHandler_keeps _).triple ?_
      | refine Triple.bind (Keeps.triple (by assumption)) ?_
      | refine Triple.ite ?_ ?_
      | intro _
      | rintro ⟨_, _⟩
      | dsimp only)
  | .ForExpression n, indentLevel, h => by
    have h1 := writeForExpression_keeps hS n indentLevel h
    intro g0 F
    rw [writeNode_ForExpression]
    with_reducible repeat (first
      | exact Triple.pure _ inv_weaken
      | exact Keeps.triple (by assumption)
      | refine Triple.pure_bind _ ?_
      | refine Triple.pre_pure (fun _ => ?_)
      | refine Triple.bind (triple_add (by assumption) (by assumption)) ?_
      | refine Triple.bind (triple_write _) ?_
      | refine Triple.bind (triple_writeIndent _ _) ?_
      | refine Triple.bind triple_var ?_
      | refine Triple.bind triple_tf ?_
      | refine Triple.bind (writeErrorHandler_keeps _).triple ?_
      | refine Triple.bind (Keeps.triple (by assumption)) ?_
      | refine Triple.ite ?_ ?_
      | intro _
      | rintro ⟨_, _⟩
      | dsimp only)
  | .CallTemplateExpression n, indentLevel, h => by
    have h1 := writeCallTemplateExpression_keeps (A := A) indentLevel n
      (h _ (by simp [Node.exprs]))
    intro g0 F
    rw [writeNode_CallTemplateExpression]
    with_reducible repeat (first
      | exact Triple.pure _ inv_weaken
      | exact Keeps.triple (by assumption)
      | refine Triple.pure_bind _ ?_
      | refine Triple.pre_pure (fun _ => ?_)
      | refine Triple.bind (triple_add (by assumption) (by assumption)) ?_
      | refine Triple.bind (triple_write _) ?_
      | refine Triple.bind (triple_writeIndent _ _) ?_
      | refine Triple.bind triple_var ?_
      | refine Triple.bind triple_tf ?_
      | refine Triple.bind (writeErrorHandler_keeps _).triple ?_
      | refine Triple.bind (Keeps.triple (by assumption)) ?_
      | refine Triple.ite ?_ ?_
      | intro _
      | rintro ⟨_, _⟩
      | dsimp only)
  | .IfExpression n, indentLevel, h => by
    have h1 := writeIfExpression_keeps hS n indentLevel h
    intro g0 F
    rw [writeNode_IfExpression]
    with_reducible repeat (first
      | exact Triple.pure _ inv_weaken
      | exact Keeps.triple (by assumption)
      | refine Triple.pure_bind _ ?_
      | refine Triple.pre_pure (fun _ => ?_)
      | refine Triple.bind (triple_add (by assumption) (by assumption)) ?_
      | refine Triple.bind (triple_write _) ?_
      | refine Triple.bind (triple_writeIndent _ _) ?_
      | refine Triple.bind triple_var ?_
      | refine Triple.bind triple_tf ?_
      | refine Triple.bind (writeErrorHandler_keeps _).triple ?_
      | refine Triple.bind (Keeps.triple (by assumption)) ?_
      | refine Triple.ite ?_ ?_
      | intro _
      | rintro ⟨_, _⟩
      | dsimp only)
  | .SwitchExpression n, indentLevel, h => by
    have h1 := writeSwitchExpression_keeps hS n indentLevel h
    intro g0 F
    rw [writeNode_SwitchExpression]
    with_reducible repeat (first
      | exact Triple.pure _ inv_weaken
      | exact Keeps.triple (by assumption)
      | refine Triple.pure_bind _ ?_
      | refine Triple.pre_pure (fun _ => ?_)
      | refine Triple.bind (triple_add (by assumption) (by assumption)) ?_
      | refine Triple.bind (triple_write _) ?_
      | refine Triple.bind (triple_writeIndent _ _) ?_
      | refine Triple.bind triple_var ?_
      | refine Triple.bind triple_tf ?_
      | refine Triple.bind (writeErrorHandler_keeps _).triple ?_
      | refine Triple.bind (Keeps.triple (by assumption)) ?_
      | refine Triple.ite ?_ ?_
      | intro _
      | rintro ⟨_, _⟩
      | dsimp only)
  | .StringExpression n, indentLevel, h => by
    have h1 := writeStringExpression_keeps (A := A) indentLevel n.Expression
      (h _ (by simp [Node.exprs]))
    intro g0 F
    rw [writeNode_StringExpression]
    with_reducible repeat (first
      | exact Triple.pure _ inv_weaken
      | exact Keeps.triple (by assumption)
      | refine Triple.pure_bind _ ?_
      | refine Triple.pre_pure (fun _ => ?_)
      | refine Triple.bind (triple_add (by assumption) (by assumption)) ?_
      | refine Triple.bind (triple_write _) ?_
      | refine Triple.bind (triple_writeIndent _ _) ?_
      | refine Triple.bind triple_var ?_
      | refine Triple.bind triple_tf ?_
      | refine Triple.bind (writeErrorHandler_keeps _).triple ?_
      | refine Triple.bind (Keeps.triple (by assumption)) ?_
      | refine Triple.ite ?_ ?_
      | intro _
      | rintro ⟨_, _⟩
      | dsimp only)
  | .Whitespace n, indentLevel, _ => by
    intro g0 F
    rw [writeNode_Whitespace]
    with_reducible repeat (first
      | exact Triple.pure _ inv_weaken
      | exact Keeps.triple (by assumption)
      | refine Triple.pure_bind _ ?_
      | refine Triple.pre_pure (fun _ => ?_)
      | refine Triple.bind (triple_add (by assumption) (by assumption)) ?_
      | refine Triple.bind (triple_write _) ?_
      | refine Triple.bind (triple_writeIndent _ _) ?_
      | refine Triple.bind triple_var ?_
      | refine Triple.bind triple_tf ?_
      | refine Triple.bind (writeErrorHandler_keeps _).triple ?_
      | refine Triple.bind (Keeps.triple (by assumption)) ?_
      | refine Triple.ite ?_ ?_
      | intro _
      | rintro ⟨_, _⟩
      | dsimp only)
  | .Text n, indentLevel, _ => by
    have h1 := writeText_keeps (A := A) indentLevel n
    intro g0 F
    rw [writeNode_Text]
    with_reducible repeat (first
      | exact Triple.pure _ inv_weaken
      | exact Keeps.triple (by assumption)
      | refine Triple.pure_bind _ ?_
      | refine Triple.pre_pure (fun _ => ?_)
      | refine Triple.bind (triple_add (by assumption) (by assumption)) ?_
      | refine Triple.bind (triple_write _) ?_
      | refine Triple.bind (triple_writeIndent _ _) ?_
      | refine Triple.bind triple_var ?_
      | refine Triple.bind triple_tf ?_
      | refine Triple.bind (writeErrorHandler_keeps _).triple ?_
      | refine Triple.bind (Keeps.triple (by assumption)) ?_
      | refine Triple.ite ?_ ?_
      | intro _
      | rintro ⟨_, _⟩
      | dsimp only)
  | .Other typeName, indentLevel, _ => by
    intro g0 F
    rw [writeNode_Other]
    with_reducible repeat (first
      | exact Triple.pure _ inv_weaken
      | exact Keeps.triple (by assumption)
      | refine Triple.pure_bind _ ?_
      | refine Triple.pre_pure (fun _ => ?_)
      | refine Triple.bind (triple_add (by assumption) (by assumption)) ?_
      | refine Triple.bind (triple_write _) ?_
      | refine Triple.bind (triple_writeIndent _ _) ?_
      | refine Triple.bind triple_var ?_
      | refine Triple.bind triple_tf ?_
      | refine Triple.bind (writeErrorHandler_keeps _).triple ?_
      | refine Triple.bind (Keeps.triple (by assumption)) ?_
      | refine Triple.ite ?_ ?_
      | intro _
      | rintro ⟨_, _⟩
      | dsimp only)

theorem writeNodes_keeps (hS : ∀ e, synthesized e → A e) :
    ∀ (nodes : List Node) (indentLevel : Nat), (∀ e ∈ Node.exprsList nodes, A e) →
      Keeps A (generator.writeNodes indentLevel nodes)
  | [], indentLevel, _ => by
    intro g0 F
    unfold generator.writeNodes
    with_reducible repeat (first
      | exact Triple.pure _ inv_weaken
      | exact Keeps.triple (by assumption)
      | refine Triple.pure_bind _ ?_
      | refine Triple.pre_pure (fun _ => ?_)
      | refine Triple.bind (triple_add (by assumption) (by assumption)) ?_
      | refine Triple.bind (triple_write _) ?_
      | refine Triple.bind (triple_writeIndent _ _) ?_
      | refine Triple.bind triple_var ?_
      | refine Triple.bind triple_tf ?_
      | refine Triple.bind (writeErrorHandler_keeps _).triple ?_
      | refine Triple.bind (Keeps.triple (by assumption)) ?_
      | refine Triple.ite ?_ ?_
      | intro _
      | rintro ⟨_, _⟩
      | dsimp only)
  | node :: rest, indentLevel, h => by
    have h1 := writeNode_keeps hS node indentLevel
      (fun e he => h e (by simp [Node.exprsList, he]))
    have h2 := writeNodes_keeps hS rest indentLevel
      (fun e he => h e (by simp [Node.exprsList, he]))
    intro g0 F
    unfold generator.writeNodes
    with_reducible repeat (first
      | exact Triple.pure _ inv_weaken
      | exact Keeps.triple (by assumption)
      | refine Triple.pure_bind _ ?_
      | refine Triple.pre_pure (fun _ => ?_)
      | refine Triple.bind (triple_add (by assumption) (by assumption)) ?_
      | refine Triple.bind (triple_write _) ?_
      | refine Triple.bind (triple_writeIndent _ _) ?_
      | refine Triple.bind triple_var ?_
      | refine Triple.bind triple_tf ?_
      | refine Triple.bind (writeErrorHandler_keeps _).triple ?_
      | refine Triple.bind (Keeps.triple (by assumption)) ?_
      | refine Triple.ite ?_ ?_
      | intro _
      | rintro ⟨_, _⟩
      | dsimp only)

theorem writeElement_keeps (hS : ∀ e, synthesized e → A e) :
    ∀ (n : Element) (indentLevel : Nat), (∀ e ∈ Node.exprs (.Element n), A e) →
      Keeps A (generator.writeElement indentLevel n)
  | n, indentLevel, h => by
    have hattrs : ∀ e ∈ n.Attributes.flatMap Attribute.exprs, A e :=
      fun e he => h e (by simp only [Node.exprs]; exact List.mem_append_left _ he)
    have h1 := writeNodes_keeps hS n.Children indentLevel
      (fun e he => h e (by simp only [Node.exprs]; exact List.mem_append_right _ he))
    have h2 := writeVoidElement_keeps indentLevel n hattrs
    have h3 := writeStandardElement_keeps indentLevel n _ h1 hattrs hS
    intro g0 F
    unfold generator.writeElement
    with_reducible repeat (first
      | exact Triple.pure _ inv_weaken
      | exact Keeps.triple (by assumption)
      | refine Triple.pure_bind _ ?_
      | refine Triple.pre_pure (fun _ => ?_)
      | refine Triple.bind (triple_add (by assumption) (by assumption)) ?_
      | refine Triple.bind (triple_write _) ?_
      | refine Triple.bind (triple_writeIndent _ _) ?_
      | refine Triple.bind triple_var ?_
      | refine Triple.bind triple_tf ?_
      | refine Triple.bind (writeErrorHandler_keeps _).triple ?_
      | refine Triple.bind (Keeps.triple (by assumption)) ?_
      | refine Triple.ite ?_ ?_
      | intro _
      | rintro ⟨_, _⟩
      | dsimp only)

theorem writeForExpression_keeps (hS : ∀ e, synthesized e → A e) :
    ∀ (n : ForExpression) (indentLevel : Nat), (∀ e ∈ Node.exprs (.ForExpression n), A e) →
      Keeps A (generator.writeForExpression indentLevel n)
  | n, indentLevel, h => by
    have hA : A n.Expression := h _ (by simp [Node.exprs])
    have h1 := writeNodes_keeps hS n.Children (indentLevel + 1)
      (fun e he => h e (by simp [Node.exprs, he]))
    intro g0 F
    unfold generator.writeForExpression
    with_reducible repeat (first
      | exact Triple.pure _ inv_weaken
      | exact Keeps.triple (by assumption)
      | refine Triple.pure_bind _ ?_
      | refine Triple.pre_pure (fun _ => ?_)
      | refine Triple.bind (triple_add (by assumption) (by assumption)) ?_
      | refine Triple.bind (triple_write _) ?_
      | refine Triple.bind (triple_writeIndent _ _) ?_
      | refine Triple.bind triple_var ?_
      | refine Triple.bind triple_tf ?_
      | refine Triple.bind (writeErrorHandler_keeps _).triple ?_
      | refine Triple.bind (Keeps.triple (by assumption)) ?_
      | refine Triple.ite ?_ ?_
      | intro _
      | rintro ⟨_, _⟩
      | dsimp only)

theorem writeIfExpression_keeps (hS : ∀ e, synthesized e → A e) :
    ∀ (n : IfExpression) (indentLevel : Nat), (∀ e ∈ Node.exprs (.IfExpression n), A e) →
      Keeps A (generator.writeIfExpression indentLevel n)
  | n, indentLevel, h => by
    have hA : A n.Expression := h _ (by simp [Node.exprs])
    have h1 := writeNodes_keeps hS n.Then (indentLevel + 1)
      (fun e he => h e (by simp [Node.exprs, he]))
    have h2 := writeNodes_keeps hS n.Else (indentLevel + 1)
      (fun e he => h e (by simp [Node.exprs, he]))
    intro g0 F
    unfold generator.writeIfExpression
    with_reducible repeat (first
      | exact Triple.pure _ inv_weaken
      | exact Keeps.triple (by assumption)
      | refine Triple.pure_bind _ ?_
      | refine Triple.pre_pure (fun _ => ?_)
      | refine Triple.bind (triple_add (by assumption) (by assumption)) ?_
      | refine Triple.bind (triple_write _) ?_
      | refine Triple.bind (triple_writeIndent _ _) ?_
      | refine Triple.bind triple_var ?_
      | refine Triple.bind triple_tf ?_
      | refine Triple.bind (writeErrorHandler_keeps _).triple ?_
      | refine Triple.bind (Keeps.triple (by assumption)) ?_
      | refine Triple.ite ?_ ?_
      | intro _
      | rintro ⟨_, _⟩
      | dsimp only)

theorem writeSwitchExpression_cases_keeps (hS : ∀ e, synthesized e → A e) :
    ∀ (cases : List CaseExpression) (indentLevel : Nat),
      (∀ e ∈ Node.exprsCases cases, A e) →
      Keeps A (generator.writeSwitchExpression.cases indentLevel cases)
  | [], indentLevel, _ => by
    intro g0 F
    unfold generator.writeSwitchExpression.cases
    with_reducible repeat (first
      | exact Triple.pure _ inv_weaken
      | exact Keeps.triple (by assumption)
      | refine Triple.pure_bind _ ?_
      | refine Triple.pre_pure (fun _ => ?_)
      | refine Triple.bind (triple_add (by assumption) (by assumption)) ?_
      | refine Triple.bind (triple_write _) ?_
      | refine Triple.bind (triple_writeIndent _ _) ?_
      | refine Triple.bind triple_var ?_
      | refine Triple.bind triple_tf ?_
      | refine Triple.bind (writeErrorHandler_keeps _).triple ?_
      | refine Triple.bind (Keeps.triple (by assumption)) ?_
      | refine Triple.ite ?_ ?_
      | intro _
      | rintro ⟨_, _⟩
      | dsimp only)
  | c :: rest, indentLevel, h => by
    have hA : A c.Expression := h _ (by simp [Node.exprsCases])
    have h1 := writeNodes_keeps hS c.Children (indentLevel + 1)
      (fun e he => h e (by simp [Node.exprsCases, he]))
    have h2 := writeSwitchExpression_cases_keeps hS rest indentLevel
      (fun e he => h e (by simp [Node.exprsCases, he]))
    intro g0 F
    unfold generator.writeSwitchExpression.cases
    with_reducible repeat (first
      | exact Triple.pure _ inv_weaken
      | exact Keeps.triple (by assumption)
      | refine Triple.pure_bind _ ?_
      | refine Triple.pre_pure (fun _ => ?_)
      | refine Triple.bind (triple_add (by assumption) (by assumption)) ?_
      | refine Triple.bind (triple_write _) ?_
      | refine Triple.bind (triple_writeIndent _ _) ?_
      | refine Triple.bind triple_var ?_
      | refine Triple.bind triple_tf ?_
      | refine Triple.bind (writeErrorHandler_keeps _).triple ?_
      | refine Triple.bind (Keeps.triple (by assumption)) ?_
      | refine Triple.ite ?_ ?_
      | intro _
      | rintro ⟨_, _⟩
      | dsimp only)

theorem writeSwitchExpression_keeps (hS : ∀ e, synthesized e → A e) :
    ∀ (n : SwitchExpression) (indentLevel : Nat),
      (∀ e ∈ Node.exprs (.SwitchExpression n), A e) →
      Keeps A (generator.writeSwitchExpression indentLevel n)
  | n, indentLevel, h => by
    have hA : A n.Expression := h _ (by simp [Node.exprs])
    have h1 := writeSwitchExpression_cases_keeps hS n.Cases indentLevel
      (fun e he => h e (by simp [Node.exprs, he]))
    have h2 := writeNodes_keeps hS n.Default (indentLevel + 1)
      (fun e he => h e (by simp [Node.exprs, he]))
    intro g0 F
    unfold generator.writeSwitchExpression
    with_reducible repeat (first
      | exact Triple.pure _ inv_weaken
      | exact Keeps.triple (by assumption)
      | refine Triple.pure_bind _ ?_
      | refine Triple.pre_pure (fun _ => ?_)
      | refine Triple.bind (triple_add (by assumption) (by assumption)) ?_
      | refine Triple.bind (triple_write _) ?_
      | refine Triple.bind (triple_writeIndent _ _) ?_
      | refine Triple.bind triple_var ?_
      | refine Triple.bind triple_tf ?_
      | refine Triple.bind (writeErrorHandler_keeps _).triple ?_
      | refine Triple.bind (Keeps.triple (by assumption)) ?_
      | refine Triple.ite ?_ ?_
      | intro _
      | rintro ⟨_, _⟩
      | dsimp only)

end

end keeps3

section keeps4
variable {A : Expression → Prop}

set_option maxRecDepth 16384 in
theorem writeTemplate_keeps (hS : ∀ e, synthesized e → A e) (t : HTMLTemplate)
    (h : ∀ e ∈ TemplateFileNode.exprs (.HTMLTemplate t), A e) :
    Keeps A (generator.writeTemplate t) := by
  have hA1 : A t.Name := h _ (by simp [TemplateFileNode.exprs])
  have hA2 : A t.Parameters := h _ (by simp [TemplateFileNode.exprs])
  have h1 := writeNodes_keeps hS t.Children 2
    (fun e he => h e (by simp [TemplateFileNode.exprs, he]))
  intro g0 F
  unfold generator.writeTemplate
  with_reducible repeat (first
    | exact Triple.pure _ inv_weaken
    | exact Keeps.triple (by assumption)
    | refine Triple.pure_bind _ ?_
    | refine Triple.pre_pure (fun _ => ?_)
    | refine Triple.bind (triple_add (by assumption) (by assumption)) ?_
    | refine Triple.bind (triple_write _) ?_
    | refine Triple.bind (triple_writeIndent _ _) ?_
    | refine Triple.bind triple_var ?_
    | refine Triple.bind triple_tf ?_
    | refine Triple.bind (writeErrorHandler_keeps _).triple ?_
    | refine Triple.bind (Keeps.triple (by assumption)) ?_
    | refine Triple.ite ?_ ?_
    | intro _
    | rintro ⟨_, _⟩
    | dsimp only)

set_option maxRecDepth 16384 in
theorem writeScript_keeps (env : Env) (t : ScriptTemplate)
    (h : ∀ e ∈ TemplateFileNode.exprs (.ScriptTemplate t), A e) :
    Keeps A (generator.writeScript env t) := by
  have hA1 : A t.Name := h _ (by simp [TemplateFileNode.exprs])
  have hA2 : A t.Parameters := h _ (by simp [TemplateFileNode.exprs])
  intro g0 F
  unfold generator.writeScript
  with_reducible repeat (first
    | exact Triple.pure _ inv_weaken
    | exact Keeps.triple (by assumption)
    | refine Triple.pure_bind _ ?_
    | refine Triple.pre_pure (fun _ => ?_)
    | refine Triple.bind (triple_add (by assumption) (by assumption)) ?_
    | refine Triple.bind (triple_write _) ?_
    | refine Triple.bind (triple_writeIndent _ _) ?_
    | refine Triple.bind triple_var ?_
    | refine Triple.bind triple_tf ?_
    | refine Triple.bind (writeErrorHandler_keeps _).triple ?_
    | refine Triple.bind (Keeps.triple (by assumption)) ?_
    | refine Triple.ite ?_ ?_
    | intro _
    | rintro ⟨_, _⟩
    | dsimp only)

theorem writeTemplateNodes_loop_keeps (hS : ∀ e, synthesized e → A e) (env : Env)
    (nodes : List TemplateFileNode) (h : ∀ e ∈ nodes.flatMap TemplateFileNode.exprs, A e) :
    Keeps A (generator.writeTemplateNodes.loop env nodes) := by
  induction nodes with
  | nil =>
    intro g0 F
    unfold generator.writeTemplateNodes.loop
    exact Triple.pure _ inv_weaken
  | cons node rest ih =>
    have ih' := ih (fun e he => h e (by
      rw [List.flatMap_cons]
      exact List.mem_append_right _ he))
    have hn : ∀ e ∈ node.exprs, A e := fun e he => h e (by
      rw [List.flatMap_cons]
      exact List.mem_append_left _ he)
    intro g0 F
    cases node with
    | HTMLTemplate n =>
      have h1 := writeTemplate_keeps hS n hn
      unfold generator.writeTemplateNodes.loop
      with_reducible repeat (first
        | exact Triple.pure _ inv_weaken
        | exact Keeps.triple (by assumption)
        | refine Triple.pure_bind _ ?_
        | refine Triple.pre_pure (fun _ => ?_)
        | refine Triple.bind (triple_add (by assumption) (by assumption)) ?_
        | refine Triple.bind (triple_write _) ?_
        | refine Triple.bind (triple_writeIndent _ _) ?_
        | refine Triple.bind triple_var ?_
        | refine Triple.bind triple_tf ?_
        | refine Triple.bind (writeErrorHandler_keeps _).triple ?_
        | refine Triple.bind (Keeps.triple (by assumption)) ?_
        | refine Triple.ite ?_ ?_
        | intro _
        | rintro ⟨_, _⟩
        | dsimp only)
    | CSSTemplate n =>
      have h1 := writeCSS_keeps env n hn
      unfold generator.writeTemplateNodes.loop
      with_reducible repeat (first
        | exact Triple.pure _ inv_weaken
        | exact Keeps.triple (by assumption)
        | refine Triple.pure_bind _ ?_
        | refine Triple.pre_pure (fun _ => ?_)
        | refine Triple.bind (triple_add (by assumption) (by assumption)) ?_
        | refine Triple.bind (triple_write _) ?_
        | refine Triple.bind (triple_writeIndent _ _) ?_
        | refine Triple.bind triple_var ?_
        | refine Triple.bind triple_tf ?_
        | refine Triple.bind (writeErrorHandler_keeps _).triple ?_
        | refine Triple.bind (Keeps.triple (by assumption)) ?_
        | refine Triple.ite ?_ ?_
        | intro _
        | rintro ⟨_, _⟩
        | dsimp only)
    | ScriptTemplate n =>
      have h1 := writeScript_keeps env n hn
      unfold generator.writeTemplateNodes.loop
      with_reducible repeat (first
        | exact Triple.pure _ inv_weaken
        | exact Keeps.triple (by assumption)
        | refine Triple.pure_bind _ ?_
        | refine Triple.pre_pure (fun _ => ?_)
        | refine Triple.bind (triple_add (by assumption) (by assumption)) ?_
        | refine Triple.bind (triple_write _) ?_
        | refine Triple.bind (triple_writeIndent _ _) ?_
        | refine Triple.bind triple_var ?_
        | refine Triple.bind triple_tf ?_
        | refine Triple.bind (writeErrorHandler_keeps _).triple ?_
        | refine Triple.bind (Keeps.triple (by assumption)) ?_
        | refine Triple.ite ?_ ?_
        | intro _
        | rintro ⟨_, _⟩
        | dsimp only)
    | Other typeName =>
      unfold generator.writeTemplateNodes.loop
      exact Triple.pure _ inv_weaken

theorem inv_near {g0 : generator} {F : generator → Prop} (g : generator)
    (h : Inv A g0 F g) : Near A g0 g := ⟨g, h.1, rfl, rfl⟩

theorem writeTemplateNodes_near (hS : ∀ e, synthesized e → A e) (env : Env) (g0 : generator)
    (h : ∀ e ∈ g0.tf.Nodes.flatMap TemplateFileNode.exprs, A e) (F : generator → Prop) :
    Triple (Inv A g0 F) (generator.writeTemplateNodes env) (fun _ => Near A g0) := by
  unfold generator.writeTemplateNodes
  refine Triple.bind triple_tf ?_
  intro tf
  refine Triple.pre_pure (fun htf => ?_)
  subst htf
  refine Triple.bind (writeTemplateNodes_loop_keeps hS env g0.tf.Nodes h).triple ?_
  rintro ⟨nodes, err⟩
  dsimp only
  refine ⟨fun g hg => ?_⟩
  exact ⟨g, hg.1, rfl, rfl⟩

theorem generate_near (hS : ∀ e, synthesized e → A e) (env : Env) (g0 : generator)
    (h : ∀ e ∈ g0.tf.exprs, A e) :
    Near A g0 (generator.generate env g0).2 := by
  have hp : A g0.tf.Package.Expression := h _ (by simp [TemplateFile.exprs])
  have hi : ∀ im ∈ g0.tf.Imports, A im.Expression := fun im him => h _ (by
    simp only [TemplateFile.exprs, List.mem_cons, List.mem_append, List.mem_map]
    exact Or.inr (Or.inl ⟨im, him, rfl⟩))
  have hn : ∀ e ∈ g0.tf.Nodes.flatMap TemplateFileNode.exprs, A e := fun e he => h _ (by
    simp only [TemplateFile.exprs, List.mem_cons, List.mem_append]
    exact Or.inr (Or.inr he))
  have key : Triple (Inv A g0 (fun _ => True)) (generator.generate env)
      (fun _ => Near A g0) := by
    unfold generator.generate
    with_reducible repeat (first
      | exact Triple.pure _ inv_near
      | exact Triple.pure _ (fun _ h => h)
      | refine Triple.pure_bind _ ?_
      | refine Triple.bind (writeCodeGeneratedComment_keeps _).triple ?_
      | refine Triple.bind (writePackage_keeps g0 hp _) ?_
      | refine Triple.bind (writeImports_keeps g0 hi _) ?_
      | refine Triple.bind (writeTemplateNodes_near hS env g0 hn _) ?_
      | refine Triple.ite ?_ ?_
      | intro _
      | dsimp only)
  exact key.run g0 ⟨Reach.refl, trivial⟩

end keeps4

/-! ## The source map on a sink that accepts all writes -/

theorem genWrite_accepts (s : String) (g : generator) (h : g.w.w.accepts) :
    (Gen.Write s g).1 = (⟨g.w.Current, (Gen.Write s g).2.w.Current⟩, none) ∧
    (Gen.Write s g).2.sourceMap = g.sourceMap ∧
    (Gen.Write s g).2.w.w.fail = g.w.w.fail ∧
    (Gen.Write s g).2.w.w.out = g.w.w.out ++ s ∧
    (Gen.Write s g).2.w.Current.Index = g.w.Current.Index + (String.utf8Len s.data : Int) := by
  obtain ⟨_, h2, h3, _, h5, _, _⟩ := writeRunes_accepts s.data g.w h
  unfold Gen.Write
  rw [Write_accepts g.w s h]
  refine ⟨rfl, rfl, h3, ?_, h5⟩
  show (g.w.writeRunes s.data).1.w.out = g.w.w.out ++ s
  rw [h2]

theorem Tracks.step (A : Expression → Prop) {g0 g : generator} (hacc : g0.w.w.accepts)
    (h : Reach A g0 g) : Tracks g0 g := by
  induction h with
  | refl =>
    refine ⟨rfl, [], ?_, ?_, ?_⟩
    · show g0.w.w.out = g0.w.w.out ++ ""
      simp
    · simp
    · intro item hi
      exact Or.inl hi
  | @write s g _ ih =>
    obtain ⟨hf, o, ho, hidx, hcov⟩ := ih
    have hg : g.w.w.accepts := fun k => by rw [hf]; exact hacc k
    obtain ⟨_, hsm, hf', hout, hi'⟩ := genWrite_accepts s g hg
    refine ⟨hf'.trans hf, o ++ s.data, ?_, ?_, ?_⟩
    · rw [hout, ho]
      apply String.ext
      simp
    · rw [hi', hidx, String.utf8Len_append]
      push_cast
      omega
    · intro item hitem
      rw [hsm] at hitem
      rcases hcov item hitem with h0 | ⟨a, b, hab, h1, h2⟩
      · exact Or.inl h0
      · exact Or.inr ⟨a, b ++ s.data, by rw [hab]; simp, h1, h2⟩
  | @add e r g _ hw _ ih =>
    obtain ⟨hf, o, ho, hidx, hcov⟩ := ih
    have hg : g.w.w.accepts := fun k => by rw [hf]; exact hacc k
    obtain ⟨hval, hsm, hf', hout, hi'⟩ := genWrite_accepts e.Value g hg
    rw [hw] at hval
    have hr : r = ⟨g.w.Current, (Gen.Write e.Value g).2.w.Current⟩ := (Prod.ext_iff.mp hval).1
    refine ⟨hf'.trans hf, o ++ e.Value.data, ?_, ?_, ?_⟩
    · show (Gen.Write e.Value g).2.w.w.out = _
      rw [hout, ho]
      apply String.ext
      simp
    · show (Gen.Write e.Value g).2.w.Current.Index = _
      rw [hi', hidx, String.utf8Len_append]
      push_cast
      omega
    · intro item hitem
      have hitem' : item ∈ (Gen.Write e.Value g).2.sourceMap.Items ++ [⟨e, r⟩] := hitem
      rw [hsm, List.mem_append, List.mem_singleton] at hitem'
      rcases hitem' with hold | hnew
      · rcases hcov item hold with h0 | ⟨a, b, hab, h1, h2⟩
        · exact Or.inl h0
        · exact Or.inr ⟨a, b ++ e.Value.data, by rw [hab]; simp, h1, h2⟩
      · subst hnew
        refine Or.inr ⟨o, [], by simp, ?_, ?_⟩
        · show r.From.Index = _
          rw [hr, hidx]
        · show r.To.Index = _
          rw [hr]
          show (Gen.Write e.Value g).2.w.Current.Index = _
          rw [hi', hidx]
  | var _ ih => exact ih

theorem length_utf8Bytes (cs : List Char) :
    (cs.flatMap String.utf8EncodeChar).length = String.utf8Len cs := by
  induction cs with
  | nil => rfl
  | cons c cs ih =>
    rw [List.flatMap_cons, List.length_append, ih, String.length_utf8EncodeChar,
      String.utf8Len_cons, Nat.add_comm]

theorem goBytes_eq (s : String) : goBytes s = s.data.flatMap String.utf8EncodeChar := rfl

theorem sliceBytes_mid (a v b : List Char) :
    sliceBytes (goBytes (String.mk (a ++ v ++ b))) (String.utf8Len a : Int)
      ((String.utf8Len a : Int) + (String.utf8Len v : Int)) = goBytes (String.mk v) := by
  unfold sliceBytes
  rw [goBytes_eq, goBytes_eq]
  simp only [List.flatMap_append, List.append_assoc]
  have h1 : ((String.utf8Len a : Int)).toNat = (a.flatMap String.utf8EncodeChar).length := by
    rw [length_utf8Bytes]; simp
  have h2 : ((String.utf8Len a : Int) + (String.utf8Len v : Int)).toNat
      - ((String.utf8Len a : Int)).toNat = (v.flatMap String.utf8EncodeChar).length := by
    rw [length_utf8Bytes]; omega
  rw [h2, h1, List.drop_left, List.take_left]

theorem Generate_eq (env : Env) (template : TemplateFile) (w : Sink) :
    Generate env template w =
      { sm := (generator.generate env ⟨template, NewRangeWriter w, NewSourceMap, 0⟩).2.sourceMap,
        err := (generator.generate env ⟨template, NewRangeWriter w, NewSourceMap, 0⟩).1,
        w := (generator.generate env ⟨template, NewRangeWriter w, NewSourceMap, 0⟩).2.w.w,
        template := (generator.generate env ⟨template, NewRangeWriter w, NewSourceMap, 0⟩).2.tf } :=
  rfl

/-- C2: on a sink that accepts all writes, the range of every entry of the
source map that `Generate` returns lies within the generated output, and the
bytes of the output from `From.Index` up to `To.Index` are the bytes of the
text of the entry's expression. -/
theorem Generate_sourceMap_text (env : Env) (template : TemplateFile) (w : Sink)
    (h : w.accepts) :
    ∃ output : String, (Generate env template w).w.out = w.out ++ output ∧
      ∀ item ∈ (Generate env template w).sm.Items,
        0 ≤ item.Target.From.Index ∧ item.Target.From.Index ≤ item.Target.To.Index ∧
        item.Target.To.Index ≤ (output.utf8ByteSize : Int) ∧
        sliceBytes (goBytes output) item.Target.From.Index item.Target.To.Index
          = goBytes item.Source.Value := by
  rw [Generate_eq]
  obtain ⟨g1, hr, hw, hsm⟩ := generate_near (A := fun _ => True) (fun _ _ => trivial) env
    ⟨template, NewRangeWriter w, NewSourceMap, 0⟩ (fun _ _ => trivial)
  have ht : Tracks ⟨template, NewRangeWriter w, NewSourceMap, 0⟩ g1 := Tracks.step _ h hr
  obtain ⟨_, o, ho, _, hcov⟩ := ht
  refine ⟨String.mk o, ?_, ?_⟩
  · show (generator.generate env _).2.w.w.out = _
    rw [hw, ho]
    rfl
  · intro item hitem
    have hitem' : item ∈ g1.sourceMap.Items := by
      rw [← hsm]
      exact hitem
    rcases hcov item hitem' with h0 | ⟨a, b, hab, h1, h2⟩
    · exact absurd h0 (List.not_mem_nil _)
    · have h1' : item.Target.From.Index = (String.utf8Len a : Int) := by
        rw [h1]
        show (0 : Int) + _ = _
        omega
      have h2' : item.Target.To.Index
          = (String.utf8Len a : Int) + (String.utf8Len item.Source.Value.data : Int) := by
        rw [h2]
        show (0 : Int) + _ + _ = _
        omega
      refine ⟨by omega, by omega, ?_, ?_⟩
      · rw [h2', String.utf8ByteSize_mk, hab]
        simp only [String.utf8Len_append]
        push_cast
        omega
      · rw [h1', h2', hab]
        exact sliceBytes_mid a item.Source.Value.data b

/-- C2 at the template `<div class={ x }></div>` and the empty sink that accepts
all writes. -/
theorem Generate_sourceMap_text_witness :
    acceptingSink.accepts ∧
    ∃ output : String,
      (Generate exampleEnv (templateOf [.Element classElement]) acceptingSink).w.out
        = acceptingSink.out ++ output ∧
      ∀ item ∈ (Generate exampleEnv (templateOf [.Element classElement]) acceptingSink).sm.Items,
        0 ≤ item.Target.From.Index ∧ item.Target.From.Index ≤ item.Target.To.Index ∧
        item.Target.To.Index ≤ (output.utf8ByteSize : Int) ∧
        sliceBytes (goBytes output) item.Target.From.Index item.Target.To.Index
          = goBytes item.Source.Value :=
  ⟨fun _ => rfl,
    Generate_sourceMap_text exampleEnv (templateOf [.Element classElement]) acceptingSink
      (fun _ => rfl)⟩

/-! ## What the source map records -/

theorem Reach.sources {A : Expression → Prop} {g0 g : generator} (h : Reach A g0 g) :
    ∀ item ∈ g.sourceMap.Items, item ∈ g0.sourceMap.Items ∨ A item.Source := by
  induction h with
  | refl => exact fun _ h => Or.inl h
  | write s _ ih => exact ih
  | @add e r g _ _ hA ih =>
    intro item hitem
    have hitem' : item ∈ g.sourceMap.Items ++ [⟨e, r⟩] := hitem
    rw [List.mem_append, List.mem_singleton] at hitem'
    rcases hitem' with hold | hnew
    · exact ih item hold
    · subst hnew
      exact Or.inr hA
  | var _ ih => exact ih

/-- C3, the claim as stated fails: for `<div class={ x }></div>` the source map
holds an entry whose expression does not occur in the template file. -/
theorem Generate_sourceMap_synthesized :
    ¬ ∀ item ∈ (Generate exampleEnv (templateOf [.Element classElement]) acceptingSink).sm.Items,
        item.Source ∈ (templateOf [.Element classElement]).exprs := by
  decide!

/-- Whatever the sink does, every entry of the source map that `Generate`
returns records an expression that occurs in the input template file, or an
expression `var_N.String()` without source range, which `writeElementCSS` has
put in the place of the expression of a `class` attribute. -/
theorem Generate_sourceMap_origin (env : Env) (template : TemplateFile) (w : Sink) :
    ∀ item ∈ (Generate env template w).sm.Items,
      item.Source ∈ template.exprs ∨ synthesized item.Source := by
  rw [Generate_eq]
  obtain ⟨g1, hr, _, hsm⟩ := generate_near
    (A := fun e => e ∈ template.exprs ∨ synthesized e) (fun _ h => Or.inr h) env
    ⟨template, NewRangeWriter w, NewSourceMap, 0⟩ (fun _ h => Or.inl h)
  intro item hitem
  have hitem' : item ∈ g1.sourceMap.Items := by
    rw [← hsm]
    exact hitem
  rcases hr.sources item hitem' with h0 | h1
  · exact absurd h0 (List.not_mem_nil _)
  · exact h1

/-! ## The pass changes nothing but the expressions of `class` attributes -/

theorem Attribute.rewritten_eraseClass {a b : Attribute} (h : Attribute.rewritten a b) :
    b.eraseClass = a.eraseClass := by
  rcases h with rfl | ⟨name, e, e', rfl, hn, _, rfl⟩
  · rfl
  · simp [Attribute.eraseClass, hn]

theorem rewritten_map_eraseClass {attrs attrs1 : List Attribute}
    (h : List.Forall₂ Attribute.rewritten attrs attrs1) :
    attrs1.map Attribute.eraseClass = attrs.map Attribute.eraseClass := by
  induction h with
  | nil => rfl
  | cons hab _ ih => simp [Attribute.rewritten_eraseClass hab, ih]

theorem Val.weaken {α : Type} {m : Gen α} {V W : α → Prop} (h : Val m V)
    (hVW : ∀ a, V a → W a) : Val m W := ⟨fun g => hVW _ (h.run g)⟩

theorem writeStandardElement_erase (indentLevel : Nat) (n : Element)
    (writeChildren : Gen (List Node × error))
    (hwc : Val writeChildren (fun a => Node.eraseClassList a.1 = Node.eraseClassList n.Children)) :
    Val (generator.writeStandardElement indentLevel n writeChildren)
      (fun a => Node.eraseClass (.Element a.1) = Node.eraseClass (.Element n)) := by
  have hcss : Val (generator.writeElementCSS indentLevel n)
      (fun a => a.1.map Attribute.eraseClass = n.Attributes.map Attribute.eraseClass) :=
    (writeElementCSS_loop_val indentLevel n.Attributes).weaken
      (fun _ h => rewritten_map_eraseClass h)
  unfold generator.writeStandardElement
  with_reducible repeat' (first
    | refine Val.of_pure_bind _ ?_
    | refine Val.bind_of (by assumption) ?_
    | refine Val.of_bind ?_
    | refine Val.of_ite ?_ ?_
    | intro _
    | rintro ⟨_, _⟩
    | dsimp only)
  all_goals (refine Val.of_pure _ ?_; simp_all [Node.eraseClass])

mutual

theorem writeNode_erase :
    ∀ (node : Node) (indentLevel : Nat),
      Val (generator.writeNode indentLevel node)
        (fun a => Node.eraseClass a.1 = Node.eraseClass node)
  | .DocType n, indentLevel => by
    rw [writeNode_DocType]
    with_reducible repeat' (first
      | refine Val.of_pure_bind _ ?_
      | refine Val.bind_of (by assumption) ?_
      | refine Val.of_bind ?_
      | refine Val.of_ite ?_ ?_
      | intro _
      | rintro ⟨_, _⟩
      | dsimp only)
    all_goals (refine Val.of_pure _ ?_; simp_all [Node.eraseClass])
  | .Element n, indentLevel => by
    have h1 := writeElement_erase n indentLevel
    rw [writeNode_Element]
    with_reducible repeat' (first
      | refine Val.of_pure_bind _ ?_
      | refine Val.bind_of (by assumption) ?_
      | refine Val.of_bind ?_
      | refine Val.of_ite ?_ ?_
      | intro _
      | rintro ⟨_, _⟩
      | dsimp only)
    all_goals (refine Val.of_pure _ ?_; simp_all [Node.eraseClass])
  | .ForExpression n, indentLevel => by
    have h1 := writeForExpression_erase n indentLevel
    rw [writeNode_ForExpression]
    with_reducible repeat' (first
      | refine Val.of_pure_bind _ ?_
      | refine Val.bind_of (by assumption) ?_
      | refine Val.of_bind ?_
      | refine Val.of_ite ?_ ?_
      | intro _
      | rintro ⟨_, _⟩
      | dsimp only)
    all_goals (refine Val.of_pure _ ?_; simp_all [Node.eraseClass])
  | .CallTemplateExpression n, indentLevel => by
    rw [writeNode_CallTemplateExpression]
    with_reducible repeat' (first
      | refine Val.of_pure_bind _ ?_
      | refine Val.bind_of (by assumption) ?_
      | refine Val.of_bind ?_
      | refine Val.of_ite ?_ ?_
      | intro _
      | rintro ⟨_, _⟩
      | dsimp only)
    all_goals (refine Val.of_pure _ ?_; simp_all [Node.eraseClass])
  | .IfExpression n, indentLevel => by
    have h1 := writeIfExpression_erase n indentLevel
    rw [writeNode_IfExpression]
    with_reducible repeat' (first
      | refine Val.of_pure_bind _ ?_
      | refine Val.bind_of (by assumption) ?_
      | refine Val.of_bind ?_
      | refine Val.of_ite ?_ ?_
      | intro _
      | rintro ⟨_, _⟩
      | dsimp only)
    all_goals (refine Val.of_pure _ ?_; simp_all [Node.eraseClass])
  | .SwitchExpression n, indentLevel => by
    have h1 := writeSwitchExpression_erase n indentLevel
    rw [writeNode_SwitchExpression]
    with_reducible repeat' (first
      | refine Val.of_pure_bind _ ?_
      | refine Val.bind_of (by assumption) ?_
      | refine Val.of_bind ?_
      | refine Val.of_ite ?_ ?_
      | intro _
      | rintro ⟨_, _⟩
      | dsimp only)
    all_goals (refine Val.of_pure _ ?_; simp_all [Node.eraseClass])
  | .StringExpression n, indentLevel => by
    rw [writeNode_StringExpression]
    with_reducible repeat' (first
      | refine Val.of_pure_bind _ ?_
      | refine Val.bind_of (by assumption) ?_
      | refine Val.of_bind ?_
      | refine Val.of_ite ?_ ?_
      | intro _
      | rintro ⟨_, _⟩
      | dsimp only)
    all_goals (refine Val.of_pure _ ?_; simp_all [Node.eraseClass])
  | .Whitespace n, indentLevel => by
    rw [writeNode_Whitespace]
    exact Val.of_pure _ rfl
  | .Text n, indentLevel => by
    rw [writeNode_Text]
    with_reducible repeat' (first
      | refine Val.of_pure_bind _ ?_
      | refine Val.bind_of (by assumption) ?_
      | refine Val.of_bind ?_
      | refine Val.of_ite ?_ ?_
      | intro _
      | rintro ⟨_, _⟩
      | dsimp only)
    all_goals (refine Val.of_pure _ ?_; simp_all [Node.eraseClass])
  | .Other typeName, indentLevel => by
    rw [writeNode_Other]
    with_reducible repeat' (first
      | refine Val.of_pure_bind _ ?_
      | refine Val.bind_of (by assumption) ?_
      | refine Val.of_bind ?_
      | refine Val.of_ite ?_ ?_
      | intro _
      | rintro ⟨_, _⟩
      | dsimp only)
    all_goals (refine Val.of_pure _ ?_; simp_all [Node.eraseClass])

theorem writeNodes_erase :
    ∀ (nodes : List Node) (indentLevel : Nat),
      Val (generator.writeNodes indentLevel nodes)
        (fun a => Node.eraseClassList a.1 = Node.eraseClassList nodes)
  | [], indentLevel => by
    unfold generator.writeNodes
    exact Val.of_pure _ rfl
  | node :: rest, indentLevel => by
    have h1 := writeNode_erase node indentLevel
    have h2 := writeNodes_erase rest indentLevel
    unfold generator.writeNodes
    with_reducible repeat' (first
      | refine Val.of_pure_bind _ ?_
      | refine Val.bind_of (by assumption) ?_
      | refine Val.of_bind ?_
      | refine Val.of_ite ?_ ?_
      | intro _
      | rintro ⟨_, _⟩
      | dsimp only)
    all_goals (refine Val.of_pure _ ?_; simp_all [Node.eraseClassList])

theorem writeElement_erase :
    ∀ (n : Element) (indentLevel : Nat),
      Val (generator.writeElement indentLevel n)
        (fun a => Node.eraseClass (.Element a.1) = Node.eraseClass (.Element n))
  | n, indentLevel => by
    have h1 := writeNodes_erase n.Children indentLevel
    have h3 := writeStandardElement_erase indentLevel n _ h1
    unfold generator.writeElement
    refine Val.of_ite (fun _ => ?_) (fun _ => ?_)
    · refine Val.of_bind ?_
      intro _
      exact Val.of_pure _ rfl
    · exact h3

theorem writeForExpression_erase :
    ∀ (n : ForExpression) (indentLevel : Nat),
      Val (generator.writeForExpression indentLevel n)
        (fun a => Node.eraseClass (.ForExpression a.1) = Node.eraseClass (.ForExpression n))
  | n, indentLevel => by
    have h1 := writeNodes_erase n.Children (indentLevel + 1)
    unfold generator.writeForExpression
    with_reducible repeat' (first
      | refine Val.of_pure_bind _ ?_
      | refine Val.bind_of (by assumption) ?_
      | refine Val.of_bind ?_
      | refine Val.of_ite ?_ ?_
      | intro _
      | rintro ⟨_, _⟩
      | dsimp only)
    all_goals (refine Val.of_pure _ ?_; simp_all [Node.eraseClass])

theorem writeIfExpression_erase :
    ∀ (n : IfExpression) (indentLevel : Nat),
      Val (generator.writeIfExpression indentLevel n)
        (fun a => Node.eraseClass (.IfExpression a.1) = Node.eraseClass (.IfExpression n))
  | n, indentLevel => by
    have h1 := writeNodes_erase n.Then (indentLevel + 1)
    have h2 := writeNodes_erase n.Else (indentLevel + 1)
    unfold generator.writeIfExpression
    with_reducible repeat' (first
      | refine Val.of_pure_bind _ ?_
      | refine Val.bind_of (by assumption) ?_
      | refine Val.of_bind ?_
      | refine Val.of_ite ?_ ?_
      | intro _
      | rintro ⟨_, _⟩
      | dsimp only)
    all_goals (refine Val.of_pure _ ?_; simp_all [Node.eraseClass])

theorem writeSwitchExpression_cases_erase :
    ∀ (cases : List CaseExpression) (indentLevel : Nat),
      Val (generator.writeSwitchExpression.cases indentLevel cases)
        (fun a => Node.eraseClassCases a.1 = Node.eraseClassCases cases)
  | [], indentLevel => by
    unfold generator.writeSwitchExpression.cases
    exact Val.of_pure _ rfl
  | c :: rest, indentLevel => by
    have h1 := writeNodes_erase c.Children (indentLevel + 1)
    have h2 := writeSwitchExpression_cases_erase rest indentLevel
    unfold generator.writeSwitchExpression.cases
    with_reducible repeat' (first
      | refine Val.of_pure_bind _ ?_
      | refine Val.bind_of (by assumption) ?_
      | refine Val.of_bind ?_
      | refine Val.of_ite ?_ ?_
      | intro _
      | rintro ⟨_, _⟩
      | dsimp only)
    all_goals (refine Val.of_pure _ ?_; simp_all [Node.eraseClassCases])

theorem writeSwitchExpression_erase :
    ∀ (n : SwitchExpression) (indentLevel : Nat),
      Val (generator.writeSwitchExpression indentLevel n)
        (fun a => Node.eraseClass (.SwitchExpression a.1)
          = Node.eraseClass (.SwitchExpression n))
  | n, indentLevel => by
    have h1 := writeSwitchExpression_cases_erase n.Cases indentLevel
    have h2 := writeNodes_erase n.Default (indentLevel + 1)
    unfold generator.writeSwitchExpression
    with_reducible repeat' (first
      | refine Val.of_pure_bind _ ?_
      | refine Val.bind_of (by assumption) ?_
      | refine Val.of_bind ?_
      | refine Val.of_ite ?_ ?_
      | intro _
      | rintro ⟨_, _⟩
      | dsimp only)
    all_goals (refine Val.of_pure _ ?_; simp_all [Node.eraseClass])

end

set_option maxRecDepth 16384 in
theorem writeTemplate_erase (t : HTMLTemplate) :
    Val (generator.writeTemplate t)
      (fun a => Node.eraseClassList a.1.Children = Node.eraseClassList t.Children ∧
        a.1.Name = t.Name ∧ a.1.Parameters = t.Parameters) := by
  have h1 := writeNodes_erase t.Children 2
  unfold generator.writeTemplate
  with_reducible repeat' (first
    | refine Val.of_pure_bind _ ?_
    | refine Val.bind_of (by assumption) ?_
    | refine Val.of_bind ?_
    | refine Val.of_ite ?_ ?_
    | intro _
    | rintro ⟨_, _⟩
    | dsimp only)
  all_goals (refine Val.of_pure _ ?_; simp_all)

theorem writeTemplateNodes_loop_erase (env : Env) (nodes : List TemplateFileNode) :
    Val (generator.writeTemplateNodes.loop env nodes)
      (fun a => a.1.map TemplateFileNode.eraseClass = nodes.map TemplateFileNode.eraseClass) := by
  induction nodes with
  | nil =>
    unfold generator.writeTemplateNodes.loop
    exact Val.of_pure _ rfl
  | cons node rest ih =>
    cases node with
    | HTMLTemplate n =>
      have h1 := writeTemplate_erase n
      unfold generator.writeTemplateNodes.loop
      with_reducible repeat' (first
        | refine Val.of_pure_bind _ ?_
        | refine Val.bind_of (by assumption) ?_
        | refine Val.of_bind ?_
        | refine Val.of_ite ?_ ?_
        | intro _
        | rintro ⟨_, _⟩
        | dsimp only)
      all_goals (refine Val.of_pure _ ?_; simp_all [TemplateFileNode.eraseClass])
    | CSSTemplate n =>
      unfold generator.writeTemplateNodes.loop
      with_reducible repeat' (first
        | refine Val.of_pure_bind _ ?_
        | refine Val.bind_of (by assumption) ?_
        | refine Val.of_bind ?_
        | refine Val.of_ite ?_ ?_
        | intro _
        | rintro ⟨_, _⟩
        | dsimp only)
      all_goals (refine Val.of_pure _ ?_; simp_all [TemplateFileNode.eraseClass])
    | ScriptTemplate n =>
      unfold generator.writeTemplateNodes.loop
      with_reducible repeat' (first
        | refine Val.of_pure_bind _ ?_
        | refine Val.bind_of (by assumption) ?_
        | refine Val.of_bind ?_
        | refine Val.of_ite ?_ ?_
        | intro _
        | rintro ⟨_, _⟩
        | dsimp only)
      all_goals (refine Val.of_pure _ ?_; simp_all [TemplateFileNode.eraseClass])
    | Other typeName =>
      unfold generator.writeTemplateNodes.loop
      exact Val.of_pure _ rfl

theorem writeTemplateNodes_erase (env : Env) (g0 : generator) (F : generator → Prop) :
    Triple (Inv (fun _ => True) g0 F) (generator.writeTemplateNodes env)
      (fun _ g => g.tf.eraseClass = g0.tf.eraseClass) := by
  unfold generator.writeTemplateNodes
  refine Triple.bind triple_tf ?_
  intro tf
  refine Triple.pre_pure (fun htf => ?_)
  subst htf
  refine Triple.bind (Triple.keeps_val
    (writeTemplateNodes_loop_keeps (fun _ _ => trivial) env g0.tf.Nodes (fun _ _ => trivial))
    (writeTemplateNodes_loop_erase env g0.tf.Nodes)) ?_
  rintro ⟨nodes, err⟩
  refine ⟨fun g hg => ?_⟩
  have htf : g.tf = g0.tf := hg.1.tf_eq
  have hn : nodes.map TemplateFileNode.eraseClass
      = g0.tf.Nodes.map TemplateFileNode.eraseClass := hg.2
  show TemplateFile.eraseClass { g.tf with Nodes := nodes } = _
  rw [htf]
  unfold TemplateFile.eraseClass
  simp only [hn]

theorem inv_erase {g0 : generator} {F : generator → Prop} (g : generator)
    (h : Inv (fun _ => True) g0 F g) : g.tf.eraseClass = g0.tf.eraseClass := by
  rw [h.1.tf_eq]

theorem generate_erase (env : Env) (g0 : generator) :
    (generator.generate env g0).2.tf.eraseClass = g0.tf.eraseClass := by
  have key : Triple (Inv (fun _ => True) g0 (fun _ => True)) (generator.generate env)
      (fun _ g => g.tf.eraseClass = g0.tf.eraseClass) := by
    unfold generator.generate
    with_reducible repeat (first
      | exact Triple.pure _ inv_erase
      | exact Triple.pure _ (fun _ h => h)
      | refine Triple.pure_bind _ ?_
      | refine Triple.bind (writeCodeGeneratedComment_keeps _).triple ?_
      | refine Triple.bind (writePackage_keeps g0 trivial _) ?_
      | refine Triple.bind (writeImports_keeps g0 (fun _ _ => trivial) _) ?_
      | refine Triple.bind (writeTemplateNodes_erase env g0 _) ?_
      | refine Triple.ite ?_ ?_
      | intro _
      | dsimp only)
  exact key.run g0 ⟨Reach.refl, trivial⟩

theorem append_mk_length (a : String) (cs : List Char) :
    (a ++ String.mk cs).length = a.length + cs.length := by
  show (a.data ++ cs).length = a.data.length + cs.length
  exact List.length_append _ _

theorem Reach.calls {A : Expression → Prop} {g0 g : generator} (hacc : g0.w.w.accepts)
    (h : Reach A g0 g) :
    g.w.w.fail = g0.w.w.fail ∧
    g.w.w.out.length + g0.w.w.calls = g.w.w.calls + g0.w.w.out.length := by
  induction h with
  | refl => exact ⟨rfl, Nat.add_comm _ _⟩
  | @write s g _ ih =>
    obtain ⟨hf, hl⟩ := ih
    have hg : g.w.w.accepts := fun k => by rw [hf]; exact hacc k
    obtain ⟨_, h2, h3, h4, _⟩ := writeRunes_accepts s.data g.w hg
    have e : (Gen.Write s g).2.w = (g.w.writeRunes s.data).1 := by
      unfold Gen.Write
      rw [Write_accepts g.w s hg]
    rw [e, h2, h3, h4, append_mk_length]
    exact ⟨hf, by omega⟩
  | @add e r g _ hw _ ih =>
    obtain ⟨hf, hl⟩ := ih
    have hg : g.w.w.accepts := fun k => by rw [hf]; exact hacc k
    obtain ⟨_, h2, h3, h4, _⟩ := writeRunes_accepts e.Value.data g.w hg
    have e : (Gen.sourceMapAdd e r (Gen.Write e.Value g).2).2.w
        = (g.w.writeRunes e.Value.data).1 := by
      unfold Gen.Write Gen.sourceMapAdd
      rw [Write_accepts g.w e.Value hg]
    rw [e, h2, h3, h4, append_mk_length]
    exact ⟨hf, by omega⟩
  | var _ ih => exact ih

/-- On a sink that accepts all writes, the runes `Generate` appends are as many
as the write calls it makes. -/
theorem Generate_out_length (env : Env) (template : TemplateFile) (w : Sink) (h : w.accepts) :
    (Generate env template w).w.out.length + w.calls
      = (Generate env template w).w.calls + w.out.length := by
  rw [Generate_eq]
  obtain ⟨g1, hr, hw, _⟩ := generate_near (A := fun _ => True) (fun _ _ => trivial) env
    ⟨template, NewRangeWriter w, NewSourceMap, 0⟩ (fun _ _ => trivial)
  show (generator.generate env ⟨template, NewRangeWriter w, NewSourceMap, 0⟩).2.w.w.out.length + _
    = (generator.generate env ⟨template, NewRangeWriter w, NewSourceMap, 0⟩).2.w.w.calls + _
  rw [hw]
  exact (Reach.calls h hr).2

/-- C4, the claim as stated fails: after `Generate` on `<div class={ x }></div>`
the attribute list of the element is no longer what it was before the call,
and a second `Generate` on the AST the first one left behind does not produce
the output of the first. -/
theorem Generate_changes_class_attribute :
    firstElementAttributes
        (Generate exampleEnv (templateOf [.Element classElement]) acceptingSink).template
      ≠ firstElementAttributes (templateOf [.Element classElement]) ∧
    (Generate exampleEnv
        (Generate exampleEnv (templateOf [.Element classElement]) acceptingSink).template
        acceptingSink).w.out
      ≠ (Generate exampleEnv (templateOf [.Element classElement]) acceptingSink).w.out := by
  refine ⟨by decide!, fun h => ?_⟩
  have h1 := Generate_out_length exampleEnv (templateOf [.Element classElement]) acceptingSink
    (fun _ => rfl)
  have h2 := Generate_out_length exampleEnv
    (Generate exampleEnv (templateOf [.Element classElement]) acceptingSink).template
    acceptingSink (fun _ => rfl)
  have hc : (Generate exampleEnv
        (Generate exampleEnv (templateOf [.Element classElement]) acceptingSink).template
        acceptingSink).w.calls
      ≠ (Generate exampleEnv (templateOf [.Element classElement]) acceptingSink).w.calls := by
    decide!
  rw [h] at h2
  omega

/-- Whatever the sink does, `Generate` leaves the input AST as it was up to the
expressions of the expression attributes named `class`: package, imports, and
every declaration, node and attribute are the same before and after once those
expressions are blanked. -/
theorem Generate_template_erase (env : Env) (template : TemplateFile) (w : Sink) :
    (Generate env template w).template.eraseClass = template.eraseClass := by
  rw [Generate_eq]
  exact generate_erase env ⟨template, NewRangeWriter w, NewSourceMap, 0⟩

/-! ## The pass does not depend on what the sink held -/

theorem Write_accepts_eq (rw : RangeWriter) (s : String) (h : rw.w.accepts) :
    rw.Write s =
      (⟨rw.Current.advance s.data, ⟨rw.w.out ++ s, rw.w.calls + s.data.length, rw.w.fail⟩⟩,
        ⟨rw.Current, rw.Current.advance s.data⟩, none) := by
  obtain ⟨_, h2, h3, h4, h5, h6, h7⟩ := writeRunes_accepts s.data rw h
  have hrw : (rw.writeRunes s.data).1
      = ⟨rw.Current.advance s.data, ⟨rw.w.out ++ s, rw.w.calls + s.data.length, rw.w.fail⟩⟩ := by
    generalize rw.writeRunes s.data = x at *
    obtain ⟨⟨⟨i, l, c⟩, ⟨o, k, f⟩⟩, e⟩ := x
    simp only at h2 h3 h4 h5 h6 h7
    subst h2 h3 h4 h5 h6 h7
    rfl
  rw [Write_accepts rw s h, hrw]

theorem WriteIndent_accepts_eq (rw : RangeWriter) (level : Nat) (s : String)
    (h : rw.w.accepts) :
    rw.WriteIndent level s =
      (rw.Write (String.mk (List.replicate level '\t'))).1.Write s := by
  unfold RangeWriter.WriteIndent
  rw [Write_accepts_eq rw _ h]

section same
variable {u v : String}

theorem Same.both_pure {α : Type} (a : α) : Same u v (Pure.pure a : Gen α) :=
  ⟨fun _ _ h => ⟨rfl, h⟩⟩

theorem Same.both_pure_bind {α β : Type} (a : α) {f : α → Gen β} (h : Same u v (f a)) :
    Same u v (Pure.pure a >>= f) := ⟨h.run⟩

theorem Same.both_bind {α β : Type} {m : Gen α} {f : α → Gen β} (h1 : Same u v m)
    (h2 : ∀ a, Same u v (f a)) : Same u v (m >>= f) := by
  refine ⟨fun g1 g2 hs => ?_⟩
  obtain ⟨hv, hs'⟩ := h1.run g1 g2 hs
  have := (h2 (m g1).1).run (m g1).2 (m g2).2 hs'
  show (f (m g1).1 (m g1).2).1 = (f (m g2).1 (m g2).2).1 ∧
    Sim u v (f (m g1).1 (m g1).2).2 (f (m g2).1 (m g2).2).2
  rw [← hv]
  exact this

theorem Same.both_ite {α : Type} {c : Prop} [Decidable c] {a b : Gen α}
    (ha : c → Same u v a) (hb : ¬ c → Same u v b) : Same u v (if c then a else b) := by
  by_cases h : c
  · simpa [h] using ha h
  · simpa [h] using hb h

theorem sim_write (s : String) {rw1 rw2 : RangeWriter} (hc : rw1.Current = rw2.Current)
    (h1 : rw1.w.accepts) (h2 : rw2.w.accepts)
    (ho : ∃ o : String, rw1.w.out = u ++ o ∧ rw2.w.out = v ++ o) :
    (rw1.Write s).2 = (rw2.Write s).2 ∧ (rw1.Write s).1.Current = (rw2.Write s).1.Current ∧
    (rw1.Write s).1.w.accepts ∧ (rw2.Write s).1.w.accepts ∧
    ∃ o : String, (rw1.Write s).1.w.out = u ++ o ∧ (rw2.Write s).1.w.out = v ++ o := by
  rw [Write_accepts_eq rw1 s h1, Write_accepts_eq rw2 s h2, hc]
  obtain ⟨o, ho1, ho2⟩ := ho
  refine ⟨rfl, rfl, h1, h2, o ++ s, ?_, ?_⟩
  · show rw1.w.out ++ s = _
    rw [ho1, String.append_assoc]
  · show rw2.w.out ++ s = _
    rw [ho2, String.append_assoc]

theorem same_write (s : String) : Same u v (Gen.Write s) := by
  refine ⟨fun g1 g2 hs => ?_⟩
  obtain ⟨htf, hsm, hv, hc, h1, h2, ho⟩ := hs
  obtain ⟨hr, hc', h1', h2', ho'⟩ := sim_write (u := u) (v := v) s hc h1 h2 ho
  exact ⟨hr, htf, hsm, hv, hc', h1', h2', ho'⟩

theorem same_writeIndent (level : Nat) (s : String) : Same u v (Gen.WriteIndent level s) := by
  refine ⟨fun g1 g2 hs => ?_⟩
  obtain ⟨htf, hsm, hv, hc, h1, h2, ho⟩ := hs
  obtain ⟨_, hc', h1', h2', ho'⟩ :=
    sim_write (u := u) (v := v) (String.mk (List.replicate level '\t')) hc h1 h2 ho
  obtain ⟨hr, hc'', h1'', h2'', ho''⟩ := sim_write (u := u) (v := v) s hc' h1' h2' ho'
  unfold Gen.WriteIndent
  rw [WriteIndent_accepts_eq g1.w level s h1, WriteIndent_accepts_eq g2.w level s h2]
  exact ⟨hr, htf, hsm, hv, hc'', h1'', h2'', ho''⟩

theorem same_add (e : Expression) (r : Range) : Same u v (Gen.sourceMapAdd e r) := by
  refine ⟨fun g1 g2 hs => ?_⟩
  obtain ⟨htf, hsm, hv, hc, h1, h2, ho⟩ := hs
  refine ⟨rfl, htf, ?_, hv, hc, h1, h2, ho⟩
  show g1.sourceMap.Add e r = g2.sourceMap.Add e r
  rw [hsm]

theorem same_var : Same u v generator.createVariableName := by
  refine ⟨fun g1 g2 hs => ?_⟩
  obtain ⟨htf, hsm, hv, hc, h1, h2, ho⟩ := hs
  refine ⟨?_, htf, hsm, ?_, hc, h1, h2, ho⟩
  · show "var_" ++ toString (g1.variableID + 1) = "var_" ++ toString (g2.variableID + 1)
    rw [hv]
  · show g1.variableID + 1 = g2.variableID + 1
    rw [hv]

theorem same_tf : Same u v Gen.tf :=
  ⟨fun _ _ hs => ⟨hs.1, hs⟩⟩

theorem same_storeNodes (nodes : List TemplateFileNode) : Same u v (Gen.storeNodes nodes) := by
  refine ⟨fun g1 g2 hs => ?_⟩
  obtain ⟨htf, hsm, hv, hc, h1, h2, ho⟩ := hs
  refine ⟨rfl, ?_, hsm, hv, hc, h1, h2, ho⟩
  show ({ g1.tf with Nodes := nodes } : TemplateFile) = { g2.tf with Nodes := nodes }
  rw [htf]

theorem writeErrorHandler_same (indentLevel : Nat) :
    Same u v (generator.writeErrorHandler indentLevel) := by
  unfold generator.writeErrorHandler
  with_reducible repeat (first
    | exact Same.both_pure _
    | exact (by assumption)
    | refine Same.both_pure_bind _ ?_
    | refine Same.both_bind (same_write _) ?_
    | refine Same.both_bind (same_writeIndent _ _) ?_
    | refine Same.both_bind (same_add _ _) ?_
    | refine Same.both_bind same_var ?_
    | refine Same.both_bind same_tf ?_
    | refine Same.both_bind (by assumption) ?_
    | refine Same.both_ite ?_ ?_
    | intro _
    | rintro ⟨_, _⟩
    | dsimp only)

theorem writeCodeGeneratedComment_same (env : Env) :
    Same u v (generator.writeCodeGeneratedComment env) := by
  unfold generator.writeCodeGeneratedComment
  with_reducible repeat (first
    | exact Same.both_pure _
    | exact (by assumption)
    | refine Same.both_pure_bind _ ?_
    | refine Same.both_bind (same_write _) ?_
    | refine Same.both_bind (same_writeIndent _ _) ?_
    | refine Same.both_bind (same_add _ _) ?_
    | refine Same.both_bind same_var ?_
    | refine Same.both_bind same_tf ?_
    | refine Same.both_bind (by assumption) ?_
    | refine Same.both_ite ?_ ?_
    | intro _
    | rintro ⟨_, _⟩
    | dsimp only)

theorem writePackage_same : Same u v generator.writePackage := by
  unfold generator.writePackage
  with_reducible repeat (first
    | exact Same.both_pure _
    | exact (by assumption)
    | refine Same.both_pure_bind _ ?_
    | refine Same.both_bind (same_write _) ?_
    | refine Same.both_bind (same_writeIndent _ _) ?_
    | refine Same.both_bind (same_add _ _) ?_
    | refine Same.both_bind same_var ?_
    | refine Same.both_bind same_tf ?_
    | refine Same.both_bind (by assumption) ?_
    | refine Same.both_ite ?_ ?_
    | intro _
    | rintro ⟨_, _⟩
    | dsimp only)

theorem templateNodeInfo_same : Same u v generator.templateNodeInfo := by
  unfold generator.templateNodeInfo
  with_reducible repeat (first
    | exact Same.both_pure _
    | exact (by assumption)
    | refine Same.both_pure_bind _ ?_
    | refine Same.both_bind (same_write _) ?_
    | refine Same.both_bind (same_writeIndent _ _) ?_
    | refine Same.both_bind (same_add _ _) ?_
    | refine Same.both_bind same_var ?_
    | refine Same.both_bind same_tf ?_
    | refine Same.both_bind (by assumption) ?_
    | refine Same.both_ite ?_ ?_
    | intro _
    | rintro ⟨_, _⟩
    | dsimp only)

theorem writeImports_loop_same (imports : List Import) :
    Same u v (generator.writeImports.loop imports) := by
  induction imports with
  | nil =>
    unfold generator.writeImports.loop
    exact Same.both_pure _
  | cons im rest ih =>
    unfold generator.writeImports.loop
    with_reducible repeat (first
      | exact Same.both_pure _
      | exact (by assumption)
      | refine Same.both_pure_bind _ ?_
      | refine Same.both_bind (same_write _) ?_
      | refine Same.both_bind (same_writeIndent _ _) ?_
      | refine Same.both_bind (same_add _ _) ?_
      | refine Same.both_bind same_var ?_
      | refine Same.both_bind same_tf ?_
      | refine Same.both_bind (by assumption) ?_
      | refine Same.both_ite ?_ ?_
      | intro _
      | rintro ⟨_, _⟩
      | dsimp only)

theorem writeImports_same : Same u v generator.writeImports := by
  have h1 : ∀ imports, Same u v (generator.writeImports.loop imports) :=
    writeImports_loop_same
  have h2 : Same u v generator.templateNodeInfo := templateNodeInfo_same
  unfold generator.writeImports
  with_reducible repeat (first
    | exact Same.both_pure _
    | refine Same.both_pure_bind _ ?_
    | refine Same.both_bind (same_write _) ?_
    | refine Same.both_bind same_tf ?_
    | refine Same.both_bind h2 ?_
    | refine Same.both_bind (h1 _) ?_
    | refine Same.both_ite ?_ ?_
    | intro _
    | rintro ⟨_, _⟩
    | dsimp only)

theorem writeCSS_property_same (env : Env) (indentLevel : Nat) (p : CSSProperty) :
    Same u v (generator.writeCSS.property env indentLevel p) := by
  cases p with
  | ConstantCSSProperty name value =>
    unfold generator.writeCSS.property
    with_reducible repeat (first
      | exact Same.both_pure _
      | exact (by assumption)
      | refine Same.both_pure_bind _ ?_
      | refine Same.both_bind (same_write _) ?_
      | refine Same.both_bind (same_writeIndent _ _) ?_
      | refine Same.both_bind (same_add _ _) ?_
      | refine Same.both_bind same_var ?_
      | refine Same.both_bind same_tf ?_
      | refine Same.both_bind (by assumption) ?_
      | refine Same.both_ite ?_ ?_
      | intro _
      | rintro ⟨_, _⟩
      | dsimp only)
  | ExpressionCSSProperty name value =>
    unfold generator.writeCSS.property
    with_reducible repeat (first
      | exact Same.both_pure _
      | exact (by assumption)
      | refine Same.both_pure_bind _ ?_
      | refine Same.both_bind (same_write _) ?_
      | refine Same.both_bind (same_writeIndent _ _) ?_
      | refine Same.both_bind (same_add _ _) ?_
      | refine Same.both_bind same_var ?_
      | refine Same.both_bind same_tf ?_
      | refine Same.both_bind (by assumption) ?_
      | refine Same.both_ite ?_ ?_
      | intro _
      | rintro ⟨_, _⟩
      | dsimp only)
  | Other typeName =>
    unfold generator.writeCSS.property
    exact Same.both_pure _

theorem writeCSS_loop_same (env : Env) (indentLevel : Nat) (props : List CSSProperty) :
    Same u v (generator.writeCSS.loop env indentLevel props) := by
  induction props with
  | nil =>
    unfold generator.writeCSS.loop
    exact Same.both_pure _
  | cons p rest ih =>
    have hp : Same u v (generator.writeCSS.property env indentLevel p) :=
      writeCSS_property_same env indentLevel p
    unfold generator.writeCSS.loop
    with_reducible repeat (first
      | exact Same.both_pure _
      | exact (by assumption)
      | refine Same.both_pure_bind _ ?_
      | refine Same.both_bind (same_write _) ?_
      | refine Same.both_bind (same_writeIndent _ _) ?_
      | refine Same.both_bind (same_add _ _) ?_
      | refine Same.both_bind same_var ?_
      | refine Same.both_bind same_tf ?_
      | refine Same.both_bind (by assumption) ?_
      | refine Same.both_ite ?_ ?_
      | intro _
      | rintro ⟨_, _⟩
      | dsimp only)

theorem writeCSS_same (env : Env) (n : CSSTemplate) : Same u v (generator.writeCSS env n) := by
  have h1 : Same u v (generator.writeCSS.loop env 1 n.Properties) :=
    writeCSS_loop_same env 1 n.Properties
  have h2 : ∀ l, Same u v (generator.writeErrorHandler l) := writeErrorHandler_same
  unfold generator.writeCSS
  with_reducible repeat (first
    | exact Same.both_pure _
    | exact (by assumption)
    | refine Same.both_pure_bind _ ?_
    | refine Same.both_bind (same_write _) ?_
    | refine Same.both_bind (same_writeIndent _ _) ?_
    | refine Same.both_bind (same_add _ _) ?_
    | refine Same.both_bind same_var ?_
    | refine Same.both_bind same_tf ?_
    | refine Same.both_bind (by assumption) ?_
    | refine Same.both_ite ?_ ?_
    | intro _
    | rintro ⟨_, _⟩
    | dsimp only)

theorem writeDocType_same (indentLevel : Nat) (n : DocType) :
    Same u v (generator.writeDocType indentLevel n) := by
  have h2 : Same u v (generator.writeErrorHandler indentLevel) := writeErrorHandler_same _
  unfold generator.writeDocType
  with_reducible repeat (first
    | exact Same.both_pure _
    | exact (by assumption)
    | refine Same.both_pure_bind _ ?_
    | refine Same.both_bind (same_write _) ?_
    | refine Same.both_bind (same_writeIndent _ _) ?_
    | refine Same.both_bind (same_add _ _) ?_
    | refine Same.both_bind same_var ?_
    | refine Same.both_bind same_tf ?_
    | refine Same.both_bind (by assumption) ?_
    | refine Same.both_ite ?_ ?_
    | intro _
    | rintro ⟨_, _⟩
    | dsimp only)

theorem writeCallTemplateExpression_same (indentLevel : Nat) (n : CallTemplateExpression) :
    Same u v (generator.writeCallTemplateExpression indentLevel n) := by
  have h2 : Same u v (generator.writeErrorHandler indentLevel) := writeErrorHandler_same _
  unfold generator.writeCallTemplateExpression
  with_reducible repeat (first
    | exact Same.both_pure _
    | exact (by assumption)
    | refine Same.both_pure_bind _ ?_
    | refine Same.both_bind (same_write _) ?_
    | refine Same.both_bind (same_writeIndent _ _) ?_
    | refine Same.both_bind (same_add _ _) ?_
    | refine Same.both_bind same_var ?_
    | refine Same.both_bind same_tf ?_
    | refine Same.both_bind (by assumption) ?_
    | refine Same.both_ite ?_ ?_
    | intro _
    | rintro ⟨_, _⟩
    | dsimp only)

theorem writeStringExpression_same (indentLevel : Nat) (e : Expression) :
    Same u v (generator.writeStringExpression indentLevel e) := by
  have h2 : Same u v (generator.writeErrorHandler indentLevel) := writeErrorHandler_same _
  unfold generator.writeStringExpression
  with_reducible repeat (first
    | exact Same.both_pure _
    | exact (by assumption)
    | refine Same.both_pure_bind _ ?_
    | refine Same.both_bind (same_write _) ?_
    | refine Same.both_bind (same_writeIndent _ _) ?_
    | refine Same.both_bind (same_add _ _) ?_
    | refine Same.both_bind same_var ?_
    | refine Same.both_bind same_tf ?_
    | refine Same.both_bind (by assumption) ?_
    | refine Same.both_ite ?_ ?_
    | intro _
    | rintro ⟨_, _⟩
    | dsimp only)

theorem writeText_same (indentLevel : Nat) (e : Text) :
    Same u v (generator.writeText indentLevel e) := by
  have h2 : Same u v (generator.writeErrorHandler indentLevel) := writeErrorHandler_same _
  unfold generator.writeText
  with_reducible repeat (first
    | exact Same.both_pure _
    | exact (by assumption)
    | refine Same.both_pure_bind _ ?_
    | refine Same.both_bind (same_write _) ?_
    | refine Same.both_bind (same_writeIndent _ _) ?_
    | refine Same.both_bind (same_add _ _) ?_
    | refine Same.both_bind same_var ?_
    | refine Same.both_bind same_tf ?_
    | refine Same.both_bind (by assumption) ?_
    | refine Same.both_ite ?_ ?_
    | intro _
    | rintro ⟨_, _⟩
    | dsimp only)

theorem writeElementScript_same (indentLevel : Nat) (n : Element) :
    Same u v (generator.writeElementScript indentLevel n) := by
  have h2 : Same u v (generator.writeErrorHandler indentLevel) := writeErrorHandler_same _
  unfold generator.writeElementScript
  with_reducible repeat (first
    | exact Same.both_pure _
    | exact (by assumption)
    | refine Same.both_pure_bind _ ?_
    | refine Same.both_bind (same_write _) ?_
    | refine Same.both_bind (same_writeIndent _ _) ?_
    | refine Same.both_bind (same_add _ _) ?_
    | refine Same.both_bind same_var ?_
    | refine Same.both_bind same_tf ?_
    | refine Same.both_bind (by assumption) ?_
    | refine Same.both_ite ?_ ?_
    | intro _
    | rintro ⟨_, _⟩
    | dsimp only)

set_option maxRecDepth 16384 in
theorem writeElementAttributes_attribute_same (indentLevel : Nat) (n : Element)
    (attr : Attribute) :
    Same u v (generator.writeElementAttributes.attribute indentLevel n attr) := by
  have h2 : Same u v (generator.writeErrorHandler indentLevel) := writeErrorHandler_same _
  have h3 : Same u v (generator.writeErrorHandler (indentLevel + 1)) :=
    writeErrorHandler_same _
  cases attr with
  | BoolConstantAttribute attrName =>
    unfold generator.writeElementAttributes.attribute
    with_reducible repeat (first
      | exact Same.both_pure _
      | exact (by assumption)
      | refine Same.both_pure_bind _ ?_
      | refine Same.both_bind (same_write _) ?_
      | refine Same.both_bind (same_writeIndent _ _) ?_
      | refine Same.both_bind (same_add _ _) ?_
      | refine Same.both_bind same_var ?_
      | refine Same.both_bind same_tf ?_
      | refine Same.both_bind (by assumption) ?_
      | refine Same.both_ite ?_ ?_
      | intro _
      | rintro ⟨_, _⟩
      | dsimp only)
  | ConstantAttribute attrName attrValue =>
    unfold generator.writeElementAttributes.attribute
    with_reducible repeat (first
      | exact Same.both_pure _
      | exact (by assumption)
      | refine Same.both_pure_bind _ ?_
      | refine Same.both_bind (same_write _) ?_
      | refine Same.both_bind (same_writeIndent _ _) ?_
      | refine Same.both_bind (same_add _ _) ?_
      | refine Same.both_bind same_var ?_
      | refine Same.both_bind same_tf ?_
      | refine Same.both_bind (by assumption) ?_
      | refine Same.both_ite ?_ ?_
      | intro _
      | rintro ⟨_, _⟩
      | dsimp only)
  | BoolExpressionAttribute attrName expression =>
    unfold generator.writeElementAttributes.attribute
    with_reducible repeat (first
      | exact Same.both_pure _
      | exact (by assumption)
      | refine Same.both_pure_bind _ ?_
      | refine Same.both_bind (same_write _) ?_
      | refine Same.both_bind (same_writeIndent _ _) ?_
      | refine Same.both_bind (same_add _ _) ?_
      | refine Same.both_bind same_var ?_
      | refine Same.both_bind same_tf ?_
      | refine Same.both_bind (by assumption) ?_
      | refine Same.both_ite ?_ ?_
      | intro _
      | rintro ⟨_, _⟩
      | dsimp only)
  | ExpressionAttribute attrName expression =>
    unfold generator.writeElementAttributes.attribute
    with_reducible repeat (first
      | exact Same.both_pure _
      | exact (by assumption)
      | refine Same.both_pure_bind _ ?_
      | refine Same.both_bind (same_write _) ?_
      | refine Same.both_bind (same_writeIndent _ _) ?_
      | refine Same.both_bind (same_add _ _) ?_
      | refine Same.both_bind same_var ?_
      | refine Same.both_bind same_tf ?_
      | refine Same.both_bind (by assumption) ?_
      | refine Same.both_ite ?_ ?_
      | intro _
      | rintro ⟨_, _⟩
      | dsimp only)
  | Other typeName =>
    unfold generator.writeElementAttributes.attribute
    exact Same.both_pure _

theorem writeElementAttributes_loop_same (indentLevel : Nat) (n : Element)
    (attrs : List Attribute) :
    Same u v (generator.writeElementAttributes.loop indentLevel n attrs) := by
  induction attrs with
  | nil =>
    unfold generator.writeElementAttributes.loop
    exact Same.both_pure _
  | cons attr rest ih =>
    have hp : Same u v (generator.writeElementAttributes.attribute indentLevel n attr) :=
      writeElementAttributes_attribute_same indentLevel n attr
    unfold generator.writeElementAttributes.loop
    with_reducible repeat (first
      | exact Same.both_pure _
      | exact (by assumption)
      | refine Same.both_pure_bind _ ?_
      | refine Same.both_bind (same_write _) ?_
      | refine Same.both_bind (same_writeIndent _ _) ?_
      | refine Same.both_bind (same_add _ _) ?_
      | refine Same.both_bind same_var ?_
      | refine Same.both_bind same_tf ?_
      | refine Same.both_bind (by assumption) ?_
      | refine Same.both_ite ?_ ?_
      | intro _
      | rintro ⟨_, _⟩
      | dsimp only)

theorem writeElementAttributes_same (indentLevel : Nat) (n : Element) :
    Same u v (generator.writeElementAttributes indentLevel n) :=
  writeElementAttributes_loop_same indentLevel n n.Attributes

theorem writeVoidElement_same (indentLevel : Nat) (n : Element) :
    Same u v (generator.writeVoidElement indentLevel n) := by
  have h1 : Same u v (generator.writeElementAttributes indentLevel n) :=
    writeElementAttributes_same indentLevel n
  have h2 : Same u v (generator.writeErrorHandler indentLevel) := writeErrorHandler_same _
  unfold generator.writeVoidElement
  with_reducible repeat (first
    | exact Same.both_pure _
    | exact (by assumption)
    | refine Same.both_pure_bind _ ?_
    | refine Same.both_bind (same_write _) ?_
    | refine Same.both_bind (same_writeIndent _ _) ?_
    | refine Same.both_bind (same_add _ _) ?_
    | refine Same.both_bind same_var ?_
    | refine Same.both_bind same_tf ?_
    | refine Same.both_bind (by assumption) ?_
    | refine Same.both_ite ?_ ?_
    | intro _
    | rintro ⟨_, _⟩
    | dsimp only)

theorem writeElementCSS_attribute_same (indentLevel : Nat) (attr : Attribute) :
    Same u v (generator.writeElementCSS.attribute indentLevel attr) := by
  have h2 : Same u v (generator.writeErrorHandler indentLevel) := writeErrorHandler_same _
  cases attr with
  | BoolConstantAttribute attrName =>
    unfold generator.writeElementCSS.attribute
    exact Same.both_pure _
  | ConstantAttribute attrName attrValue =>
    unfold generator.writeElementCSS.attribute
    exact Same.both_pure _
  | BoolExpressionAttribute attrName expression =>
    unfold generator.writeElementCSS.attribute
    exact Same.both_pure _
  | ExpressionAttribute attrName expression =>
    unfold generator.writeElementCSS.attribute
    with_reducible repeat (first
      | exact Same.both_pure _
      | exact (by assumption)
      | refine Same.both_pure_bind _ ?_
      | refine Same.both_bind (same_write _) ?_
      | refine Same.both_bind (same_writeIndent _ _) ?_
      | refine Same.both_bind (same_add _ _) ?_
      | refine Same.both_bind same_var ?_
      | refine Same.both_bind same_tf ?_
      | refine Same.both_bind (by assumption) ?_
      | refine Same.both_ite ?_ ?_
      | intro _
      | rintro ⟨_, _⟩
      | dsimp only)
  | Other typeName =>
    unfold generator.writeElementCSS.attribute
    exact Same.both_pure _

theorem writeElementCSS_loop_same (indentLevel : Nat) (attrs : List Attribute) :
    Same u v (generator.writeElementCSS.loop indentLevel attrs) := by
  induction attrs with
  | nil =>
    unfold generator.writeElementCSS.loop
    exact Same.both_pure _
  | cons attr rest ih =>
    have hp : Same u v (generator.writeElementCSS.attribute indentLevel attr) :=
      writeElementCSS_attribute_same indentLevel attr
    unfold generator.writeElementCSS.loop
    with_reducible repeat (first
      | exact Same.both_pure _
      | exact (by assumption)
      | refine Same.both_pure_bind _ ?_
      | refine Same.both_bind (same_write _) ?_
      | refine Same.both_bind (same_writeIndent _ _) ?_
      | refine Same.both_bind (same_add _ _) ?_
      | refine Same.both_bind same_var ?_
      | refine Same.both_bind same_tf ?_
      | refine Same.both_bind (by assumption) ?_
      | refine Same.both_ite ?_ ?_
      | intro _
      | rintro ⟨_, _⟩
      | dsimp only)

set_option maxRecDepth 16384 in
theorem writeStandardElement_same (indentLevel : Nat) (n : Element)
    (writeChildren : Gen (List Node × error)) (hwc : Same u v writeChildren) :
    Same u v (generator.writeStandardElement indentLevel n writeChildren) := by
  have h1 : Same u v (generator.writeElementCSS indentLevel n) :=
    writeElementCSS_loop_same indentLevel n.Attributes
  have h2 : Same u v (generator.writeErrorHandler indentLevel) := writeErrorHandler_same _
  unfold generator.writeStandardElement
  with_reducible repeat (first
    | exact Same.both_pure _
    | refine Same.both_pure_bind _ ?_
    | refine Same.both_bind (same_writeIndent _ _) ?_
    | refine Same.both_bind (writeElementScript_same _ _) ?_
    | refine Same.both_bind (writeElementAttributes_same _ _) ?_
    | refine Same.both_bind (by assumption) ?_
    | refine Same.both_ite ?_ ?_
    | intro _
    | rintro ⟨_, _⟩
    | dsimp only)

set_option maxHeartbeats 1000000 in
mutual

theorem writeNode_same :
    ∀ (node : Node) (indentLevel : Nat), Same u v (generator.writeNode indentLevel node)
  | .DocType n, indentLevel => by
    have h1 : Same u v (generator.writeDocType indentLevel n) := writeDocType_same _ _
    rw [writeNode_DocType]
    with_reducible repeat (first
      | exact Same.both_pure _
      | exact (by assumption)
      | refine Same.both_pure_bind _ ?_
      | refine Same.both_bind (same_write _) ?_
      | refine Same.both_bind (same_writeIndent _ _) ?_
      | refine Same.both_bind (same_add _ _) ?_
      | refine Same.both_bind same_var ?_
      | refine Same.both_bind same_tf ?_
      | refine Same.both_bind (by assumption) ?_
      | refine Same.both_ite ?_ ?_
      | intro _
      | rintro ⟨_, _⟩
      | dsimp only)
  | .Element n, indentLevel => by
    have h1 := writeElement_same n indentLevel
    rw [writeNode_Element]
    with_reducible repeat (first
      | exact Same.both_pure _
      | exact (by assumption)
      | refine Same.both_pure_bind _ ?_
      | refine Same.both_bind (same_write _) ?_
      | refine Same.both_bind (same_writeIndent _ _) ?_
      | refine Same.both_bind (same_add _ _) ?_
      | refine Same.both_bind same_var ?_
      | refine Same.both_bind same_tf ?_
      | refine Same.both_bind (by assumption) ?_
      | refine Same.both_ite ?_ ?_
      | intro _
      | rintro ⟨_, _⟩
      | dsimp only)
  | .ForExpression n, indentLevel => by
    have h1 := writeForExpression_same n indentLevel
    rw [writeNode_ForExpression]
    with_reducible repeat (first
      | exact Same.both_pure _
      | exact (by assumption)
      | refine Same.both_pure_bind _ ?_
      | refine Same.both_bind (same_write _) ?_
      | refine Same.both_bind (same_writeIndent _ _) ?_
      | refine Same.both_bind (same_add _ _) ?_
      | refine Same.both_bind same_var ?_
      | refine Same.both_bind same_tf ?_
      | refine Same.both_bind (by assumption) ?_
      | refine Same.both_ite ?_ ?_
      | intro _
      | rintro ⟨_, _⟩
      | dsimp only)
  | .CallTemplateExpression n, indentLevel => by
    have h1 : Same u v (generator.writeCallTemplateExpression indentLevel n) :=
      writeCallTemplateExpression_same _ _
    rw [writeNode_CallTemplateExpression]
    with_reducible repeat (first
      | exact Same.both_pure _
      | exact (by assumption)
      | refine Same.both_pure_bind _ ?_
      | refine Same.both_bind (same_write _) ?_
      | refine Same.both_bind (same_writeIndent _ _) ?_
      | refine Same.both_bind (same_add _ _) ?_
      | refine Same.both_bind same_var ?_
      | refine Same.both_bind same_tf ?_
      | refine Same.both_bind (by assumption) ?_
      | refine Same.both_ite ?_ ?_
      | intro _
      | rintro ⟨_, _⟩
      | dsimp only)
  | .IfExpression n, indentLevel => by
    have h1 := writeIfExpression_same n indentLevel
    rw [writeNode_IfExpression]
    with_reducible repeat (first
      | exact Same.both_pure _
      | exact (by assumption)
      | refine Same.both_pure_bind _ ?_
      | refine Same.both_bind (same_write _) ?_
      | refine Same.both_bind (same_writeIndent _ _) ?_
      | refine Same.both_bind (same_add _ _) ?_
      | refine Same.both_bind same_var ?_
      | refine Same.both_bind same_tf ?_
      | refine Same.both_bind (by assumption) ?_
      | refine Same.both_ite ?_ ?_
      | intro _
      | rintro ⟨_, _⟩
      | dsimp only)
  | .SwitchExpression n, indentLevel => by
    have h1 := writeSwitchExpression_same n indentLevel
    rw [writeNode_SwitchExpression]
    with_reducible repeat (first
      | exact Same.both_pure _
      | exact (by assumption)
      | refine Same.both_pure_bind _ ?_
      | refine Same.both_bind (same_write _) ?_
      | refine Same.both_bind (same_writeIndent _ _) ?_
      | refine Same.both_bind (same_add _ _) ?_
      | refine Same.both_bind same_var ?_
      | refine Same.both_bind same_tf ?_
      | refine Same.both_bind (by assumption) ?_
      | refine Same.both_ite ?_ ?_
      | intro _
      | rintro ⟨_, _⟩
      | dsimp only)
  | .StringExpression n, indentLevel => by
    have h1 : Same u v (generator.writeStringExpression indentLevel n.Expression) :=
      writeStringExpression_same _ _
    rw [writeNode_StringExpression]
    with_reducible repeat (first
      | exact Same.both_pure _
      | exact (by assumption)
      | refine Same.both_pure_bind _ ?_
      | refine Same.both_bind (same_write _) ?_
      | refine Same.both_bind (same_writeIndent _ _) ?_
      | refine Same.both_bind (same_add _ _) ?_
      | refine Same.both_bind same_var ?_
      | refine Same.both_bind same_tf ?_
      | refine Same.both_bind (by assumption) ?_
      | refine Same.both_ite ?_ ?_
      | intro _
      | rintro ⟨_, _⟩
      | dsimp only)
  | .Whitespace n, indentLevel => by
    rw [writeNode_Whitespace]
    exact Same.both_pure _
  | .Text n, indentLevel => by
    have h1 : Same u v (generator.writeText indentLevel n) := writeText_same _ _
    rw [writeNode_Text]
    with_reducible repeat (first
      | exact Same.both_pure _
      | exact (by assumption)
      | refine Same.both_pure_bind _ ?_
      | refine Same.both_bind (same_write _) ?_
      | refine Same.both_bind (same_writeIndent _ _) ?_
      | refine Same.both_bind (same_add _ _) ?_
      | refine Same.both_bind same_var ?_
      | refine Same.both_bind same_tf ?_
      | refine Same.both_bind (by assumption) ?_
      | refine Same.both_ite ?_ ?_
      | intro _
      | rintro ⟨_, _⟩
      | dsimp only)
  | .Other typeName, indentLevel => by
    rw [writeNode_Other]
    with_reducible repeat (first
      | exact Same.both_pure _
      | exact (by assumption)
      | refine Same.both_pure_bind _ ?_
      | refine Same.both_bind (same_write _) ?_
      | refine Same.both_bind (same_writeIndent _ _) ?_
      | refine Same.both_bind (same_add _ _) ?_
      | refine Same.both_bind same_var ?_
      | refine Same.both_bind same_tf ?_
      | refine Same.both_bind (by assumption) ?_
      | refine Same.both_ite ?_ ?_
      | intro _
      | rintro ⟨_, _⟩
      | dsimp only)

theorem writeNodes_same :
    ∀ (nodes : List Node) (indentLevel : Nat),
      Same u v (generator.writeNodes indentLevel nodes)
  | [], indentLevel => by
    unfold generator.writeNodes
    exact Same.both_pure _
  | node :: rest, indentLevel => by
    have h1 := writeNode_same node indentLevel
    have h2 := writeNodes_same rest indentLevel
    unfold generator.writeNodes
    with_reducible repeat (first
      | exact Same.both_pure _
      | exact (by assumption)
      | refine Same.both_pure_bind _ ?_
      | refine Same.both_bind (same_write _) ?_
      | refine Same.both_bind (same_writeIndent _ _) ?_
      | refine Same.both_bind (same_add _ _) ?_
      | refine Same.both_bind same_var ?_
      | refine Same.both_bind same_tf ?_
      | refine Same.both_bind (by assumption) ?_
      | refine Same.both_ite ?_ ?_
      | intro _
      | rintro ⟨_, _⟩
      | dsimp only)

theorem writeElement_same :
    ∀ (n : Element) (indentLevel : Nat), Same u v (generator.writeElement indentLevel n)
  | n, indentLevel => by
    have h1 := writeNodes_same n.Children indentLevel
    have h2 : Same u v (generator.writeVoidElement indentLevel n) :=
      writeVoidElement_same _ _
    have h3 := writeStandardElement_same indentLevel n _ h1
    unfold generator.writeElement
    with_reducible repeat (first
      | exact Same.both_pure _
      | exact (by assumption)
      | refine Same.both_pure_bind _ ?_
      | refine Same.both_bind (same_write _) ?_
      | refine Same.both_bind (same_writeIndent _ _) ?_
      | refine Same.both_bind (same_add _ _) ?_
      | refine Same.both_bind same_var ?_
      | refine Same.both_bind same_tf ?_
      | refine Same.both_bind (by assumption) ?_
      | refine Same.both_ite ?_ ?_
      | intro _
      | rintro ⟨_, _⟩
      | dsimp only)

theorem writeForExpression_same :
    ∀ (n : ForExpression) (indentLevel : Nat),
      Same u v (generator.writeForExpression indentLevel n)
  | n, indentLevel => by
    have h1 := writeNodes_same n.Children (indentLevel + 1)
    unfold generator.writeForExpression
    with_reducible repeat (first
      | exact Same.both_pure _
      | exact (by assumption)
      | refine Same.both_pure_bind _ ?_
      | refine Same.both_bind (same_write _) ?_
      | refine Same.both_bind (same_writeIndent _ _) ?_
      | refine Same.both_bind (same_add _ _) ?_
      | refine Same.both_bind same_var ?_
      | refine Same.both_bind same_tf ?_
      | refine Same.both_bind (by assumption) ?_
      | refine Same.both_ite ?_ ?_
      | intro _
      | rintro ⟨_, _⟩
      | dsimp only)

theorem writeIfExpression_same :
    ∀ (n : IfExpression) (indentLevel : Nat),
      Same u v (generator.writeIfExpression indentLevel n)
  | n, indentLevel => by
    have h1 := writeNodes_same n.Then (indentLevel + 1)
    have h2 := writeNodes_same n.Else (indentLevel + 1)
    unfold generator.writeIfExpression
    with_reducible repeat (first
      | exact Same.both_pure _
      | exact (by assumption)
      | refine Same.both_pure_bind _ ?_
      | refine Same.both_bind (same_write _) ?_
      | refine Same.both_bind (same_writeIndent _ _) ?_
      | refine Same.both_bind (same_add _ _) ?_
      | refine Same.both_bind same_var ?_
      | refine Same.both_bind same_tf ?_
      | refine Same.both_bind (by assumption) ?_
      | refine Same.both_ite ?_ ?_
      | intro _
      | rintro ⟨_, _⟩
      | dsimp only)

theorem writeSwitchExpression_cases_same :
    ∀ (cases : List CaseExpression) (indentLevel : Nat),
      Same u v (generator.writeSwitchExpression.cases indentLevel cases)
  | [], indentLevel => by
    unfold generator.writeSwitchExpression.cases
    exact Same.both_pure _
  | c :: rest, indentLevel => by
    have h1 := writeNodes_same c.Children (indentLevel + 1)
    have h2 := writeSwitchExpression_cases_same rest indentLevel
    unfold generator.writeSwitchExpression.cases
    with_reducible repeat (first
      | exact Same.both_pure _
      | exact (by assumption)
      | refine Same.both_pure_bind _ ?_
      | refine Same.both_bind (same_write _) ?_
      | refine Same.both_bind (same_writeIndent _ _) ?_
      | refine Same.both_bind (same_add _ _) ?_
      | refine Same.both_bind same_var ?_
      | refine Same.both_bind same_tf ?_
      | refine Same.both_bind (by assumption) ?_
      | refine Same.both_ite ?_ ?_
      | intro _
      | rintro ⟨_, _⟩
      | dsimp only)

theorem writeSwitchExpression_same :
    ∀ (n : SwitchExpression) (indentLevel : Nat),
      Same u v (generator.writeSwitchExpression indentLevel n)
  | n, indentLevel => by
    have h1 := writeSwitchExpression_cases_same n.Cases indentLevel
    have h2 := writeNodes_same n.Default (indentLevel + 1)
    unfold generator.writeSwitchExpression
    with_reducible repeat (first
      | exact Same.both_pure _
      | exact (by assumption)
      | refine Same.both_pure_bind _ ?_
      | refine Same.both_bind (same_write _) ?_
      | refine Same.both_bind (same_writeIndent _ _) ?_
      | refine Same.both_bind (same_add _ _) ?_
      | refine Same.both_bind same_var ?_
      | refine Same.both_bind same_tf ?_
      | refine Same.both_bind (by assumption) ?_
      | refine Same.both_ite ?_ ?_
      | intro _
      | rintro ⟨_, _⟩
      | dsimp only)

end

set_option maxRecDepth 16384 in
theorem writeTemplate_same (t : HTMLTemplate) : Same u v (generator.writeTemplate t) := by
  have h1 : Same u v (generator.writeNodes 2 t.Children) := writeNodes_same _ _
  unfold generator.writeTemplate
  with_reducible repeat (first
    | exact Same.both_pure _
    | exact (by assumption)
    | refine Same.both_pure_bind _ ?_
    | refine Same.both_bind (same_write _) ?_
    | refine Same.both_bind (same_writeIndent _ _) ?_
    | refine Same.both_bind (same_add _ _) ?_
    | refine Same.both_bind same_var ?_
    | refine Same.both_bind same_tf ?_
    | refine Same.both_bind (by assumption) ?_
    | refine Same.both_ite ?_ ?_
    | intro _
    | rintro ⟨_, _⟩
    | dsimp only)

set_option maxRecDepth 16384 in
theorem writeScript_same (env : Env) (t : ScriptTemplate) :
    Same u v (generator.writeScript env t) := by
  unfold generator.writeScript
  with_reducible repeat (first
    | exact Same.both_pure _
    | exact (by assumption)
    | refine Same.both_pure_bind _ ?_
    | refine Same.both_bind (same_write _) ?_
    | refine Same.both_bind (same_writeIndent _ _) ?_
    | refine Same.both_bind (same_add _ _) ?_
    | refine Same.both_bind same_var ?_
    | refine Same.both_bind same_tf ?_
    | refine Same.both_bind (by assumption) ?_
    | refine Same.both_ite ?_ ?_
    | intro _
    | rintro ⟨_, _⟩
    | dsimp only)

theorem writeTemplateNodes_loop_same (env : Env) (nodes : List TemplateFileNode) :
    Same u v (generator.writeTemplateNodes.loop env nodes) := by
  induction nodes with
  | nil =>
    unfold generator.writeTemplateNodes.loop
    exact Same.both_pure _
  | cons node rest ih =>
    cases node with
    | HTMLTemplate n =>
      have h1 : Same u v (generator.writeTemplate n) := writeTemplate_same n
      unfold generator.writeTemplateNodes.loop
      with_reducible repeat (first
        | exact Same.both_pure _
        | exact (by assumption)
        | refine Same.both_pure_bind _ ?_
        | refine Same.both_bind (same_write _) ?_
        | refine Same.both_bind (same_writeIndent _ _) ?_
        | refine Same.both_bind (same_add _ _) ?_
        | refine Same.both_bind same_var ?_
        | refine Same.both_bind same_tf ?_
        | refine Same.both_bind (by assumption) ?_
        | refine Same.both_ite ?_ ?_
        | intro _
        | rintro ⟨_, _⟩
        | dsimp only)
    | CSSTemplate n =>
      have h1 : Same u v (generator.writeCSS env n) := writeCSS_same env n
      unfold generator.writeTemplateNodes.loop
      with_reducible repeat (first
        | exact Same.both_pure _
        | exact (by assumption)
        | refine Same.both_pure_bind _ ?_
        | refine Same.both_bind (same_write _) ?_
        | refine Same.both_bind (same_writeIndent _ _) ?_
        | refine Same.both_bind (same_add _ _) ?_
        | refine Same.both_bind same_var ?_
        | refine Same.both_bind same_tf ?_
        | refine Same.both_bind (by assumption) ?_
        | refine Same.both_ite ?_ ?_
        | intro _
        | rintro ⟨_, _⟩
        | dsimp only)
    | ScriptTemplate n =>
      have h1 : Same u v (generator.writeScript env n) := writeScript_same env n
      unfold generator.writeTemplateNodes.loop
      with_reducible repeat (first
        | exact Same.both_pure _
        | exact (by assumption)
        | refine Same.both_pure_bind _ ?_
        | refine Same.both_bind (same_write _) ?_
        | refine Same.both_bind (same_writeIndent _ _) ?_
        | refine Same.both_bind (same_add _ _) ?_
        | refine Same.both_bind same_var ?_
        | refine Same.both_bind same_tf ?_
        | refine Same.both_bind (by assumption) ?_
        | refine Same.both_ite ?_ ?_
        | intro _
        | rintro ⟨_, _⟩
        | dsimp only)
    | Other typeName =>
      unfold generator.writeTemplateNodes.loop
      exact Same.both_pure _

theorem writeTemplateNodes_same (env : Env) : Same u v (generator.writeTemplateNodes env) := by
  have h1 : ∀ nodes, Same u v (generator.writeTemplateNodes.loop env nodes) :=
    writeTemplateNodes_loop_same env
  unfold generator.writeTemplateNodes
  with_reducible repeat (first
    | exact Same.both_pure _
    | refine Same.both_pure_bind _ ?_
    | refine Same.both_bind same_tf ?_
    | refine Same.both_bind (h1 _) ?_
    | refine Same.both_bind (same_storeNodes _) ?_
    | refine Same.both_ite ?_ ?_
    | intro _
    | rintro ⟨_, _⟩
    | dsimp only)

theorem generate_same (env : Env) : Same u v (generator.generate env) := by
  have h1 : Same u v (generator.writeCodeGeneratedComment env) :=
    writeCodeGeneratedComment_same env
  have h2 : Same u v generator.writePackage := writePackage_same
  have h3 : Same u v generator.writeImports := writeImports_same
  have h4 : Same u v (generator.writeTemplateNodes env) := writeTemplateNodes_same env
  unfold generator.generate
  with_reducible repeat (first
    | exact Same.both_pure _
    | exact (by assumption)
    | refine Same.both_pure_bind _ ?_
    | refine Same.both_bind (same_write _) ?_
    | refine Same.both_bind (same_writeIndent _ _) ?_
    | refine Same.both_bind (same_add _ _) ?_
    | refine Same.both_bind same_var ?_
    | refine Same.both_bind same_tf ?_
    | refine Same.both_bind (by assumption) ?_
    | refine Same.both_ite ?_ ?_
    | intro _
    | rintro ⟨_, _⟩
    | dsimp only)

end same

/-- C5: `Generate` is deterministic. Two runs on the same template file with the
same version, on sinks that accept all writes, return the same source map and
the same error, leave the same AST, and append the same text to their sinks,
whatever the sinks held before. -/
theorem Generate_deterministic (env : Env) (template : TemplateFile) (w1 w2 : Sink)
    (h1 : w1.accepts) (h2 : w2.accepts) :
    (Generate env template w1).sm = (Generate env template w2).sm ∧
    (Generate env template w1).err = (Generate env template w2).err ∧
    ∃ output : String, (Generate env template w1).w.out = w1.out ++ output ∧
      (Generate env template w2).w.out = w2.out ++ output := by
  rw [Generate_eq, Generate_eq]
  have hs : Sim w1.out w2.out ⟨template, NewRangeWriter w1, NewSourceMap, 0⟩
      ⟨template, NewRangeWriter w2, NewSourceMap, 0⟩ :=
    ⟨rfl, rfl, rfl, rfl, h1, h2, "", by simp [NewRangeWriter], by simp [NewRangeWriter]⟩
  obtain ⟨hv, _, hsm, _, _, _, _, ho⟩ := (generate_same env).run _ _ hs
  exact ⟨hsm, hv, ho⟩

/-- C5 at `<div class={ x }></div>`, the empty sink and a sink that already holds
a line of text. -/
theorem Generate_deterministic_witness :
    acceptingSink.accepts ∧ Sink.accepts ⟨"// kept\n", 1, fun _ => none⟩ ∧
    (Generate exampleEnv (templateOf [.Element classElement]) acceptingSink).sm
      = (Generate exampleEnv (templateOf [.Element classElement])
          ⟨"// kept\n", 1, fun _ => none⟩).sm :=
  ⟨fun _ => rfl, fun _ => rfl,
    (Generate_deterministic exampleEnv (templateOf [.Element classElement]) acceptingSink
      ⟨"// kept\n", 1, fun _ => none⟩ (fun _ => rfl) (fun _ => rfl)).1⟩

/-! ## Errors of the node writers -/

/-- C6: for a template whose body is the void element `<br>` with a child,
`writeVoidElement` returns its error, but `Generate` returns no error, and its
output is the output for the empty body: the element is dropped. -/
theorem Generate_void_element_children_dropped :
    (generator.writeVoidElement 2 voidElementWithChild
        ⟨templateOf [.Element voidElementWithChild], NewRangeWriter acceptingSink,
          NewSourceMap, 0⟩).1 = some (.voidElementChildren "br") ∧
    (Generate exampleEnv (templateOf [.Element voidElementWithChild]) acceptingSink).err = none ∧
    (Generate exampleEnv (templateOf [.Element voidElementWithChild]) acceptingSink).w.out
      = (Generate exampleEnv (templateOf []) acceptingSink).w.out := by
  decide!

/-- C7: for a template whose body is a node of unknown kind, `writeNode` writes
the line `Unhandled type: parser.Comment` into the output and `Generate`
returns no error. The three other dispatchers return an error for a value of
unknown kind: `Generate` for a top-level declaration and for a property of a
CSS template, and `writeElementAttributes` for an attribute. -/
theorem Generate_unknown_body_node_no_error :
    (Generate exampleEnv (templateOf [.Other "parser.Comment"]) acceptingSink).err = none ∧
    (generator.writeNode 2 (.Other "parser.Comment") exampleGenerator).2.w.w.out
      = "Unhandled type: parser.Comment\n" ∧
    (Generate exampleEnv { (templateOf []) with Nodes := [.Other "parser.Comment"] }
        acceptingSink).err = some (.unknownNodeType "parser.Comment") ∧
    (Generate exampleEnv { (templateOf []) with
        Nodes := [.CSSTemplate ⟨⟨"red", default⟩, [.Other "parser.Comment"]⟩] }
        acceptingSink).err = some (.unknownCSSPropertyType "parser.Comment") ∧
    (generator.writeElementAttributes 2 unknownThenClassElement exampleGenerator).1
      = some (.unknownAttributeType "parser.Comment") := by
  decide!

theorem writeCSS_property_other (env : Env) (indentLevel : Nat) (typeName : String) :
    Val (generator.writeCSS.property env indentLevel (.Other typeName))
      (fun err => err ≠ none) := by
  unfold generator.writeCSS.property
  exact Val.of_pure _ (by simp)

theorem writeCSS_loop_other (env : Env) (indentLevel : Nat) (props : List CSSProperty)
    (h : ∃ typeName, CSSProperty.Other typeName ∈ props) :
    Val (generator.writeCSS.loop env indentLevel props) (fun err => err ≠ none) := by
  induction props with
  | nil => obtain ⟨_, h⟩ := h; cases h
  | cons p rest ih =>
    unfold generator.writeCSS.loop
    by_cases hp : ∃ typeName, p = .Other typeName
    · obtain ⟨typeName, rfl⟩ := hp
      refine Val.bind_of (writeCSS_property_other env indentLevel typeName) ?_
      intro err herr
      refine Val.of_ite (fun _ => Val.of_pure _ herr) (fun hn => absurd herr hn)
    · have hrest : ∃ typeName, CSSProperty.Other typeName ∈ rest := by
        obtain ⟨typeName, hmem⟩ := h
        rcases List.mem_cons.mp hmem with heq | hmem
        · exact absurd ⟨typeName, heq.symm⟩ hp
        · exact ⟨typeName, hmem⟩
      refine Val.of_bind ?_
      intro err
      exact Val.of_ite (fun herr => Val.of_pure _ herr) (fun _ => ih hrest)

theorem writeCSS_other (env : Env) (n : CSSTemplate)
    (h : ∃ typeName, CSSProperty.Other typeName ∈ n.Properties) :
    Val (generator.writeCSS env n) (fun err => err ≠ none) := by
  have hloop := writeCSS_loop_other env 1 n.Properties h
  unfold generator.writeCSS
  with_reducible repeat' (first
    | refine Val.of_pure_bind _ ?_
    | refine Val.bind_of hloop ?_
    | refine Val.of_bind ?_
    | refine Val.of_ite ?_ ?_
    | intro _
    | rintro ⟨_, _⟩
    | dsimp only)
  all_goals (first
    | exact Val.of_pure _ (by assumption)
    | (exfalso; contradiction))

theorem writeTemplateNodes_loop_unhandled (env : Env) (nodes : List TemplateFileNode)
    (h : ∃ node ∈ nodes, node.unhandled) :
    Val (generator.writeTemplateNodes.loop env nodes) (fun a => a.2 ≠ none) := by
  induction nodes with
  | nil => obtain ⟨_, h, _⟩ := h; cases h
  | cons node rest ih =>
    have hrest : ¬ node.unhandled → ∃ node ∈ rest, node.unhandled := by
      intro hn
      obtain ⟨m, hmem, hm⟩ := h
      rcases List.mem_cons.mp hmem with heq | hmem
      · subst heq; exact absurd hm hn
      · exact ⟨m, hmem, hm⟩
    cases node with
    | HTMLTemplate n =>
      have ih := ih (hrest (fun h => h))
      unfold generator.writeTemplateNodes.loop
      with_reducible repeat' (first
        | refine Val.of_pure_bind _ ?_
        | refine Val.bind_of ih ?_
        | refine Val.of_bind ?_
        | refine Val.of_ite ?_ ?_
        | intro _
        | rintro ⟨_, _⟩
        | dsimp only)
      all_goals exact Val.of_pure _ (by assumption)
    | CSSTemplate n =>
      unfold generator.writeTemplateNodes.loop
      by_cases hn : ∃ typeName, CSSProperty.Other typeName ∈ n.Properties
      · refine Val.bind_of (writeCSS_other env n hn) ?_
        intro err herr
        exact Val.of_ite (fun _ => Val.of_pure _ herr) (fun hc => absurd herr hc)
      · have ih := ih (hrest hn)
        with_reducible repeat' (first
          | refine Val.of_pure_bind _ ?_
          | refine Val.bind_of ih ?_
          | refine Val.of_bind ?_
          | refine Val.of_ite ?_ ?_
          | intro _
          | rintro ⟨_, _⟩
          | dsimp only)
        all_goals exact Val.of_pure _ (by assumption)
    | ScriptTemplate n =>
      have ih := ih (hrest (fun h => h))
      unfold generator.writeTemplateNodes.loop
      with_reducible repeat' (first
        | refine Val.of_pure_bind _ ?_
        | refine Val.bind_of ih ?_
        | refine Val.of_bind ?_
        | refine Val.of_ite ?_ ?_
        | intro _
        | rintro ⟨_, _⟩
        | dsimp only)
      all_goals exact Val.of_pure _ (by assumption)
    | Other typeName =>
      unfold generator.writeTemplateNodes.loop
      exact Val.of_pure _ (by simp)

theorem writeTemplateNodes_unhandled (env : Env) (g0 : generator) (F : generator → Prop)
    (h : ∃ node ∈ g0.tf.Nodes, node.unhandled) :
    Triple (Inv (fun _ => True) g0 F) (generator.writeTemplateNodes env)
      (fun err _ => err ≠ none) := by
  unfold generator.writeTemplateNodes
  refine Triple.bind triple_tf ?_
  intro tf
  refine Triple.pre_pure (fun htf => ?_)
  subst htf
  refine Triple.bind (Triple.keeps_val
    (writeTemplateNodes_loop_keeps (fun _ _ => trivial) env g0.tf.Nodes (fun _ _ => trivial))
    (writeTemplateNodes_loop_unhandled env g0.tf.Nodes h)) ?_
  rintro ⟨nodes, err⟩
  exact ⟨fun g hg => hg.2⟩

theorem generate_unhandled (env : Env) (g0 : generator)
    (h : ∃ node ∈ g0.tf.Nodes, node.unhandled) : (generator.generate env g0).1 ≠ none := by
  have key : Triple (Inv (fun _ => True) g0 (fun _ => True)) (generator.generate env)
      (fun err _ => err ≠ none) := by
    unfold generator.generate
    with_reducible repeat (first
      | exact Triple.pure _ (fun _ _ => by assumption)
      | refine Triple.pure_bind _ ?_
      | refine Triple.bind (writeCodeGeneratedComment_keeps _).triple ?_
      | refine Triple.bind (writePackage_keeps g0 trivial _) ?_
      | refine Triple.bind (writeImports_keeps g0 (fun _ _ => trivial) _) ?_
      | refine Triple.bind (writeTemplateNodes_unhandled env g0 _ h) ?_
      | refine Triple.ite ?_ ?_
      | intro _
      | dsimp only)
  exact key.run g0 ⟨Reach.refl, trivial⟩

/-- Whatever the sink does, `Generate` returns an error for a template file
with a top-level declaration that is no HTML, CSS or script template, or with a
CSS template that has a property of unknown kind. -/
theorem Generate_unhandled_error (env : Env) (template : TemplateFile) (w : Sink)
    (h : ∃ node ∈ template.Nodes, node.unhandled) : (Generate env template w).err ≠ none := by
  rw [Generate_eq]
  exact generate_unhandled env ⟨template, NewRangeWriter w, NewSourceMap, 0⟩ h

/-- The error of `Generate` for a file whose second declaration is a CSS
template with a property of unknown kind, on a sink that accepts all writes. -/
theorem Generate_unhandled_error_witness :
    (∃ node ∈ ({ (templateOf []) with
        Nodes := (templateOf []).Nodes ++
          [.CSSTemplate ⟨⟨"red", default⟩, [.Other "parser.Comment"]⟩] } : TemplateFile).Nodes,
      node.unhandled) ∧
    (Generate exampleEnv { (templateOf []) with
        Nodes := (templateOf []).Nodes ++
          [.CSSTemplate ⟨⟨"red", default⟩, [.Other "parser.Comment"]⟩] } acceptingSink).err
      ≠ none :=
  ⟨⟨_, List.mem_append_right _ (List.mem_singleton.mpr rfl), ⟨_, List.mem_singleton.mpr rfl⟩⟩,
    Generate_unhandled_error exampleEnv _ acceptingSink
      ⟨_, List.mem_append_right _ (List.mem_singleton.mpr rfl),
        ⟨_, List.mem_singleton.mpr rfl⟩⟩⟩

/-- C8: on a sink whose write number 600 fails, in the middle of the text node
of the body, `Generate` returns no error and goes on writing: the sink ends
with 621 write calls, 20 of them after the failed one. -/
theorem Generate_goes_on_after_failed_write :
    (failingSink 600).fail 600 ≠ none ∧
    (Generate exampleEnv (templateOf [.Text ⟨"hi"⟩]) (failingSink 600)).err = none ∧
    (Generate exampleEnv (templateOf [.Text ⟨"hi"⟩]) (failingSink 600)).w.calls = 621 := by
  decide!

/-! ## The URL sanitizer -/

theorem indexRuneFrom_not_mem (r : Char) (cs : List Char) (i : Int) (h : r ∉ cs) :
    strings.indexRuneFrom r i cs = -1 := by
  induction cs generalizing i with
  | nil => rfl
  | cons c cs ih =>
    have hc : c ≠ r := fun e => h (e ▸ List.mem_cons_self _ _)
    unfold strings.indexRuneFrom
    rw [if_neg hc]
    exact ih _ (fun hm => h (List.mem_cons_of_mem _ hm))

theorem indexRuneFrom_mem (r : Char) (cs : List Char) (i : Int) (h : r ∈ cs) :
    strings.indexRuneFrom r i cs
      = i + (String.utf8Len (cs.takeWhile (fun c => c ≠ r)) : Int) := by
  induction cs generalizing i with
  | nil => cases h
  | cons c cs ih =>
    unfold strings.indexRuneFrom
    by_cases hc : c = r
    · rw [if_pos hc]
      simp [List.takeWhile_cons, hc]
    · rw [if_neg hc]
      have hm : r ∈ cs := by
        rcases List.mem_cons.mp h with e | hm
        · exact absurd e.symm hc
        · exact hm
      rw [ih _ hm]
      simp [List.takeWhile_cons, hc, String.utf8Len_cons]
      omega

theorem sliceTo_runes_append (pre rest : List Char) :
    sliceTo.runes (String.utf8Len pre : Int) (pre ++ rest) = pre := by
  induction pre with
  | nil =>
    cases rest with
    | nil => rfl
    | cons c cs => simp [sliceTo.runes]
  | cons c pre ih =>
    have hpos : 0 < c.utf8Size := Char.utf8Size_pos c
    have hlt : ¬ ((String.utf8Len (c :: pre) : Int) ≤ 0) := by
      rw [String.utf8Len_cons]; push_cast; omega
    have hsub : (String.utf8Len (c :: pre) : Int) - (c.utf8Size : Int)
        = (String.utf8Len pre : Int) := by
      rw [String.utf8Len_cons]; push_cast; omega
    show sliceTo.runes _ (c :: (pre ++ rest)) = _
    unfold sliceTo.runes
    rw [if_neg hlt, hsub, ih]

theorem IndexRune_nonneg_iff (s : String) (r : Char) :
    strings.IndexRune s r ≥ 0 ↔ r ∈ s.data := by
  unfold strings.IndexRune
  by_cases h : r ∈ s.data
  · rw [indexRuneFrom_mem r s.data 0 h]
    exact ⟨fun _ => h, fun _ => by omega⟩
  · rw [indexRuneFrom_not_mem r s.data 0 h]
    exact ⟨fun hi => absurd hi (by decide), fun hm => absurd hm h⟩

theorem ContainsRune_iff (s : String) (r : Char) :
    strings.ContainsRune s r = true ↔ r ∈ s.data := by
  unfold strings.ContainsRune
  rw [decide_eq_true_iff]
  exact IndexRune_nonneg_iff s r

theorem sliceTo_IndexRune (s : String) (h : ':' ∈ s.data) :
    sliceTo s (strings.IndexRune s ':') = beforeFirstColon s := by
  unfold sliceTo strings.IndexRune beforeFirstColon
  rw [indexRuneFrom_mem ':' s.data 0 h, zero_add]
  congr 1
  have key := sliceTo_runes_append (s.data.takeWhile (fun c => c ≠ ':'))
    (s.data.dropWhile (fun c => c ≠ ':'))
  rwa [List.takeWhile_append_dropWhile] at key

theorem URL_eq (s : String) :
    URL s = if rejectedScheme s then FailedSanitizationURL else s := by
  by_cases hr : rejectedScheme s
  · rw [if_pos hr]
    obtain ⟨h, hc, hf⟩ := hr
    have hi := (IndexRune_nonneg_iff s ':').mpr h
    have hc' : ¬ (strings.ContainsRune (beforeFirstColon s) '/' = true) :=
      fun x => hc ((ContainsRune_iff _ _).mp x)
    unfold URL
    simp only [sliceTo_IndexRune s h]
    rw [if_pos ⟨hi, hc'⟩, if_pos hf]
  · rw [if_neg hr]
    unfold URL
    dsimp only
    split
    · rename_i hcond
      have h := (IndexRune_nonneg_iff s ':').mp hcond.1
      rw [sliceTo_IndexRune s h] at hcond ⊢
      split
      · rename_i hf
        exact absurd ⟨h, fun x => hcond.2 ((ContainsRune_iff _ _).mpr x), hf⟩ hr
      · rfl
    · rfl

theorem rejectedScheme_failed : rejectedScheme FailedSanitizationURL := by
  decide

/-- C9: for every string, `URL` returns the fallback exactly when the string has
a `:` and the text before the first one has no `/` and is none of `http`,
`https` and `mailto` up to letter case, and returns the string itself in every
other case; `javascript:alert(1)` gives the fallback, and `https://x/y`,
`/relative/path` and `mailto:a@b.com` are returned unchanged. -/
theorem URL_spec :
    (∀ s : String, (URL s = FailedSanitizationURL ↔ rejectedScheme s) ∧
      URL s = if rejectedScheme s then FailedSanitizationURL else s) ∧
    URL "javascript:alert(1)" = FailedSanitizationURL ∧
    URL "https://x/y" = "https://x/y" ∧
    URL "/relative/path" = "/relative/path" ∧
    URL "mailto:a@b.com" = "mailto:a@b.com" := by
  refine ⟨fun s => ⟨?_, URL_eq s⟩, ?_, ?_, ?_, ?_⟩
  · rw [URL_eq]
    constructor
    · intro h
      by_cases hr : rejectedScheme s
      · exact hr
      · rw [if_neg hr] at h
        rw [h]
        exact rejectedScheme_failed
    · intro hr
      rw [if_pos hr]
  · rw [URL_eq]; decide
  · rw [URL_eq]; decide
  · rw [URL_eq]; decide
  · rw [URL_eq]; decide

theorem URL_letter_case :
    URL "HTTPS://x/y" = "HTTPS://x/y" ∧
    URL "JavaScript:alert(1)" = FailedSanitizationURL ∧
    URL "httpſ://x/y" = "httpſ://x/y" ∧
    URL "a/b:c" = "a/b:c" := by
  refine ⟨?_, ?_, ?_, ?_⟩ <;> rw [URL_eq] <;> decide

/-! ## The literal that `createGoString` writes -/

theorem splitRunes_ne_nil (sep : Char) (cs : List Char) : strings.splitRunes sep cs ≠ [] := by
  cases cs with
  | nil => simp [strings.splitRunes]
  | cons c cs =>
    unfold strings.splitRunes
    split
    · simp
    · split <;> simp

theorem splitRunes_intercalate (sep : Char) (cs : List Char) :
    List.intercalate [sep] (strings.splitRunes sep cs) = cs := by
  induction cs with
  | nil => rfl
  | cons c cs ih =>
    unfold strings.splitRunes
    by_cases hc : c = sep
    · rw [if_pos hc]
      have hne := splitRunes_ne_nil sep cs
      cases hsp : strings.splitRunes sep cs with
      | nil => exact absurd hsp hne
      | cons p ps =>
        rw [hsp] at ih
        rw [← ih, hc]
        simp [List.intercalate, List.intersperse]
    · rw [if_neg hc]
      have hne := splitRunes_ne_nil sep cs
      cases hsp : strings.splitRunes sep cs with
      | nil => exact absurd hsp hne
      | cons p ps =>
        rw [hsp] at ih
        rw [← ih]
        cases ps <;> simp [List.intercalate, List.intersperse]

theorem splitRunes_not_mem (sep : Char) (cs : List Char) :
    ∀ piece ∈ strings.splitRunes sep cs, sep ∉ piece := by
  induction cs with
  | nil =>
    intro piece h
    simp [strings.splitRunes] at h
    subst h
    simp
  | cons c cs ih =>
    unfold strings.splitRunes
    by_cases hc : c = sep
    · rw [if_pos hc]
      intro piece h
      rcases List.mem_cons.mp h with e | h
      · subst e; simp
      · exact ih piece h
    · rw [if_neg hc]
      have hne := splitRunes_ne_nil sep cs
      cases hsp : strings.splitRunes sep cs with
      | nil => exact absurd hsp hne
      | cons p ps =>
        rw [hsp] at ih
        intro piece h
        rcases List.mem_cons.mp h with e | h
        · subst e
          intro hm
          rcases List.mem_cons.mp hm with e | hm
          · exact hc e.symm
          · exact ih p (List.mem_cons_self _ _) hm
        · exact ih piece (List.mem_cons_of_mem _ h)

theorem ofPieces_ne_nil (pieces : List String) (h : pieces ≠ []) :
    GoLiteral.ofPieces pieces ≠ [] := by
  match pieces, h with
  | [_], _ => simp [GoLiteral.ofPieces]
  | _ :: _ :: _, _ => simp [GoLiteral.ofPieces]

theorem createGoString_loop_text (pieces : List String) (h : pieces ≠ []) :
    "`" ++ createGoString.loop pieces ++ "`"
      = GoLiteral.concatText (GoLiteral.ofPieces pieces) := by
  induction pieces with
  | nil => exact absurd rfl h
  | cons p rest ih =>
    cases rest with
    | nil =>
      apply String.ext
      simp [createGoString.loop, GoLiteral.ofPieces, GoLiteral.concatText, strings.Join,
        GoLiteral.text, List.intercalate, List.intersperse]
    | cons q rest =>
      have ih := ih (List.cons_ne_nil _ _)
      have hne := ofPieces_ne_nil (q :: rest) (List.cons_ne_nil _ _)
      have ih' := congrArg String.data ih
      apply String.ext
      unfold createGoString.loop GoLiteral.ofPieces
      unfold GoLiteral.concatText strings.Join at ih' ⊢
      cases hl : GoLiteral.ofPieces (q :: rest) with
      | nil => exact absurd hl hne
      | cons l ls =>
        rw [hl] at ih'
        simp only [String.data_append, List.map_cons, List.intercalate, List.intersperse,
          List.flatten_cons, GoLiteral.text] at ih' ⊢
        simp only [List.append_assoc] at ih' ⊢
        rw [← ih']
        simp

theorem ofPieces_wellFormed (pieces : List String)
    (h : ∀ piece ∈ pieces, backtick ∉ piece.data) :
    ∀ l ∈ GoLiteral.ofPieces pieces, l.wellFormed := by
  induction pieces with
  | nil => intro l hl; cases hl
  | cons p rest ih =>
    cases rest with
    | nil =>
      intro l hl
      simp [GoLiteral.ofPieces] at hl
      subst hl
      exact h p (List.mem_cons_self _ _)
    | cons q rest =>
      intro l hl
      unfold GoLiteral.ofPieces at hl
      rcases List.mem_cons.mp hl with e | hl
      · subst e; exact h p (List.mem_cons_self _ _)
      · rcases List.mem_cons.mp hl with e | hl
        · subst e; trivial
        · exact ih (fun piece hp => h piece (List.mem_cons_of_mem _ hp)) l hl

theorem ofPieces_value (pieces : List (List Char)) (h : pieces ≠ []) :
    (GoLiteral.concatValue (GoLiteral.ofPieces (pieces.map String.mk))).data
      = (List.intercalate [backtick] pieces).filter (fun c => c ≠ '\r') := by
  induction pieces with
  | nil => exact absurd rfl h
  | cons p rest ih =>
    cases rest with
    | nil =>
      simp [GoLiteral.ofPieces, GoLiteral.concatValue, GoLiteral.value, List.intercalate,
        List.intersperse, String.data_join]
    | cons q rest =>
      have ih := ih (List.cons_ne_nil _ _)
      have hb : ("`" : String).data = [backtick] := rfl
      have hbr : decide (backtick ≠ '\r') = true := by decide
      unfold GoLiteral.concatValue at ih ⊢
      rw [String.data_join] at ih ⊢
      simp only [List.map_cons] at ih ⊢
      unfold GoLiteral.ofPieces
      simp only [List.map_cons, List.flatten_cons, GoLiteral.value, hb, ih, List.intercalate,
        List.intersperse, List.filter_append, List.filter_cons, List.filter_nil, hbr, if_true]
      simp
      rfl

/-- The literal that `createGoString` writes for `s`: it is the concatenation of
raw literals for the pieces of `s` between its backticks with the interpreted
backtick, no raw literal holds a backtick, the pieces joined by backticks give
`s`, and the value of the concatenation in Go is `s` without its carriage
returns. -/
theorem createGoString_value (s : String) :
    createGoString s = GoLiteral.concatText (GoLiteral.ofPieces (strings.Split s backtick)) ∧
    (∀ l ∈ GoLiteral.ofPieces (strings.Split s backtick), l.wellFormed) ∧
    strings.Join (strings.Split s backtick) (String.singleton backtick) = s ∧
    GoLiteral.concatValue (GoLiteral.ofPieces (strings.Split s backtick))
      = String.mk (s.data.filter (fun c => c ≠ '\r')) := by
  have hne : strings.splitRunes backtick s.data ≠ [] := splitRunes_ne_nil _ _
  refine ⟨?_, ?_, ?_, ?_⟩
  · unfold createGoString
    exact createGoString_loop_text _ (by unfold strings.Split; simpa using hne)
  · apply ofPieces_wellFormed
    intro piece hp
    unfold strings.Split at hp
    obtain ⟨cs, hcs, rfl⟩ := List.mem_map.mp hp
    exact splitRunes_not_mem backtick s.data cs hcs
  · apply String.ext
    unfold strings.Join strings.Split
    have hd : (String.singleton backtick).data = [backtick] := rfl
    have hm : List.map String.data (List.map String.mk (strings.splitRunes backtick s.data))
        = strings.splitRunes backtick s.data := by
      rw [List.map_map]
      exact List.map_id _
    rw [hd, hm]
    exact splitRunes_intercalate backtick s.data
  · apply String.ext
    unfold strings.Split
    rw [ofPieces_value _ hne, splitRunes_intercalate]

/-- The literal that `createGoString` writes for a text without carriage
return has the text as its value in Go. -/
theorem createGoString_roundtrip (s : String) (h : '\r' ∉ s.data) :
    GoLiteral.concatValue (GoLiteral.ofPieces (strings.Split s backtick)) = s := by
  rw [(createGoString_value s).2.2.2]
  apply String.ext
  show s.data.filter (fun c => c ≠ '\r') = s.data
  rw [List.filter_eq_self]
  intro c hc
  exact decide_eq_true (fun e => h (e ▸ hc))

/-- C10: for the text `a\r\nb` the literal that `createGoString` writes is the
raw string literal with that text between its backticks, and its value in Go
is `a\nb`, not the text. -/
theorem createGoString_carriage_return :
    createGoString "a\r\nb" = GoLiteral.concatText [.raw "a\r\nb"] ∧
    GoLiteral.concatValue [.raw "a\r\nb"] = "a\nb" ∧
    GoLiteral.concatValue [.raw "a\r\nb"] ≠ "a\r\nb" := by
  decide

/-! ## Whitespace nodes -/

theorem Gen.bind_apply {α β : Type} (m : Gen α) (f : α → Gen β) (g : generator) :
    (m >>= f) g = f (m g).1 (m g).2 := rfl

theorem Gen.pure_apply {α : Type} (a : α) (g : generator) : (pure a : Gen α) g = (a, g) := rfl

theorem writeNodes_nil (indentLevel : Nat) (g : generator) :
    generator.writeNodes indentLevel [] g = (([], none), g) := by
  unfold generator.writeNodes
  rfl

theorem writeNodes_cons (indentLevel : Nat) (node : Node) (rest : List Node) (g : generator) :
    generator.writeNodes indentLevel (node :: rest) g =
      if (generator.writeNode indentLevel node g).1.2 ≠ none then
        (((generator.writeNode indentLevel node g).1.1 :: rest,
          (generator.writeNode indentLevel node g).1.2), (generator.writeNode indentLevel node g).2)
      else
        ((((generator.writeNode indentLevel node g).1.1 ::
            (generator.writeNodes indentLevel rest (generator.writeNode indentLevel node g).2).1.1),
          (generator.writeNodes indentLevel rest (generator.writeNode indentLevel node g).2).1.2),
          (generator.writeNodes indentLevel rest (generator.writeNode indentLevel node g).2).2) := by
  conv_lhs => unfold generator.writeNodes
  rw [Gen.bind_apply]
  generalize generator.writeNode indentLevel node g = r
  obtain ⟨⟨n, err⟩, g1⟩ := r
  dsimp only
  by_cases h : err ≠ none
  · rw [if_pos h, if_pos h]; rfl
  · rw [if_neg h, if_neg h]; rfl

/-- C20: whitespace nodes are elided. For every indent level, node list and
generator, `writeNodes` leaves the same generator (the same sink with the same
text, the same cursor, the same source map and the same counter of variable
names) and returns the same error as on the list without its whitespace
nodes. -/
theorem writeNodes_whitespace (indentLevel : Nat) (nodes : List Node) :
    ∀ g : generator,
      (generator.writeNodes indentLevel nodes g).2
        = (generator.writeNodes indentLevel (nodes.filter (fun n => !n.isWhitespace)) g).2 ∧
      (generator.writeNodes indentLevel nodes g).1.2
        = (generator.writeNodes indentLevel (nodes.filter (fun n => !n.isWhitespace)) g).1.2 := by
  induction nodes with
  | nil => intro g; exact ⟨rfl, rfl⟩
  | cons node rest ih =>
    intro g
    by_cases hw : node.isWhitespace = true
    · have hf : (node :: rest).filter (fun n => !n.isWhitespace)
          = rest.filter (fun n => !n.isWhitespace) := by
        simp [List.filter_cons, hw]
      rw [hf, writeNodes_cons]
      cases node with
      | Whitespace n =>
        rw [writeNode_Whitespace]
        exact ih g
      | _ => simp [Node.isWhitespace] at hw
    · have hf : (node :: rest).filter (fun n => !n.isWhitespace)
          = node :: rest.filter (fun n => !n.isWhitespace) := by
        simp [List.filter_cons, hw]
      rw [hf, writeNodes_cons, writeNodes_cons]
      split
      · exact ⟨rfl, rfl⟩
      · exact ih _

/-! ## The names of the variables are `var_1`, `var_2`, … -/

theorem decimalValue_append (xs ys : List Char) :
    decimalValue (xs ++ ys) = ys.foldl (fun a c => 10 * a + (c.toNat - 48)) (decimalValue xs) := by
  unfold decimalValue
  rw [List.foldl_append]

theorem digitChar_value (d : Nat) (h : d < 10) : (Nat.digitChar d).toNat - 48 = d := by
  interval_cases d <;> rfl

theorem foldl_digits_toDigitsCore (fuel n : Nat) (ds : List Char) (a : Nat) (h : n < fuel) :
    ∃ xs, Nat.toDigitsCore 10 fuel n ds = xs ++ ds ∧ decimalValue xs = n := by
  induction fuel generalizing n ds with
  | zero => omega
  | succ fuel ih =>
    unfold Nat.toDigitsCore
    by_cases h0 : n / 10 = 0
    · simp only [h0, if_true]
      refine ⟨[Nat.digitChar (n % 10)], rfl, ?_⟩
      show 10 * 0 + ((Nat.digitChar (n % 10)).toNat - 48) = n
      rw [digitChar_value _ (Nat.mod_lt _ (by decide))]
      omega
    · simp only [h0, if_false]
      obtain ⟨xs, hxs, hv⟩ := ih (n / 10) (Nat.digitChar (n % 10) :: ds) (by omega)
      refine ⟨xs ++ [Nat.digitChar (n % 10)], ?_, ?_⟩
      · rw [hxs]; simp
      · rw [decimalValue_append, hv]
        show 10 * (n / 10) + ((Nat.digitChar (n % 10)).toNat - 48) = n
        rw [digitChar_value _ (Nat.mod_lt _ (by decide))]
        omega

theorem decimalValue_repr (n : Nat) : decimalValue (Nat.repr n).data = n := by
  obtain ⟨xs, hxs, hv⟩ := foldl_digits_toDigitsCore (n + 1) n [] 0 (by omega)
  have : (Nat.repr n).data = xs := by
    show (Nat.toDigits 10 n) = xs
    unfold Nat.toDigits
    rw [hxs]; simp
  rw [this, hv]

theorem toString_nat_injective (a b : Nat) (h : toString a = toString b) : a = b := by
  have ha := decimalValue_repr a
  have hb := decimalValue_repr b
  have h' : Nat.repr a = Nat.repr b := h
  rw [h'] at ha
  omega

theorem varName_injective (a b : Nat)
    (h : "var_" ++ toString ((a : Int) + 1) = "var_" ++ toString ((b : Int) + 1)) : a = b := by
  have h1 : toString ((a : Int) + 1) = toString ((b : Int) + 1) := by
    have := congrArg String.data h
    simp only [String.data_append] at this
    exact String.ext (List.append_cancel_left this)
  have h2 : toString (a + 1) = toString (b + 1) := h1
  have := toString_nat_injective _ _ h2
  omega

theorem Reach.synth {A : Expression → Prop} {g0 g : generator} (h : Reach A g0 g) :
    ∃ names, Synth g0 g names := by
  induction h with
  | refl => exact ⟨[], Synth.refl⟩
  | write s _ ih =>
    obtain ⟨names, hn⟩ := ih
    exact ⟨names, Synth.write s hn⟩
  | add e r _ _ _ ih =>
    obtain ⟨names, hn⟩ := ih
    exact ⟨names, Synth.add e r (Synth.write e.Value hn)⟩
  | var _ ih =>
    obtain ⟨names, hn⟩ := ih
    exact ⟨_, Synth.var hn⟩

theorem Synth.names {g0 g : generator} {names : List String} (h : Synth g0 g names) :
    g.variableID = g0.variableID + (names.length : Int) ∧
    names = (List.range names.length).map
      (fun k : Nat => "var_" ++ toString (g0.variableID + (k : Int) + 1)) := by
  induction h with
  | refl => exact ⟨by simp, rfl⟩
  | write s _ ih => exact ih
  | add e r _ ih => exact ih
  | @var g names _ ih =>
    obtain ⟨hid, hn⟩ := ih
    constructor
    · show g.variableID + 1 = _
      rw [hid]; simp; omega
    · rw [List.length_append, List.length_singleton, List.range_succ, List.map_append, ← hn]
      congr 1
      show [("var_" ++ toString (g.variableID + 1))] = _
      rw [hid]
      simp

theorem inv_reach_id {g0 : generator} {F : generator → Prop} (g : generator)
    (h : Inv (fun _ => True) g0 F g) :
    ∃ g1, Reach (fun _ => True) g0 g1 ∧ g.w = g1.w ∧ g.sourceMap = g1.sourceMap ∧
      g.variableID = g1.variableID := ⟨g, h.1, rfl, rfl, rfl⟩

theorem generate_reach (env : Env) (g0 : generator) :
    ∃ g1, Reach (fun _ => True) g0 g1 ∧ (generator.generate env g0).2.w = g1.w ∧
      (generator.generate env g0).2.sourceMap = g1.sourceMap ∧
      (generator.generate env g0).2.variableID = g1.variableID := by
  have hn : Triple (Inv (fun _ => True) g0 (fun _ => True)) (generator.writeTemplateNodes env)
      (fun _ g => ∃ g1, Reach (fun _ => True) g0 g1 ∧ g.w = g1.w ∧
        g.sourceMap = g1.sourceMap ∧ g.variableID = g1.variableID) := by
    unfold generator.writeTemplateNodes
    refine Triple.bind triple_tf ?_
    intro tf
    refine Triple.pre_pure (fun htf => ?_)
    subst htf
    refine Triple.bind (writeTemplateNodes_loop_keeps (fun _ _ => trivial) env g0.tf.Nodes
      (fun _ _ => trivial)).triple ?_
    rintro ⟨nodes, err⟩
    dsimp only
    refine ⟨fun g hg => ?_⟩
    exact ⟨g, hg.1, rfl, rfl, rfl⟩
  have key : Triple (Inv (fun _ => True) g0 (fun _ => True)) (generator.generate env)
      (fun _ g => ∃ g1, Reach (fun _ => True) g0 g1 ∧ g.w = g1.w ∧
        g.sourceMap = g1.sourceMap ∧ g.variableID = g1.variableID) := by
    unfold generator.generate
    with_reducible repeat (first
      | exact Triple.pure _ inv_reach_id
      | exact Triple.pure _ (fun _ h => h)
      | refine Triple.pure_bind _ ?_
      | refine Triple.bind (writeCodeGeneratedComment_keeps _).triple ?_
      | refine Triple.bind (writePackage_keeps g0 trivial _) ?_
      | refine Triple.bind (writeImports_keeps g0 (fun _ _ => trivial) _) ?_
      | refine Triple.bind hn ?_
      | refine Triple.ite ?_ ?_
      | intro _
      | dsimp only)
  exact key.run g0 ⟨Reach.refl, trivial⟩

/-- Whatever the sink does, the names that `createVariableName` returns in one
run of `generate` from the counter 0 are `var_1`, `var_2`, … in this order, as
many as the counter says at the end, and they are pairwise distinct. -/
theorem generate_synth_names (env : Env) (template : TemplateFile) (w : Sink) :
    ∃ (g : generator) (names : List String),
      Synth ⟨template, NewRangeWriter w, NewSourceMap, 0⟩ g names ∧
      (generator.generate env ⟨template, NewRangeWriter w, NewSourceMap, 0⟩).2.w = g.w ∧
      (generator.generate env ⟨template, NewRangeWriter w, NewSourceMap, 0⟩).2.sourceMap
        = g.sourceMap ∧
      (generator.generate env ⟨template, NewRangeWriter w, NewSourceMap, 0⟩).2.variableID
        = (names.length : Int) ∧
      names = (List.range names.length).map (fun k : Nat => "var_" ++ toString ((k : Int) + 1)) ∧
      names.Nodup := by
  obtain ⟨g1, hr, hw, hsm, hid⟩ := generate_reach env ⟨template, NewRangeWriter w, NewSourceMap, 0⟩
  obtain ⟨names, hs⟩ := hr.synth
  obtain ⟨hk, hn⟩ := hs.names
  have hn' : names
      = (List.range names.length).map (fun k : Nat => "var_" ++ toString ((k : Int) + 1)) := by
    rw [hn]
    simp
  refine ⟨g1, names, hs, hw, hsm, ?_, hn', ?_⟩
  · rw [hid, hk]
    simp
  · rw [hn']
    refine List.Nodup.map ?_ (List.nodup_range _)
    intro a b hab
    exact varName_injective a b hab

/-! ## Constant attributes -/

/-- C11: for the constant attribute `title` with the value `a\tb` (a backslash
followed by `t`) the generator writes the literal `" title=\"a\tb\""`, whose
value in Go holds a tab in the place of the backslash and the `t`; for a value
with a newline it writes a literal with a newline in it, which is no Go string
literal. In both cases the literal does not denote the text
` title="` + escaped value + `"`. -/
theorem constantAttribute_backslash :
    (generator.writeElementAttributes.attribute 0 divElement
        (.ConstantAttribute "title" "a\\tb") exampleGenerator).2.w.w.out
      = "_, err = w.WriteString(" ++ "\" title=\\\"a\\tb\\\"\"" ++ ")\n"
        ++ "if err != nil \x7b\n\treturn err\n\x7d\n" ∧
    goStringLiteral "\" title=\\\"a\\tb\\\"\"" = some " title=\"a\tb\"" ∧
    " title=\"a\tb\"" ≠ " " ++ html.EscapeString "title" ++ "=\"" ++ html.EscapeString "a\\tb" ++ "\"" ∧
    (generator.writeElementAttributes.attribute 0 divElement
        (.ConstantAttribute "title" "a\nb") exampleGenerator).2.w.w.out
      = "_, err = w.WriteString(" ++ "\" title=\\\"a\nb\\\"\"" ++ ")\n"
        ++ "if err != nil \x7b\n\treturn err\n\x7d\n" ∧
    goStringLiteral "\" title=\\\"a\nb\\\"\"" = none := by
  decide!

/-- C12, the claim as stated fails: the double quote is escaped as `&#34;`, not
as `&quot;`. -/
theorem EscapeString_quot :
    EscapeString "he said \"hi\" <b>" ≠ "he said &quot;hi&quot; &lt;b&gt;" := by
  decide

/-- C12 as amended: `EscapeString` returns `he said &#34;hi&#34; &lt;b&gt;` for
the value `he said "hi" <b>`, and this is the text the generator writes
between the escaped quotes of the literal for a constant attribute with that
value. -/
theorem EscapeString_example :
    EscapeString "he said \"hi\" <b>" = "he said &#34;hi&#34; &lt;b&gt;" ∧
    (generator.writeElementAttributes.attribute 0 divElement
        (.ConstantAttribute "title" "he said \"hi\" <b>") exampleGenerator).2.w.w.out
      = "_, err = w.WriteString(\" title=\\\"" ++ "he said &#34;hi&#34; &lt;b&gt;"
        ++ "\\\"\")\n" ++ "if err != nil \x7b\n\treturn err\n\x7d\n" := by
  decide!

/-- C14: for the void element `<input onclick={ handler }>` the generator writes
the opening tag and the attribute, and no call of `templ.RenderScripts`; for
the same element when it is not void, the call comes first. -/
theorem writeVoidElement_no_RenderScripts :
    (generator.writeNode 0 (.Element inputElement) exampleGenerator).2.w.w.out
      = "_, err = w.WriteString(\"<input\")\nif err != nil \x7b\n\treturn err\n\x7d\n"
        ++ "_, err = w.WriteString(\" onclick=\")\nif err != nil \x7b\n\treturn err\n\x7d\n"
        ++ "_, err = w.WriteString(\"\\\"\")\nif err != nil \x7b\n\treturn err\n\x7d\n"
        ++ "var var_1 templ.ComponentScript = handler\n"
        ++ "_, err = w.WriteString(var_1.Call)\nif err != nil \x7b\n\treturn err\n\x7d\n"
        ++ "_, err = w.WriteString(\"\\\"\")\nif err != nil \x7b\n\treturn err\n\x7d\n"
        ++ "_, err = w.WriteString(\">\")\nif err != nil \x7b\n\treturn err\n\x7d\n" ∧
    (generator.writeNode 0 (.Element { inputElement with Void := false }) exampleGenerator).2.w.w.out
      = "err = templ.RenderScripts(ctx, w, handler)\nif err != nil \x7b\n\treturn err\n\x7d\n"
        ++ "_, err = w.WriteString(\"<input\")\nif err != nil \x7b\n\treturn err\n\x7d\n"
        ++ "_, err = w.WriteString(\" onclick=\")\nif err != nil \x7b\n\treturn err\n\x7d\n"
        ++ "_, err = w.WriteString(\"\\\"\")\nif err != nil \x7b\n\treturn err\n\x7d\n"
        ++ "var var_1 templ.ComponentScript = handler\n"
        ++ "_, err = w.WriteString(var_1.Call)\nif err != nil \x7b\n\treturn err\n\x7d\n"
        ++ "_, err = w.WriteString(\"\\\"\")\nif err != nil \x7b\n\treturn err\n\x7d\n"
        ++ "_, err = w.WriteString(\">\")\nif err != nil \x7b\n\treturn err\n\x7d\n"
        ++ "_, err = w.WriteString(\"</input>\")\nif err != nil \x7b\n\treturn err\n\x7d\n" := by
  decide!

/-- C13, the claim as stated fails: for `<a href={ link }>` the statements that
the generator writes for the attribute assign the expression itself to a
variable of type `templ.SafeURL` and write that variable; they hold no call of
the URL sanitizer `templ.URL`. -/
theorem href_without_sanitizer_call :
    (generator.writeElementAttributes.attribute 0 anchorElement
        (.ExpressionAttribute "href" ⟨"link", default⟩) exampleGenerator).2.w.w.out
      = "_, err = w.WriteString(\" href=\")\nif err != nil \x7b\n\treturn err\n\x7d\n"
        ++ "_, err = w.WriteString(\"\\\"\")\nif err != nil \x7b\n\treturn err\n\x7d\n"
        ++ "var var_1 templ.SafeURL = link\n"
        ++ "_, err = w.WriteString(templ.EscapeString(string(var_1)))\n"
        ++ "if err != nil \x7b\n\treturn err\n\x7d\n"
        ++ "_, err = w.WriteString(\"\\\"\")\nif err != nil \x7b\n\treturn err\n\x7d\n" ∧
    (generator.writeElementAttributes.attribute 0 anchorElement
        (.ExpressionAttribute "href" ⟨"link", default⟩) exampleGenerator).2.w.w.out
      ≠ "_, err = w.WriteString(\" href=\")\nif err != nil \x7b\n\treturn err\n\x7d\n"
        ++ "_, err = w.WriteString(\"\\\"\")\nif err != nil \x7b\n\treturn err\n\x7d\n"
        ++ "var var_1 templ.SafeURL = templ.URL(link)\n"
        ++ "_, err = w.WriteString(templ.EscapeString(string(var_1)))\n"
        ++ "if err != nil \x7b\n\treturn err\n\x7d\n"
        ++ "_, err = w.WriteString(\"\\\"\")\nif err != nil \x7b\n\treturn err\n\x7d\n" := by
  decide!

/-! ## Rules for the text a method writes -/

theorem Emits.ret {tf : TemplateFile} {α : Type} {V : α → Prop} {i : Int} (a : α) (h : V a) :
    Emits tf (Pure.pure a : Gen α) V i "" [] i :=
  ⟨fun g htf hacc hid => ⟨h, htf, hacc, hid, by simp [Gen.pure_apply], by simp [Gen.pure_apply]⟩⟩

theorem Emits.after_pure {tf : TemplateFile} {α β : Type} {V : β → Prop} {i j : Int} {t : String}
    {e : List Expression} (a : α) {f : α → Gen β} (h : Emits tf (f a) V i t e j) :
    Emits tf (Pure.pure a >>= f) V i t e j := ⟨h.run⟩

theorem Emits.seq {tf : TemplateFile}
    {α β : Type} {V : α → Prop} {W : β → Prop} {i j k : Int} {t u : String}
    {e d : List Expression} {m : Gen α} {f : α → Gen β} (h1 : Emits tf m V i t e j)
    (h2 : ∀ a, V a → Emits tf (f a) W j u d k) :
    Emits tf (m >>= f) W i (t ++ u) (e ++ d) k := by
  refine ⟨fun g htf hacc hid => ?_⟩
  obtain ⟨hv, htf1, hacc1, hid1, hout1, hsm1⟩ := h1.run g htf hacc hid
  obtain ⟨hw, htf2, hacc2, hid2, hout2, hsm2⟩ := (h2 _ hv).run _ htf1 hacc1 hid1
  rw [Gen.bind_apply]
  refine ⟨hw, htf2, hacc2, hid2, ?_, ?_⟩
  · rw [hout2, hout1, String.append_assoc]
  · rw [hsm2, hsm1, List.append_assoc]

theorem Emits.val_then {tf : TemplateFile} {α β : Type} {W : β → Prop} {i j k : Int} {t u : String}
    {e d : List Expression} {m : Gen α} {f : α → Gen β} {a : α}
    (h1 : Emits tf m (fun x => x = a) i t e j) (h2 : Emits tf (f a) W j u d k) :
    Emits tf (m >>= f) W i (t ++ u) (e ++ d) k :=
  Emits.seq h1 (fun _ h => h ▸ h2)

theorem Emits.snd_then {tf : TemplateFile} {α β : Type} {W : β → Prop} {i j k : Int} {t u : String}
    {e d : List Expression} {m : Gen (α × error)} {f : α × error → Gen β}
    (h1 : Emits tf m (fun x => x.2 = none) i t e j)
    (h2 : ∀ a, Emits tf (f (a, none)) W j u d k) :
    Emits tf (m >>= f) W i (t ++ u) (e ++ d) k := by
  refine Emits.seq h1 ?_
  rintro ⟨a, err⟩ h
  have h' : err = none := h
  subst h'
  exact h2 a

theorem Emits.skip {tf : TemplateFile}
    {α : Type} {V : α → Prop} {i j : Int} {t : String} {e : List Expression}
    {a b : Gen α} [inst : Decidable ((none : error) ≠ none)] (h : Emits tf b V i t e j) :
    Emits tf (if (none : error) ≠ none then a else b) V i t e j := by
  rw [if_neg (fun h => h rfl)]
  exact h

theorem Emits.branch {tf : TemplateFile} {α : Type} {V : α → Prop} {i j k : Int} {t u : String}
    {e d : List Expression} {c : Prop} [Decidable c] {a b : Gen α}
    (ha : c → Emits tf a V i t e j) (hb : ¬ c → Emits tf b V i u d k) :
    Emits tf (if c then a else b) V i (if c then t else u) (if c then e else d)
      (if c then j else k) := by
  by_cases h : c
  · simp only [h, if_true]; exact ha h
  · simp only [h, if_false]; exact hb h

theorem Emits.relax {tf : TemplateFile} {α : Type} {V W : α → Prop} {i j k : Int} {t u : String}
    {e d : List Expression} {m : Gen α} (h : Emits tf m V i t e j) (hV : ∀ a, V a → W a)
    (ht : t = u) (he : e = d) (hj : j = k) : Emits tf m W i u d k := by
  subst ht he hj
  exact ⟨fun g htf hacc hid =>
    let ⟨hv, r⟩ := h.run g htf hacc hid
    ⟨hV _ hv, r⟩⟩

theorem Emits.reshape {tf : TemplateFile} {α : Type} {V : α → Prop} {i j k : Int} {t u : String}
    {e d : List Expression} {m : Gen α} (h : Emits tf m V i t e j)
    (ht : t = u) (he : e = d) (hj : j = k) : Emits tf m V i u d k :=
  h.relax (fun _ h => h) ht he hj

theorem emits_write {tf : TemplateFile} (s : String) {i : Int} :
    Emits tf (Gen.Write s) (fun x => x.2 = none) i s [] i := by
  refine ⟨fun g htf hacc hid => ?_⟩
  obtain ⟨hval, hsm, hf, hout, _⟩ := genWrite_accepts s g hacc
  refine ⟨?_, htf, ?_, hid, hout, ?_⟩
  · rw [hval]
  · intro k; rw [hf]; exact hacc k
  · rw [hsm]; simp

theorem Emits.write_then {tf : TemplateFile} {β : Type} {W : β → Prop} {i k : Int} {u : String}
    {d : List Expression} (s : String) {f : Range × error → Gen β}
    (h : ∀ r, Emits tf (f (r, none)) W i u d k) :
    Emits tf (Gen.Write s >>= f) W i (s ++ u) d k :=
  (Emits.snd_then (emits_write s) h).reshape rfl (List.nil_append _) rfl

theorem emits_writeIndent {tf : TemplateFile} (level : Nat) (s : String) {i : Int} :
    Emits tf (Gen.WriteIndent level s) (fun x => x.2 = none) i (indent level ++ s) [] i := by
  refine ⟨fun g htf hacc hid => ?_⟩
  have h1 := (@emits_write tf (indent level) i).run g htf hacc hid
  have h2 := (@emits_write tf s i).run _ h1.2.1 h1.2.2.1 h1.2.2.2.1
  have e : Gen.WriteIndent level s g = Gen.Write s (Gen.Write (indent level) g).2 := by
    unfold Gen.WriteIndent Gen.Write
    rw [WriteIndent_accepts_eq g.w level s hacc]
    rfl
  rw [e]
  refine ⟨h2.1, h2.2.1, h2.2.2.1, h2.2.2.2.1, ?_, ?_⟩
  · rw [h2.2.2.2.2.1, h1.2.2.2.2.1, String.append_assoc]
  · rw [h2.2.2.2.2.2, h1.2.2.2.2.2]; simp

theorem Emits.writeIndent_then {tf : TemplateFile}
    {β : Type} {W : β → Prop} {i k : Int} {u : String}
    {d : List Expression} (level : Nat) (s : String) {f : Range × error → Gen β}
    (h : ∀ r, Emits tf (f (r, none)) W i u d k) :
    Emits tf (Gen.WriteIndent level s >>= f) W i (indent level ++ s ++ u) d k :=
  (Emits.snd_then (emits_writeIndent level s) h).reshape rfl (List.nil_append _) rfl

theorem Emits.add_then {tf : TemplateFile} {β : Type} {W : β → Prop} {i k : Int} {u : String}
    {d : List Expression} (x : Expression) (r : Range) {f : Unit → Gen β}
    (h : Emits tf (f ()) W i u d k) :
    Emits tf (Gen.sourceMapAdd x r >>= f) W i u (x :: d) k := by
  have h0 : Emits tf (Gen.sourceMapAdd x r) (fun _ => True) i "" [x] i :=
    ⟨fun g htf hacc hid => ⟨trivial, htf, hacc, hid, by
      show g.w.w.out = g.w.w.out ++ ""
      simp, by
      show (g.sourceMap.Add x r).sources = _
      simp [SourceMap.sources, SourceMap.Add]⟩⟩
  exact (Emits.seq h0 (fun _ _ => h)).reshape (String.empty_append _) rfl rfl

theorem Emits.var_then {tf : TemplateFile} {β : Type} {W : β → Prop} {i k : Int} {u : String}
    {d : List Expression} {f : String → Gen β}
    (h : Emits tf (f (varName (i + 1))) W (i + 1) u d k) :
    Emits tf (generator.createVariableName >>= f) W i u d k := by
  have h0 : Emits tf generator.createVariableName (fun x => x = varName (i + 1)) i "" []
      (i + 1) :=
    ⟨fun g htf hacc hid => ⟨by
      show "var_" ++ toString (g.variableID + 1) = _
      rw [hid]; rfl, htf, hacc, by
      show g.variableID + 1 = _
      rw [hid], by
      show g.w.w.out = g.w.w.out ++ ""
      simp, by
      show g.sourceMap.sources = _
      simp⟩⟩
  exact (Emits.val_then h0 h).reshape (String.empty_append _) (List.nil_append _) rfl

theorem Emits.tf_then {tf : TemplateFile} {β : Type} {W : β → Prop} {i k : Int} {u : String}
    {d : List Expression} {f : TemplateFile → Gen β} (h : Emits tf (f tf) W i u d k) :
    Emits tf (Gen.tf >>= f) W i u d k := by
  have h0 : Emits tf Gen.tf (fun x => x = tf) i "" [] i :=
    ⟨fun g htf hacc hid => ⟨htf, htf, hacc, hid, by
      show g.w.w.out = g.w.w.out ++ ""
      simp, by
      show g.sourceMap.sources = _
      simp⟩⟩
  exact (Emits.val_then h0 h).reshape (String.empty_append _) (List.nil_append _) rfl

theorem writeErrorHandler_emits {tf : TemplateFile} (indentLevel : Nat) (i : Int) :
    Emits tf (generator.writeErrorHandler indentLevel) (fun x => x = none) i
      (errorCheck indentLevel) [] i := by
  apply Emits.reshape
  · unfold generator.writeErrorHandler
    with_reducible repeat (first
      | exact Emits.ret _ rfl
      | apply Emits.after_pure
      | apply Emits.skip
      | apply Emits.write_then
      | apply Emits.writeIndent_then
      | apply Emits.add_then
      | apply Emits.var_then
      | apply Emits.tf_then
      | apply Emits.val_then (by assumption)
      | apply Emits.snd_then (by assumption)
      | apply Emits.branch
      | intro _
      | dsimp only)
  · simp [errorCheck, String.append_assoc]
  · rfl
  · rfl

/-! ## The text of the pieces -/

theorem indent_zero : indent 0 = "" := rfl

theorem render_nil : render [] = "" := rfl

theorem render_cons (p : Piece) (ps : List Piece) : render (p :: ps) = p.text ++ render ps := rfl

theorem render_append (ps qs : List Piece) : render (ps ++ qs) = render ps ++ render qs := by
  induction ps with
  | nil => simp [render]
  | cons p ps ih => simp [render, ih, String.append_assoc]

theorem sourcesOf_nil : sourcesOf [] = [] := rfl

theorem sourcesOf_cons (p : Piece) (ps : List Piece) :
    sourcesOf (p :: ps) = p.sources ++ sourcesOf ps := rfl

theorem sourcesOf_append (ps qs : List Piece) :
    sourcesOf (ps ++ qs) = sourcesOf ps ++ sourcesOf qs := by
  induction ps with
  | nil => simp [sourcesOf]
  | cons p ps ih => simp [sourcesOf, ih]

theorem writeElementAttributes_attribute_emits {tf : TemplateFile} (indentLevel : Nat) (n : Element)
    (attr : Attribute) (i : Int) (h : attr.known = true) :
    Emits tf (generator.writeElementAttributes.attribute indentLevel n attr) (fun x => x = none)
      i (render (attr.pieces indentLevel n.Name i)) (sourcesOf (attr.pieces indentLevel n.Name i))
      (i + attr.names n.Name) := by
  cases attr with
  | Other typeName => simp [Attribute.known] at h
  | BoolConstantAttribute name =>
    apply Emits.reshape
    · unfold generator.writeElementAttributes.attribute
      with_reducible repeat (first
        | exact Emits.ret _ rfl
        | apply Emits.after_pure
        | apply Emits.skip
        | apply Emits.write_then
        | apply Emits.writeIndent_then
        | apply Emits.add_then
        | apply Emits.var_then
        | apply Emits.tf_then
        | apply Emits.val_then (writeErrorHandler_emits _ _)
        | apply Emits.val_then (by assumption)
        | apply Emits.snd_then (by assumption)
        | apply Emits.branch
        | intro _
        | dsimp only)
    · simp only [Attribute.pieces, render, Piece.text, String.append_assoc, String.append_empty]
    · simp only [Attribute.pieces, sourcesOf, Piece.sources, List.append_nil, List.nil_append]
    · simp [Attribute.names]
  | ConstantAttribute name value =>
    apply Emits.reshape
    · unfold generator.writeElementAttributes.attribute
      with_reducible repeat (first
        | exact Emits.ret _ rfl
        | apply Emits.after_pure
        | apply Emits.skip
        | apply Emits.write_then
        | apply Emits.writeIndent_then
        | apply Emits.add_then
        | apply Emits.var_then
        | apply Emits.tf_then
        | apply Emits.val_then (writeErrorHandler_emits _ _)
        | apply Emits.val_then (by assumption)
        | apply Emits.snd_then (by assumption)
        | apply Emits.branch
        | intro _
        | dsimp only)
    · simp only [Attribute.pieces, render, Piece.text, String.append_assoc, String.append_empty]
    · simp only [Attribute.pieces, sourcesOf, Piece.sources, List.append_nil, List.nil_append]
    · simp [Attribute.names]
  | BoolExpressionAttribute name e =>
    apply Emits.reshape
    · unfold generator.writeElementAttributes.attribute
      with_reducible repeat (first
        | exact Emits.ret _ rfl
        | apply Emits.after_pure
        | apply Emits.skip
        | apply Emits.write_then
        | apply Emits.writeIndent_then
        | apply Emits.add_then
        | apply Emits.var_then
        | apply Emits.tf_then
        | apply Emits.val_then (writeErrorHandler_emits _ _)
        | apply Emits.val_then (by assumption)
        | apply Emits.snd_then (by assumption)
        | apply Emits.branch
        | intro _
        | dsimp only)
    · simp only [Attribute.pieces, render, Piece.text, String.append_assoc, String.append_empty]
    · simp only [Attribute.pieces, sourcesOf, Piece.sources, List.append_nil, List.nil_append,
        List.cons_append]
    · simp [Attribute.names]
  | ExpressionAttribute name e =>
    apply Emits.reshape
    · unfold generator.writeElementAttributes.attribute
      with_reducible repeat (first
        | exact Emits.ret _ rfl
        | apply Emits.after_pure
        | apply Emits.skip
        | apply Emits.write_then
        | apply Emits.writeIndent_then
        | apply Emits.add_then
        | apply Emits.var_then
        | apply Emits.tf_then
        | apply Emits.val_then (writeErrorHandler_emits _ _)
        | apply Emits.val_then (by assumption)
        | apply Emits.snd_then (by assumption)
        | apply Emits.branch
        | intro _
        | dsimp only)
    · simp only [Attribute.pieces]
      split_ifs <;>
        simp only [render, render_append, Piece.text, String.append_assoc, String.append_empty]
    · simp only [Attribute.pieces]
      split_ifs <;>
        simp only [sourcesOf, sourcesOf_append, Piece.sources, List.append_nil, List.nil_append,
          List.cons_append]
    · simp only [Attribute.names]
      split_ifs <;> simp

theorem Emits.any_then {tf : TemplateFile}
    {α β : Type} {V : α → Prop} {W : β → Prop} {i j k : Int} {t u : String}
    {e d : List Expression} {m : Gen α} {f : α → Gen β} (h1 : Emits tf m V i t e j)
    (h2 : ∀ a, Emits tf (f a) W j u d k) :
    Emits tf (m >>= f) W i (t ++ u) (e ++ d) k :=
  Emits.seq h1 (fun a _ => h2 a)

theorem Emits.any {tf : TemplateFile}
    {α : Type} {V : α → Prop} {i j : Int} {t : String} {e : List Expression}
    {m : Gen α} (h : Emits tf m V i t e j) : Emits tf m (fun _ => True) i t e j :=
  h.relax (fun _ _ => trivial) rfl rfl rfl

/-! ## The text of the attributes -/

theorem attributeError_known (a : Attribute) (rest : List Attribute) (h : a.known = true) :
    attributeError (a :: rest) = attributeError rest := by
  cases a <;> first | rfl | simp [Attribute.known] at h

theorem writeElementAttributes_loop_emits {tf : TemplateFile} (indentLevel : Nat) (n : Element)
    (attrs : List Attribute) :
    ∀ i : Int, Emits tf (generator.writeElementAttributes.loop indentLevel n attrs)
      (fun x => x = attributeError attrs) i
      (render (attributePieces indentLevel n.Name i attrs))
      (sourcesOf (attributePieces indentLevel n.Name i attrs))
      (i + attributeNames n.Name attrs) := by
  induction attrs with
  | nil =>
    intro i
    apply Emits.reshape
    · unfold generator.writeElementAttributes.loop
      exact Emits.ret _ rfl
    · rfl
    · rfl
    · simp [attributeNames]
  | cons a rest ih =>
    intro i
    by_cases hk : a.known = true
    · have h1 := @writeElementAttributes_attribute_emits tf indentLevel n a i hk
      have h2 := ih (i + a.names n.Name)
      rw [attributeError_known a rest hk]
      apply Emits.reshape
      · unfold generator.writeElementAttributes.loop
        with_reducible repeat (first
          | assumption
          | exact Emits.ret _ rfl
          | exact Emits.ret _ trivial
          | apply Emits.after_pure
          | apply Emits.skip
          | apply Emits.write_then
          | apply Emits.writeIndent_then
          | apply Emits.add_then
          | apply Emits.var_then
          | apply Emits.tf_then
          | apply Emits.val_then (writeErrorHandler_emits _ _)
          | apply Emits.val_then (by assumption)
          | apply Emits.snd_then (by assumption)
          | apply Emits.any_then (by assumption)
          | apply Emits.branch
          | intro _
          | dsimp only)
      · simp only [attributePieces, hk, if_true, render_append, String.append_assoc,
          String.append_empty]
      · simp only [attributePieces, hk, if_true, sourcesOf_append, List.append_assoc,
          List.append_nil]
      · simp only [attributeNames, hk, if_true]
        omega
    · cases a with
      | Other typeName =>
        apply Emits.reshape
        · unfold generator.writeElementAttributes.loop
          unfold generator.writeElementAttributes.attribute
          apply Emits.after_pure
          rw [if_pos (by simp)]
          exact Emits.ret _ rfl
        · simp [attributePieces, Attribute.known, render]
        · simp [attributePieces, Attribute.known, sourcesOf]
        · simp [attributeNames, Attribute.known]
      | _ => simp [Attribute.known] at hk

theorem writeElementAttributes_emits {tf : TemplateFile}
    (indentLevel : Nat) (n : Element) (i : Int) :
    Emits tf (generator.writeElementAttributes indentLevel n)
      (fun x => x = attributeError n.Attributes) i
      (render (attributePieces indentLevel n.Name i n.Attributes))
      (sourcesOf (attributePieces indentLevel n.Name i n.Attributes))
      (i + attributeNames n.Name n.Attributes) :=
  writeElementAttributes_loop_emits indentLevel n n.Attributes i

/-! ## The text of the class lifting and of the scripts -/

theorem writeElementCSS_attribute_emits {tf : TemplateFile}
    (indentLevel : Nat) (a : Attribute) (i : Int) :
    Emits tf (generator.writeElementCSS.attribute indentLevel a)
      (fun x => x = (a.lift i, none)) i
      (render (a.liftPieces indentLevel i)) (sourcesOf (a.liftPieces indentLevel i))
      (i + (if a.isClass then 1 else 0)) := by
  cases a with
  | ExpressionAttribute name e =>
    by_cases hc : html.EscapeString name = "class"
    · apply Emits.relax
      · unfold generator.writeElementCSS.attribute
        dsimp only
        rw [if_neg (not_not_intro hc)]
        with_reducible repeat (first
          | assumption
          | exact Emits.ret _ rfl
          | exact Emits.ret _ trivial
          | apply Emits.after_pure
          | apply Emits.skip
          | apply Emits.write_then
          | apply Emits.writeIndent_then
          | apply Emits.add_then
          | apply Emits.var_then
          | apply Emits.tf_then
          | apply Emits.val_then (writeErrorHandler_emits _ _)
          | apply Emits.val_then (by assumption)
          | apply Emits.snd_then (by assumption)
          | apply Emits.any_then (by assumption)
          | apply Emits.branch
          | intro _
          | dsimp only)
      · intro a ha
        subst ha
        simp [Attribute.lift, hc]
      · simp only [Attribute.liftPieces, hc, if_true, render, Piece.text, String.append_assoc,
          String.append_empty]
      · simp only [Attribute.liftPieces, hc, if_true, sourcesOf, Piece.sources, List.append_nil,
          List.nil_append, List.cons_append]
      · simp [Attribute.isClass, hc]
    · apply Emits.relax
      · unfold generator.writeElementCSS.attribute
        dsimp only
        rw [if_pos hc]
        exact Emits.ret _ rfl
      · intro a ha
        subst ha
        simp [Attribute.lift, hc]
      · simp [Attribute.liftPieces, hc, render]
      · simp [Attribute.liftPieces, hc, sourcesOf]
      · simp [Attribute.isClass, hc]
  | BoolConstantAttribute name =>
    apply Emits.reshape
    · unfold generator.writeElementCSS.attribute
      exact Emits.ret _ rfl
    · rfl
    · rfl
    · simp [Attribute.isClass]
  | ConstantAttribute name value =>
    apply Emits.reshape
    · unfold generator.writeElementCSS.attribute
      exact Emits.ret _ rfl
    · rfl
    · rfl
    · simp [Attribute.isClass]
  | BoolExpressionAttribute name e =>
    apply Emits.reshape
    · unfold generator.writeElementCSS.attribute
      exact Emits.ret _ rfl
    · rfl
    · rfl
    · simp [Attribute.isClass]
  | Other typeName =>
    apply Emits.reshape
    · unfold generator.writeElementCSS.attribute
      exact Emits.ret _ rfl
    · rfl
    · rfl
    · simp [Attribute.isClass]

theorem writeElementCSS_loop_emits {tf : TemplateFile}
    (indentLevel : Nat) (attrs : List Attribute) :
    ∀ i : Int, Emits tf (generator.writeElementCSS.loop indentLevel attrs)
      (fun x => x = (liftAttributes i attrs, none)) i
      (render (liftPieces indentLevel i attrs)) (sourcesOf (liftPieces indentLevel i attrs))
      (i + classCount attrs) := by
  induction attrs with
  | nil =>
    intro i
    apply Emits.reshape
    · unfold generator.writeElementCSS.loop
      exact Emits.ret _ rfl
    · rfl
    · rfl
    · simp [classCount]
  | cons a rest ih =>
    intro i
    have h1 := @writeElementCSS_attribute_emits tf indentLevel a i
    have h2 := ih (i + (if a.isClass then 1 else 0))
    apply Emits.relax
    · unfold generator.writeElementCSS.loop
      with_reducible repeat (first
        | assumption
        | exact Emits.ret _ rfl
        | exact Emits.ret _ trivial
        | apply Emits.after_pure
        | apply Emits.skip
        | apply Emits.write_then
        | apply Emits.writeIndent_then
        | apply Emits.add_then
        | apply Emits.var_then
        | apply Emits.tf_then
        | apply Emits.val_then (writeErrorHandler_emits _ _)
        | apply Emits.val_then (by assumption)
        | apply Emits.snd_then (by assumption)
        | apply Emits.any_then (by assumption)
        | apply Emits.branch
        | intro _
        | dsimp only)
    · intro x hx
      subst hx
      rfl
    · simp only [liftPieces, render_append, String.append_assoc, String.append_empty]
    · simp only [liftPieces, sourcesOf_append, List.append_assoc, List.append_nil]
    · simp only [classCount]
      omega

theorem writeElementScript_loop_eq (attrs : List Attribute) :
    generator.writeElementScript.loop attrs = handlerExpressions attrs := by
  induction attrs with
  | nil => rfl
  | cons a rest ih =>
    cases a <;> simp only [generator.writeElementScript.loop, handlerExpressions,
      List.filterMap_cons] at ih ⊢
    all_goals first
      | exact ih
      | (split <;> simp_all [handlerExpressions])

theorem writeElementScript_emits {tf : TemplateFile} (indentLevel : Nat) (n : Element) (i : Int) :
    Emits tf (generator.writeElementScript indentLevel n) (fun x => x = none) i
      (render (scriptPieces indentLevel n.Attributes))
      (sourcesOf (scriptPieces indentLevel n.Attributes)) i := by
  apply Emits.reshape
  · unfold generator.writeElementScript
    with_reducible repeat (first
      | assumption
      | exact Emits.ret _ rfl
      | exact Emits.ret _ trivial
      | apply Emits.after_pure
      | apply Emits.skip
      | apply Emits.write_then
      | apply Emits.writeIndent_then
      | apply Emits.add_then
      | apply Emits.var_then
      | apply Emits.tf_then
      | apply Emits.val_then (writeErrorHandler_emits _ _)
      | apply Emits.val_then (by assumption)
      | apply Emits.snd_then (by assumption)
      | apply Emits.any_then (by assumption)
      | apply Emits.branch
      | intro _
      | dsimp only)
  · simp only [scriptPieces, writeElementScript_loop_eq, render, Piece.text, String.append_assoc,
      String.append_empty]
  · rfl
  · rfl

/-! ## The text of the elements -/

theorem Attribute.lift_known (i : Int) (a : Attribute) : (a.lift i).known = a.known := by
  cases a with
  | ExpressionAttribute name e =>
    by_cases hc : html.EscapeString name = "class" <;> simp [Attribute.lift, hc, Attribute.known]
  | _ => rfl

theorem Attribute.lift_names (elementName : String) (i : Int) (a : Attribute) :
    (a.lift i).names elementName = a.names elementName := by
  cases a with
  | ExpressionAttribute name e =>
    by_cases hc : html.EscapeString name = "class" <;> simp [Attribute.lift, hc, Attribute.names]
  | _ => rfl

theorem attributeError_lift (attrs : List Attribute) :
    ∀ i : Int, attributeError (liftAttributes i attrs) = attributeError attrs := by
  induction attrs with
  | nil => intro i; rfl
  | cons a rest ih =>
    intro i
    cases a with
    | ExpressionAttribute name e =>
      by_cases hc : html.EscapeString name = "class" <;>
        simp [liftAttributes, Attribute.lift, hc, attributeError, ih]
    | _ => simp [liftAttributes, Attribute.lift, attributeError, ih]

theorem attributeNames_lift (elementName : String) (attrs : List Attribute) :
    ∀ i : Int, attributeNames elementName (liftAttributes i attrs)
      = attributeNames elementName attrs := by
  induction attrs with
  | nil => intro i; rfl
  | cons a rest ih =>
    intro i
    simp only [liftAttributes, attributeNames, Attribute.lift_known, Attribute.lift_names, ih]

theorem not_hasPrefix_on_of_class (name : String) (h : html.EscapeString name = "class") :
    strings.HasPrefix (html.EscapeString name) "on" = false := by
  rw [h]; decide

theorem handlerExpressions_lift (attrs : List Attribute) :
    ∀ i : Int, handlerExpressions (liftAttributes i attrs) = handlerExpressions attrs := by
  induction attrs with
  | nil => intro i; rfl
  | cons a rest ih =>
    intro i
    have ih' := ih (i + if a.isClass = true then 1 else 0)
    unfold handlerExpressions at ih' ⊢
    cases a with
    | ExpressionAttribute name e =>
      by_cases hc : html.EscapeString name = "class"
      · simp [liftAttributes, Attribute.lift, hc, not_hasPrefix_on_of_class name hc,
          List.filterMap_cons] at ih' ⊢
        exact ih'
      · simp [liftAttributes, Attribute.lift, hc, List.filterMap_cons] at ih' ⊢
        rw [ih']
    | _ =>
      simp [liftAttributes, Attribute.lift, List.filterMap_cons] at ih' ⊢
      exact ih'

theorem writeElementCSS_emits {tf : TemplateFile} (indentLevel : Nat) (n : Element) (i : Int) :
    Emits tf (generator.writeElementCSS indentLevel n)
      (fun x => x = (liftAttributes i n.Attributes, none)) i
      (render (liftPieces indentLevel i n.Attributes))
      (sourcesOf (liftPieces indentLevel i n.Attributes)) (i + classCount n.Attributes) :=
  writeElementCSS_loop_emits indentLevel n.Attributes i

set_option maxRecDepth 8192 in
theorem writeVoidElement_emits {tf : TemplateFile} (indentLevel : Nat) (n : Element) (i : Int) :
    Emits tf (generator.writeVoidElement indentLevel n) (fun _ => True) i
      (render (voidElementPieces indentLevel i n)) (sourcesOf (voidElementPieces indentLevel i n))
      (i + voidElementNames n) := by
  apply Emits.reshape
  · unfold generator.writeVoidElement
    with_reducible repeat (first
      | assumption
      | exact Emits.ret _ rfl
      | exact Emits.ret _ trivial
      | apply Emits.after_pure
      | apply Emits.skip
      | apply Emits.write_then
      | apply Emits.writeIndent_then
      | apply Emits.add_then
      | apply Emits.var_then
      | apply Emits.tf_then
      | apply Emits.val_then (writeErrorHandler_emits _ _)
      | apply Emits.val_then (writeElementAttributes_emits _ _ _)
      | apply Emits.val_then (by assumption)
      | apply Emits.snd_then (by assumption)
      | apply Emits.any_then (by assumption)
      | apply Emits.branch
      | intro _
      | dsimp only)
  · simp only [voidElementPieces]
    split_ifs <;>
      simp only [render_append, render_cons, render_nil, Piece.text, List.cons_append,
        List.nil_append, List.append_nil, List.append_assoc, String.append_assoc,
        String.append_empty, String.empty_append]
  · simp only [voidElementPieces]
    split_ifs <;>
      simp only [sourcesOf_append, sourcesOf_cons, sourcesOf_nil, Piece.sources, List.cons_append,
        List.nil_append, List.append_nil, List.append_assoc]
  · simp only [voidElementNames]
    split_ifs <;> simp

set_option maxRecDepth 16384 in
theorem writeStandardElement_emits {tf : TemplateFile} (indentLevel : Nat) (n : Element)
    (writeChildren : Gen (List Node × error)) (V : List Node × error → Prop)
    (children : Int → List Piece) (names : Int)
    (hc : ∀ j, Emits tf writeChildren V j (render (children j)) (sourcesOf (children j))
      (j + names)) (i : Int) :
    Emits tf (generator.writeStandardElement indentLevel n writeChildren) (fun _ => True) i
      (render (standardElementPieces indentLevel i n children))
      (sourcesOf (standardElementPieces indentLevel i n children))
      (i + standardElementNames n names) := by
  apply Emits.reshape
  · unfold generator.writeStandardElement
    with_reducible repeat (first
      | assumption
      | exact Emits.ret _ rfl
      | exact Emits.ret _ trivial
      | apply Emits.after_pure
      | apply Emits.skip
      | apply Emits.write_then
      | apply Emits.writeIndent_then
      | apply Emits.add_then
      | apply Emits.var_then
      | apply Emits.tf_then
      | apply Emits.val_then (writeErrorHandler_emits _ _)
      | apply Emits.val_then (writeElementCSS_emits _ _ _)
      | apply Emits.val_then (writeElementScript_emits _ _ _)
      | apply Emits.val_then (writeElementAttributes_emits _ _ _)
      | apply Emits.any_then (hc _)
      | apply Emits.val_then (by assumption)
      | apply Emits.snd_then (by assumption)
      | apply Emits.any_then (by assumption)
      | apply Emits.branch
      | intro _
      | dsimp only)
  · simp only [standardElementPieces, attributeError_lift, attributeNames_lift,
      scriptPieces, handlerExpressions_lift]
    split_ifs <;> simp only [render_append, render_cons, render_nil, Piece.text, List.cons_append,
      List.nil_append, List.append_nil, List.append_assoc, String.append_assoc, String.append_empty,
      String.empty_append]
  · simp only [standardElementPieces, attributeError_lift, attributeNames_lift,
      scriptPieces, handlerExpressions_lift]
    split_ifs <;> simp only [sourcesOf_append, sourcesOf_cons, sourcesOf_nil, Piece.sources,
      List.cons_append, List.nil_append, List.append_nil, List.append_assoc]
  · simp only [standardElementNames, attributeError_lift, attributeNames_lift]
    split_ifs <;> omega

/-! ## The text of the nodes -/

theorem writeDocType_emits {tf : TemplateFile} (indentLevel : Nat) (n : DocType) (i : Int) :
    Emits tf (generator.writeDocType indentLevel n) (fun x => x = none) i
      (render [.assign indentLevel ("_, err = w.WriteString(`<!doctype " ++ n.Value ++ ">`)\n") [],
        .check indentLevel]) [] i := by
  apply Emits.reshape
  · unfold generator.writeDocType
    with_reducible repeat (first
      | assumption
      | exact Emits.ret _ rfl
      | exact Emits.ret _ trivial
      | apply Emits.after_pure
      | apply Emits.skip
      | apply Emits.write_then
      | apply Emits.writeIndent_then
      | apply Emits.add_then
      | apply Emits.var_then
      | apply Emits.tf_then
      | apply Emits.val_then (writeErrorHandler_emits _ _)
      | apply Emits.val_then (by assumption)
      | apply Emits.snd_then (by assumption)
      | apply Emits.any_then (by assumption)
      | apply Emits.branch
      | intro _
      | dsimp only)
  · simp only [render_append, render_cons, render_nil, Piece.text, List.cons_append,
    List.nil_append, List.append_nil, List.append_assoc, String.append_assoc, String.append_empty,
    String.empty_append]
  · rfl
  · rfl

theorem writeCallTemplateExpression_emits {tf : TemplateFile}
    (indentLevel : Nat) (n : CallTemplateExpression)
    (i : Int) :
    Emits tf (generator.writeCallTemplateExpression indentLevel n) (fun x => x = none) i
      (render [.assign indentLevel
          ("err = " ++ n.Expression.Value ++ ".Render(ctx, w.(io.Writer))\n") [n.Expression],
        .check indentLevel]) [n.Expression] i := by
  apply Emits.reshape
  · unfold generator.writeCallTemplateExpression
    with_reducible repeat (first
      | assumption
      | exact Emits.ret _ rfl
      | exact Emits.ret _ trivial
      | apply Emits.after_pure
      | apply Emits.skip
      | apply Emits.write_then
      | apply Emits.writeIndent_then
      | apply Emits.add_then
      | apply Emits.var_then
      | apply Emits.tf_then
      | apply Emits.val_then (writeErrorHandler_emits _ _)
      | apply Emits.val_then (by assumption)
      | apply Emits.snd_then (by assumption)
      | apply Emits.any_then (by assumption)
      | apply Emits.branch
      | intro _
      | dsimp only)
  · simp only [render_append, render_cons, render_nil, Piece.text, List.cons_append,
    List.nil_append, List.append_nil, List.append_assoc, String.append_assoc, String.append_empty,
    String.empty_append]
  · rfl
  · rfl

theorem writeStringExpression_emits {tf : TemplateFile}
    (indentLevel : Nat) (e : Expression) (i : Int) :
    Emits tf (generator.writeStringExpression indentLevel e) (fun x => x = none) i
      (render [.assign indentLevel
          ("_, err = w.WriteString(templ.EscapeString(" ++ e.Value ++ "))\n") [e],
        .check indentLevel]) [e] i := by
  apply Emits.reshape
  · unfold generator.writeStringExpression
    with_reducible repeat (first
      | assumption
      | exact Emits.ret _ rfl
      | exact Emits.ret _ trivial
      | apply Emits.after_pure
      | apply Emits.skip
      | apply Emits.write_then
      | apply Emits.writeIndent_then
      | apply Emits.add_then
      | apply Emits.var_then
      | apply Emits.tf_then
      | apply Emits.val_then (writeErrorHandler_emits _ _)
      | apply Emits.val_then (by assumption)
      | apply Emits.snd_then (by assumption)
      | apply Emits.any_then (by assumption)
      | apply Emits.branch
      | intro _
      | dsimp only)
  · simp only [render_append, render_cons, render_nil, Piece.text, List.cons_append,
    List.nil_append, List.append_nil, List.append_assoc, String.append_assoc, String.append_empty,
    String.empty_append]
  · rfl
  · rfl

theorem writeText_emits {tf : TemplateFile} (indentLevel : Nat) (n : Text) (i : Int) :
    Emits tf (generator.writeText indentLevel n) (fun x => x = none) i
      (render [.plain indentLevel (varName (i + 1) ++ " := " ++ createGoString n.Value ++ "\n") [],
        .assign indentLevel ("_, err = w.WriteString(" ++ varName (i + 1) ++ ")\n") [],
        .check indentLevel]) [] (i + 1) := by
  apply Emits.reshape
  · unfold generator.writeText
    with_reducible repeat (first
      | assumption
      | exact Emits.ret _ rfl
      | exact Emits.ret _ trivial
      | apply Emits.after_pure
      | apply Emits.skip
      | apply Emits.write_then
      | apply Emits.writeIndent_then
      | apply Emits.add_then
      | apply Emits.var_then
      | apply Emits.tf_then
      | apply Emits.val_then (writeErrorHandler_emits _ _)
      | apply Emits.val_then (by assumption)
      | apply Emits.snd_then (by assumption)
      | apply Emits.any_then (by assumption)
      | apply Emits.branch
      | intro _
      | dsimp only)
  · simp only [render_append, render_cons, render_nil, Piece.text, List.cons_append,
    List.nil_append, List.append_nil, List.append_assoc, String.append_assoc, String.append_empty,
    String.empty_append]
  · rfl
  · rfl

theorem pieces_DocType (level : Nat) (i : Int) (n : DocType) :
    Node.pieces level i (.DocType n) =
      [.assign level ("_, err = w.WriteString(`<!doctype " ++ n.Value ++ ">`)\n") [],
       .check level] := rfl

theorem pieces_Element (level : Nat) (i : Int) (n : Element) :
    Node.pieces level i (.Element n) =
      if n.Void then voidElementPieces level i n
      else standardElementPieces level i n (fun j => Node.listPieces level j n.Children) := rfl

theorem pieces_ForExpression (level : Nat) (i : Int) (n : ForExpression) :
    Node.pieces level i (.ForExpression n) =
      [.plain level ("for " ++ n.Expression.Value ++ " \x7b\n") [n.Expression]]
        ++ Node.listPieces (level + 1) i n.Children
        ++ [.plain level "\x7d\n" []] := rfl

theorem pieces_CallTemplateExpression (level : Nat) (i : Int)
    (n : CallTemplateExpression) :
    Node.pieces level i (.CallTemplateExpression n) =
      [.assign level ("err = " ++ n.Expression.Value ++ ".Render(ctx, w.(io.Writer))\n")
        [n.Expression],
       .check level] := rfl

theorem pieces_IfExpression (level : Nat) (i : Int) (n : IfExpression) :
    Node.pieces level i (.IfExpression n) =
      [.plain level ("if " ++ n.Expression.Value ++ " \x7b\n") [n.Expression]]
        ++ Node.listPieces (level + 1) i n.Then
        ++ (if n.Else.length > 0 then
              [.plain level "\x7d else \x7b\n" []]
                ++ Node.listPieces (level + 1) (i + Node.listNames n.Then) n.Else
                ++ [.plain level "\x7d\n" []]
            else [.plain level "\x7d\n" []]) := rfl

theorem pieces_SwitchExpression (level : Nat) (i : Int) (n : SwitchExpression) :
    Node.pieces level i (.SwitchExpression n) =
      [.plain level ("switch " ++ n.Expression.Value ++ " \x7b\n") [n.Expression]]
        ++ Node.casePieces level i n.Cases
        ++ (if n.Default.length > 0 then
              [.plain level "default:" []]
                ++ Node.listPieces (level + 1) (i + Node.caseNames n.Cases) n.Default
                ++ [.plain level "\x7d\n" []]
            else [.plain level "\x7d\n" []]) := rfl

theorem pieces_StringExpression (level : Nat) (i : Int) (n : StringExpression) :
    Node.pieces level i (.StringExpression n) =
      [.assign level
        ("_, err = w.WriteString(templ.EscapeString(" ++ n.Expression.Value ++ "))\n")
        [n.Expression],
       .check level] := rfl

theorem pieces_Whitespace (level : Nat) (i : Int) (n : Whitespace) :
    Node.pieces level i (.Whitespace n) = [] := rfl

theorem pieces_Text (level : Nat) (i : Int) (n : Text) :
    Node.pieces level i (.Text n) =
      [.plain level (varName (i + 1) ++ " := " ++ createGoString n.Value ++ "\n") [],
       .assign level ("_, err = w.WriteString(" ++ varName (i + 1) ++ ")\n") [],
       .check level] := rfl

theorem pieces_Other (level : Nat) (i : Int) (typeName : String) :
    Node.pieces level i (.Other typeName) =
      [.plain 0 ("Unhandled type: " ++ typeName ++ "\n") []] := rfl

theorem listPieces_nil (level : Nat) (i : Int) : Node.listPieces level i [] = [] := rfl

theorem listPieces_cons (level : Nat) (i : Int) (node : Node) (rest : List Node) :
    Node.listPieces level i (node :: rest) =
      Node.pieces level i node ++ Node.listPieces level (i + Node.names node) rest := rfl

theorem casePieces_nil (level : Nat) (i : Int) : Node.casePieces level i [] = [] := rfl

theorem casePieces_cons (level : Nat) (i : Int) (c : CaseExpression)
    (rest : List CaseExpression) :
    Node.casePieces level i (c :: rest) =
      [.plain level ("case " ++ c.Expression.Value ++ ":\n") [c.Expression]]
        ++ Node.listPieces (level + 1) i c.Children
        ++ Node.casePieces level (i + Node.listNames c.Children) rest := rfl

theorem names_Element (n : Element) :
    Node.names (.Element n) =
      if n.Void then voidElementNames n
      else standardElementNames n (Node.listNames n.Children) := rfl

theorem names_IfExpression (n : IfExpression) :
    Node.names (.IfExpression n) = Node.listNames n.Then + Node.listNames n.Else := rfl

theorem names_SwitchExpression (n : SwitchExpression) :
    Node.names (.SwitchExpression n) = Node.caseNames n.Cases + Node.listNames n.Default := rfl

theorem names_ForExpression (n : ForExpression) :
    Node.names (.ForExpression n) = Node.listNames n.Children := rfl

theorem listNames_cons (node : Node) (rest : List Node) :
    Node.listNames (node :: rest) = Node.names node + Node.listNames rest := rfl

theorem caseNames_cons (c : CaseExpression) (rest : List CaseExpression) :
    Node.caseNames (c :: rest) = Node.listNames c.Children + Node.caseNames rest := rfl

theorem names_DocType (n : DocType) : Node.names (.DocType n) = 0 := rfl

theorem names_CallTemplateExpression (n : CallTemplateExpression) :
    Node.names (.CallTemplateExpression n) = 0 := rfl

theorem names_StringExpression (n : StringExpression) :
    Node.names (.StringExpression n) = 0 := rfl

theorem names_Whitespace (n : Whitespace) : Node.names (.Whitespace n) = 0 := rfl

theorem names_Text (n : Text) : Node.names (.Text n) = 1 := rfl

theorem names_Other (typeName : String) : Node.names (.Other typeName) = 0 := rfl

theorem listNames_nil : Node.listNames [] = 0 := rfl

theorem caseNames_nil : Node.caseNames [] = 0 := rfl

set_option maxHeartbeats 1000000 in
mutual

theorem writeNode_emits (tf : TemplateFile) :
    ∀ (node : Node) (indentLevel : Nat) (i : Int),
      Emits tf (generator.writeNode indentLevel node) (fun x => x.2 = none) i
        (render (Node.pieces indentLevel i node)) (sourcesOf (Node.pieces indentLevel i node))
        (i + Node.names node)
  | .DocType n, indentLevel, i => by
    rw [writeNode_DocType]
    apply Emits.reshape
    · skip
      with_reducible repeat (first
        | assumption
        | exact Emits.ret _ rfl
        | exact Emits.ret _ trivial
        | apply Emits.after_pure
        | apply Emits.skip
        | apply Emits.write_then
        | apply Emits.writeIndent_then
        | apply Emits.add_then
        | apply Emits.var_then
        | apply Emits.tf_then
        | apply Emits.val_then (writeErrorHandler_emits _ _)
        | apply Emits.any_then (writeDocType_emits _ _ _)
        | apply Emits.val_then (by assumption)
        | apply Emits.snd_then (by assumption)
        | apply Emits.any_then (by assumption)
        | apply Emits.branch
        | intro _
        | dsimp only)
    · simp only [pieces_DocType, render_append, render_cons, render_nil, Piece.text,
      List.cons_append, List.nil_append, List.append_nil, List.append_assoc, String.append_assoc,
      String.append_empty, String.empty_append]
    · simp only [pieces_DocType, sourcesOf_append, sourcesOf_cons, sourcesOf_nil, Piece.sources,
      List.cons_append, List.nil_append, List.append_nil, List.append_assoc]
    · simp only [names_DocType]; omega
  | .Element n, indentLevel, i => by
    have h1 := writeElement_emits tf n indentLevel
    rw [writeNode_Element]
    apply Emits.reshape
    · skip
      with_reducible repeat (first
        | assumption
        | exact Emits.ret _ rfl
        | exact Emits.ret _ trivial
        | apply Emits.after_pure
        | apply Emits.skip
        | apply Emits.write_then
        | apply Emits.writeIndent_then
        | apply Emits.add_then
        | apply Emits.var_then
        | apply Emits.tf_then
        | apply Emits.val_then (writeErrorHandler_emits _ _)
        | apply Emits.any_then (h1 _)
        | apply Emits.val_then (by assumption)
        | apply Emits.snd_then (by assumption)
        | apply Emits.any_then (by assumption)
        | apply Emits.branch
        | intro _
        | dsimp only)
    · simp only [render_append, render_cons, render_nil, Piece.text, List.cons_append,
      List.nil_append, List.append_nil, List.append_assoc, String.append_assoc, String.append_empty,
      String.empty_append]
    · simp only [sourcesOf_append, sourcesOf_cons, sourcesOf_nil, Piece.sources, List.cons_append,
      List.nil_append, List.append_nil, List.append_assoc]
    · omega
  | .ForExpression n, indentLevel, i => by
    have h1 := writeForExpression_emits tf n indentLevel
    rw [writeNode_ForExpression]
    apply Emits.reshape
    · skip
      with_reducible repeat (first
        | assumption
        | exact Emits.ret _ rfl
        | exact Emits.ret _ trivial
        | apply Emits.after_pure
        | apply Emits.skip
        | apply Emits.write_then
        | apply Emits.writeIndent_then
        | apply Emits.add_then
        | apply Emits.var_then
        | apply Emits.tf_then
        | apply Emits.val_then (writeErrorHandler_emits _ _)
        | apply Emits.any_then (h1 _)
        | apply Emits.val_then (by assumption)
        | apply Emits.snd_then (by assumption)
        | apply Emits.any_then (by assumption)
        | apply Emits.branch
        | intro _
        | dsimp only)
    · simp only [render_append, render_cons, render_nil, Piece.text, List.cons_append,
      List.nil_append, List.append_nil, List.append_assoc, String.append_assoc, String.append_empty,
      String.empty_append]
    · simp only [sourcesOf_append, sourcesOf_cons, sourcesOf_nil, Piece.sources, List.cons_append,
      List.nil_append, List.append_nil, List.append_assoc]
    · omega
  | .CallTemplateExpression n, indentLevel, i => by
    rw [writeNode_CallTemplateExpression]
    apply Emits.reshape
    · skip
      with_reducible repeat (first
        | assumption
        | exact Emits.ret _ rfl
        | exact Emits.ret _ trivial
        | apply Emits.after_pure
        | apply Emits.skip
        | apply Emits.write_then
        | apply Emits.writeIndent_then
        | apply Emits.add_then
        | apply Emits.var_then
        | apply Emits.tf_then
        | apply Emits.val_then (writeErrorHandler_emits _ _)
        | apply Emits.any_then (writeCallTemplateExpression_emits _ _ _)
        | apply Emits.val_then (by assumption)
        | apply Emits.snd_then (by assumption)
        | apply Emits.any_then (by assumption)
        | apply Emits.branch
        | intro _
        | dsimp only)
    · simp only [pieces_CallTemplateExpression, render_append, render_cons, render_nil, Piece.text,
      List.cons_append, List.nil_append, List.append_nil, List.append_assoc, String.append_assoc,
      String.append_empty, String.empty_append]
    · simp only [pieces_CallTemplateExpression, sourcesOf_append, sourcesOf_cons, sourcesOf_nil,
      Piece.sources, List.cons_append, List.nil_append, List.append_nil, List.append_assoc]
    · simp only [names_CallTemplateExpression]; omega
  | .IfExpression n, indentLevel, i => by
    have h1 := writeIfExpression_emits tf n indentLevel
    rw [writeNode_IfExpression]
    apply Emits.reshape
    · skip
      with_reducible repeat (first
        | assumption
        | exact Emits.ret _ rfl
        | exact Emits.ret _ trivial
        | apply Emits.after_pure
        | apply Emits.skip
        | apply Emits.write_then
        | apply Emits.writeIndent_then
        | apply Emits.add_then
        | apply Emits.var_then
        | apply Emits.tf_then
        | apply Emits.val_then (writeErrorHandler_emits _ _)
        | apply Emits.any_then (h1 _)
        | apply Emits.val_then (by assumption)
        | apply Emits.snd_then (by assumption)
        | apply Emits.any_then (by assumption)
        | apply Emits.branch
        | intro _
        | dsimp only)
    · simp only [render_append, render_cons, render_nil, Piece.text, List.cons_append,
      List.nil_append, List.append_nil, List.append_assoc, String.append_assoc, String.append_empty,
      String.empty_append]
    · simp only [sourcesOf_append, sourcesOf_cons, sourcesOf_nil, Piece.sources, List.cons_append,
      List.nil_append, List.append_nil, List.append_assoc]
    · omega
  | .SwitchExpression n, indentLevel, i => by
    have h1 := writeSwitchExpression_emits tf n indentLevel
    rw [writeNode_SwitchExpression]
    apply Emits.reshape
    · skip
      with_reducible repeat (first
        | assumption
        | exact Emits.ret _ rfl
        | exact Emits.ret _ trivial
        | apply Emits.after_pure
        | apply Emits.skip
        | apply Emits.write_then
        | apply Emits.writeIndent_then
        | apply Emits.add_then
        | apply Emits.var_then
        | apply Emits.tf_then
        | apply Emits.val_then (writeErrorHandler_emits _ _)
        | apply Emits.any_then (h1 _)
        | apply Emits.val_then (by assumption)
        | apply Emits.snd_then (by assumption)
        | apply Emits.any_then (by assumption)
        | apply Emits.branch
        | intro _
        | dsimp only)
    · simp only [render_append, render_cons, render_nil, Piece.text, List.cons_append,
      List.nil_append, List.append_nil, List.append_assoc, String.append_assoc, String.append_empty,
      String.empty_append]
    · simp only [sourcesOf_append, sourcesOf_cons, sourcesOf_nil, Piece.sources, List.cons_append,
      List.nil_append, List.append_nil, List.append_assoc]
    · omega
  | .StringExpression n, indentLevel, i => by
    rw [writeNode_StringExpression]
    apply Emits.reshape
    · skip
      with_reducible repeat (first
        | assumption
        | exact Emits.ret _ rfl
        | exact Emits.ret _ trivial
        | apply Emits.after_pure
        | apply Emits.skip
        | apply Emits.write_then
        | apply Emits.writeIndent_then
        | apply Emits.add_then
        | apply Emits.var_then
        | apply Emits.tf_then
        | apply Emits.val_then (writeErrorHandler_emits _ _)
        | apply Emits.any_then (writeStringExpression_emits _ _ _)
        | apply Emits.val_then (by assumption)
        | apply Emits.snd_then (by assumption)
        | apply Emits.any_then (by assumption)
        | apply Emits.branch
        | intro _
        | dsimp only)
    · simp only [pieces_StringExpression, render_append, render_cons, render_nil, Piece.text,
      List.cons_append, List.nil_append, List.append_nil, List.append_assoc, String.append_assoc,
      String.append_empty, String.empty_append]
    · simp only [pieces_StringExpression, sourcesOf_append, sourcesOf_cons, sourcesOf_nil,
      Piece.sources, List.cons_append, List.nil_append, List.append_nil, List.append_assoc]
    · simp only [names_StringExpression]; omega
  | .Whitespace n, indentLevel, i => by
    rw [writeNode_Whitespace]
    apply Emits.reshape
    · exact Emits.ret _ rfl
    · rfl
    · rfl
    · simp only [names_Whitespace]; omega
  | .Text n, indentLevel, i => by
    rw [writeNode_Text]
    apply Emits.reshape
    · skip
      with_reducible repeat (first
        | assumption
        | exact Emits.ret _ rfl
        | exact Emits.ret _ trivial
        | apply Emits.after_pure
        | apply Emits.skip
        | apply Emits.write_then
        | apply Emits.writeIndent_then
        | apply Emits.add_then
        | apply Emits.var_then
        | apply Emits.tf_then
        | apply Emits.val_then (writeErrorHandler_emits _ _)
        | apply Emits.any_then (writeText_emits _ _ _)
        | apply Emits.val_then (by assumption)
        | apply Emits.snd_then (by assumption)
        | apply Emits.any_then (by assumption)
        | apply Emits.branch
        | intro _
        | dsimp only)
    · simp only [pieces_Text, render_append, render_cons, render_nil, Piece.text, List.cons_append,
      List.nil_append, List.append_nil, List.append_assoc, String.append_assoc, String.append_empty,
      String.empty_append]
    · simp only [pieces_Text, sourcesOf_append, sourcesOf_cons, sourcesOf_nil, Piece.sources,
      List.cons_append, List.nil_append, List.append_nil, List.append_assoc]
    · simp only [names_Text]
  | .Other typeName, indentLevel, i => by
    rw [writeNode_Other]
    apply Emits.reshape
    · skip
      with_reducible repeat (first
        | assumption
        | exact Emits.ret _ rfl
        | exact Emits.ret _ trivial
        | apply Emits.after_pure
        | apply Emits.skip
        | apply Emits.write_then
        | apply Emits.writeIndent_then
        | apply Emits.add_then
        | apply Emits.var_then
        | apply Emits.tf_then
        | apply Emits.val_then (writeErrorHandler_emits _ _)
        | apply Emits.any_then (emits_write _)
        | apply Emits.val_then (by assumption)
        | apply Emits.snd_then (by assumption)
        | apply Emits.any_then (by assumption)
        | apply Emits.branch
        | intro _
        | dsimp only)
    · simp only [pieces_Other, indent_zero, render_append, render_cons, render_nil, Piece.text,
      List.cons_append, List.nil_append, List.append_nil, List.append_assoc, String.append_assoc,
      String.append_empty, String.empty_append]
    · simp only [pieces_Other, sourcesOf_append, sourcesOf_cons, sourcesOf_nil, Piece.sources,
      List.cons_append, List.nil_append, List.append_nil, List.append_assoc]
    · simp only [names_Other]; omega

theorem writeNodes_emits (tf : TemplateFile) :
    ∀ (nodes : List Node) (indentLevel : Nat) (i : Int),
      Emits tf (generator.writeNodes indentLevel nodes) (fun x => x.2 = none) i
        (render (Node.listPieces indentLevel i nodes))
        (sourcesOf (Node.listPieces indentLevel i nodes)) (i + Node.listNames nodes)
  | [], indentLevel, i => by
    apply Emits.reshape
    · unfold generator.writeNodes
      exact Emits.ret _ rfl
    · rfl
    · rfl
    · simp only [listNames_nil]; omega
  | node :: rest, indentLevel, i => by
    have h1 := writeNode_emits tf node indentLevel
    have h2 := writeNodes_emits tf rest indentLevel
    apply Emits.reshape
    · unfold generator.writeNodes
      with_reducible repeat (first
        | assumption
        | exact Emits.ret _ rfl
        | exact Emits.ret _ trivial
        | apply Emits.after_pure
        | apply Emits.skip
        | apply Emits.write_then
        | apply Emits.writeIndent_then
        | apply Emits.add_then
        | apply Emits.var_then
        | apply Emits.tf_then
        | apply Emits.val_then (writeErrorHandler_emits _ _)
        | apply Emits.snd_then (h1 _)
        | apply Emits.snd_then (h2 _)
        | apply Emits.val_then (by assumption)
        | apply Emits.snd_then (by assumption)
        | apply Emits.any_then (by assumption)
        | apply Emits.branch
        | intro _
        | dsimp only)
    · simp only [listPieces_cons, render_append, render_cons, render_nil, Piece.text,
      List.cons_append, List.nil_append, List.append_nil, List.append_assoc, String.append_assoc,
      String.append_empty, String.empty_append]
    · simp only [listPieces_cons, sourcesOf_append, sourcesOf_cons, sourcesOf_nil, Piece.sources,
      List.cons_append, List.nil_append, List.append_nil, List.append_assoc]
    · simp only [listNames_cons]; omega

theorem writeElement_emits (tf : TemplateFile) :
    ∀ (n : Element) (indentLevel : Nat) (i : Int),
      Emits tf (generator.writeElement indentLevel n) (fun _ => True) i
        (render (Node.pieces indentLevel i (.Element n)))
        (sourcesOf (Node.pieces indentLevel i (.Element n))) (i + Node.names (.Element n))
  | n, indentLevel, i => by
    have h1 := writeNodes_emits tf n.Children indentLevel
    have h2 := @writeVoidElement_emits tf indentLevel n
    have h3 := @writeStandardElement_emits tf indentLevel n
      (generator.writeNodes indentLevel n.Children) _
      (fun j => Node.listPieces indentLevel j n.Children) (Node.listNames n.Children) h1
    rw [pieces_Element, names_Element]
    by_cases hv : n.Void = true
    · apply Emits.reshape
      · unfold generator.writeElement
        dsimp only
        rw [if_pos (show n.IsVoidElement = true from hv)]
        with_reducible repeat (first
          | assumption
          | exact Emits.ret _ rfl
          | exact Emits.ret _ trivial
          | apply Emits.after_pure
          | apply Emits.skip
          | apply Emits.write_then
          | apply Emits.writeIndent_then
          | apply Emits.add_then
          | apply Emits.var_then
          | apply Emits.tf_then
          | apply Emits.val_then (writeErrorHandler_emits _ _)
          | apply Emits.any_then (h2 _)
          | apply Emits.val_then (by assumption)
          | apply Emits.snd_then (by assumption)
          | apply Emits.any_then (by assumption)
          | apply Emits.branch
          | intro _
          | dsimp only)
      · simp only [hv, if_true, render_append, render_cons, render_nil, Piece.text,
        List.cons_append, List.nil_append, List.append_nil, List.append_assoc, String.append_assoc,
        String.append_empty, String.empty_append]
      · simp only [hv, if_true, sourcesOf_append, sourcesOf_cons, sourcesOf_nil, Piece.sources,
        List.cons_append, List.nil_append, List.append_nil, List.append_assoc]
      · simp only [hv, if_true]
    · apply Emits.reshape
      · unfold generator.writeElement
        dsimp only
        rw [if_neg (show ¬ n.IsVoidElement = true from hv)]
        with_reducible repeat (first
          | assumption
          | exact Emits.ret _ rfl
          | exact Emits.ret _ trivial
          | apply Emits.after_pure
          | apply Emits.skip
          | apply Emits.write_then
          | apply Emits.writeIndent_then
          | apply Emits.add_then
          | apply Emits.var_then
          | apply Emits.tf_then
          | apply Emits.val_then (writeErrorHandler_emits _ _)
          | exact h3 _
          | apply Emits.val_then (by assumption)
          | apply Emits.snd_then (by assumption)
          | apply Emits.any_then (by assumption)
          | apply Emits.branch
          | intro _
          | dsimp only)
      · simp [hv]
      · simp [hv]
      · simp [hv]

theorem writeForExpression_emits (tf : TemplateFile) :
    ∀ (n : ForExpression) (indentLevel : Nat) (i : Int),
      Emits tf (generator.writeForExpression indentLevel n) (fun _ => True) i
        (render (Node.pieces indentLevel i (.ForExpression n)))
        (sourcesOf (Node.pieces indentLevel i (.ForExpression n)))
        (i + Node.names (.ForExpression n))
  | n, indentLevel, i => by
    have h1 := writeNodes_emits tf n.Children (indentLevel + 1)
    apply Emits.reshape
    · unfold generator.writeForExpression
      with_reducible repeat (first
        | assumption
        | exact Emits.ret _ rfl
        | exact Emits.ret _ trivial
        | apply Emits.after_pure
        | apply Emits.skip
        | apply Emits.write_then
        | apply Emits.writeIndent_then
        | apply Emits.add_then
        | apply Emits.var_then
        | apply Emits.tf_then
        | apply Emits.val_then (writeErrorHandler_emits _ _)
        | apply Emits.any_then (h1 _)
        | apply Emits.val_then (by assumption)
        | apply Emits.snd_then (by assumption)
        | apply Emits.any_then (by assumption)
        | apply Emits.branch
        | intro _
        | dsimp only)
    · simp only [pieces_ForExpression, render_append, render_cons, render_nil, Piece.text,
      List.cons_append, List.nil_append, List.append_nil, List.append_assoc, String.append_assoc,
      String.append_empty, String.empty_append]
    · simp only [pieces_ForExpression, sourcesOf_append, sourcesOf_cons, sourcesOf_nil,
      Piece.sources, List.cons_append, List.nil_append, List.append_nil, List.append_assoc]
    · simp only [names_ForExpression]

theorem writeIfExpression_emits (tf : TemplateFile) :
    ∀ (n : IfExpression) (indentLevel : Nat) (i : Int),
      Emits tf (generator.writeIfExpression indentLevel n) (fun _ => True) i
        (render (Node.pieces indentLevel i (.IfExpression n)))
        (sourcesOf (Node.pieces indentLevel i (.IfExpression n)))
        (i + Node.names (.IfExpression n))
  | n, indentLevel, i => by
    have h1 := writeNodes_emits tf n.Then (indentLevel + 1)
    have h2 := writeNodes_emits tf n.Else (indentLevel + 1)
    apply Emits.reshape
    · unfold generator.writeIfExpression
      with_reducible repeat (first
        | assumption
        | exact Emits.ret _ rfl
        | exact Emits.ret _ trivial
        | apply Emits.after_pure
        | apply Emits.skip
        | apply Emits.write_then
        | apply Emits.writeIndent_then
        | apply Emits.add_then
        | apply Emits.var_then
        | apply Emits.tf_then
        | apply Emits.val_then (writeErrorHandler_emits _ _)
        | apply Emits.any_then (h1 _)
        | apply Emits.any_then (h2 _)
        | apply Emits.val_then (by assumption)
        | apply Emits.snd_then (by assumption)
        | apply Emits.any_then (by assumption)
        | apply Emits.branch
        | intro _
        | dsimp only)
    · simp only [pieces_IfExpression]
      split_ifs <;> simp only [render_append, render_cons, render_nil, Piece.text, List.cons_append,
        List.nil_append, List.append_nil, List.append_assoc, String.append_assoc,
        String.append_empty, String.empty_append]
    · simp only [pieces_IfExpression]
      split_ifs <;> simp only [sourcesOf_append, sourcesOf_cons, sourcesOf_nil, Piece.sources,
        List.cons_append, List.nil_append, List.append_nil, List.append_assoc]
    · simp only [names_IfExpression]
      split_ifs with h
      · omega
      · have : n.Else = [] := by
          cases hE : n.Else with
          | nil => rfl
          | cons a b => rw [hE] at h; simp at h
        rw [this, listNames_nil]
        omega

theorem writeSwitchExpression_cases_emits (tf : TemplateFile) :
    ∀ (cases : List CaseExpression) (indentLevel : Nat) (i : Int),
      Emits tf (generator.writeSwitchExpression.cases indentLevel cases) (fun x => x.2 = none) i
        (render (Node.casePieces indentLevel i cases))
        (sourcesOf (Node.casePieces indentLevel i cases)) (i + Node.caseNames cases)
  | [], indentLevel, i => by
    apply Emits.reshape
    · unfold generator.writeSwitchExpression.cases
      exact Emits.ret _ rfl
    · rfl
    · rfl
    · simp only [caseNames_nil]; omega
  | c :: rest, indentLevel, i => by
    have h1 := writeNodes_emits tf c.Children (indentLevel + 1)
    have h2 := writeSwitchExpression_cases_emits tf rest indentLevel
    apply Emits.reshape
    · unfold generator.writeSwitchExpression.cases
      with_reducible repeat (first
        | assumption
        | exact Emits.ret _ rfl
        | exact Emits.ret _ trivial
        | apply Emits.after_pure
        | apply Emits.skip
        | apply Emits.write_then
        | apply Emits.writeIndent_then
        | apply Emits.add_then
        | apply Emits.var_then
        | apply Emits.tf_then
        | apply Emits.val_then (writeErrorHandler_emits _ _)
        | apply Emits.any_then (h1 _)
        | apply Emits.snd_then (h2 _)
        | apply Emits.val_then (by assumption)
        | apply Emits.snd_then (by assumption)
        | apply Emits.any_then (by assumption)
        | apply Emits.branch
        | intro _
        | dsimp only)
    · simp only [casePieces_cons, render_append, render_cons, render_nil, Piece.text,
      List.cons_append, List.nil_append, List.append_nil, List.append_assoc, String.append_assoc,
      String.append_empty, String.empty_append]
    · simp only [casePieces_cons, sourcesOf_append, sourcesOf_cons, sourcesOf_nil, Piece.sources,
      List.cons_append, List.nil_append, List.append_nil, List.append_assoc]
    · simp only [caseNames_cons]; omega

theorem writeSwitchExpression_emits (tf : TemplateFile) :
    ∀ (n : SwitchExpression) (indentLevel : Nat) (i : Int),
      Emits tf (generator.writeSwitchExpression indentLevel n) (fun _ => True) i
        (render (Node.pieces indentLevel i (.SwitchExpression n)))
        (sourcesOf (Node.pieces indentLevel i (.SwitchExpression n)))
        (i + Node.names (.SwitchExpression n))
  | n, indentLevel, i => by
    have h1 := writeSwitchExpression_cases_emits tf n.Cases indentLevel
    have h2 := writeNodes_emits tf n.Default (indentLevel + 1)
    apply Emits.reshape
    · unfold generator.writeSwitchExpression
      with_reducible repeat (first
        | assumption
        | exact Emits.ret _ rfl
        | exact Emits.ret _ trivial
        | apply Emits.after_pure
        | apply Emits.skip
        | apply Emits.write_then
        | apply Emits.writeIndent_then
        | apply Emits.add_then
        | apply Emits.var_then
        | apply Emits.tf_then
        | apply Emits.val_then (writeErrorHandler_emits _ _)
        | apply Emits.snd_then (h1 _)
        | apply Emits.any_then (h2 _)
        | apply Emits.val_then (by assumption)
        | apply Emits.snd_then (by assumption)
        | apply Emits.any_then (by assumption)
        | apply Emits.branch
        | intro _
        | dsimp only)
    · simp only [pieces_SwitchExpression]
      split_ifs <;> simp only [render_append, render_cons, render_nil, Piece.text, List.cons_append,
        List.nil_append, List.append_nil, List.append_assoc, String.append_assoc,
        String.append_empty, String.empty_append]
    · simp only [pieces_SwitchExpression]
      split_ifs <;> simp only [sourcesOf_append, sourcesOf_cons, sourcesOf_nil, Piece.sources,
        List.cons_append, List.nil_append, List.append_nil, List.append_assoc]
    · simp only [names_SwitchExpression]
      split_ifs with h
      · omega
      · have : n.Default = [] := by
          cases hE : n.Default with
          | nil => rfl
          | cons a b => rw [hE] at h; simp at h
        rw [this, listNames_nil]
        omega

end

theorem templateNodeInfo_loop_eq (nodes : List TemplateFileNode) :
    ∀ hasTemplates hasCSS : Bool,
      generator.templateNodeInfo.loop hasTemplates hasCSS nodes
        = (hasTemplates || nodes.any TemplateFileNode.isHTMLTemplate,
           hasCSS || nodes.any TemplateFileNode.isCSSTemplate) := by
  induction nodes with
  | nil => intro a b; simp [generator.templateNodeInfo.loop]
  | cons n rest ih =>
    intro a b
    unfold generator.templateNodeInfo.loop
    cases n <;> cases a <;> cases b <;>
      simp [ih, TemplateFileNode.isHTMLTemplate, TemplateFileNode.isCSSTemplate]

theorem templateNodeInfo_emits {tf : TemplateFile} (i : Int) :
    Emits tf generator.templateNodeInfo
      (fun x => x = (tf.Nodes.any TemplateFileNode.isHTMLTemplate,
        tf.Nodes.any TemplateFileNode.isCSSTemplate)) i "" [] i := by
  apply Emits.reshape
  · unfold generator.templateNodeInfo
    apply Emits.tf_then
    apply Emits.ret
    rw [templateNodeInfo_loop_eq]
    simp
  · rfl
  · rfl
  · rfl

theorem writeImports_loop_emits {tf : TemplateFile} (imports : List Import) (i : Int) :
    Emits tf (generator.writeImports.loop imports) (fun x => x = none) i
      (userImportLines imports) (imports.map (fun im => im.Expression)) i := by
  induction imports with
  | nil =>
    unfold generator.writeImports.loop
    exact Emits.ret _ rfl
  | cons im rest ih =>
    apply Emits.reshape
    · unfold generator.writeImports.loop
      with_reducible repeat (first
        | assumption
        | exact Emits.ret _ rfl
        | exact Emits.ret _ trivial
        | apply Emits.after_pure
        | apply Emits.skip
        | apply Emits.write_then
        | apply Emits.writeIndent_then
        | apply Emits.add_then
        | apply Emits.var_then
        | apply Emits.tf_then
        | apply Emits.val_then (writeErrorHandler_emits _ _)
        | apply Emits.val_then (by assumption)
        | apply Emits.snd_then (by assumption)
        | apply Emits.any_then (by assumption)
        | apply Emits.branch
        | intro _
        | dsimp only)
    · simp only [userImportLines, String.append_assoc]
    · simp
    · rfl

theorem writeImports_emits {tf : TemplateFile} (i : Int) :
    Emits tf generator.writeImports (fun x => x = none) i (importBlock tf)
      (tf.Imports.map (fun im => im.Expression)) i := by
  have h1 := @templateNodeInfo_emits tf
  have h2 := @writeImports_loop_emits tf tf.Imports
  apply Emits.reshape
  · unfold generator.writeImports
    with_reducible repeat (first
      | assumption
      | exact Emits.ret _ rfl
      | exact Emits.ret _ trivial
      | apply Emits.after_pure
      | apply Emits.skip
      | apply Emits.write_then
      | apply Emits.writeIndent_then
      | apply Emits.add_then
      | apply Emits.var_then
      | apply Emits.tf_then
      | apply Emits.val_then (writeErrorHandler_emits _ _)
      | apply Emits.val_then (h1 _)
      | apply Emits.val_then (h2 _)
      | apply Emits.val_then (by assumption)
      | apply Emits.snd_then (by assumption)
      | apply Emits.any_then (by assumption)
      | apply Emits.branch
      | intro _
      | dsimp only)
  · simp only [importBlock]
    split_ifs <;> simp only [String.append_assoc, String.append_empty, String.empty_append]
  · split_ifs <;> simp
  · split_ifs <;> simp

theorem writeTemplate_emits {tf : TemplateFile} (t : HTMLTemplate) (i : Int) :
    Emits tf (generator.writeTemplate t) (fun x => x.2 = none) i (render (t.pieces i))
      (sourcesOf (t.pieces i)) (i + Node.listNames t.Children) := by
  have h1 := writeNodes_emits tf t.Children 2
  apply Emits.reshape
  · unfold generator.writeTemplate
    with_reducible repeat (first
      | assumption
      | exact Emits.ret _ rfl
      | exact Emits.ret _ trivial
      | apply Emits.after_pure
      | apply Emits.skip
      | apply Emits.write_then
      | apply Emits.writeIndent_then
      | apply Emits.add_then
      | apply Emits.var_then
      | apply Emits.tf_then
      | apply Emits.val_then (writeErrorHandler_emits _ _)
      | apply Emits.snd_then (h1 _)
      | apply Emits.val_then (by assumption)
      | apply Emits.snd_then (by assumption)
      | apply Emits.any_then (by assumption)
      | apply Emits.branch
      | intro _
      | dsimp only)
  · simp only [HTMLTemplate.pieces, indent_zero, render_append, render_cons, render_nil, Piece.text,
    List.cons_append, List.nil_append, List.append_nil, List.append_assoc, String.append_assoc,
    String.append_empty, String.empty_append]
  · simp only [HTMLTemplate.pieces, sourcesOf_append, sourcesOf_cons, sourcesOf_nil, Piece.sources,
    List.cons_append, List.nil_append, List.append_nil, List.append_assoc]
  · rfl

theorem assignsRenderError_append (a b : String) (h : assignsRenderError a = true) :
    assignsRenderError (a ++ b) = true := by
  unfold assignsRenderError strings.HasPrefix at *
  rw [String.data_append]
  simp only [Bool.or_eq_true] at h ⊢
  rcases h with h | h
  · left
    obtain ⟨t, ht⟩ := List.isPrefixOf_iff_prefix.mp h
    exact List.isPrefixOf_iff_prefix.mpr ⟨t ++ b.data, by rw [← ht, List.append_assoc]⟩
  · right
    obtain ⟨t, ht⟩ := List.isPrefixOf_iff_prefix.mp h
    exact List.isPrefixOf_iff_prefix.mpr ⟨t ++ b.data, by rw [← ht, List.append_assoc]⟩

theorem startsOther_append (a b : String) (h : startsOther a = true) :
    startsOther (a ++ b) = true := by
  unfold startsOther at *
  rw [String.data_append]
  cases hd : a.data with
  | nil => rw [hd] at h; simp at h
  | cons c cs => rw [hd] at h; simpa using h

theorem assignsRenderError_of_startsOther (a : String) (h : startsOther a = true) :
    assignsRenderError a = false := by
  unfold startsOther at h
  unfold assignsRenderError strings.HasPrefix
  cases hd : a.data with
  | nil => rw [hd] at h; simp at h
  | cons c cs =>
    rw [hd] at h
    simp only [Bool.and_eq_true, bne_iff_ne, ne_eq] at h
    have e1 : "_, err = ".data = '_' :: ", err = ".data := rfl
    have e2 : "err = ".data = 'e' :: "rr = ".data := rfl
    rw [e1, e2]
    simp only [List.isPrefixOf, Bool.or_eq_false_iff, Bool.and_eq_false_iff]
    constructor
    · left
      simp only [beq_eq_false_iff_ne, ne_eq]
      exact fun hc => h.2 hc.symm
    · left
      simp only [beq_eq_false_iff_ne, ne_eq]
      exact fun hc => h.1 hc.symm

theorem Checked.append : ∀ (a b : List Piece), Checked a → Checked b → Checked (a ++ b)
  | [], b, _, hb => hb
  | .assign level code sources :: .check level2 :: rest, b, ha, hb => by
    have ha' : level = level2 ∧ Checked rest := ha
    exact ⟨ha'.1, Checked.append rest b ha'.2 hb⟩
  | [.assign _ _ _], _, ha, _ => False.elim ha
  | .assign _ _ _ :: .assign _ _ _ :: _, _, ha, _ => False.elim ha
  | .assign _ _ _ :: .plain _ _ _ :: _, _, ha, _ => False.elim ha
  | .check level :: rest, b, ha, hb => by
    have ha' : Checked rest := ha
    exact Checked.append rest b ha' hb
  | .plain level code sources :: rest, b, ha, hb => by
    have ha' : Checked rest := ha
    exact Checked.append rest b ha' hb

theorem Checked.follows : ∀ (before : List Piece) (level : Nat) (code : String)
    (sources : List Expression) (after : List Piece),
    Checked (before ++ .assign level code sources :: after) →
      ∃ tail, after = .check level :: tail
  | [], level, code, sources, [], h => False.elim h
  | [], level, code, sources, .check level2 :: tail, h => by
    have h' : level = level2 ∧ Checked tail := h
    exact ⟨tail, by rw [h'.1]⟩
  | [], level, code, sources, .assign _ _ _ :: _, h => False.elim h
  | [], level, code, sources, .plain _ _ _ :: _, h => False.elim h
  | .assign l c s :: .check level2 :: rest, level, code, sources, after, h => by
    have h' : l = level2 ∧ Checked (rest ++ .assign level code sources :: after) := h
    exact Checked.follows rest level code sources after h'.2
  | [.assign _ _ _], _, _, _, _, h => False.elim h
  | .assign _ _ _ :: .assign _ _ _ :: _, _, _, _, _, h => False.elim h
  | .assign _ _ _ :: .plain _ _ _ :: _, _, _, _, _, h => False.elim h
  | .check l :: rest, level, code, sources, after, h => by
    have h' : Checked (rest ++ .assign level code sources :: after) := h
    exact Checked.follows rest level code sources after h'
  | .plain l c s :: rest, level, code, sources, after, h => by
    have h' : Checked (rest ++ .assign level code sources :: after) := h
    exact Checked.follows rest level code sources after h'

theorem Sound.nil : Sound [] := ⟨trivial, fun _ h => by simp at h⟩

theorem Sound.concat {a b : List Piece} (ha : Sound a) (hb : Sound b) : Sound (a ++ b) :=
  ⟨Checked.append a b ha.1 hb.1, fun p hp => by
    rcases List.mem_append.mp hp with h | h
    · exact ha.2 p h
    · exact hb.2 p h⟩

theorem Sound.assign {level : Nat} {code : String} {sources : List Expression}
    {rest : List Piece} (hc : assignsRenderError code = true) (hr : Sound rest) :
    Sound (.assign level code sources :: .check level :: rest) :=
  ⟨⟨rfl, hr.1⟩, fun p hp => by
    rcases List.mem_cons.mp hp with h | h
    · rw [h]; exact hc
    · rcases List.mem_cons.mp h with h | h
      · rw [h]; trivial
      · exact hr.2 p h⟩

theorem Sound.plain {level : Nat} {code : String} {sources : List Expression}
    {rest : List Piece} (hc : startsOther code = true) (hr : Sound rest) :
    Sound (.plain level code sources :: rest) :=
  ⟨hr.1, fun p hp => by
    rcases List.mem_cons.mp hp with h | h
    · rw [h]; exact assignsRenderError_of_startsOther code hc
    · exact hr.2 p h⟩

theorem Sound.cond {c : Prop} [Decidable c] {a b : List Piece} (ha : Sound a) (hb : Sound b) :
    Sound (if c then a else b) := by
  split_ifs
  · exact ha
  · exact hb

theorem liftPieces_sound (level : Nat) (attributes : List Attribute) :
    ∀ i : Int, Sound (liftPieces level i attributes) := by
  induction attributes with
  | nil => intro i; exact Sound.nil
  | cons a rest ih =>
    intro i
    have h := ih (i + (if a.isClass then 1 else 0))
    unfold liftPieces
    cases a <;> unfold Attribute.liftPieces
    all_goals repeat (first
      | exact Sound.nil
      | assumption
      | rfl
      | apply Sound.concat
      | apply Sound.assign
      | apply Sound.plain
      | apply Sound.cond
      | apply assignsRenderError_append
      | apply startsOther_append)

theorem scriptPieces_sound (level : Nat) (attributes : List Attribute) :
    Sound (scriptPieces level attributes) := by
  unfold scriptPieces
  all_goals repeat (first
    | exact Sound.nil
    | assumption
    | rfl
    | apply Sound.concat
    | apply Sound.assign
    | apply Sound.plain
    | apply Sound.cond
    | apply assignsRenderError_append
    | apply startsOther_append)

theorem attribute_pieces_sound (level : Nat) (elementName : String) (i : Int)
    (a : Attribute) : Sound (a.pieces level elementName i) := by
  cases a <;> unfold Attribute.pieces
  all_goals repeat (first
    | exact Sound.nil
    | assumption
    | rfl
    | apply Sound.concat
    | apply Sound.assign
    | apply Sound.plain
    | apply Sound.cond
    | apply assignsRenderError_append
    | apply startsOther_append)

theorem attributePieces_sound (level : Nat) (elementName : String)
    (attributes : List Attribute) :
    ∀ i : Int, Sound (attributePieces level elementName i attributes) := by
  induction attributes with
  | nil => intro i; exact Sound.nil
  | cons a rest ih =>
    intro i
    have h := ih (i + a.names elementName)
    have h2 := attribute_pieces_sound level elementName i a
    unfold attributePieces
    all_goals repeat (first
      | exact Sound.nil
      | assumption
      | rfl
      | apply Sound.concat
      | apply Sound.assign
      | apply Sound.plain
      | apply Sound.cond
      | apply assignsRenderError_append
      | apply startsOther_append)

theorem voidElementPieces_sound (level : Nat) (i : Int) (n : Element) :
    Sound (voidElementPieces level i n) := by
  have h := attributePieces_sound level n.Name n.Attributes i
  unfold voidElementPieces
  all_goals repeat (first
    | exact Sound.nil
    | assumption
    | rfl
    | apply Sound.concat
    | apply Sound.assign
    | apply Sound.plain
    | apply Sound.cond
    | apply assignsRenderError_append
    | apply startsOther_append)

theorem standardElementPieces_sound (level : Nat) (i : Int) (n : Element)
    (children : Int → List Piece) (hc : ∀ j, Sound (children j)) :
    Sound (standardElementPieces level i n children) := by
  have h1 := liftPieces_sound level n.Attributes i
  have h2 := scriptPieces_sound level n.Attributes
  have h3 := attributePieces_sound level n.Name (liftAttributes i n.Attributes)
    (i + classCount n.Attributes)
  have h4 := hc i
  have h5 := hc (i + classCount n.Attributes + attributeNames n.Name n.Attributes)
  unfold standardElementPieces
  all_goals repeat (first
    | exact Sound.nil
    | assumption
    | rfl
    | apply Sound.concat
    | apply Sound.assign
    | apply Sound.plain
    | apply Sound.cond
    | apply assignsRenderError_append
    | apply startsOther_append)

mutual

theorem node_pieces_sound :
    ∀ (node : Node) (level : Nat) (i : Int), Sound (Node.pieces level i node)
  | .DocType n, level, i => by
    rw [pieces_DocType]
    all_goals repeat (first
      | exact Sound.nil
      | assumption
      | rfl
      | apply Sound.concat
      | apply Sound.assign
      | apply Sound.plain
      | apply Sound.cond
      | apply assignsRenderError_append
      | apply startsOther_append)
  | .Element n, level, i => by
    have h1 := voidElementPieces_sound level i n
    have h2 := standardElementPieces_sound level i n
      (fun j => Node.listPieces level j n.Children)
      (fun j => list_pieces_sound n.Children level j)
    rw [pieces_Element]
    all_goals repeat (first
      | exact Sound.nil
      | assumption
      | rfl
      | apply Sound.concat
      | apply Sound.assign
      | apply Sound.plain
      | apply Sound.cond
      | apply assignsRenderError_append
      | apply startsOther_append)
  | .ForExpression n, level, i => by
    have h1 := list_pieces_sound n.Children (level + 1) i
    rw [pieces_ForExpression]
    all_goals repeat (first
      | exact Sound.nil
      | assumption
      | rfl
      | apply Sound.concat
      | apply Sound.assign
      | apply Sound.plain
      | apply Sound.cond
      | apply assignsRenderError_append
      | apply startsOther_append)
  | .CallTemplateExpression n, level, i => by
    rw [pieces_CallTemplateExpression]
    all_goals repeat (first
      | exact Sound.nil
      | assumption
      | rfl
      | apply Sound.concat
      | apply Sound.assign
      | apply Sound.plain
      | apply Sound.cond
      | apply assignsRenderError_append
      | apply startsOther_append)
  | .IfExpression n, level, i => by
    have h1 := list_pieces_sound n.Then (level + 1) i
    have h2 := list_pieces_sound n.Else (level + 1) (i + Node.listNames n.Then)
    rw [pieces_IfExpression]
    all_goals repeat (first
      | exact Sound.nil
      | assumption
      | rfl
      | apply Sound.concat
      | apply Sound.assign
      | apply Sound.plain
      | apply Sound.cond
      | apply assignsRenderError_append
      | apply startsOther_append)
  | .SwitchExpression n, level, i => by
    have h1 := case_pieces_sound n.Cases level i
    have h2 := list_pieces_sound n.Default (level + 1) (i + Node.caseNames n.Cases)
    rw [pieces_SwitchExpression]
    all_goals repeat (first
      | exact Sound.nil
      | assumption
      | rfl
      | apply Sound.concat
      | apply Sound.assign
      | apply Sound.plain
      | apply Sound.cond
      | apply assignsRenderError_append
      | apply startsOther_append)
  | .StringExpression n, level, i => by
    rw [pieces_StringExpression]
    all_goals repeat (first
      | exact Sound.nil
      | assumption
      | rfl
      | apply Sound.concat
      | apply Sound.assign
      | apply Sound.plain
      | apply Sound.cond
      | apply assignsRenderError_append
      | apply startsOther_append)
  | .Whitespace n, level, i => Sound.nil
  | .Text n, level, i => by
    rw [pieces_Text]
    all_goals repeat (first
      | exact Sound.nil
      | assumption
      | rfl
      | apply Sound.concat
      | apply Sound.assign
      | apply Sound.plain
      | apply Sound.cond
      | apply assignsRenderError_append
      | apply startsOther_append)
  | .Other typeName, level, i => by
    rw [pieces_Other]
    all_goals repeat (first
      | exact Sound.nil
      | assumption
      | rfl
      | apply Sound.concat
      | apply Sound.assign
      | apply Sound.plain
      | apply Sound.cond
      | apply assignsRenderError_append
      | apply startsOther_append)

theorem list_pieces_sound :
    ∀ (nodes : List Node) (level : Nat) (i : Int), Sound (Node.listPieces level i nodes)
  | [], level, i => Sound.nil
  | node :: rest, level, i => by
    have h1 := node_pieces_sound node level i
    have h2 := list_pieces_sound rest level (i + Node.names node)
    rw [listPieces_cons]
    all_goals repeat (first
      | exact Sound.nil
      | assumption
      | rfl
      | apply Sound.concat
      | apply Sound.assign
      | apply Sound.plain
      | apply Sound.cond
      | apply assignsRenderError_append
      | apply startsOther_append)

theorem case_pieces_sound :
    ∀ (cases : List CaseExpression) (level : Nat) (i : Int),
      Sound (Node.casePieces level i cases)
  | [], level, i => Sound.nil
  | c :: rest, level, i => by
    have h1 := list_pieces_sound c.Children (level + 1) i
    have h2 := case_pieces_sound rest level (i + Node.listNames c.Children)
    rw [casePieces_cons]
    all_goals repeat (first
      | exact Sound.nil
      | assumption
      | rfl
      | apply Sound.concat
      | apply Sound.assign
      | apply Sound.plain
      | apply Sound.cond
      | apply assignsRenderError_append
      | apply startsOther_append)

end

theorem template_pieces_sound (t : HTMLTemplate) (i : Int) : Sound (t.pieces i) := by
  have h1 := list_pieces_sound t.Children 2 i
  unfold HTMLTemplate.pieces
  all_goals repeat (first
    | exact Sound.nil
    | assumption
    | rfl
    | apply Sound.concat
    | apply Sound.assign
    | apply Sound.plain
    | apply Sound.cond
    | apply assignsRenderError_append
    | apply startsOther_append)

theorem classCount_cons (a : Attribute) (rest : List Attribute) :
    classCount (a :: rest) = (if a.isClass then 1 else 0) + classCount rest := rfl

theorem liftPieces_cons (level : Nat) (i : Int) (a : Attribute) (rest : List Attribute) :
    liftPieces level i (a :: rest)
      = a.liftPieces level i ++ liftPieces level (i + (if a.isClass then 1 else 0)) rest := rfl

theorem liftAttributes_cons (i : Int) (a : Attribute) (rest : List Attribute) :
    liftAttributes i (a :: rest)
      = a.lift i :: liftAttributes (i + (if a.isClass then 1 else 0)) rest := rfl

theorem attributePieces_cons (level : Nat) (elementName : String) (i : Int) (a : Attribute)
    (rest : List Attribute) :
    attributePieces level elementName i (a :: rest)
      = if a.known then
          a.pieces level elementName i
            ++ attributePieces level elementName (i + a.names elementName) rest
        else [] := rfl

theorem attributeNames_cons (elementName : String) (a : Attribute) (rest : List Attribute) :
    attributeNames elementName (a :: rest)
      = if a.known then a.names elementName + attributeNames elementName rest else 0 := rfl

theorem classCount_append (a : List Attribute) :
    ∀ b : List Attribute, classCount (a ++ b) = classCount a + classCount b := by
  induction a with
  | nil => intro b; simp [classCount]
  | cons x rest ih =>
    intro b
    rw [List.cons_append, classCount_cons, classCount_cons, ih]
    omega

theorem liftPieces_append (level : Nat) (a : List Attribute) :
    ∀ (i : Int) (b : List Attribute),
      liftPieces level i (a ++ b)
        = liftPieces level i a ++ liftPieces level (i + classCount a) b := by
  induction a with
  | nil => intro i b; simp [liftPieces, classCount]
  | cons x rest ih =>
    intro i b
    rw [List.cons_append, liftPieces_cons, liftPieces_cons, classCount_cons, ih,
      List.append_assoc, ← Int.add_assoc]

theorem liftAttributes_append (a : List Attribute) :
    ∀ (i : Int) (b : List Attribute),
      liftAttributes i (a ++ b) = liftAttributes i a ++ liftAttributes (i + classCount a) b := by
  induction a with
  | nil => intro i b; simp [liftAttributes, classCount]
  | cons x rest ih =>
    intro i b
    rw [List.cons_append, liftAttributes_cons, liftAttributes_cons, classCount_cons, ih,
      List.cons_append, ← Int.add_assoc]

theorem liftAttributes_known (a : List Attribute) (h : ∀ x ∈ a, x.known = true) :
    ∀ (i : Int), ∀ x ∈ liftAttributes i a, x.known = true := by
  induction a with
  | nil => intro i x hx; simp [liftAttributes] at hx
  | cons y rest ih =>
    intro i x hx
    rw [liftAttributes_cons] at hx
    rcases List.mem_cons.mp hx with hx | hx
    · rw [hx, Attribute.lift_known]
      exact h y (List.mem_cons_self _ _)
    · exact ih (fun z hz => h z (List.mem_cons_of_mem _ hz)) _ x hx

theorem attributePieces_append (level : Nat) (elementName : String) (a : List Attribute)
    (h : ∀ x ∈ a, x.known = true) :
    ∀ (i : Int) (b : List Attribute),
      attributePieces level elementName i (a ++ b)
        = attributePieces level elementName i a
          ++ attributePieces level elementName (i + attributeNames elementName a) b := by
  induction a with
  | nil => intro i b; simp [attributePieces, attributeNames]
  | cons x rest ih =>
    intro i b
    have hx : x.known = true := h x (List.mem_cons_self _ _)
    have ih' := ih (fun z hz => h z (List.mem_cons_of_mem _ hz))
    rw [List.cons_append, attributePieces_cons, attributePieces_cons, attributeNames_cons,
      if_pos hx, if_pos hx, if_pos hx, ih', List.append_assoc, ← Int.add_assoc]

/-- C13, as amended: for an `a` element and an attribute `href` with the
expression `e`, on a sink that accepts all writes, the generator writes the
statements that write ` href=` and the opening quote, the declaration
`var var_N templ.SafeURL = e` of a fresh variable, the statement that writes
`templ.EscapeString(string(var_N))`, and the statement that writes the closing
quote, each write followed by the error check. The expression is assigned as
it stands: the emitted statements hold no call of the URL sanitizer, and it is
the type `templ.SafeURL` of the variable that asks for a sanitized value. -/
theorem writeElementAttributes_href (indentLevel : Nat) (n : Element) (e : Expression)
    (g : generator) (hn : n.Name = "a") (h : g.w.w.accepts) :
    (generator.writeElementAttributes.attribute indentLevel n (.ExpressionAttribute "href" e)
        g).2.w.w.out
      = g.w.w.out ++ render
        [.assign indentLevel "_, err = w.WriteString(\" href=\")\n" [],
         .check indentLevel,
         .assign indentLevel "_, err = w.WriteString(\"\\\"\")\n" [],
         .check indentLevel,
         .plain indentLevel
           ("var " ++ varName (g.variableID + 1) ++ " templ.SafeURL = " ++ e.Value ++ "\n") [e],
         .assign indentLevel
           ("_, err = w.WriteString(templ.EscapeString(string(" ++ varName (g.variableID + 1)
             ++ ")))\n") [],
         .check indentLevel,
         .assign indentLevel "_, err = w.WriteString(\"\\\"\")\n" [],
         .check indentLevel] ∧
    (generator.writeElementAttributes.attribute indentLevel n (.ExpressionAttribute "href" e)
        g).2.variableID = g.variableID + 1 := by
  have key := (@writeElementAttributes_attribute_emits g.tf indentLevel n
    (.ExpressionAttribute "href" e) g.variableID rfl).run g rfl h rfl
  have e1 : "_, err = w.WriteString(\" " ++ html.EscapeString "href" ++ "=\")\n"
      = "_, err = w.WriteString(\" href=\")\n" := by decide
  refine ⟨?_, ?_⟩
  · rw [key.2.2.2.2.1]
    simp only [Attribute.pieces, hn, and_self, if_true, e1, List.cons_append, List.nil_append]
  · rw [key.2.2.2.1]
    simp [Attribute.names, hn]

/-- C13 as amended, at the element `<a href={ link }></a>` on the empty sink
that accepts all writes. -/
theorem writeElementAttributes_href_witness :
    anchorElement.Name = "a" ∧ exampleGenerator.w.w.accepts ∧
    (generator.writeElementAttributes.attribute 0 anchorElement
        (.ExpressionAttribute "href" ⟨"link", default⟩) exampleGenerator).2.variableID
      = exampleGenerator.variableID + 1 :=
  ⟨rfl, fun _ => rfl,
    (writeElementAttributes_href 0 anchorElement ⟨"link", default⟩ exampleGenerator rfl
      (fun _ => rfl)).2⟩

/-- C15 as amended: for an element that is not void, with an attribute named
`class` whose value is the expression `e` after attributes of known kinds, on a
sink that accepts all writes: the generator writes, after the lifting of the
attributes before it, the declaration `var var_N templ.CSSClasses = e` and the
call `err = templ.RenderCSS(ctx, w, var_N)` with its error check; then the
lifting of the later attributes, the call of `templ.RenderScripts` and the
opening tag; and, after the attributes before it, the attribute ` class=` with
the value `templ.EscapeString(var_N.String())` between two quotes, for the same
`N`, which is one more than the counter after the class attributes before it.
The expression `e` is written in the declaration only. -/
theorem writeElement_class_attribute (indentLevel : Nat) (n : Element) (e : Expression)
    (before after : List Attribute) (g : generator) (hv : n.Void = false)
    (hn : n.Attributes = before ++ .ExpressionAttribute "class" e :: after)
    (hk : ∀ a ∈ before, a.known = true) (h : g.w.w.accepts) :
    ∃ tail : List Piece,
      (generator.writeElement indentLevel n g).2.w.w.out
        = g.w.w.out ++ render
          (liftPieces indentLevel g.variableID before
            ++ [.plain indentLevel
                  ("var " ++ varName (g.variableID + classCount before + 1)
                    ++ " templ.CSSClasses = " ++ e.Value ++ "\n") [e],
                .assign indentLevel
                  ("err = templ.RenderCSS(ctx, w, "
                    ++ varName (g.variableID + classCount before + 1) ++ ")\n") [],
                .check indentLevel]
            ++ liftPieces indentLevel (g.variableID + classCount before + 1) after
            ++ scriptPieces indentLevel n.Attributes
            ++ [.assign indentLevel
                  ("_, err = w.WriteString(\"<" ++ html.EscapeString n.Name ++ "\")\n") [],
                .check indentLevel]
            ++ attributePieces indentLevel n.Name (g.variableID + classCount n.Attributes)
                (liftAttributes g.variableID before)
            ++ [.assign indentLevel "_, err = w.WriteString(\" class=\")\n" [],
                .check indentLevel,
                .assign indentLevel "_, err = w.WriteString(\"\\\"\")\n" [],
                .check indentLevel,
                .assign indentLevel
                  ("_, err = w.WriteString(templ.EscapeString("
                    ++ (varName (g.variableID + classCount before + 1) ++ ".String()") ++ "))\n")
                  [⟨varName (g.variableID + classCount before + 1) ++ ".String()", default⟩],
                .check indentLevel,
                .assign indentLevel "_, err = w.WriteString(\"\\\"\")\n" [],
                .check indentLevel]
            ++ tail) := by
  have key := (writeElement_emits g.tf n indentLevel g.variableID).run g rfl h rfl
  have e1 : html.EscapeString "class" = "class" := by decide
  have e2 : "_, err = w.WriteString(\" " ++ "class" ++ "=\")\n"
      = "_, err = w.WriteString(\" class=\")\n" := by decide
  have e3 : ¬ ("class" = "href") := by decide
  have e4 : strings.HasPrefix "class" "on" = false := by decide
  have hne : ¬ (n.Attributes.length = 0) := by rw [hn]; simp
  have hkl := liftAttributes_known before hk g.variableID
  refine ⟨attributePieces indentLevel n.Name
      (g.variableID + classCount n.Attributes
        + attributeNames n.Name (liftAttributes g.variableID before)
        + 0)
      (liftAttributes (g.variableID + classCount before + 1) after)
    ++ (if attributeError n.Attributes ≠ none then []
        else
          [.assign indentLevel "_, err = w.WriteString(\">\")\n" [], .check indentLevel]
            ++ Node.listPieces indentLevel
                (g.variableID + classCount n.Attributes + attributeNames n.Name n.Attributes)
                n.Children
            ++ [.assign indentLevel
                  ("_, err = w.WriteString(\"</" ++ html.EscapeString n.Name ++ ">\")\n") [],
                .check indentLevel]), ?_⟩
  rw [key.2.2.2.2.1, pieces_Element]
  simp only [hv, Bool.false_eq_true, if_false]
  unfold standardElementPieces
  rw [if_neg hne]
  congr 2
  conv_lhs => rw [hn, liftPieces_append, liftAttributes_append,
    attributePieces_append _ _ _ hkl]
  rw [← hn]
  simp only [liftPieces, liftAttributes, attributePieces, Attribute.liftPieces, Attribute.lift,
    Attribute.isClass, Attribute.pieces, Attribute.known, Attribute.names, e1, e2, e3, e4,
    if_true, and_false, if_false, List.append_assoc, List.cons_append, List.nil_append,
    Bool.false_eq_true]
  simp

/-- C15 as amended, at the element `<div class={ x }></div>` on the empty sink
that accepts all writes. -/
theorem writeElement_class_attribute_witness :
    classElement.Void = false ∧
    classElement.Attributes = [] ++ .ExpressionAttribute "class"
      ⟨"x", ⟨⟨30, 3, 12⟩, ⟨31, 3, 13⟩⟩⟩ :: [] ∧
    (∀ a ∈ ([] : List Attribute), a.known = true) ∧ exampleGenerator.w.w.accepts ∧
    ∃ tail : List Piece,
      (generator.writeElement 0 classElement exampleGenerator).2.w.w.out
        = exampleGenerator.w.w.out ++ render
          (liftPieces 0 exampleGenerator.variableID []
            ++ [.plain 0
                  ("var " ++ varName (exampleGenerator.variableID + classCount [] + 1)
                    ++ " templ.CSSClasses = " ++ "x" ++ "\n")
                  [⟨"x", ⟨⟨30, 3, 12⟩, ⟨31, 3, 13⟩⟩⟩],
                .assign 0
                  ("err = templ.RenderCSS(ctx, w, "
                    ++ varName (exampleGenerator.variableID + classCount [] + 1) ++ ")\n") [],
                .check 0]
            ++ liftPieces 0 (exampleGenerator.variableID + classCount [] + 1) []
            ++ scriptPieces 0 classElement.Attributes
            ++ [.assign 0
                  ("_, err = w.WriteString(\"<" ++ html.EscapeString classElement.Name ++ "\")\n")
                  [],
                .check 0]
            ++ attributePieces 0 classElement.Name
                (exampleGenerator.variableID + classCount classElement.Attributes)
                (liftAttributes exampleGenerator.variableID [])
            ++ [.assign 0 "_, err = w.WriteString(\" class=\")\n" [],
                .check 0,
                .assign 0 "_, err = w.WriteString(\"\\\"\")\n" [],
                .check 0,
                .assign 0
                  ("_, err = w.WriteString(templ.EscapeString("
                    ++ (varName (exampleGenerator.variableID + classCount [] + 1) ++ ".String()")
                    ++ "))\n")
                  [⟨varName (exampleGenerator.variableID + classCount [] + 1) ++ ".String()",
                    default⟩],
                .check 0,
                .assign 0 "_, err = w.WriteString(\"\\\"\")\n" [],
                .check 0]
            ++ tail) :=
  ⟨rfl, rfl, fun _ h => absurd h (List.not_mem_nil _), fun _ => rfl,
    writeElement_class_attribute 0 classElement ⟨"x", ⟨⟨30, 3, 12⟩, ⟨31, 3, 13⟩⟩⟩ [] []
      exampleGenerator rfl rfl (fun _ h => absurd h (List.not_mem_nil _)) (fun _ => rfl)⟩

/-- C16: on a sink that accepts all writes, the text that `writeTemplate`
writes for an HTML template is the text of its pieces; the pieces tagged
`assign` are the statements that begin with `_, err = ` or `err = `, the
pieces tagged `plain` do not begin so; and every `assign` piece is followed at
once by the error check at its indent level, whose text is the three lines
`if err != nil {`, `return err`, `}`. -/
theorem writeTemplate_error_checks (t : HTMLTemplate) (g : generator) (h : g.w.w.accepts) :
    (generator.writeTemplate t g).2.w.w.out = g.w.w.out ++ render (t.pieces g.variableID) ∧
    (∀ p ∈ t.pieces g.variableID, p.tagged) ∧
    (∀ (before : List Piece) (level : Nat) (code : String) (sources : List Expression)
      (after : List Piece),
      t.pieces g.variableID = before ++ .assign level code sources :: after →
        ∃ tail, after = .check level :: tail) ∧
    ∀ level : Nat, (Piece.check level).text
      = indent level ++ "if err != nil \x7b\n" ++ indent (level + 1) ++ "return err\n"
        ++ indent level ++ "\x7d\n" := by
  have key := (@writeTemplate_emits g.tf t g.variableID).run g rfl h rfl
  have hs := template_pieces_sound t g.variableID
  refine ⟨key.2.2.2.2.1, hs.2, ?_, fun _ => rfl⟩
  intro before level code sources after he
  rw [he] at hs
  exact Checked.follows before level code sources after hs.1

/-- C16 at the template whose body is `<div class={ x }></div>` on the
empty sink that accepts all writes. -/
theorem writeTemplate_error_checks_witness :
    exampleGenerator.w.w.accepts ∧
    (generator.writeTemplate classTemplate exampleGenerator).2.w.w.out
      = exampleGenerator.w.w.out ++ render (classTemplate.pieces exampleGenerator.variableID) ∧
    (∀ p ∈ classTemplate.pieces exampleGenerator.variableID, p.tagged) :=
  have h := writeTemplate_error_checks classTemplate exampleGenerator (fun _ => rfl)
  ⟨fun _ => rfl, h.1, h.2.1⟩

/-- C17: on a sink that accepts all writes, `writeImports` returns no error and
writes the import block of the specification: the line of the runtime module;
the lines of `context`, `io` and `bufio` if and only if a top-level declaration
is an HTML template; the line of `strings` if and only if one is a CSS
template; one line `import <text>` for each user import, in source order; and
an empty line. The expressions of the user imports are recorded in the source
map in that order. The loop of `templateNodeInfo` reports exactly whether there
is an HTML template and whether there is a CSS template, its early return
notwithstanding. -/
theorem writeImports_block (g : generator) (h : g.w.w.accepts) :
    (generator.writeImports g).1 = none ∧
    (generator.writeImports g).2.w.w.out = g.w.w.out ++ importBlock g.tf ∧
    (generator.writeImports g).2.sourceMap.sources
      = g.sourceMap.sources ++ g.tf.Imports.map (fun im => im.Expression) ∧
    generator.templateNodeInfo.loop false false g.tf.Nodes
      = (g.tf.Nodes.any TemplateFileNode.isHTMLTemplate,
         g.tf.Nodes.any TemplateFileNode.isCSSTemplate) := by
  have key := (@writeImports_emits g.tf g.variableID).run g rfl h rfl
  refine ⟨key.1, key.2.2.2.2.1, key.2.2.2.2.2, ?_⟩
  rw [templateNodeInfo_loop_eq]
  simp

/-- C17 at the file with one HTML template and no user import, on the empty
sink that accepts all writes. -/
theorem writeImports_block_witness :
    exampleGenerator.w.w.accepts ∧
    (generator.writeImports exampleGenerator).2.w.w.out
      = exampleGenerator.w.w.out ++ importBlock exampleGenerator.tf :=
  ⟨fun _ => rfl, (writeImports_block exampleGenerator (fun _ => rfl)).2.1⟩

/-- C19: for a switch with a default that is not empty, on a sink that accepts
all writes, `writeSwitchExpression` writes the line `switch <expression> {`,
the clauses of the cases, `default:`, the text of the default children one
level deeper, and the line `}`. The clauses of the cases are, for each case
in source order, the line `case <expression>:` and the text of the children of
the case one level deeper; nothing stands between two clauses, so no
`fallthrough` is written. The text of a list of children is what `writeNodes`
writes for it. That one branch runs for an input is the meaning of `switch` in
the target language and is not part of the generator. -/
theorem writeSwitchExpression_default (indentLevel : Nat) (n : SwitchExpression)
    (g : generator) (hd : n.Default ≠ []) (h : g.w.w.accepts) :
    (generator.writeSwitchExpression indentLevel n g).2.w.w.out
      = g.w.w.out ++ (indent indentLevel ++ ("switch " ++ n.Expression.Value ++ " \x7b\n")
        ++ render (Node.casePieces indentLevel g.variableID n.Cases)
        ++ (indent indentLevel ++ "default:")
        ++ render (Node.listPieces (indentLevel + 1)
            (g.variableID + Node.caseNames n.Cases) n.Default)
        ++ (indent indentLevel ++ "\x7d\n")) ∧
    (∀ (level : Nat) (i : Int), render (Node.casePieces level i []) = "") ∧
    (∀ (level : Nat) (i : Int) (c : CaseExpression) (rest : List CaseExpression),
      render (Node.casePieces level i (c :: rest))
        = indent level ++ ("case " ++ c.Expression.Value ++ ":\n")
          ++ render (Node.listPieces (level + 1) i c.Children)
          ++ render (Node.casePieces level (i + Node.listNames c.Children) rest)) ∧
    (∀ (level : Nat) (nodes : List Node) (g1 : generator), g1.w.w.accepts →
      (generator.writeNodes level nodes g1).2.w.w.out
        = g1.w.w.out ++ render (Node.listPieces level g1.variableID nodes)) := by
  have key := (writeSwitchExpression_emits g.tf n indentLevel g.variableID).run g rfl h rfl
  have hl : n.Default.length > 0 := List.length_pos.mpr hd
  refine ⟨?_, fun _ _ => rfl, ?_, ?_⟩
  · rw [key.2.2.2.2.1, pieces_SwitchExpression, if_pos hl]
    simp only [render_append, render_cons, render_nil, Piece.text, List.cons_append,
      List.nil_append, List.append_nil, List.append_assoc, String.append_assoc, String.append_empty,
      String.empty_append]
  · intro level i c rest
    rw [casePieces_cons]
    simp only [render_append, render_cons, render_nil, Piece.text, List.cons_append,
      List.nil_append, List.append_nil, List.append_assoc, String.append_assoc, String.append_empty,
      String.empty_append]
  · intro level nodes g1 h1
    exact ((writeNodes_emits g1.tf nodes level g1.variableID).run g1 rfl h1 rfl).2.2.2.2.1

/-- C19 at the switch on `x` with the case `1` and a default, on the empty sink
that accepts all writes. -/
theorem writeSwitchExpression_default_witness :
    exampleSwitch.Default ≠ [] ∧ exampleGenerator.w.w.accepts ∧
    (generator.writeSwitchExpression 0 exampleSwitch exampleGenerator).2.w.w.out
      = exampleGenerator.w.w.out ++ (indent 0 ++ ("switch " ++ exampleSwitch.Expression.Value
          ++ " \x7b\n")
        ++ render (Node.casePieces 0 exampleGenerator.variableID exampleSwitch.Cases)
        ++ (indent 0 ++ "default:")
        ++ render (Node.listPieces (0 + 1)
            (exampleGenerator.variableID + Node.caseNames exampleSwitch.Cases)
            exampleSwitch.Default)
        ++ (indent 0 ++ "\x7d\n")) :=
  ⟨List.cons_ne_nil _ _, fun _ => rfl,
    (writeSwitchExpression_default 0 exampleSwitch exampleGenerator (List.cons_ne_nil _ _)
      (fun _ => rfl)).1⟩

/-! ## Successive writes through one RangeWriter -/

theorem writeRunes_append_accepts (a b : List Char) (rw : RangeWriter) (h : rw.w.accepts) :
    rw.writeRunes (a ++ b) = (rw.writeRunes a).1.writeRunes b := by
  induction a generalizing rw with
  | nil => rfl
  | cons c cs ih =>
    rw [List.cons_append, writeRunes_cons_accepts c (cs ++ b) rw h,
      writeRunes_cons_accepts c cs rw h]
    exact ih _ h

theorem Write_accepts_after (rw : RangeWriter) (s : String) (h : rw.w.accepts) :
    (rw.Write s).1.w.accepts := by
  rw [Write_accepts rw s h]
  intro k
  show (rw.writeRunes s.data).1.w.fail k = none
  rw [(writeRunes_accepts s.data rw h).2.2.1]
  exact h k

/-- C29: on a sink that accepts all writes, `Write(a)` followed by `Write(b)`
leaves the very `RangeWriter` that one `Write(a ++ b)` leaves: the same sink
with the same text, and the same cursor. No call returns an error; the first
range starts where the single range starts, the second range ends where the
single range ends, and the first range ends where the second starts. -/
theorem RangeWriter.Write_append (rw : RangeWriter) (a b : String) (h : rw.w.accepts) :
    ((rw.Write a).1.Write b).1 = (rw.Write (a ++ b)).1 ∧
    ((rw.Write a).1.Write b).1.w.out = (rw.Write (a ++ b)).1.w.out ∧
    ((rw.Write a).1.Write b).1.Current = (rw.Write (a ++ b)).1.Current ∧
    (rw.Write a).2.2 = none ∧ ((rw.Write a).1.Write b).2.2 = none ∧
    (rw.Write (a ++ b)).2.2 = none ∧
    (rw.Write a).2.1.From = (rw.Write (a ++ b)).2.1.From ∧
    ((rw.Write a).1.Write b).2.1.To = (rw.Write (a ++ b)).2.1.To ∧
    (rw.Write a).2.1.To = ((rw.Write a).1.Write b).2.1.From := by
  have h1 := Write_accepts_after rw a h
  have e : ((rw.Write a).1.Write b).1 = (rw.Write (a ++ b)).1 := by
    rw [Write_accepts _ b h1, Write_accepts rw a h, Write_accepts rw (a ++ b) h]
    show ((rw.writeRunes a.data).1.writeRunes b.data).1 = (rw.writeRunes (a ++ b).data).1
    rw [String.data_append, writeRunes_append_accepts a.data b.data rw h]
  refine ⟨e, by rw [e], by rw [e], ?_, ?_, ?_, ?_, ?_, ?_⟩
  · rw [Write_accepts rw a h]
  · rw [Write_accepts _ b h1]
  · rw [Write_accepts rw (a ++ b) h]
  · rw [Write_accepts rw a h, Write_accepts rw (a ++ b) h]
  · have e2 := congrArg RangeWriter.Current e
    rw [Write_accepts _ b h1, Write_accepts rw (a ++ b) h] at e2 ⊢
    exact e2
  · rw [Write_accepts _ b h1, Write_accepts rw a h]

/-- C29 at the texts `a`, newline and `bc`, written at byte 10, line 3,
column 7. -/
theorem RangeWriter.Write_append_witness :
    Sink.accepts ⟨"x", 0, fun _ => none⟩ ∧
    ((RangeWriter.Write ⟨⟨10, 3, 7⟩, ⟨"x", 0, fun _ => none⟩⟩ "a\n").1.Write "bc").1.Current
      = (RangeWriter.Write ⟨⟨10, 3, 7⟩, ⟨"x", 0, fun _ => none⟩⟩ ("a\n" ++ "bc")).1.Current :=
  ⟨fun _ => rfl,
    (RangeWriter.Write_append ⟨⟨10, 3, 7⟩, ⟨"x", 0, fun _ => none⟩⟩ "a\n" "bc"
      (fun _ => rfl)).2.2.1⟩

theorem writeRunes_forward (cs : List Char) :
    ∀ rw : RangeWriter, rw.Current.Index ≤ (rw.writeRunes cs).1.Current.Index ∧
      rw.Current.Line ≤ (rw.writeRunes cs).1.Current.Line := by
  induction cs with
  | nil => intro rw; exact ⟨le_refl _, le_refl _⟩
  | cons c cs ih =>
    intro rw
    unfold RangeWriter.writeRunes Sink.WriteString
    cases hf : rw.w.fail rw.w.calls with
    | none =>
      dsimp only
      refine ⟨le_trans ?_ (ih _).1, le_trans ?_ (ih _).2⟩
      · split_ifs <;> simp
      · split_ifs <;> simp
    | some e =>
      dsimp only
      constructor <;> split_ifs <;> simp

theorem Write_forward (rw : RangeWriter) (s : String) :
    rw.Current.Index ≤ (rw.Write s).1.Current.Index ∧
    ((rw.Write s).2.2 = none →
      (rw.Write s).2.1.From = rw.Current ∧ (rw.Write s).2.1.To = (rw.Write s).1.Current ∧
      rw.Current.Line ≤ (rw.Write s).1.Current.Line) := by
  have h := writeRunes_forward s.data rw
  unfold RangeWriter.Write
  generalize rw.writeRunes s.data = x at h
  obtain ⟨rw1, err⟩ := x
  cases err with
  | none => exact ⟨h.1, fun _ => ⟨rfl, rfl, h.2⟩⟩
  | some e => exact ⟨h.1, fun he => by simp at he⟩

theorem Reach.forward {A : Expression → Prop} {g0 g : generator} (h0 : Forward g0)
    (h : Reach A g0 g) : Forward g := by
  induction h with
  | refl => exact h0
  | @write s g _ ih =>
    have hw := (Write_forward g.w s).1
    refine ⟨ih.1, fun r hr => ?_⟩
    have := ih.2 r hr
    exact ⟨this.1, le_trans this.2 hw⟩
  | @add e r g _ hwr _ ih =>
    have hw := Write_forward g.w e.Value
    have h1 : (g.w.Write e.Value).2.1 = r := congrArg Prod.fst hwr
    have h2 : (g.w.Write e.Value).2.2 = none := congrArg Prod.snd hwr
    obtain ⟨hfrom, hto, _⟩ := hw.2 h2
    rw [h1] at hfrom hto
    have hcur : (Gen.sourceMapAdd e r (Gen.Write e.Value g).2).2.w.Current
        = (g.w.Write e.Value).1.Current := rfl
    have htg : (Gen.sourceMapAdd e r (Gen.Write e.Value g).2).2.sourceMap.targets
        = g.sourceMap.targets ++ [r] := by
      show ((g.sourceMap.Add e r).Items.map _) = _
      simp [SourceMap.Add, SourceMap.targets]
    unfold Forward
    rw [htg, hcur]
    constructor
    · rw [List.pairwise_append]
      refine ⟨ih.1, List.pairwise_singleton _ _, fun a ha b hb => ?_⟩
      rw [List.mem_singleton.mp hb]
      show a.To.Index ≤ r.From.Index
      rw [hfrom]
      exact (ih.2 a ha).2
    · intro a ha
      rcases List.mem_append.mp ha with ha | ha
      · exact ⟨(ih.2 a ha).1, le_trans (ih.2 a ha).2 hw.1⟩
      · rw [List.mem_singleton.mp ha, hfrom, hto]
        exact ⟨hw.1, le_refl _⟩
  | var _ ih => exact ih

theorem writeAll_forward (texts : List String) :
    ∀ rw : RangeWriter, rw.w.accepts →
      (∀ r ∈ rw.writeAll texts, r.From.Index ≤ r.To.Index ∧ r.From.Line ≤ r.To.Line ∧
        rw.Current.Index ≤ r.From.Index) ∧
      (rw.writeAll texts).Pairwise Range.precedes := by
  induction texts with
  | nil => intro rw _; exact ⟨fun r hr => by simp [RangeWriter.writeAll] at hr, List.Pairwise.nil⟩
  | cons s rest ih =>
    intro rw h
    have hw := Write_forward rw s
    have hn : (rw.Write s).2.2 = none := by rw [Write_accepts rw s h]
    obtain ⟨hfrom, hto, hline⟩ := hw.2 hn
    obtain ⟨ih1, ih2⟩ := ih (rw.Write s).1 (Write_accepts_after rw s h)
    unfold RangeWriter.writeAll
    constructor
    · intro r hr
      rcases List.mem_cons.mp hr with hr | hr
      · rw [hr, hfrom, hto]
        exact ⟨hw.1, hline, le_refl _⟩
      · obtain ⟨a, b, c⟩ := ih1 r hr
        exact ⟨a, b, le_trans hw.1 c⟩
    · rw [List.pairwise_cons]
      refine ⟨fun r hr => ?_, ih2⟩
      show (rw.Write s).2.1.To.Index ≤ r.From.Index
      rw [hto]
      exact (ih1 r hr).2.2

/-- C28: for the writes of any texts, one after the other through one
`RangeWriter` on a sink that accepts all writes, every returned range has its
start index at or before its end index and its start line at or before its end
line, and every later range starts at or after the end of every earlier one.
For every call of `Generate`, on any sink, the generated ranges of the source
map, in the order they were added, do not overlap: each ends at or before the
start of every later one, and none ends before it starts. -/
theorem RangeWriter.ranges_forward (rw : RangeWriter) (texts : List String)
    (h : rw.w.accepts) :
    (∀ r ∈ rw.writeAll texts, r.From.Index ≤ r.To.Index ∧ r.From.Line ≤ r.To.Line) ∧
    (rw.writeAll texts).Pairwise (fun r s => r.To.Index ≤ s.From.Index) ∧
    ∀ (env : Env) (template : TemplateFile) (w : Sink),
      ((Generate env template w).sm.Items.map (fun item => item.Target)).Pairwise
        (fun r s => r.To.Index ≤ s.From.Index) ∧
      ∀ item ∈ (Generate env template w).sm.Items,
        item.Target.From.Index ≤ item.Target.To.Index := by
  obtain ⟨h1, h2⟩ := writeAll_forward texts rw h
  refine ⟨fun r hr => ⟨(h1 r hr).1, (h1 r hr).2.1⟩, h2, ?_⟩
  intro env template w
  obtain ⟨g1, hr, _, hsm, _⟩ := generate_reach env ⟨template, NewRangeWriter w, NewSourceMap, 0⟩
  have h0 : Forward ⟨template, NewRangeWriter w, NewSourceMap, 0⟩ :=
    ⟨List.Pairwise.nil, fun r hr => by simp [SourceMap.targets, NewSourceMap] at hr⟩
  have hf := Reach.forward h0 hr
  rw [Generate_eq]
  show ((generator.generate env ⟨template, NewRangeWriter w, NewSourceMap, 0⟩).2.sourceMap.Items.map
    _).Pairwise _ ∧ ∀ item ∈
      (generator.generate env ⟨template, NewRangeWriter w, NewSourceMap, 0⟩).2.sourceMap.Items, _
  rw [hsm]
  refine ⟨hf.1, fun item hi => ?_⟩
  exact (hf.2 item.Target (List.mem_map_of_mem _ hi)).1

/-- C28 at the texts `a`, newline, `bc` and `d`, written from byte 10, line 3,
column 7. -/
theorem RangeWriter.ranges_forward_witness :
    Sink.accepts ⟨"x", 0, fun _ => none⟩ ∧
    (RangeWriter.writeAll ⟨⟨10, 3, 7⟩, ⟨"x", 0, fun _ => none⟩⟩ ["a\n", "bc", "d"]).Pairwise
      (fun r s => r.To.Index ≤ s.From.Index) :=
  ⟨fun _ => rfl,
    (RangeWriter.ranges_forward ⟨⟨10, 3, 7⟩, ⟨"x", 0, fun _ => none⟩⟩ ["a\n", "bc", "d"]
      (fun _ => rfl)).2.1⟩

/-! ## The names of the parameters of a script -/

theorem splitRunes_no_sep (sep : Char) (p : List Char) (h : sep ∉ p) :
    strings.splitRunes sep p = [p] := by
  induction p with
  | nil => rfl
  | cons c cs ih =>
    have hc : ¬ c = sep := fun e => h (e ▸ List.mem_cons_self _ _)
    have hcs : sep ∉ cs := fun e => h (List.mem_cons_of_mem _ e)
    unfold strings.splitRunes
    rw [if_neg hc, ih hcs]

theorem splitRunes_append_sep (sep : Char) (p cs : List Char) (h : sep ∉ p) :
    strings.splitRunes sep (p ++ sep :: cs) = p :: strings.splitRunes sep cs := by
  induction p with
  | nil =>
    show strings.splitRunes sep (sep :: cs) = _
    conv_lhs => unfold strings.splitRunes
    rw [if_pos rfl]
  | cons c p ih =>
    have hc : ¬ c = sep := fun e => h (e ▸ List.mem_cons_self _ _)
    have hp : sep ∉ p := fun e => h (List.mem_cons_of_mem _ e)
    rw [List.cons_append]
    conv_lhs => unfold strings.splitRunes
    rw [if_neg hc, ih hp]

theorem splitRunes_of_intercalate (sep : Char) (pieces : List (List Char)) (hne : pieces ≠ [])
    (h : ∀ p ∈ pieces, sep ∉ p) :
    strings.splitRunes sep (List.intercalate [sep] pieces) = pieces := by
  induction pieces with
  | nil => exact absurd rfl hne
  | cons p rest ih =>
    cases rest with
    | nil =>
      have : List.intercalate [sep] [p] = p := by simp [List.intercalate]
      rw [this]
      exact splitRunes_no_sep sep p (h p (List.mem_cons_self _ _))
    | cons q rest =>
      have e : List.intercalate [sep] (p :: q :: rest)
          = p ++ sep :: List.intercalate [sep] (q :: rest) := by
        simp [List.intercalate, List.intersperse]
      rw [e, splitRunes_append_sep sep p _ (h p (List.mem_cons_self _ _)),
        ih (List.cons_ne_nil _ _) (fun x hx => h x (List.mem_cons_of_mem _ hx))]

theorem dropWhile_lead (p : Char → Bool) (lead rest : List Char) (c : Char)
    (hl : ∀ x ∈ lead, p x = true) (hc : p c = false) :
    (lead ++ c :: rest).dropWhile p = c :: rest := by
  induction lead with
  | nil => simp [List.dropWhile, hc]
  | cons x xs ih =>
    rw [List.cons_append, List.dropWhile_cons, if_pos (hl x (List.mem_cons_self _ _))]
    exact ih (fun y hy => hl y (List.mem_cons_of_mem _ hy))

theorem rdropWhile_keep (p : Char → Bool) (n s : List Char) (hne : n ≠ [])
    (hn : ∀ x ∈ n, p x = false) :
    List.rdropWhile p (n ++ s) = n ++ List.rdropWhile p s := by
  induction s using List.reverseRecOn with
  | nil =>
    rw [List.append_nil]
    have : List.rdropWhile p ([] : List Char) = [] := rfl
    rw [this, List.append_nil, List.rdropWhile_eq_self_iff]
    intro hl
    rw [hn _ (List.getLast_mem hl)]
    simp
  | append_singleton s c ih =>
    rw [← List.append_assoc]
    by_cases hc : p c = true
    · rw [List.rdropWhile_concat_pos _ _ _ hc, List.rdropWhile_concat_pos _ _ _ hc, ih]
    · rw [List.rdropWhile_concat_neg _ _ _ hc, List.rdropWhile_concat_neg _ _ _ hc,
        List.append_assoc]

theorem TrimSpace_mk (l : List Char) :
    strings.TrimSpace (String.mk l)
      = String.mk (List.rdropWhile unicode.IsSpace (l.dropWhile unicode.IsSpace)) := rfl

theorem firstWord_runes (lead name type : List Char)
    (hl : ∀ c ∈ lead, unicode.IsSpace c = true) (hne : name ≠ [])
    (hn : ∀ c ∈ name, unicode.IsSpace c = false ∧ c ≠ ',') :
    (strings.splitRunes ' ' (List.rdropWhile unicode.IsSpace
        ((lead ++ name ++ ' ' :: type).dropWhile unicode.IsSpace))).headD [] = name ∧
    List.rdropWhile unicode.IsSpace (name.dropWhile unicode.IsSpace) = name := by
  have hsp : ∀ c ∈ name, unicode.IsSpace c = false := fun c hc => (hn c hc).1
  have hno : ' ' ∉ name := fun h => by
    have := hsp ' ' h
    simp [unicode.IsSpace] at this
  obtain ⟨c, cs, hcs⟩ := List.exists_cons_of_ne_nil hne
  have hc : unicode.IsSpace c = false := hsp c (hcs ▸ List.mem_cons_self _ _)
  have hd : (lead ++ name ++ ' ' :: type).dropWhile unicode.IsSpace = name ++ ' ' :: type := by
    rw [List.append_assoc, hcs, List.cons_append]
    exact dropWhile_lead _ lead _ c hl hc
  have hd2 : name.dropWhile unicode.IsSpace = name := by
    rw [hcs]
    simp [List.dropWhile, hc]
  constructor
  · rw [hd, rdropWhile_keep _ name _ hne hsp]
    have hp : List.rdropWhile unicode.IsSpace (' ' :: type) <+: ' ' :: type :=
      List.rdropWhile_prefix _ _
    cases hr : List.rdropWhile unicode.IsSpace (' ' :: type) with
    | nil =>
      rw [List.append_nil, splitRunes_no_sep ' ' name hno]
      rfl
    | cons x r =>
      rw [hr] at hp
      obtain ⟨t, ht⟩ := hp
      have hx : x = ' ' := by
        have := congrArg List.head? ht
        simpa using this
      rw [hx, splitRunes_append_sep ' ' name r hno]
      rfl
  · rw [hd2]
    have := rdropWhile_keep unicode.IsSpace name [] hne hsp
    rw [List.append_nil] at this
    rw [this]
    simp [List.rdropWhile]

/-- The first word of a well-formed parameter is its name. -/
theorem Parameter.firstWord (p : Parameter) (h : p.wellFormed) :
    strings.TrimSpace ((strings.Split (strings.TrimSpace p.text) ' ').headD "") = p.name := by
  obtain ⟨hl, hne, hn, _⟩ := h
  have key := firstWord_runes p.lead.data p.name.data p.type.data hl hne hn
  have e1 : strings.TrimSpace p.text = String.mk (List.rdropWhile unicode.IsSpace
      ((p.lead.data ++ p.name.data ++ ' ' :: p.type.data).dropWhile unicode.IsSpace)) := by
    have : p.text = String.mk (p.lead.data ++ p.name.data ++ ' ' :: p.type.data) := by
      apply String.ext
      simp [Parameter.text]
    rw [this, TrimSpace_mk]
  have e2 : (strings.Split (strings.TrimSpace p.text) ' ').headD "" = String.mk p.name.data := by
    rw [e1]
    unfold strings.Split
    have hne2 := splitRunes_ne_nil ' ' (List.rdropWhile unicode.IsSpace
      ((p.lead.data ++ p.name.data ++ ' ' :: p.type.data).dropWhile unicode.IsSpace))
    cases hs : strings.splitRunes ' ' (List.rdropWhile unicode.IsSpace
      ((p.lead.data ++ p.name.data ++ ' ' :: p.type.data).dropWhile unicode.IsSpace)) with
    | nil => exact absurd hs hne2
    | cons a b =>
      have k1 := key.1
      rw [hs] at k1
      simp only [List.headD_cons] at k1
      simp only [List.map_cons, List.headD_cons]
      rw [k1]
  rw [e2, TrimSpace_mk, key.2]

theorem stripTypes_eq (parameters : String) :
    stripTypes parameters = strings.Join ((strings.Split parameters ',').map (fun piece =>
      strings.TrimSpace ((strings.Split (strings.TrimSpace piece) ' ').headD ""))) ", " := rfl

theorem Parameter.text_no_comma (p : Parameter) (h : p.wellFormed) : ',' ∉ p.text.data := by
  obtain ⟨hl, _, hn, ht⟩ := h
  have : p.text.data = p.lead.data ++ p.name.data ++ ' ' :: p.type.data := by
    simp [Parameter.text]
  rw [this]
  simp only [List.mem_append, List.mem_cons, not_or]
  refine ⟨⟨fun hc => ?_, fun hc => (hn _ hc).2 rfl⟩, by decide, fun hc => ht _ hc rfl⟩
  have := hl _ hc
  simp [unicode.IsSpace] at this

/-- C30: `stripTypes` returns, joined by a comma and a space, the first word
(up to the first space) of each piece of the parameter text between commas,
the piece and the word trimmed of surrounding whitespace, one name for each
piece. For a list of one or more well-formed parameters joined by commas (a
name without whitespace and comma, a space, and a type without comma, after
optional whitespace) it returns the names joined by a comma and a space, and
for the empty text it returns the empty text. -/
theorem stripTypes_spec (ps : List Parameter) (hne : ps ≠ [])
    (h : ∀ p ∈ ps, p.wellFormed) :
    stripTypes (strings.Join (ps.map Parameter.text) ",")
      = strings.Join (ps.map (fun p => p.name)) ", " ∧
    stripTypes "" = "" ∧
    ∀ parameters : String,
      stripTypes parameters = strings.Join ((strings.Split parameters ',').map (fun piece =>
        strings.TrimSpace ((strings.Split (strings.TrimSpace piece) ' ').headD ""))) ", " ∧
      ((strings.Split parameters ',').map (fun piece =>
        strings.TrimSpace ((strings.Split (strings.TrimSpace piece) ' ').headD ""))).length
        = (strings.Split parameters ',').length ∧
      strings.Join (strings.Split parameters ',') "," = parameters := by
  refine ⟨?_, by decide, fun parameters => ⟨rfl, by simp, ?_⟩⟩
  · rw [stripTypes_eq]
    have hs : strings.Split (strings.Join (ps.map Parameter.text) ",") ','
        = ps.map Parameter.text := by
      unfold strings.Split strings.Join
      show (strings.splitRunes ',' (List.intercalate [','] _)).map String.mk = _
      rw [splitRunes_of_intercalate ',' _ (by simpa using hne)]
      · simp [List.map_map, Function.comp_def]
      · intro x hx
        simp only [List.mem_map] at hx
        obtain ⟨t, ⟨p, hp, rfl⟩, rfl⟩ := hx
        exact Parameter.text_no_comma p (h p hp)
    rw [hs, List.map_map]
    congr 1
    apply List.map_congr_left
    intro p hp
    exact Parameter.firstWord p (h p hp)
  · unfold strings.Split strings.Join
    apply String.ext
    show List.intercalate [','] (((strings.splitRunes ',' parameters.data).map String.mk).map
      String.data) = parameters.data
    rw [List.map_map]
    have : (String.data ∘ String.mk) = id := rfl
    rw [this, List.map_id, splitRunes_intercalate]

/-- C30 at the parameter list `a int, b string`. -/
theorem stripTypes_spec_witness :
    ([⟨"", "a", "int"⟩, ⟨" ", "b", "string"⟩] : List Parameter) ≠ [] ∧
    (∀ p ∈ ([⟨"", "a", "int"⟩, ⟨" ", "b", "string"⟩] : List Parameter), p.wellFormed) ∧
    stripTypes (strings.Join
        (([⟨"", "a", "int"⟩, ⟨" ", "b", "string"⟩] : List Parameter).map Parameter.text) ",")
      = strings.Join
        (([⟨"", "a", "int"⟩, ⟨" ", "b", "string"⟩] : List Parameter).map (fun p => p.name))
        ", " :=
  have hw : ∀ p ∈ ([⟨"", "a", "int"⟩, ⟨" ", "b", "string"⟩] : List Parameter),
      p.wellFormed := by
    intro p hp
    simp only [List.mem_cons, List.mem_singleton, List.not_mem_nil, or_false] at hp
    rcases hp with rfl | rfl <;>
      exact ⟨by decide, by decide, by decide, by decide⟩
  ⟨List.cons_ne_nil _ _, hw, (stripTypes_spec _ (List.cons_ne_nil _ _) hw).1⟩

/-! ## The text of a script template -/

theorem writeScript_emits {tf : TemplateFile} (env : Env) (t : ScriptTemplate) (i : Int) :
    Emits tf (generator.writeScript env t) (fun x => x = none) i (scriptText env t)
      [t.Name, t.Parameters] i := by
  apply Emits.reshape
  · unfold generator.writeScript
    with_reducible repeat (first
      | assumption
      | exact Emits.ret _ rfl
      | exact Emits.ret _ trivial
      | apply Emits.after_pure
      | apply Emits.skip
      | apply Emits.write_then
      | apply Emits.writeIndent_then
      | apply Emits.add_then
      | apply Emits.var_then
      | apply Emits.tf_then
      | apply Emits.val_then (writeErrorHandler_emits _ _)
      | apply Emits.val_then (by assumption)
      | apply Emits.snd_then (by assumption)
      | apply Emits.any_then (by assumption)
      | apply Emits.branch
      | intro _
      | dsimp only)
  · simp only [scriptText, indent_zero, String.append_assoc, String.append_empty,
      String.empty_append]
  · rfl
  · rfl

/-- For the script `f` whose body is ` x ` the field `Function` holds the body
without the spaces around it, `{x}`, whereas the function with the verbatim
body has `{ x }`. -/
theorem writeScript_trims_body :
    (generator.writeScript exampleEnv exampleScript exampleGenerator).2.w.w.out
      = "func f() templ.ComponentScript \x7b\n"
        ++ "\treturn templ.ComponentScript\x7b\n"
        ++ "\t\tName: `__templ_f_0000`,\n"
        ++ "\t\tFunction: `function __templ_f_0000()\x7bx\x7d`,\n"
        ++ "\t\tCall: templ.SafeScript(`__templ_f_0000`, ),\n"
        ++ "\t\x7d\n"
        ++ "\x7d\n\n" ∧
    createGoString ("function " ++ functionName exampleEnv "f" " x " ++ "(" ++ stripTypes ""
        ++ ")\x7b" ++ " x " ++ "\x7d")
      = "`function __templ_f_0000()\x7b x \x7d`" := by
  decide!

/-- On a sink that accepts all writes, `writeScript` returns no error, records
the name and the parameters in the source map, and writes the function that returns the `templ.ComponentScript` value whose `Name` is the
literal of `__templ_N_h`, where `h` is the first four characters of the
hex-encoded SHA-256 digest of the body `B` as it stands; whose `Function` is
the literal of `function __templ_N_h(` + `stripTypes(P)` + `){` + the body
without its leading and trailing whitespace + `}`; and whose `Call` is the
expression `templ.SafeScript(` + the literal of the name + `, ` +
`stripTypes(P)` + `)`; `scriptText` is that text. The value of a literal that
`createGoString` writes is its text, for a text without carriage return. -/
theorem writeScript_spec (env : Env) (t : ScriptTemplate) (g : generator)
    (h : g.w.w.accepts) :
    (generator.writeScript env t g).1 = none ∧
    (generator.writeScript env t g).2.w.w.out = g.w.w.out ++ scriptText env t ∧
    (generator.writeScript env t g).2.sourceMap.sources
      = g.sourceMap.sources ++ [t.Name, t.Parameters] ∧
    functionName env t.Name.Value t.Value
      = "__templ_" ++ t.Name.Value ++ "_" ++ String.mk ((env.sha256Hex t.Value).data.take 4) ∧
    ∀ s : String, '\r' ∉ s.data →
      createGoString s = GoLiteral.concatText (GoLiteral.ofPieces (strings.Split s backtick)) ∧
      GoLiteral.concatValue (GoLiteral.ofPieces (strings.Split s backtick)) = s := by
  obtain ⟨k1, -, -, -, k5, k6⟩ := (@writeScript_emits g.tf env t g.variableID).run g rfl h rfl
  exact ⟨k1, k5, k6, rfl, fun s hs =>
    ⟨(createGoString_value s).1, createGoString_roundtrip s hs⟩⟩

/-- The text of the script `f` whose body is ` x `, on the empty sink that
accepts all writes. -/
theorem writeScript_spec_witness :
    exampleGenerator.w.w.accepts ∧
    (generator.writeScript exampleEnv exampleScript exampleGenerator).2.w.w.out
      = exampleGenerator.w.w.out ++ scriptText exampleEnv exampleScript :=
  ⟨fun _ => rfl, (writeScript_spec exampleEnv exampleScript exampleGenerator (fun _ => rfl)).2.1⟩

/-! ## The set of strings of the runtime -/

theorem StringSet.mem_Add (rc : StringSet) (s t : String) :
    t ∈ (rc.Add s).ss ↔ t ∈ rc.ss ∨ t = s := by
  unfold StringSet.Add
  by_cases h : s ∈ rc.ss
  · rw [if_pos h]
    constructor
    · exact Or.inl
    · rintro (h1 | h1)
      · exact h1
      · rw [h1]; exact h
  · rw [if_neg h]
    simp

theorem StringSet.nodup_Add (rc : StringSet) (s : String) (h : rc.ss.Nodup) :
    (rc.Add s).ss.Nodup := by
  unfold StringSet.Add
  by_cases hs : s ∈ rc.ss
  · rw [if_pos hs]; exact h
  · rw [if_neg hs]
    rw [List.nodup_append]
    refine ⟨h, List.nodup_singleton _, ?_⟩
    intro a ha hb
    exact hs ((List.mem_singleton.mp hb) ▸ ha)

theorem StringSet.foldl_Add (adds : List String) :
    ∀ rc : StringSet, rc.ss.Nodup →
      (adds.foldl StringSet.Add rc).ss.Nodup ∧
      ∀ t, t ∈ (adds.foldl StringSet.Add rc).ss ↔ t ∈ rc.ss ∨ t ∈ adds := by
  induction adds with
  | nil => intro rc h; exact ⟨h, fun t => by simp⟩
  | cons s rest ih =>
    intro rc h
    obtain ⟨h1, h2⟩ := ih (rc.Add s) (StringSet.nodup_Add rc s h)
    refine ⟨h1, fun t => ?_⟩
    rw [List.foldl_cons, h2, StringSet.mem_Add, List.mem_cons, or_assoc]

/-- C26: for the set built from the empty set by adding the strings `adds`,
one after the other: `Contains(s)` is true if and only if `s` is one of them;
adding a string that the set contains leaves the set as it is; and `All()`
returns exactly the strings the set contains, each once, in ascending order of
their bytes. -/
theorem StringSet.spec (adds : List String) :
    (∀ s, (StringSet.ofAdds adds).Contains s = true ↔ s ∈ adds) ∧
    (∀ s, (StringSet.ofAdds adds).Contains s = true →
      (StringSet.ofAdds adds).Add s = StringSet.ofAdds adds) ∧
    (∀ s, s ∈ (StringSet.ofAdds adds).All ↔ (StringSet.ofAdds adds).Contains s = true) ∧
    (StringSet.ofAdds adds).All.Nodup ∧
    (StringSet.ofAdds adds).All.Sorted stringLE := by
  obtain ⟨h1, h2⟩ := StringSet.foldl_Add adds StringSet.empty List.nodup_nil
  have hp : (StringSet.ofAdds adds).All.Perm (StringSet.ofAdds adds).ss :=
    List.perm_insertionSort _ _
  refine ⟨fun s => ?_, fun s hs => ?_, fun s => ?_, ?_, ?_⟩
  · unfold StringSet.Contains
    rw [decide_eq_true_iff]
    show s ∈ (adds.foldl StringSet.Add StringSet.empty).ss ↔ _
    rw [h2]
    simp [StringSet.empty]
  · unfold StringSet.Contains at hs
    rw [decide_eq_true_iff] at hs
    unfold StringSet.Add
    rw [if_pos hs]
  · unfold StringSet.Contains
    rw [decide_eq_true_iff]
    exact hp.mem_iff
  · exact hp.nodup_iff.mpr h1
  · exact List.sorted_insertionSort _ _

/-! ## The registries a context carries -/

theorem RenderedCSSClassesFromContext_present (heap : Heap) (ctx : Context) (rc : Nat)
    (h : ctx.Value .renderedClasses = some (.stringSet rc)) :
    RenderedCSSClassesFromContext heap ctx = (heap, ctx, rc) := by
  unfold RenderedCSSClassesFromContext
  rw [h]

theorem RenderedScriptsFromContext_present (heap : Heap) (ctx : Context) (rs : Nat)
    (h : ctx.Value .renderedScripts = some (.stringSet rs)) :
    RenderedScriptsFromContext heap ctx = (heap, ctx, rs) := by
  unfold RenderedScriptsFromContext
  rw [h]

theorem RenderedCSSClassesFromContext_absent (heap : Heap) (ctx : Context)
    (h : ∀ rc, ctx.Value .renderedClasses ≠ some (.stringSet rc)) :
    RenderedCSSClassesFromContext heap ctx
      = (heap ++ [StringSet.empty],
         Context.withValue ctx .renderedClasses (.stringSet heap.length), heap.length) := by
  unfold RenderedCSSClassesFromContext
  split
  · rename_i rc hrc
    exact absurd hrc (h rc)
  · rfl

theorem RenderedScriptsFromContext_absent (heap : Heap) (ctx : Context)
    (h : ∀ rs, ctx.Value .renderedScripts ≠ some (.stringSet rs)) :
    RenderedScriptsFromContext heap ctx
      = (heap ++ [StringSet.empty],
         Context.withValue ctx .renderedScripts (.stringSet heap.length), heap.length) := by
  unfold RenderedScriptsFromContext
  split
  · rename_i rs hrs
    exact absurd hrs (h rs)
  · rfl

theorem Heap.get_append_new (heap : Heap) :
    Heap.get (heap ++ [StringSet.empty]) heap.length = StringSet.empty ∧
    ∀ address, address < heap.length →
      Heap.get (heap ++ [StringSet.empty]) address = Heap.get heap address := by
  unfold Heap.get
  constructor
  · simp [List.getD_eq_getElem?_getD]
  · intro address ha
    simp [List.getD_eq_getElem?_getD, List.getElem?_append_left ha]

theorem RenderedCSSClassesFromContext_carries (heap : Heap) (ctx : Context) :
    (RenderedCSSClassesFromContext heap ctx).2.1.Value .renderedClasses
      = some (.stringSet (RenderedCSSClassesFromContext heap ctx).2.2) ∧
    (RenderedCSSClassesFromContext heap ctx).2.1.Value .renderedScripts
      = ctx.Value .renderedScripts := by
  by_cases h : ∃ rc, ctx.Value .renderedClasses = some (.stringSet rc)
  · obtain ⟨rc, hrc⟩ := h
    rw [RenderedCSSClassesFromContext_present heap ctx rc hrc]
    exact ⟨hrc, rfl⟩
  · rw [RenderedCSSClassesFromContext_absent heap ctx (fun rc hrc => h ⟨rc, hrc⟩)]
    exact ⟨by simp [Context.Value], by simp [Context.Value]⟩

theorem RenderedScriptsFromContext_carries (heap : Heap) (ctx : Context) :
    (RenderedScriptsFromContext heap ctx).2.1.Value .renderedScripts
      = some (.stringSet (RenderedScriptsFromContext heap ctx).2.2) ∧
    (RenderedScriptsFromContext heap ctx).2.1.Value .renderedClasses
      = ctx.Value .renderedClasses := by
  by_cases h : ∃ rs, ctx.Value .renderedScripts = some (.stringSet rs)
  · obtain ⟨rs, hrs⟩ := h
    rw [RenderedScriptsFromContext_present heap ctx rs hrs]
    exact ⟨hrs, rfl⟩
  · rw [RenderedScriptsFromContext_absent heap ctx (fun rs hrs => h ⟨rs, hrs⟩)]
    exact ⟨by simp [Context.Value], by simp [Context.Value]⟩

/-- C24: when the context carries a registry of CSS classes,
`RenderedCSSClassesFromContext` returns the context itself and that registry
and allocates nothing; otherwise it returns the context derived from it that
carries a new registry, which is empty, and leaves the sets allocated before as
they are. Applied again to the context it returned, it returns that context
and that registry and allocates nothing. The same holds of
`RenderedScriptsFromContext`. The two registries are stored under different
keys: what the context returned by one carries under the key of the other is
what the context carried there before. -/
theorem RenderedFromContext_idempotent (heap : Heap) (ctx : Context) :
    (∀ rc, ctx.Value .renderedClasses = some (.stringSet rc) →
      RenderedCSSClassesFromContext heap ctx = (heap, ctx, rc)) ∧
    ((∀ rc, ctx.Value .renderedClasses ≠ some (.stringSet rc)) →
      RenderedCSSClassesFromContext heap ctx
        = (heap ++ [StringSet.empty],
           Context.withValue ctx .renderedClasses (.stringSet heap.length), heap.length) ∧
      Heap.get (heap ++ [StringSet.empty]) heap.length = StringSet.empty ∧
      ∀ address, address < heap.length →
        Heap.get (heap ++ [StringSet.empty]) address = Heap.get heap address) ∧
    RenderedCSSClassesFromContext (RenderedCSSClassesFromContext heap ctx).1
        (RenderedCSSClassesFromContext heap ctx).2.1
      = RenderedCSSClassesFromContext heap ctx ∧
    (RenderedCSSClassesFromContext heap ctx).2.1.Value .renderedScripts
      = ctx.Value .renderedScripts ∧
    (∀ rs, ctx.Value .renderedScripts = some (.stringSet rs) →
      RenderedScriptsFromContext heap ctx = (heap, ctx, rs)) ∧
    ((∀ rs, ctx.Value .renderedScripts ≠ some (.stringSet rs)) →
      RenderedScriptsFromContext heap ctx
        = (heap ++ [StringSet.empty],
           Context.withValue ctx .renderedScripts (.stringSet heap.length), heap.length) ∧
      Heap.get (heap ++ [StringSet.empty]) heap.length = StringSet.empty ∧
      ∀ address, address < heap.length →
        Heap.get (heap ++ [StringSet.empty]) address = Heap.get heap address) ∧
    RenderedScriptsFromContext (RenderedScriptsFromContext heap ctx).1
        (RenderedScriptsFromContext heap ctx).2.1
      = RenderedScriptsFromContext heap ctx ∧
    (RenderedScriptsFromContext heap ctx).2.1.Value .renderedClasses
      = ctx.Value .renderedClasses := by
  refine ⟨fun rc h => RenderedCSSClassesFromContext_present heap ctx rc h,
    fun h => ⟨RenderedCSSClassesFromContext_absent heap ctx h, Heap.get_append_new heap⟩,
    ?_, (RenderedCSSClassesFromContext_carries heap ctx).2,
    fun rs h => RenderedScriptsFromContext_present heap ctx rs h,
    fun h => ⟨RenderedScriptsFromContext_absent heap ctx h, Heap.get_append_new heap⟩,
    ?_, (RenderedScriptsFromContext_carries heap ctx).2⟩
  · exact RenderedCSSClassesFromContext_present _ _ _
      (RenderedCSSClassesFromContext_carries heap ctx).1
  · exact RenderedScriptsFromContext_present _ _ _
      (RenderedScriptsFromContext_carries heap ctx).1

/-! ## CSS classes and scripts are rendered once -/

theorem RenderCSS_loop_eq (rc : Nat) (classes : List CSSClass) :
    ∀ (heap : Heap) (sb : String),
      RenderCSS.loop rc heap sb classes = registerLoop rc heap sb (classEntries classes) := by
  induction classes with
  | nil => intro heap sb; rfl
  | cons c rest ih =>
    intro heap sb
    cases c with
    | ConstantCSSClass name => exact ih heap sb
    | Other className => exact ih heap sb
    | ComponentCSSClass ID Class =>
      show (if !Heap.Contains heap rc ID then
          RenderCSS.loop rc (Heap.Add heap rc ID) (sb ++ Class) rest
        else RenderCSS.loop rc heap sb rest) = registerLoop rc heap sb ((ID, Class) ::
          classEntries rest)
      rw [ih, ih]
      rfl

theorem RenderScripts_loop_eq (rs : Nat) (scripts : List ComponentScript) :
    ∀ (heap : Heap) (sb : String),
      RenderScripts.loop rs heap sb scripts = registerLoop rs heap sb (scriptEntries scripts) := by
  induction scripts with
  | nil => intro heap sb; rfl
  | cons s rest ih =>
    intro heap sb
    show (if !Heap.Contains heap rs s.Name then
        RenderScripts.loop rs (Heap.Add heap rs s.Name) (sb ++ s.Function) rest
      else RenderScripts.loop rs heap sb rest) = registerLoop rs heap sb ((s.Name, s.Function) ::
        scriptEntries rest)
    rw [ih, ih]
    rfl

theorem RenderCSS_eq (heap : Heap) (ctx : Context) (w : Sink) (classes : List CSSClass) :
    RenderCSS heap ctx w classes
      = ((registerLoop (RenderedCSSClassesFromContext heap ctx).2.2
            (RenderedCSSClassesFromContext heap ctx).1 "" (classEntries classes)).1,
          writeBlock "<style type=\"text/css\">" "</style>" w
            (registerLoop (RenderedCSSClassesFromContext heap ctx).2.2
              (RenderedCSSClassesFromContext heap ctx).1 "" (classEntries classes)).2) := by
  unfold RenderCSS writeBlock
  simp only [RenderCSS_loop_eq]
  rcases RenderedCSSClassesFromContext heap ctx with ⟨heap0, ctx0, rc⟩
  dsimp only
  rcases registerLoop rc heap0 "" (classEntries classes) with ⟨heap1, sb⟩
  dsimp only
  split_ifs
  · rcases w.WriteString "<style type=\"text/css\">" with ⟨w1, n1, _ | e1⟩
    · dsimp only
      rcases w1.WriteString sb with ⟨w2, n2, _ | e2⟩
      · dsimp only
        rcases w2.WriteString "</style>" with ⟨w3, n3, _ | e3⟩ <;> rfl
      · rfl
    · rfl
  · rfl

theorem RenderScripts_eq (heap : Heap) (ctx : Context) (w : Sink)
    (scripts : List ComponentScript) :
    RenderScripts heap ctx w scripts
      = ((registerLoop (RenderedScriptsFromContext heap ctx).2.2
            (RenderedScriptsFromContext heap ctx).1 "" (scriptEntries scripts)).1,
          writeBlock "<script type=\"text/javascript\">" "</script>" w
            (registerLoop (RenderedScriptsFromContext heap ctx).2.2
              (RenderedScriptsFromContext heap ctx).1 "" (scriptEntries scripts)).2) := by
  unfold RenderScripts writeBlock
  simp only [RenderScripts_loop_eq]
  rcases RenderedScriptsFromContext heap ctx with ⟨heap0, ctx0, rs⟩
  dsimp only
  rcases registerLoop rs heap0 "" (scriptEntries scripts) with ⟨heap1, sb⟩
  dsimp only
  split_ifs
  · rcases w.WriteString "<script type=\"text/javascript\">" with ⟨w1, n1, _ | e1⟩
    · dsimp only
      rcases w1.WriteString sb with ⟨w2, n2, _ | e2⟩
      · dsimp only
        rcases w2.WriteString "</script>" with ⟨w3, n3, _ | e3⟩ <;> rfl
      · rfl
    · rfl
  · rfl

theorem StringSet.Contains_Add (rc : StringSet) (s t : String) :
    (rc.Add s).Contains t = (rc.Contains t || decide (t = s)) := by
  unfold StringSet.Contains
  rw [Bool.eq_iff_iff]
  simp only [decide_eq_true_iff, Bool.or_eq_true]
  exact StringSet.mem_Add rc s t

theorem StringSet.Add_of_Contains (rc : StringSet) (s : String) (h : rc.Contains s = true) :
    rc.Add s = rc := by
  unfold StringSet.Contains at h
  unfold StringSet.Add
  rw [if_pos (of_decide_eq_true h)]

theorem Heap.get_set (heap : Heap) (rc : Nat) (x : StringSet) (h : rc < heap.length) :
    Heap.get (heap.set rc x) rc = x := by
  unfold Heap.get
  simp [List.getD_eq_getElem?_getD, h]

theorem Heap.set_get (heap : Heap) (rc : Nat) (h : rc < heap.length) :
    heap.set rc (Heap.get heap rc) = heap := by
  unfold Heap.get
  apply List.ext_getElem (by simp)
  intro n h1 h2
  by_cases hn : rc = n
  · subst hn
    simp [List.getD_eq_getElem?_getD, h]
  · simp [List.getElem_set_ne hn]

theorem register_cons (registry : StringSet) (key text : String) (rest : List Entry) :
    register registry ((key, text) :: rest) = register (registry.Add key) rest := rfl

theorem register_Contains (entries : List Entry) :
    ∀ (registry : StringSet) (s : String),
      (register registry entries).Contains s = true
        ↔ registry.Contains s = true ∨ s ∈ entries.map Prod.fst := by
  induction entries with
  | nil => intro registry s; simp [register]
  | cons e rest ih =>
    intro registry s
    obtain ⟨key, text⟩ := e
    rw [register_cons, ih, StringSet.Contains_Add]
    simp only [Bool.or_eq_true, decide_eq_true_iff, List.map_cons, List.mem_cons]
    tauto

theorem registerLoop_spec (rc : Nat) (entries : List Entry) :
    ∀ (heap : Heap) (sb : String), rc < heap.length →
      registerLoop rc heap sb entries
        = (heap.set rc (register (Heap.get heap rc) entries),
           sb ++ entriesText (selectedRun (Heap.get heap rc) entries)) := by
  induction entries with
  | nil =>
    intro heap sb h
    show (heap, sb) = (heap.set rc (Heap.get heap rc), sb ++ "")
    rw [Heap.set_get heap rc h, String.append_empty]
  | cons e rest ih =>
    intro heap sb h
    obtain ⟨key, text⟩ := e
    unfold registerLoop selectedRun
    have hc : Heap.Contains heap rc key = (Heap.get heap rc).Contains key := rfl
    rw [hc, register_cons]
    by_cases hk : (Heap.get heap rc).Contains key = true
    · simp only [hk, Bool.not_true, Bool.false_eq_true, if_false]
      rw [ih heap sb h, StringSet.Add_of_Contains _ _ hk]
    · simp only [hk, Bool.not_false, if_true]
      have hl : rc < (Heap.Add heap rc key).length := by
        unfold Heap.Add
        simpa using h
      rw [ih _ _ hl]
      have hg : Heap.get (Heap.Add heap rc key) rc = (Heap.get heap rc).Add key :=
        Heap.get_set heap rc _ h
      rw [hg]
      unfold Heap.Add
      rw [List.set_set, String.append_assoc]
      rfl

theorem selected_eq_run (entries : List Entry) :
    ∀ (registry current : StringSet) (earlier : List String),
      (∀ s, current.Contains s = (registry.Contains s || earlier.contains s)) →
      selected registry earlier entries = selectedRun current entries := by
  induction entries with
  | nil => intro _ _ _ _; rfl
  | cons e rest ih =>
    intro registry current earlier h
    obtain ⟨key, text⟩ := e
    unfold selected selectedRun
    rw [h key]
    by_cases hk : (registry.Contains key || earlier.contains key) = true
    · have : (!registry.Contains key && !earlier.contains key) = false := by
        rw [← Bool.not_or, hk]; rfl
      simp only [this, hk, Bool.not_true, Bool.false_eq_true, if_false, List.nil_append]
      apply ih
      intro s
      rw [h s]
      by_cases hs : s = key
      · subst hs
        rw [hk]
        simp only [Bool.or_eq_true] at hk
        simp only [List.contains_eq_any_beq, List.any_append, Bool.or_eq_true] at hk ⊢
        simp
      · simp [List.contains_eq_any_beq, List.any_append, hs]
    · have hk' : (registry.Contains key || earlier.contains key) = false := by
        simpa using hk
      have : (!registry.Contains key && !earlier.contains key) = true := by
        rw [← Bool.not_or, hk']; rfl
      simp only [this, hk', Bool.not_false, if_true, List.singleton_append]
      congr 1
      apply ih
      intro s
      rw [StringSet.Contains_Add, h s]
      simp only [List.contains_eq_any_beq, List.any_append, List.any_cons, List.any_nil,
        Bool.or_false, Bool.or_assoc]
      congr 2

theorem selected_run (registry : StringSet) (entries : List Entry) :
    selected registry [] entries = selectedRun registry entries :=
  selected_eq_run entries registry registry [] (fun s => by simp)

theorem selectedRun_keys (entries : List Entry) :
    ∀ registry : StringSet,
      ((selectedRun registry entries).map Prod.fst).Nodup ∧
      ∀ key ∈ (selectedRun registry entries).map Prod.fst,
        registry.Contains key = false ∧ key ∈ entries.map Prod.fst := by
  induction entries with
  | nil => intro registry; exact ⟨List.nodup_nil, fun k hk => by simp [selectedRun] at hk⟩
  | cons e rest ih =>
    intro registry
    obtain ⟨key, text⟩ := e
    unfold selectedRun
    by_cases hk : registry.Contains key = true
    · simp only [hk, Bool.not_true, Bool.false_eq_true, if_false]
      obtain ⟨h1, h2⟩ := ih registry
      exact ⟨h1, fun k hk2 => ⟨(h2 k hk2).1, List.mem_cons_of_mem _ (h2 k hk2).2⟩⟩
    · have hk' : registry.Contains key = false := by simpa using hk
      simp only [hk', Bool.not_false, if_true, List.map_cons]
      obtain ⟨h1, h2⟩ := ih (registry.Add key)
      constructor
      · rw [List.nodup_cons]
        refine ⟨fun hm => ?_, h1⟩
        have := (h2 key hm).1
        rw [StringSet.Contains_Add] at this
        simp at this
      · intro k hk2
        rcases List.mem_cons.mp hk2 with hk2 | hk2
        · rw [hk2]
          exact ⟨hk', List.mem_cons_self _ _⟩
        · have := (h2 k hk2).1
          rw [StringSet.Contains_Add] at this
          simp only [Bool.or_eq_false_iff] at this
          exact ⟨this.1, List.mem_cons_of_mem _ (h2 k hk2).2⟩

theorem selectedRun_nil (entries : List Entry) :
    ∀ registry : StringSet, (∀ entry ∈ entries, registry.Contains entry.1 = true) →
      selectedRun registry entries = [] ∧ register registry entries = registry := by
  induction entries with
  | nil => intro _ _; exact ⟨rfl, rfl⟩
  | cons e rest ih =>
    intro registry h
    obtain ⟨key, text⟩ := e
    have hk : registry.Contains key = true := h (key, text) (List.mem_cons_self _ _)
    unfold selectedRun
    rw [register_cons, StringSet.Add_of_Contains _ _ hk]
    simp only [hk, Bool.not_true, Bool.false_eq_true, if_false]
    exact ih registry (fun entry he => h entry (List.mem_cons_of_mem _ he))

theorem selections_keys (lists : List (List Entry)) :
    ∀ registry : StringSet,
      ((selections registry lists).flatten.map Prod.fst).Nodup ∧
      ∀ key ∈ (selections registry lists).flatten.map Prod.fst, registry.Contains key = false := by
  induction lists with
  | nil => intro registry; exact ⟨List.nodup_nil, fun k hk => by simp [selections] at hk⟩
  | cons entries rest ih =>
    intro registry
    obtain ⟨h1, h2⟩ := ih (register registry entries)
    obtain ⟨h3, h4⟩ := selectedRun_keys entries registry
    unfold selections
    rw [selected_run, List.flatten_cons, List.map_append]
    constructor
    · rw [List.nodup_append]
      refine ⟨h3, h1, ?_⟩
      intro k hk1 hk2
      have a := h2 k hk2
      have b := (register_Contains entries registry k).mpr (Or.inr (h4 k hk1).2)
      rw [a] at b
      exact Bool.noConfusion b
    · intro k hk
      rcases List.mem_append.mp hk with hk | hk
      · exact (h4 k hk).1
      · have a := h2 k hk
        cases hc : registry.Contains k with
        | false => rfl
        | true =>
          have b := (register_Contains entries registry k).mpr (Or.inl hc)
          rw [a] at b
          exact Bool.noConfusion b

theorem utf8ByteSize_pos_iff (s : String) : s.utf8ByteSize > 0 ↔ s ≠ "" := by
  obtain ⟨cs⟩ := s
  have e : String.utf8ByteSize ⟨cs⟩ = String.utf8Len cs := rfl
  rw [e]
  cases cs with
  | nil => simp
  | cons c cs =>
    rw [String.utf8Len_cons]
    have := Char.utf8Size_pos c
    constructor
    · intro _ h
      exact absurd (congrArg String.data h) (List.cons_ne_nil _ _)
    · intro _
      omega

theorem WriteString_accepts (w : Sink) (s : String) (h : w.accepts) :
    w.WriteString s
      = ({ w with out := w.out ++ s, calls := w.calls + 1 }, (s.utf8ByteSize : Int), none) := by
  unfold Sink.WriteString
  rw [h w.calls]

theorem WriteString_cases (w : Sink) (s : String) :
    (w.WriteString s).1.fail = w.fail ∧
    (((w.WriteString s).1.out = w.out ++ s ∧ (w.WriteString s).2.2 = none) ∨
      ((w.WriteString s).1.out = w.out ∧ ∃ e, (w.WriteString s).2.2 = some e)) := by
  unfold Sink.WriteString
  cases w.fail w.calls with
  | none => exact ⟨rfl, Or.inl ⟨rfl, rfl⟩⟩
  | some e => exact ⟨rfl, Or.inr ⟨rfl, _, rfl⟩⟩

theorem writesText_append (a b : List String) :
    writesText (a ++ b) = writesText a ++ writesText b := by
  induction a with
  | nil => simp [writesText]
  | cons x rest ih => simp [writesText, ih, String.append_assoc]

theorem writeBlock_empty (opening closing : String) (w : Sink) (sb : String)
    (h : ¬ sb.utf8ByteSize > 0) : writeBlock opening closing w sb = (w, none) := by
  unfold writeBlock
  rw [if_neg h]

theorem writeBlock_accepts (opening closing : String) (w : Sink) (sb : String)
    (h : sb.utf8ByteSize > 0) (hw : w.accepts) :
    writeBlock opening closing w sb
      = ({ w with out := w.out ++ opening ++ sb ++ closing, calls := w.calls + 1 + 1 + 1 },
         none) := by
  unfold writeBlock
  rw [if_pos h, WriteString_accepts w opening hw]
  dsimp only
  rw [WriteString_accepts { out := w.out ++ opening, calls := w.calls + 1, fail := w.fail } sb hw]
  dsimp only
  rw [WriteString_accepts
    { out := w.out ++ opening ++ sb, calls := w.calls + 1 + 1, fail := w.fail } closing hw]

theorem writeBlock_written (opening closing : String) (w : Sink) (sb : String) :
    (writeBlock opening closing w sb).1.fail = w.fail ∧
    ∃ written : List String,
      written.Sublist (if sb.utf8ByteSize > 0 then [opening, sb, closing] else []) ∧
      (writeBlock opening closing w sb).1.out = w.out ++ writesText written ∧
      (w.accepts → written = (if sb.utf8ByteSize > 0 then [opening, sb, closing] else [])) := by
  by_cases h : sb.utf8ByteSize > 0
  · rw [if_pos h]
    unfold writeBlock
    rw [if_pos h]
    obtain ⟨f1, c1⟩ := WriteString_cases w opening
    rcases h1 : w.WriteString opening with ⟨w1, n1, _ | e1⟩
    · rw [h1] at f1 c1
      dsimp only at f1 c1 ⊢
      have o1 : w1.out = w.out ++ opening := by
        rcases c1 with c1 | ⟨_, e, he⟩
        · exact c1.1
        · exact Option.noConfusion he
      obtain ⟨f2, c2⟩ := WriteString_cases w1 sb
      rcases h2 : w1.WriteString sb with ⟨w2, n2, _ | e2⟩
      · rw [h2] at f2 c2
        dsimp only at f2 c2 ⊢
        have o2 : w2.out = w1.out ++ sb := by
          rcases c2 with c2 | ⟨_, e, he⟩
          · exact c2.1
          · exact Option.noConfusion he
        obtain ⟨f3, c3⟩ := WriteString_cases w2 closing
        rcases h3 : w2.WriteString closing with ⟨w3, n3, _ | e3⟩
        · rw [h3] at f3 c3
          dsimp only at f3 c3 ⊢
          have o3 : w3.out = w2.out ++ closing := by
            rcases c3 with c3 | ⟨_, e, he⟩
            · exact c3.1
            · exact Option.noConfusion he
          refine ⟨by rw [f3, f2, f1], [opening, sb, closing], List.Sublist.refl _, ?_,
            fun _ => rfl⟩
          rw [o3, o2, o1]
          simp [writesText, String.append_assoc]
        · rw [h3] at f3 c3
          dsimp only at f3 c3 ⊢
          have o3 : w3.out = w2.out := by
            rcases c3 with c3 | c3
            · exact absurd c3.2 (by simp)
            · exact c3.1
          refine ⟨by rw [f3, f2, f1], [opening, sb], by simp, ?_, fun hw => ?_⟩
          · rw [o3, o2, o1]
            simp [writesText, String.append_assoc]
          · have := WriteString_accepts w2 closing (fun k => by rw [f2, f1]; exact hw k)
            rw [h3] at this
            simp at this
      · rw [h2] at f2 c2
        dsimp only at f2 c2 ⊢
        have o2 : w2.out = w1.out := by
          rcases c2 with c2 | c2
          · exact absurd c2.2 (by simp)
          · exact c2.1
        refine ⟨by rw [f2, f1], [opening], by simp, ?_, fun hw => ?_⟩
        · rw [o2, o1]
          simp [writesText]
        · have := WriteString_accepts w1 sb (fun k => by rw [f1]; exact hw k)
          rw [h2] at this
          simp at this
    · rw [h1] at f1 c1
      dsimp only at f1 c1 ⊢
      have o1 : w1.out = w.out := by
        rcases c1 with c1 | c1
        · exact absurd c1.2 (by simp)
        · exact c1.1
      refine ⟨f1, [], by simp, ?_, fun hw => ?_⟩
      · rw [o1]
        simp [writesText]
      · have := WriteString_accepts w opening hw
        rw [h1] at this
        simp at this
  · rw [if_neg h, writeBlock_empty _ _ _ _ h]
    exact ⟨rfl, [], List.Sublist.refl _, by simp [writesText], fun _ => rfl⟩

theorem RenderCSS_call (heap : Heap) (ctx : Context) (w : Sink) (classes : List CSSClass)
    (rc : Nat) (hctx : ctx.Value .renderedClasses = some (.stringSet rc))
    (hrc : rc < heap.length) :
    RenderCSS heap ctx w classes
      = (heap.set rc (register (Heap.get heap rc) (classEntries classes)),
         writeBlock "<style type=\"text/css\">" "</style>" w
           (entriesText (selected (Heap.get heap rc) [] (classEntries classes)))) := by
  rw [RenderCSS_eq, RenderedCSSClassesFromContext_present heap ctx rc hctx]
  dsimp only
  rw [registerLoop_spec rc _ heap "" hrc, selected_run, String.empty_append]

theorem RenderScripts_call (heap : Heap) (ctx : Context) (w : Sink)
    (scripts : List ComponentScript) (rs : Nat)
    (hctx : ctx.Value .renderedScripts = some (.stringSet rs)) (hrs : rs < heap.length) :
    RenderScripts heap ctx w scripts
      = (heap.set rs (register (Heap.get heap rs) (scriptEntries scripts)),
         writeBlock "<script type=\"text/javascript\">" "</script>" w
           (entriesText (selected (Heap.get heap rs) [] (scriptEntries scripts)))) := by
  rw [RenderScripts_eq, RenderedScriptsFromContext_present heap ctx rs hctx]
  dsimp only
  rw [registerLoop_spec rs _ heap "" hrs, selected_run, String.empty_append]

theorem RenderCSS_calls_eq (rc : Nat) (calls : List (Context × List CSSClass)) :
    ∀ (heap : Heap) (w : Sink), rc < heap.length →
      (∀ call ∈ calls, call.1.Value .renderedClasses = some (.stringSet rc)) →
      RenderCSS.calls heap w calls
        = renderCalls "<style type=\"text/css\">" "</style>" rc heap w
            (calls.map (fun call => classEntries call.2)) := by
  induction calls with
  | nil => intro heap w _ _; rfl
  | cons call rest ih =>
    intro heap w hrc h
    obtain ⟨ctx, classes⟩ := call
    unfold RenderCSS.calls
    rw [RenderCSS_call heap ctx w classes rc (h _ (List.mem_cons_self _ _)) hrc]
    dsimp only
    rw [ih _ _ (by simpa using hrc) (fun c hc => h c (List.mem_cons_of_mem _ hc))]
    rfl

theorem RenderScripts_calls_eq (rs : Nat) (calls : List (Context × List ComponentScript)) :
    ∀ (heap : Heap) (w : Sink), rs < heap.length →
      (∀ call ∈ calls, call.1.Value .renderedScripts = some (.stringSet rs)) →
      RenderScripts.calls heap w calls
        = renderCalls "<script type=\"text/javascript\">" "</script>" rs heap w
            (calls.map (fun call => scriptEntries call.2)) := by
  induction calls with
  | nil => intro heap w _ _; rfl
  | cons call rest ih =>
    intro heap w hrs h
    obtain ⟨ctx, scripts⟩ := call
    unfold RenderScripts.calls
    rw [RenderScripts_call heap ctx w scripts rs (h _ (List.mem_cons_self _ _)) hrs]
    dsimp only
    rw [ih _ _ (by simpa using hrs) (fun c hc => h c (List.mem_cons_of_mem _ hc))]
    rfl

theorem renderCalls_written (opening closing : String) (rc : Nat) (lists : List (List Entry)) :
    ∀ (heap : Heap) (w : Sink), rc < heap.length →
      ∃ written : List String,
        written.Sublist (List.flatten
          ((selections (Heap.get heap rc) lists).map (blockWrites opening closing))) ∧
        (renderCalls opening closing rc heap w lists).2.out = w.out ++ writesText written ∧
        (w.accepts → written = List.flatten
          ((selections (Heap.get heap rc) lists).map (blockWrites opening closing))) := by
  induction lists with
  | nil =>
    intro heap w _
    exact ⟨[], List.Sublist.refl _, by simp [renderCalls, writesText], fun _ => rfl⟩
  | cons entries rest ih =>
    intro heap w hrc
    obtain ⟨hf, wr1, hs1, ho1, ha1⟩ := writeBlock_written opening closing w
      (entriesText (selected (Heap.get heap rc) [] entries))
    obtain ⟨wr2, hs2, ho2, ha2⟩ := ih (heap.set rc (register (Heap.get heap rc) entries))
      (writeBlock opening closing w (entriesText (selected (Heap.get heap rc) [] entries))).1
      (by simpa using hrc)
    rw [Heap.get_set heap rc _ hrc] at hs2 ha2
    unfold renderCalls selections
    rw [List.map_cons, List.flatten_cons]
    refine ⟨wr1 ++ wr2, List.Sublist.append hs1 hs2, ?_, fun hw => ?_⟩
    · rw [ho2, ho1, writesText_append, String.append_assoc]
    · rw [ha1 hw, ha2 (fun k => by rw [hf]; exact hw k)]
      rfl

theorem classEntries_filter (classes : List CSSClass) :
    classEntries (classes.filter CSSClass.isComponent) = classEntries classes := by
  induction classes with
  | nil => rfl
  | cons c rest ih =>
    cases c with
    | ComponentCSSClass ID Class =>
      rw [List.filter_cons_of_pos (by rfl)]
      show (ID, Class) :: classEntries (rest.filter CSSClass.isComponent)
        = (ID, Class) :: classEntries rest
      rw [ih]
    | ConstantCSSClass name =>
      rw [List.filter_cons_of_neg (by simp [CSSClass.isComponent])]
      exact ih
    | Other className =>
      rw [List.filter_cons_of_neg (by simp [CSSClass.isComponent])]
      exact ih

theorem Heap.get_set_ne (heap : Heap) (rc address : Nat) (x : StringSet) (h : address ≠ rc) :
    Heap.get (heap.set rc x) address = Heap.get heap address := by
  unfold Heap.get
  simp [List.getD_eq_getElem?_getD, List.getElem?_set_ne (Ne.symm h)]

theorem render_registered (opening closing : String) (heap : Heap) (w : Sink) (rc : Nat)
    (entries : List Entry) (hrc : rc < heap.length)
    (h : ∀ entry ∈ entries, (Heap.get heap rc).Contains entry.1 = true) :
    (heap.set rc (register (Heap.get heap rc) entries),
      writeBlock opening closing w (entriesText (selected (Heap.get heap rc) [] entries)))
      = (heap, w, none) := by
  obtain ⟨h1, h2⟩ := selectedRun_nil entries (Heap.get heap rc) h
  rw [selected_run, h1, h2, Heap.set_get heap rc hrc]
  rfl

/-- C22: for a context that carries the registry of CSS classes at the address
`rc`, and a sink that accepts all writes, `RenderCSS` returns no error. Let `C`
be the CSS texts, one after the other in the order of the list, of the
component classes whose ID is not in the registry and has not occurred earlier
in the list. When `C` is empty, as it is when the registry contains the ID of
every component class of the list, the sink is left as it was; otherwise the
sink receives the opening tag of the style element, `C` and the closing tag.
After the call the registry contains what it contained before and the IDs of
all component classes of the list, and the other sets are as they were. The
classes that are not component classes count for nothing: the call does what
it does on the list without them. -/
theorem RenderCSS_spec (heap : Heap) (ctx : Context) (w : Sink) (classes : List CSSClass)
    (rc : Nat) (hctx : ctx.Value .renderedClasses = some (.stringSet rc))
    (hrc : rc < heap.length) (hw : w.accepts) :
    (RenderCSS heap ctx w classes).2.2 = none ∧
    (entriesText (selected (Heap.get heap rc) [] (classEntries classes)) = "" →
      (RenderCSS heap ctx w classes).2.1 = w) ∧
    (entriesText (selected (Heap.get heap rc) [] (classEntries classes)) ≠ "" →
      (RenderCSS heap ctx w classes).2.1.out
        = w.out ++ "<style type=\"text/css\">"
          ++ entriesText (selected (Heap.get heap rc) [] (classEntries classes))
          ++ "</style>") ∧
    ((∀ entry ∈ classEntries classes, (Heap.get heap rc).Contains entry.1 = true) →
      selected (Heap.get heap rc) [] (classEntries classes) = []) ∧
    (∀ s, (Heap.get (RenderCSS heap ctx w classes).1 rc).Contains s = true
      ↔ (Heap.get heap rc).Contains s = true ∨ s ∈ (classEntries classes).map Prod.fst) ∧
    (∀ address, address ≠ rc →
      Heap.get (RenderCSS heap ctx w classes).1 address = Heap.get heap address) ∧
    RenderCSS heap ctx w classes = RenderCSS heap ctx w (classes.filter CSSClass.isComponent) := by
  have key := RenderCSS_call heap ctx w classes rc hctx hrc
  have hfilter : RenderCSS heap ctx w classes
      = RenderCSS heap ctx w (classes.filter CSSClass.isComponent) := by
    rw [RenderCSS_eq, RenderCSS_eq, classEntries_filter]
  refine ⟨?_, ?_, ?_, ?_, ?_, ?_, hfilter⟩
  · rw [key]
    by_cases hp : (entriesText
        (selected (Heap.get heap rc) [] (classEntries classes))).utf8ByteSize > 0
    · rw [writeBlock_accepts _ _ _ _ hp hw]
    · rw [writeBlock_empty _ _ _ _ hp]
  · intro he
    rw [key, writeBlock_empty _ _ _ _ (fun hp => (utf8ByteSize_pos_iff _).mp hp he)]
  · intro he
    rw [key, writeBlock_accepts _ _ _ _ ((utf8ByteSize_pos_iff _).mpr he) hw]
  · intro h
    rw [selected_run]
    exact (selectedRun_nil _ _ h).1
  · intro s
    rw [key]
    show (Heap.get (heap.set rc _) rc).Contains s = true ↔ _
    rw [Heap.get_set heap rc _ hrc, register_Contains]
  · intro address ha
    rw [key]
    exact Heap.get_set_ne heap rc address _ ha

/-- C22 at a registry that holds `a` and the classes `a`, `b`, a constant
class and `b` again, on the empty sink that accepts all writes. -/
theorem RenderCSS_spec_witness :
    exampleContext.Value .renderedClasses = some (.stringSet 0) ∧
    0 < exampleHeap.length ∧ acceptingSink.accepts ∧
    (RenderCSS exampleHeap exampleContext acceptingSink exampleClasses).2.2 = none :=
  ⟨by decide, by decide, fun _ => rfl,
    (RenderCSS_spec exampleHeap exampleContext acceptingSink exampleClasses 0 (by decide)
      (by decide) (fun _ => rfl)).1⟩

/-- C23: for calls of `RenderCSS`, one after the other on one sink with
contexts that carry one registry of CSS classes: the text the sink receives is
the texts of some of the writes of the calls (all of them when the sink accepts
all writes), in their order, where each call writes the opening tag, the CSS of
its selection and the closing tag, or nothing when that CSS is empty; the
selection of a call is the component classes whose ID is not in the registry
as the calls before left it and has not occurred earlier in the list; over the
whole sequence no ID is selected twice. A call all of whose component classes
are registered leaves the registry and the sink as they are. The same holds of
calls of `RenderScripts` with one registry of scripts, for the names and the
functions of the scripts. -/
theorem render_once (heap : Heap) (w : Sink) (rc rs : Nat)
    (cssCalls : List (Context × List CSSClass))
    (scriptCalls : List (Context × List ComponentScript))
    (hrc : rc < heap.length) (hrs : rs < heap.length)
    (hcss : ∀ call ∈ cssCalls, call.1.Value .renderedClasses = some (.stringSet rc))
    (hscripts : ∀ call ∈ scriptCalls, call.1.Value .renderedScripts = some (.stringSet rs)) :
    (∃ written : List String,
      written.Sublist (List.flatten
        ((selections (Heap.get heap rc) (cssCalls.map (fun call => classEntries call.2))).map
          (blockWrites "<style type=\"text/css\">" "</style>"))) ∧
      (RenderCSS.calls heap w cssCalls).2.out = w.out ++ writesText written ∧
      (w.accepts → written = List.flatten
        ((selections (Heap.get heap rc) (cssCalls.map (fun call => classEntries call.2))).map
          (blockWrites "<style type=\"text/css\">" "</style>")))) ∧
    ((selections (Heap.get heap rc)
      (cssCalls.map (fun call => classEntries call.2))).flatten.map Prod.fst).Nodup ∧
    (∀ (heap1 : Heap) (ctx : Context) (w1 : Sink) (classes : List CSSClass),
      ctx.Value .renderedClasses = some (.stringSet rc) → rc < heap1.length →
      (∀ entry ∈ classEntries classes, (Heap.get heap1 rc).Contains entry.1 = true) →
      RenderCSS heap1 ctx w1 classes = (heap1, w1, none)) ∧
    (∃ written : List String,
      written.Sublist (List.flatten
        ((selections (Heap.get heap rs) (scriptCalls.map (fun call => scriptEntries call.2))).map
          (blockWrites "<script type=\"text/javascript\">" "</script>"))) ∧
      (RenderScripts.calls heap w scriptCalls).2.out = w.out ++ writesText written ∧
      (w.accepts → written = List.flatten
        ((selections (Heap.get heap rs) (scriptCalls.map (fun call => scriptEntries call.2))).map
          (blockWrites "<script type=\"text/javascript\">" "</script>")))) ∧
    ((selections (Heap.get heap rs)
      (scriptCalls.map (fun call => scriptEntries call.2))).flatten.map Prod.fst).Nodup ∧
    (∀ (heap1 : Heap) (ctx : Context) (w1 : Sink) (scripts : List ComponentScript),
      ctx.Value .renderedScripts = some (.stringSet rs) → rs < heap1.length →
      (∀ entry ∈ scriptEntries scripts, (Heap.get heap1 rs).Contains entry.1 = true) →
      RenderScripts heap1 ctx w1 scripts = (heap1, w1, none)) := by
  refine ⟨?_, (selections_keys _ _).1, ?_, ?_, (selections_keys _ _).1, ?_⟩
  · rw [RenderCSS_calls_eq rc cssCalls heap w hrc hcss]
    exact renderCalls_written _ _ rc _ heap w hrc
  · intro heap1 ctx w1 classes hctx h1 h
    rw [RenderCSS_call heap1 ctx w1 classes rc hctx h1]
    exact render_registered _ _ heap1 w1 rc _ h1 h
  · rw [RenderScripts_calls_eq rs scriptCalls heap w hrs hscripts]
    exact renderCalls_written _ _ rs _ heap w hrs
  · intro heap1 ctx w1 scripts hctx h1 h
    rw [RenderScripts_call heap1 ctx w1 scripts rs hctx h1]
    exact render_registered _ _ heap1 w1 rs _ h1 h

/-- C23 at two calls of `RenderCSS` with the classes of the example and two
calls of `RenderScripts` with the scripts of the example. -/
theorem render_once_witness :
    0 < exampleHeap.length ∧ 1 < exampleHeap.length ∧
    (∀ call ∈ [(exampleContext, exampleClasses), (exampleContext, exampleClasses)],
      call.1.Value .renderedClasses = some (.stringSet 0)) ∧
    (∀ call ∈ [(exampleContext, exampleScripts), (exampleContext, exampleScripts)],
      call.1.Value .renderedScripts = some (.stringSet 1)) ∧
    ((selections (Heap.get exampleHeap 0)
      ([(exampleContext, exampleClasses), (exampleContext, exampleClasses)].map
        (fun call => classEntries call.2))).flatten.map Prod.fst).Nodup ∧
    ((selections (Heap.get exampleHeap 1)
      ([(exampleContext, exampleScripts), (exampleContext, exampleScripts)].map
        (fun call => scriptEntries call.2))).flatten.map Prod.fst).Nodup :=
  have h := render_once exampleHeap acceptingSink 0 1
    [(exampleContext, exampleClasses), (exampleContext, exampleClasses)]
    [(exampleContext, exampleScripts), (exampleContext, exampleScripts)]
    (by decide) (by decide) (by decide) (by decide)
  ⟨by decide, by decide, by decide, by decide, h.2.1, h.2.2.2.2.1⟩

/-! ## The call of a script and the names of CSS classes -/

theorem SafeScript_loop_eq {P : Type} (jsonMarshal : P → Option String) (params : List P) :
    SafeScript.loop jsonMarshal params
      = params.map (fun p => EscapeString ((jsonMarshal p).getD "")) := by
  induction params with
  | nil => rfl
  | cons p rest ih =>
    show EscapeString ((jsonMarshal p).getD "") :: SafeScript.loop jsonMarshal rest = _
    rw [ih]
    rfl

/-- C25: `SafeScript(f, p1, ..., pn)` is `f`, an opening parenthesis, the texts
`EscapeString(JSON(pi))` joined by commas, and a closing parenthesis, where
`JSON(p)` is the text that `json.Marshal` returns for `p`, empty when it
returns an error. Without parameters it is `f()`. -/
theorem SafeScript_spec {P : Type} (jsonMarshal : P → Option String) (functionName : String)
    (params : List P) :
    SafeScript jsonMarshal functionName params
      = functionName ++ "("
        ++ strings.Join (params.map (fun p => EscapeString ((jsonMarshal p).getD ""))) ","
        ++ ")" ∧
    SafeScript jsonMarshal functionName [] = functionName ++ "()" := by
  constructor
  · unfold SafeScript
    rw [SafeScript_loop_eq]
    simp only [String.empty_append]
    rfl
  · unfold SafeScript
    apply String.ext
    simp [SafeScript.loop, strings.Join, String.singleton, List.intercalate]

/-- C27: `Class` returns the fallback class name for `safe-name`, a name of
letters with a hyphen in it, and for `btn1x`, a name of letters and digits;
it returns the name itself for `safe-NAME` and for `a` followed by a
backtick. The second character class of the expression holds the hyphen and
the capital letters, and of the small letters only `a` and `z`. -/
theorem Class_hyphen :
    Class "safe-name" = .ConstantCSSClass "--templ-css-class-safe-name" ∧
    Class "btn1x" = .ConstantCSSClass "--templ-css-class-safe-name" ∧
    Class "safe-NAME" = .ConstantCSSClass "safe-NAME" ∧
    Class "safe" = .ConstantCSSClass "safe" ∧
    Class "a`" = .ConstantCSSClass "a`" := by
  decide

/-! ## The handler of requests, the idempotent sanitizer, registering before writing -/

/-- C31: for the handler of a component with the status 201 and the content
type `text/css`, `ServeHTTP` sends the status code before it adds the header:
the response carries the status 201 and no `Content-Type` header, and the
header is added to the header map only after that. With no status set the
header is sent, with the status 200 of the first write. When the component
fails and there is no error handler, the status sent stays 201, not 500, and
the body is the message of the generic error. For every status other than 0
and every content type, on a response writer that has sent nothing, the
headers sent are those that were in the header map before the call. -/
theorem ServeHTTP_status_before_header :
    (ComponentHandler.ServeHTTP (Handler hiComponent [WithStatus 201, WithContentType "text/css"])
        newResponseWriter ⟨.background⟩)
      = { header := [("Content-Type", "text/css")], sent := some (201, []), body := "hi" } ∧
    (ComponentHandler.ServeHTTP (Handler hiComponent [WithContentType "text/css"])
        newResponseWriter ⟨.background⟩)
      = { header := [("Content-Type", "text/css")],
          sent := some (200, [("Content-Type", "text/css")]), body := "hi" } ∧
    (ComponentHandler.ServeHTTP
        (Handler failingComponent [WithStatus 201, WithContentType "text/css"])
        newResponseWriter ⟨.background⟩)
      = { header := [("Content-Type", "text/plain; charset=utf-8"),
            ("X-Content-Type-Options", "nosniff")],
          sent := some (201, []), body := "templ: failed to render template\n" } ∧
    ∀ (status : Int) (contentType : String) (w : ResponseWriter) (r : Request),
      status ≠ 0 → w.sent = none →
      (ComponentHandler.ServeHTTP
          (Handler NopComponent [WithStatus status, WithContentType contentType]) w r)
        = { header := w.header ++ [("Content-Type", contentType)],
            sent := some (status, w.header), body := w.body } := by
  refine ⟨by decide, by decide, by decide, ?_⟩
  intro status contentType w r hs hw
  show (match NopComponent.Render r.Context
      ((if status ≠ 0 then w.WriteHeader status else w).HeaderAdd "Content-Type" contentType)
    with
    | (w, some err) => http.Error w componentHandlerErrorMessage http.StatusInternalServerError
    | (w, none) => w) = _
  rw [if_pos hs]
  show (w.WriteHeader status).HeaderAdd "Content-Type" contentType = _
  unfold ResponseWriter.WriteHeader
  rw [hw]
  rfl

/-- C32: `URL` is idempotent, and it maps the fallback to itself. -/
theorem URL_idempotent (s : String) :
    URL (URL s) = URL s ∧ URL FailedSanitizationURL = FailedSanitizationURL := by
  have hf : URL FailedSanitizationURL = FailedSanitizationURL := by
    rw [URL_eq, if_pos rejectedScheme_failed]
  refine ⟨?_, hf⟩
  by_cases hr : rejectedScheme s
  · have e : URL s = FailedSanitizationURL := by rw [URL_eq, if_pos hr]
    rw [e, hf]
  · have e : URL s = s := by rw [URL_eq, if_neg hr]
    rw [e, e]

/-- C33: for a context that carries the registry of CSS classes at the address
`rc`, and any sink, whether its writes fail or not: after `RenderCSS` the
registry contains what it contained before and the ID of every component class
of the list, and the other sets are as they were; and a later call with these
classes on that registry, on any sink, writes nothing, leaves the registry as
it is and returns no error. The same holds of `RenderScripts`, the registry of
scripts at the address `rs` and the names of the scripts. -/
theorem Render_registers_first (heap : Heap) (ctx : Context) (w : Sink)
    (classes : List CSSClass) (scripts : List ComponentScript) (rc rs : Nat)
    (hc : ctx.Value .renderedClasses = some (.stringSet rc)) (hrc : rc < heap.length)
    (hs : ctx.Value .renderedScripts = some (.stringSet rs)) (hrs : rs < heap.length) :
    (∀ s, (Heap.get (RenderCSS heap ctx w classes).1 rc).Contains s = true
      ↔ (Heap.get heap rc).Contains s = true ∨ s ∈ (classEntries classes).map Prod.fst) ∧
    (∀ address, address ≠ rc →
      Heap.get (RenderCSS heap ctx w classes).1 address = Heap.get heap address) ∧
    (∀ (ctx2 : Context) (w2 : Sink), ctx2.Value .renderedClasses = some (.stringSet rc) →
      RenderCSS (RenderCSS heap ctx w classes).1 ctx2 w2 classes
        = ((RenderCSS heap ctx w classes).1, w2, none)) ∧
    (∀ s, (Heap.get (RenderScripts heap ctx w scripts).1 rs).Contains s = true
      ↔ (Heap.get heap rs).Contains s = true ∨ s ∈ (scriptEntries scripts).map Prod.fst) ∧
    (∀ address, address ≠ rs →
      Heap.get (RenderScripts heap ctx w scripts).1 address = Heap.get heap address) ∧
    (∀ (ctx2 : Context) (w2 : Sink), ctx2.Value .renderedScripts = some (.stringSet rs) →
      RenderScripts (RenderScripts heap ctx w scripts).1 ctx2 w2 scripts
        = ((RenderScripts heap ctx w scripts).1, w2, none)) := by
  have k1 := RenderCSS_call heap ctx w classes rc hc hrc
  have k2 := RenderScripts_call heap ctx w scripts rs hs hrs
  have c1 : ∀ s, (Heap.get (RenderCSS heap ctx w classes).1 rc).Contains s = true
      ↔ (Heap.get heap rc).Contains s = true ∨ s ∈ (classEntries classes).map Prod.fst := by
    intro s
    rw [k1]
    show (Heap.get (heap.set rc _) rc).Contains s = true ↔ _
    rw [Heap.get_set heap rc _ hrc, register_Contains]
  have c2 : ∀ s, (Heap.get (RenderScripts heap ctx w scripts).1 rs).Contains s = true
      ↔ (Heap.get heap rs).Contains s = true ∨ s ∈ (scriptEntries scripts).map Prod.fst := by
    intro s
    rw [k2]
    show (Heap.get (heap.set rs _) rs).Contains s = true ↔ _
    rw [Heap.get_set heap rs _ hrs, register_Contains]
  have l1 : rc < (RenderCSS heap ctx w classes).1.length := by
    rw [k1]
    simpa using hrc
  have l2 : rs < (RenderScripts heap ctx w scripts).1.length := by
    rw [k2]
    simpa using hrs
  refine ⟨c1, ?_, ?_, c2, ?_, ?_⟩
  · intro address ha
    rw [k1]
    exact Heap.get_set_ne heap rc address _ ha
  · intro ctx2 w2 h2
    rw [RenderCSS_call _ ctx2 w2 classes rc h2 l1]
    refine render_registered _ _ _ w2 rc _ l1 (fun entry he => ?_)
    exact (c1 entry.1).mpr (Or.inr (List.mem_map_of_mem _ he))
  · intro address ha
    rw [k2]
    exact Heap.get_set_ne heap rs address _ ha
  · intro ctx2 w2 h2
    rw [RenderScripts_call _ ctx2 w2 scripts rs h2 l2]
    refine render_registered _ _ _ w2 rs _ l2 (fun entry he => ?_)
    exact (c2 entry.1).mpr (Or.inr (List.mem_map_of_mem _ he))

/-- C33 at the classes and the scripts of the example, on a sink whose first
write fails: both calls return the error of the sink, and the registries
contain `b` and `f`. -/
theorem Render_registers_first_witness :
    exampleContext.Value .renderedClasses = some (.stringSet 0) ∧ 0 < exampleHeap.length ∧
    exampleContext.Value .renderedScripts = some (.stringSet 1) ∧ 1 < exampleHeap.length ∧
    (RenderCSS exampleHeap exampleContext refusingSink exampleClasses).2.2
      = some (.sink "short write") ∧
    (RenderScripts exampleHeap exampleContext refusingSink exampleScripts).2.2
      = some (.sink "short write") ∧
    ((Heap.get (RenderCSS exampleHeap exampleContext refusingSink exampleClasses).1 0).Contains "b"
        = true
      ↔ (Heap.get exampleHeap 0).Contains "b" = true
        ∨ "b" ∈ (classEntries exampleClasses).map Prod.fst) ∧
    ((Heap.get (RenderScripts exampleHeap exampleContext refusingSink exampleScripts).1
        1).Contains "f" = true
      ↔ (Heap.get exampleHeap 1).Contains "f" = true
        ∨ "f" ∈ (scriptEntries exampleScripts).map Prod.fst) :=
  have h := Render_registers_first exampleHeap exampleContext refusingSink exampleClasses
    exampleScripts 0 1 (by decide) (by decide) (by decide) (by decide)
  ⟨by decide, by decide, by decide, by decide, by decide, by decide, h.1 "b", h.2.2.2.1 "f"⟩

/-- C21: for the script `f` whose body is the line `alert(1) // done` between
two line breaks, `writeScript` writes into the field `Function` the text
`function __templ_f_0000()` followed by the body without the line break at its
end and the closing brace, all on one line: the closing brace is inside the
line comment. The function with the verbatim body has the closing brace on a
line of its own. -/
theorem writeScript_closing_brace_in_comment :
    (generator.writeScript exampleEnv commentScript exampleGenerator).1 = none ∧
    (generator.writeScript exampleEnv commentScript exampleGenerator).2.w.w.out
      = "func f() templ.ComponentScript \x7b\n"
        ++ "\treturn templ.ComponentScript\x7b\n"
        ++ "\t\tName: `__templ_f_0000`,\n"
        ++ "\t\tFunction: `function __templ_f_0000()\x7balert(1) // done\x7d`,\n"
        ++ "\t\tCall: templ.SafeScript(`__templ_f_0000`, ),\n"
        ++ "\t\x7d\n"
        ++ "\x7d\n\n" ∧
    createGoString ("function " ++ functionName exampleEnv "f" "\n\talert(1) // done\n" ++ "("
        ++ stripTypes "" ++ ")\x7b" ++ "\n\talert(1) // done\n" ++ "\x7d")
      = "`function __templ_f_0000()\x7b\n\talert(1) // done\n\x7d`" := by
  decide!

/-- C15, the claim as stated fails: for the element `<div ? class={ x }></div>`
whose first attribute is of unknown kind, the generator writes the declaration
of `var_1`, the calls of `templ.RenderCSS` and `templ.RenderScripts` and the
text `<div` of the opening tag, and returns the error of the unknown
attribute: the value `templ.EscapeString(var_1.String())` of the attribute is
not written. -/
theorem writeElement_class_after_unknown_attribute :
    (generator.writeElement 0 unknownThenClassElement exampleGenerator).1.2
      = some (.unknownAttributeType "parser.Comment") ∧
    (generator.writeElement 0 unknownThenClassElement exampleGenerator).2.w.w.out
      = "var var_1 templ.CSSClasses = x\n"
        ++ "err = templ.RenderCSS(ctx, w, var_1)\n"
        ++ "if err != nil \x7b\n"
        ++ "\treturn err\n"
        ++ "\x7d\n"
        ++ "err = templ.RenderScripts(ctx, w, )\n"
        ++ "if err != nil \x7b\n"
        ++ "\treturn err\n"
        ++ "\x7d\n"
        ++ "_, err = w.WriteString(\"<div\")\n"
        ++ "if err != nil \x7b\n"
        ++ "\treturn err\n"
        ++ "\x7d\n" := by
  decide!

/-! ## The AST that the pass leaves behind -/

theorem Emits.branch_eq {tf : TemplateFile} {α : Type} {v1 v2 : α} {i j k : Int} {t u : String}
    {e d : List Expression} {c : Prop} [Decidable c] {a b : Gen α}
    (ha : c → Emits tf a (fun x => x = v1) i t e j)
    (hb : ¬ c → Emits tf b (fun x => x = v2) i u d k) :
    Emits tf (if c then a else b) (fun x => x = if c then v1 else v2) i (if c then t else u)
      (if c then e else d) (if c then j else k) := by
  by_cases h : c
  · simp only [h, if_true]; exact ha h
  · simp only [h, if_false]; exact hb h

theorem Emits.fst_then {tf : TemplateFile} {α β : Type} {W : β → Prop} {i j k : Int}
    {t u : String} {e d : List Expression} {m : Gen (α × error)} {f : α × error → Gen β}
    {a : α} (h1 : Emits tf m (fun x => x.1 = a) i t e j)
    (h2 : ∀ err, Emits tf (f (a, err)) W j u d k) :
    Emits tf (m >>= f) W i (t ++ u) (e ++ d) k := by
  refine Emits.seq h1 ?_
  rintro ⟨a', err⟩ h
  have h' : a' = a := h
  subst h'
  exact h2 err

theorem lifted_Element (i : Int) (n : Element) :
    Node.lifted i (.Element n) =
      if n.Void then .Element n
      else .Element (standardElementLifted i n (fun j => Node.listLifted j n.Children)) := rfl

theorem lifted_ForExpression (i : Int) (n : ForExpression) :
    Node.lifted i (.ForExpression n)
      = .ForExpression { n with Children := Node.listLifted i n.Children } := rfl

theorem lifted_IfExpression (i : Int) (n : IfExpression) :
    Node.lifted i (.IfExpression n)
      = .IfExpression { n with
          Then := Node.listLifted i n.Then,
          Else := Node.listLifted (i + Node.listNames n.Then) n.Else } := rfl

theorem lifted_SwitchExpression (i : Int) (n : SwitchExpression) :
    Node.lifted i (.SwitchExpression n)
      = .SwitchExpression { n with
          Cases := Node.caseLifted i n.Cases,
          Default := Node.listLifted (i + Node.caseNames n.Cases) n.Default } := rfl

theorem listLifted_nil (i : Int) : Node.listLifted i [] = [] := rfl

theorem listLifted_cons (i : Int) (node : Node) (rest : List Node) :
    Node.listLifted i (node :: rest)
      = Node.lifted i node :: Node.listLifted (i + Node.names node) rest := rfl

theorem caseLifted_nil (i : Int) : Node.caseLifted i [] = [] := rfl

theorem caseLifted_cons (i : Int) (c : CaseExpression) (rest : List CaseExpression) :
    Node.caseLifted i (c :: rest)
      = { c with Children := Node.listLifted i c.Children }
          :: Node.caseLifted (i + Node.listNames c.Children) rest := rfl

theorem length_eq_nil_of_not_pos {α : Type} (xs : List α) (h : ¬ xs.length > 0) : xs = [] := by
  cases xs with
  | nil => rfl
  | cons a b => simp at h

set_option maxRecDepth 16384 in
theorem writeStandardElement_lifts (tf : TemplateFile) (indentLevel : Nat) (n : Element)
    (writeChildren : Gen (List Node × error))
    (children : Int → List Piece) (nodes : Int → List Node) (names : Int)
    (hc : ∀ j, Emits tf writeChildren (fun x => x.1 = nodes j) j (render (children j))
      (sourcesOf (children j)) (j + names)) (i : Int) :
    Emits tf (generator.writeStandardElement indentLevel n writeChildren)
      (fun x => x.1 = standardElementLifted i n nodes) i
      (render (standardElementPieces indentLevel i n children))
      (sourcesOf (standardElementPieces indentLevel i n children))
      (i + standardElementNames n names) := by
  apply Emits.relax
  · unfold generator.writeStandardElement
    with_reducible repeat (first
      | assumption
      | exact Emits.ret _ rfl
      | exact Emits.ret _ trivial
      | apply Emits.after_pure
      | apply Emits.skip
      | apply Emits.write_then
      | apply Emits.writeIndent_then
      | apply Emits.add_then
      | apply Emits.var_then
      | apply Emits.tf_then
      | apply Emits.val_then (writeErrorHandler_emits _ _)
      | apply Emits.val_then (writeElementCSS_emits _ _ _)
      | apply Emits.val_then (writeElementScript_emits _ _ _)
      | apply Emits.val_then (writeElementAttributes_emits _ _ _)
      | apply Emits.fst_then (hc _)
      | apply Emits.branch_eq
      | apply Emits.val_then (by assumption)
      | apply Emits.snd_then (by assumption)
      | apply Emits.any_then (by assumption)
      | apply Emits.branch
      | intro _
      | dsimp only)
  · intro a ha
    subst ha
    simp only [standardElementLifted, attributeError_lift, attributeNames_lift]
    split_ifs <;> rfl
  · simp only [standardElementPieces, attributeError_lift, attributeNames_lift,
      scriptPieces, handlerExpressions_lift]
    split_ifs <;> simp only [render_append, render_cons, render_nil, Piece.text, List.cons_append,
      List.nil_append, List.append_nil, List.append_assoc, String.append_assoc, String.append_empty,
      String.empty_append]
  · simp only [standardElementPieces, attributeError_lift, attributeNames_lift,
      scriptPieces, handlerExpressions_lift]
    split_ifs <;> simp only [sourcesOf_append, sourcesOf_cons, sourcesOf_nil, Piece.sources,
      List.cons_append, List.nil_append, List.append_nil, List.append_assoc]
  · simp only [standardElementNames, attributeError_lift, attributeNames_lift]
    split_ifs <;> omega

set_option maxHeartbeats 1000000 in
mutual

theorem writeNode_lifts (tf : TemplateFile) :
    ∀ (node : Node) (indentLevel : Nat) (i : Int),
      Emits tf (generator.writeNode indentLevel node) (fun x => x = (Node.lifted i node, none)) i
        (render (Node.pieces indentLevel i node)) (sourcesOf (Node.pieces indentLevel i node))
        (i + Node.names node)
  | .DocType n, indentLevel, i => by
    rw [writeNode_DocType]
    apply Emits.relax
    · skip
      with_reducible repeat (first
        | assumption
        | exact Emits.ret _ rfl
        | exact Emits.ret _ trivial
        | apply Emits.after_pure
        | apply Emits.skip
        | apply Emits.write_then
        | apply Emits.writeIndent_then
        | apply Emits.add_then
        | apply Emits.var_then
        | apply Emits.tf_then
        | apply Emits.val_then (writeErrorHandler_emits _ _)
        | apply Emits.any_then (writeDocType_emits _ _ _)
        | apply Emits.val_then (by assumption)
        | apply Emits.snd_then (by assumption)
        | apply Emits.any_then (by assumption)
        | apply Emits.branch
        | intro _
        | dsimp only)
    · intro a ha
      subst ha
      rfl
    · simp only [pieces_DocType, render_append, render_cons, render_nil, Piece.text,
      List.cons_append, List.nil_append, List.append_nil, List.append_assoc, String.append_assoc,
      String.append_empty, String.empty_append]
    · simp only [pieces_DocType, sourcesOf_append, sourcesOf_cons, sourcesOf_nil, Piece.sources,
      List.cons_append, List.nil_append, List.append_nil, List.append_assoc]
    · simp only [names_DocType]; omega
  | .Element n, indentLevel, i => by
    have h1 := writeElement_lifts tf n indentLevel
    rw [writeNode_Element]
    apply Emits.relax
    · skip
      with_reducible repeat (first
        | assumption
        | exact Emits.ret _ rfl
        | exact Emits.ret _ trivial
        | apply Emits.after_pure
        | apply Emits.skip
        | apply Emits.write_then
        | apply Emits.writeIndent_then
        | apply Emits.add_then
        | apply Emits.var_then
        | apply Emits.tf_then
        | apply Emits.val_then (writeErrorHandler_emits _ _)
        | apply Emits.fst_then (h1 _)
        | apply Emits.val_then (by assumption)
        | apply Emits.snd_then (by assumption)
        | apply Emits.any_then (by assumption)
        | apply Emits.branch
        | intro _
        | dsimp only)
    · intro a ha
      subst ha
      rw [lifted_Element]
      split_ifs <;> rfl
    · simp only [render_append, render_cons, render_nil, Piece.text, List.cons_append,
      List.nil_append, List.append_nil, List.append_assoc, String.append_assoc, String.append_empty,
      String.empty_append]
    · simp only [sourcesOf_append, sourcesOf_cons, sourcesOf_nil, Piece.sources, List.cons_append,
      List.nil_append, List.append_nil, List.append_assoc]
    · omega
  | .ForExpression n, indentLevel, i => by
    have h1 := writeForExpression_lifts tf n indentLevel
    rw [writeNode_ForExpression]
    apply Emits.relax
    · skip
      with_reducible repeat (first
        | assumption
        | exact Emits.ret _ rfl
        | exact Emits.ret _ trivial
        | apply Emits.after_pure
        | apply Emits.skip
        | apply Emits.write_then
        | apply Emits.writeIndent_then
        | apply Emits.add_then
        | apply Emits.var_then
        | apply Emits.tf_then
        | apply Emits.val_then (writeErrorHandler_emits _ _)
        | apply Emits.fst_then (h1 _)
        | apply Emits.val_then (by assumption)
        | apply Emits.snd_then (by assumption)
        | apply Emits.any_then (by assumption)
        | apply Emits.branch
        | intro _
        | dsimp only)
    · intro a ha
      subst ha
      rfl
    · simp only [render_append, render_cons, render_nil, Piece.text, List.cons_append,
      List.nil_append, List.append_nil, List.append_assoc, String.append_assoc, String.append_empty,
      String.empty_append]
    · simp only [sourcesOf_append, sourcesOf_cons, sourcesOf_nil, Piece.sources, List.cons_append,
      List.nil_append, List.append_nil, List.append_assoc]
    · omega
  | .CallTemplateExpression n, indentLevel, i => by
    rw [writeNode_CallTemplateExpression]
    apply Emits.relax
    · skip
      with_reducible repeat (first
        | assumption
        | exact Emits.ret _ rfl
        | exact Emits.ret _ trivial
        | apply Emits.after_pure
        | apply Emits.skip
        | apply Emits.write_then
        | apply Emits.writeIndent_then
        | apply Emits.add_then
        | apply Emits.var_then
        | apply Emits.tf_then
        | apply Emits.val_then (writeErrorHandler_emits _ _)
        | apply Emits.any_then (writeCallTemplateExpression_emits _ _ _)
        | apply Emits.val_then (by assumption)
        | apply Emits.snd_then (by assumption)
        | apply Emits.any_then (by assumption)
        | apply Emits.branch
        | intro _
        | dsimp only)
    · intro a ha
      subst ha
      rfl
    · simp only [pieces_CallTemplateExpression, render_append, render_cons, render_nil, Piece.text,
      List.cons_append, List.nil_append, List.append_nil, List.append_assoc, String.append_assoc,
      String.append_empty, String.empty_append]
    · simp only [pieces_CallTemplateExpression, sourcesOf_append, sourcesOf_cons, sourcesOf_nil,
      Piece.sources, List.cons_append, List.nil_append, List.append_nil, List.append_assoc]
    · simp only [names_CallTemplateExpression]; omega
  | .IfExpression n, indentLevel, i => by
    have h1 := writeIfExpression_lifts tf n indentLevel
    rw [writeNode_IfExpression]
    apply Emits.relax
    · skip
      with_reducible repeat (first
        | assumption
        | exact Emits.ret _ rfl
        | exact Emits.ret _ trivial
        | apply Emits.after_pure
        | apply Emits.skip
        | apply Emits.write_then
        | apply Emits.writeIndent_then
        | apply Emits.add_then
        | apply Emits.var_then
        | apply Emits.tf_then
        | apply Emits.val_then (writeErrorHandler_emits _ _)
        | apply Emits.fst_then (h1 _)
        | apply Emits.val_then (by assumption)
        | apply Emits.snd_then (by assumption)
        | apply Emits.any_then (by assumption)
        | apply Emits.branch
        | intro _
        | dsimp only)
    · intro a ha
      subst ha
      rfl
    · simp only [render_append, render_cons, render_nil, Piece.text, List.cons_append,
      List.nil_append, List.append_nil, List.append_assoc, String.append_assoc, String.append_empty,
      String.empty_append]
    · simp only [sourcesOf_append, sourcesOf_cons, sourcesOf_nil, Piece.sources, List.cons_append,
      List.nil_append, List.append_nil, List.append_assoc]
    · omega
  | .SwitchExpression n, indentLevel, i => by
    have h1 := writeSwitchExpression_lifts tf n indentLevel
    rw [writeNode_SwitchExpression]
    apply Emits.relax
    · skip
      with_reducible repeat (first
        | assumption
        | exact Emits.ret _ rfl
        | exact Emits.ret _ trivial
        | apply Emits.after_pure
        | apply Emits.skip
        | apply Emits.write_then
        | apply Emits.writeIndent_then
        | apply Emits.add_then
        | apply Emits.var_then
        | apply Emits.tf_then
        | apply Emits.val_then (writeErrorHandler_emits _ _)
        | apply Emits.fst_then (h1 _)
        | apply Emits.val_then (by assumption)
        | apply Emits.snd_then (by assumption)
        | apply Emits.any_then (by assumption)
        | apply Emits.branch
        | intro _
        | dsimp only)
    · intro a ha
      subst ha
      rfl
    · simp only [render_append, render_cons, render_nil, Piece.text, List.cons_append,
      List.nil_append, List.append_nil, List.append_assoc, String.append_assoc, String.append_empty,
      String.empty_append]
    · simp only [sourcesOf_append, sourcesOf_cons, sourcesOf_nil, Piece.sources, List.cons_append,
      List.nil_append, List.append_nil, List.append_assoc]
    · omega
  | .StringExpression n, indentLevel, i => by
    rw [writeNode_StringExpression]
    apply Emits.relax
    · skip
      with_reducible repeat (first
        | assumption
        | exact Emits.ret _ rfl
        | exact Emits.ret _ trivial
        | apply Emits.after_pure
        | apply Emits.skip
        | apply Emits.write_then
        | apply Emits.writeIndent_then
        | apply Emits.add_then
        | apply Emits.var_then
        | apply Emits.tf_then
        | apply Emits.val_then (writeErrorHandler_emits _ _)
        | apply Emits.any_then (writeStringExpression_emits _ _ _)
        | apply Emits.val_then (by assumption)
        | apply Emits.snd_then (by assumption)
        | apply Emits.any_then (by assumption)
        | apply Emits.branch
        | intro _
        | dsimp only)
    · intro a ha
      subst ha
      rfl
    · simp only [pieces_StringExpression, render_append, render_cons, render_nil, Piece.text,
      List.cons_append, List.nil_append, List.append_nil, List.append_assoc, String.append_assoc,
      String.append_empty, String.empty_append]
    · simp only [pieces_StringExpression, sourcesOf_append, sourcesOf_cons, sourcesOf_nil,
      Piece.sources, List.cons_append, List.nil_append, List.append_nil, List.append_assoc]
    · simp only [names_StringExpression]; omega
  | .Whitespace n, indentLevel, i => by
    rw [writeNode_Whitespace]
    apply Emits.reshape
    · exact Emits.ret _ rfl
    · rfl
    · rfl
    · simp only [names_Whitespace]; omega
  | .Text n, indentLevel, i => by
    rw [writeNode_Text]
    apply Emits.relax
    · skip
      with_reducible repeat (first
        | assumption
        | exact Emits.ret _ rfl
        | exact Emits.ret _ trivial
        | apply Emits.after_pure
        | apply Emits.skip
        | apply Emits.write_then
        | apply Emits.writeIndent_then
        | apply Emits.add_then
        | apply Emits.var_then
        | apply Emits.tf_then
        | apply Emits.val_then (writeErrorHandler_emits _ _)
        | apply Emits.any_then (writeText_emits _ _ _)
        | apply Emits.val_then (by assumption)
        | apply Emits.snd_then (by assumption)
        | apply Emits.any_then (by assumption)
        | apply Emits.branch
        | intro _
        | dsimp only)
    · intro a ha
      subst ha
      rfl
    · simp only [pieces_Text, render_append, render_cons, render_nil, Piece.text, List.cons_append,
      List.nil_append, List.append_nil, List.append_assoc, String.append_assoc, String.append_empty,
      String.empty_append]
    · simp only [pieces_Text, sourcesOf_append, sourcesOf_cons, sourcesOf_nil, Piece.sources,
      List.cons_append, List.nil_append, List.append_nil, List.append_assoc]
    · simp only [names_Text]
  | .Other typeName, indentLevel, i => by
    rw [writeNode_Other]
    apply Emits.relax
    · skip
      with_reducible repeat (first
        | assumption
        | exact Emits.ret _ rfl
        | exact Emits.ret _ trivial
        | apply Emits.after_pure
        | apply Emits.skip
        | apply Emits.write_then
        | apply Emits.writeIndent_then
        | apply Emits.add_then
        | apply Emits.var_then
        | apply Emits.tf_then
        | apply Emits.val_then (writeErrorHandler_emits _ _)
        | apply Emits.any_then (emits_write _)
        | apply Emits.val_then (by assumption)
        | apply Emits.snd_then (by assumption)
        | apply Emits.any_then (by assumption)
        | apply Emits.branch
        | intro _
        | dsimp only)
    · intro a ha
      subst ha
      rfl
    · simp only [pieces_Other, indent_zero, render_append, render_cons, render_nil, Piece.text,
      List.cons_append, List.nil_append, List.append_nil, List.append_assoc, String.append_assoc,
      String.append_empty, String.empty_append]
    · simp only [pieces_Other, sourcesOf_append, sourcesOf_cons, sourcesOf_nil, Piece.sources,
      List.cons_append, List.nil_append, List.append_nil, List.append_assoc]
    · simp only [names_Other]; omega

theorem writeNodes_lifts (tf : TemplateFile) :
    ∀ (nodes : List Node) (indentLevel : Nat) (i : Int),
      Emits tf (generator.writeNodes indentLevel nodes)
        (fun x => x = (Node.listLifted i nodes, none)) i
        (render (Node.listPieces indentLevel i nodes))
        (sourcesOf (Node.listPieces indentLevel i nodes)) (i + Node.listNames nodes)
  | [], indentLevel, i => by
    apply Emits.reshape
    · unfold generator.writeNodes
      exact Emits.ret _ rfl
    · rfl
    · rfl
    · simp only [listNames_nil]; omega
  | node :: rest, indentLevel, i => by
    have h1 := writeNode_lifts tf node indentLevel
    have h2 := writeNodes_lifts tf rest indentLevel
    apply Emits.relax
    · unfold generator.writeNodes
      with_reducible repeat (first
        | assumption
        | exact Emits.ret _ rfl
        | exact Emits.ret _ trivial
        | apply Emits.after_pure
        | apply Emits.skip
        | apply Emits.write_then
        | apply Emits.writeIndent_then
        | apply Emits.add_then
        | apply Emits.var_then
        | apply Emits.tf_then
        | apply Emits.val_then (writeErrorHandler_emits _ _)
        | apply Emits.val_then (h1 _)
        | apply Emits.val_then (h2 _)
        | apply Emits.val_then (by assumption)
        | apply Emits.snd_then (by assumption)
        | apply Emits.any_then (by assumption)
        | apply Emits.branch
        | intro _
        | dsimp only)
    · intro a ha
      subst ha
      rfl
    · simp only [listPieces_cons, render_append, render_cons, render_nil, Piece.text,
      List.cons_append, List.nil_append, List.append_nil, List.append_assoc, String.append_assoc,
      String.append_empty, String.empty_append]
    · simp only [listPieces_cons, sourcesOf_append, sourcesOf_cons, sourcesOf_nil, Piece.sources,
      List.cons_append, List.nil_append, List.append_nil, List.append_assoc]
    · simp only [listNames_cons]; omega

theorem writeElement_lifts (tf : TemplateFile) :
    ∀ (n : Element) (indentLevel : Nat) (i : Int),
      Emits tf (generator.writeElement indentLevel n)
        (fun x => x.1 = if n.Void then n
          else standardElementLifted i n (fun j => Node.listLifted j n.Children)) i
        (render (Node.pieces indentLevel i (.Element n)))
        (sourcesOf (Node.pieces indentLevel i (.Element n))) (i + Node.names (.Element n))
  | n, indentLevel, i => by
    have h1 : ∀ j, Emits tf (generator.writeNodes indentLevel n.Children)
        (fun x => x.1 = Node.listLifted j n.Children) j
        (render (Node.listPieces indentLevel j n.Children))
        (sourcesOf (Node.listPieces indentLevel j n.Children))
        (j + Node.listNames n.Children) := fun j =>
      (writeNodes_lifts tf n.Children indentLevel j).relax (fun a ha => by rw [ha]) rfl rfl rfl
    have h2 := @writeVoidElement_emits tf indentLevel n
    have h3 := writeStandardElement_lifts tf indentLevel n
      (generator.writeNodes indentLevel n.Children)
      (fun j => Node.listPieces indentLevel j n.Children)
      (fun j => Node.listLifted j n.Children) (Node.listNames n.Children) h1
    rw [pieces_Element, names_Element]
    by_cases hv : n.Void = true
    · apply Emits.relax (V := fun x : Element × error => x.1 = n)
      · unfold generator.writeElement
        dsimp only
        rw [if_pos (show n.IsVoidElement = true from hv)]
        with_reducible repeat (first
          | assumption
          | exact Emits.ret _ rfl
          | exact Emits.ret _ trivial
          | apply Emits.after_pure
          | apply Emits.skip
          | apply Emits.write_then
          | apply Emits.writeIndent_then
          | apply Emits.add_then
          | apply Emits.var_then
          | apply Emits.tf_then
          | apply Emits.val_then (writeErrorHandler_emits _ _)
          | apply Emits.any_then (h2 _)
          | apply Emits.val_then (by assumption)
          | apply Emits.snd_then (by assumption)
          | apply Emits.any_then (by assumption)
          | apply Emits.branch
          | intro _
          | dsimp only)
      · intro a ha
        simp only [hv, if_true]
        exact ha
      · simp only [hv, if_true, render_append, render_cons, render_nil, Piece.text,
        List.cons_append, List.nil_append, List.append_nil, List.append_assoc, String.append_assoc,
        String.append_empty, String.empty_append]
      · simp only [hv, if_true, sourcesOf_append, sourcesOf_cons, sourcesOf_nil, Piece.sources,
        List.cons_append, List.nil_append, List.append_nil, List.append_assoc]
      · simp only [hv, if_true]
    · apply Emits.relax
      · unfold generator.writeElement
        dsimp only
        rw [if_neg (show ¬ n.IsVoidElement = true from hv)]
        with_reducible repeat (first
          | assumption
          | exact Emits.ret _ rfl
          | exact Emits.ret _ trivial
          | apply Emits.after_pure
          | apply Emits.skip
          | apply Emits.write_then
          | apply Emits.writeIndent_then
          | apply Emits.add_then
          | apply Emits.var_then
          | apply Emits.tf_then
          | apply Emits.val_then (writeErrorHandler_emits _ _)
          | exact h3 _
          | apply Emits.val_then (by assumption)
          | apply Emits.snd_then (by assumption)
          | apply Emits.any_then (by assumption)
          | apply Emits.branch
          | intro _
          | dsimp only)
      · intro a ha
        simp only [hv]
        exact ha
      · simp [hv]
      · simp [hv]
      · simp [hv]

theorem writeForExpression_lifts (tf : TemplateFile) :
    ∀ (n : ForExpression) (indentLevel : Nat) (i : Int),
      Emits tf (generator.writeForExpression indentLevel n)
        (fun x => x.1 = { n with Children := Node.listLifted i n.Children }) i
        (render (Node.pieces indentLevel i (.ForExpression n)))
        (sourcesOf (Node.pieces indentLevel i (.ForExpression n)))
        (i + Node.names (.ForExpression n))
  | n, indentLevel, i => by
    have h1 := writeNodes_lifts tf n.Children (indentLevel + 1)
    apply Emits.relax
    · unfold generator.writeForExpression
      with_reducible repeat (first
        | assumption
        | exact Emits.ret _ rfl
        | exact Emits.ret _ trivial
        | apply Emits.after_pure
        | apply Emits.skip
        | apply Emits.write_then
        | apply Emits.writeIndent_then
        | apply Emits.add_then
        | apply Emits.var_then
        | apply Emits.tf_then
        | apply Emits.val_then (writeErrorHandler_emits _ _)
        | apply Emits.val_then (h1 _)
        | apply Emits.branch_eq
        | apply Emits.val_then (by assumption)
        | apply Emits.snd_then (by assumption)
        | apply Emits.any_then (by assumption)
        | apply Emits.branch
        | intro _
        | dsimp only)
    · intro a ha
      subst ha
      rfl
    · simp only [pieces_ForExpression, render_append, render_cons, render_nil, Piece.text,
      List.cons_append, List.nil_append, List.append_nil, List.append_assoc, String.append_assoc,
      String.append_empty, String.empty_append]
    · simp only [pieces_ForExpression, sourcesOf_append, sourcesOf_cons, sourcesOf_nil,
      Piece.sources, List.cons_append, List.nil_append, List.append_nil, List.append_assoc]
    · simp only [names_ForExpression]

theorem writeIfExpression_lifts (tf : TemplateFile) :
    ∀ (n : IfExpression) (indentLevel : Nat) (i : Int),
      Emits tf (generator.writeIfExpression indentLevel n)
        (fun x => x.1 = { n with
          Then := Node.listLifted i n.Then,
          Else := Node.listLifted (i + Node.listNames n.Then) n.Else }) i
        (render (Node.pieces indentLevel i (.IfExpression n)))
        (sourcesOf (Node.pieces indentLevel i (.IfExpression n)))
        (i + Node.names (.IfExpression n))
  | n, indentLevel, i => by
    have h1 := writeNodes_lifts tf n.Then (indentLevel + 1)
    have h2 := writeNodes_lifts tf n.Else (indentLevel + 1)
    apply Emits.relax
    · unfold generator.writeIfExpression
      with_reducible repeat (first
        | assumption
        | exact Emits.ret _ rfl
        | exact Emits.ret _ trivial
        | apply Emits.after_pure
        | apply Emits.skip
        | apply Emits.write_then
        | apply Emits.writeIndent_then
        | apply Emits.add_then
        | apply Emits.var_then
        | apply Emits.tf_then
        | apply Emits.val_then (writeErrorHandler_emits _ _)
        | apply Emits.val_then (h1 _)
        | apply Emits.val_then (h2 _)
        | apply Emits.branch_eq
        | apply Emits.val_then (by assumption)
        | apply Emits.snd_then (by assumption)
        | apply Emits.any_then (by assumption)
        | apply Emits.branch
        | intro _
        | dsimp only)
    · intro a ha
      subst ha
      split_ifs with h
      · rfl
      · have hE := length_eq_nil_of_not_pos _ h
        show ({ n with Then := _ } : IfExpression) = _
        rw [hE, listLifted_nil]
    · simp only [pieces_IfExpression]
      split_ifs <;> simp only [render_append, render_cons, render_nil, Piece.text, List.cons_append,
        List.nil_append, List.append_nil, List.append_assoc, String.append_assoc,
        String.append_empty, String.empty_append]
    · simp only [pieces_IfExpression]
      split_ifs <;> simp only [sourcesOf_append, sourcesOf_cons, sourcesOf_nil, Piece.sources,
        List.cons_append, List.nil_append, List.append_nil, List.append_assoc]
    · simp only [names_IfExpression]
      split_ifs with h
      · omega
      · rw [length_eq_nil_of_not_pos _ h, listNames_nil]
        omega

theorem writeSwitchExpression_cases_lifts (tf : TemplateFile) :
    ∀ (cases : List CaseExpression) (indentLevel : Nat) (i : Int),
      Emits tf (generator.writeSwitchExpression.cases indentLevel cases)
        (fun x => x = (Node.caseLifted i cases, none)) i
        (render (Node.casePieces indentLevel i cases))
        (sourcesOf (Node.casePieces indentLevel i cases)) (i + Node.caseNames cases)
  | [], indentLevel, i => by
    apply Emits.reshape
    · unfold generator.writeSwitchExpression.cases
      exact Emits.ret _ rfl
    · rfl
    · rfl
    · simp only [caseNames_nil]; omega
  | c :: rest, indentLevel, i => by
    have h1 := writeNodes_lifts tf c.Children (indentLevel + 1)
    have h2 := writeSwitchExpression_cases_lifts tf rest indentLevel
    apply Emits.relax
    · unfold generator.writeSwitchExpression.cases
      with_reducible repeat (first
        | assumption
        | exact Emits.ret _ rfl
        | exact Emits.ret _ trivial
        | apply Emits.after_pure
        | apply Emits.skip
        | apply Emits.write_then
        | apply Emits.writeIndent_then
        | apply Emits.add_then
        | apply Emits.var_then
        | apply Emits.tf_then
        | apply Emits.val_then (writeErrorHandler_emits _ _)
        | apply Emits.val_then (h1 _)
        | apply Emits.val_then (h2 _)
        | apply Emits.val_then (by assumption)
        | apply Emits.snd_then (by assumption)
        | apply Emits.any_then (by assumption)
        | apply Emits.branch
        | intro _
        | dsimp only)
    · intro a ha
      subst ha
      rfl
    · simp only [casePieces_cons, render_append, render_cons, render_nil, Piece.text,
      List.cons_append, List.nil_append, List.append_nil, List.append_assoc, String.append_assoc,
      String.append_empty, String.empty_append]
    · simp only [casePieces_cons, sourcesOf_append, sourcesOf_cons, sourcesOf_nil, Piece.sources,
      List.cons_append, List.nil_append, List.append_nil, List.append_assoc]
    · simp only [caseNames_cons]; omega

theorem writeSwitchExpression_lifts (tf : TemplateFile) :
    ∀ (n : SwitchExpression) (indentLevel : Nat) (i : Int),
      Emits tf (generator.writeSwitchExpression indentLevel n)
        (fun x => x.1 = { n with
          Cases := Node.caseLifted i n.Cases,
          Default := Node.listLifted (i + Node.caseNames n.Cases) n.Default }) i
        (render (Node.pieces indentLevel i (.SwitchExpression n)))
        (sourcesOf (Node.pieces indentLevel i (.SwitchExpression n)))
        (i + Node.names (.SwitchExpression n))
  | n, indentLevel, i => by
    have h1 := writeSwitchExpression_cases_lifts tf n.Cases indentLevel
    have h2 := writeNodes_lifts tf n.Default (indentLevel + 1)
    apply Emits.relax
    · unfold generator.writeSwitchExpression
      with_reducible repeat (first
        | assumption
        | exact Emits.ret _ rfl
        | exact Emits.ret _ trivial
        | apply Emits.after_pure
        | apply Emits.skip
        | apply Emits.write_then
        | apply Emits.writeIndent_then
        | apply Emits.add_then
        | apply Emits.var_then
        | apply Emits.tf_then
        | apply Emits.val_then (writeErrorHandler_emits _ _)
        | apply Emits.val_then (h1 _)
        | apply Emits.val_then (h2 _)
        | apply Emits.branch_eq
        | apply Emits.val_then (by assumption)
        | apply Emits.snd_then (by assumption)
        | apply Emits.any_then (by assumption)
        | apply Emits.branch
        | intro _
        | dsimp only)
    · intro a ha
      subst ha
      split_ifs with h
      · rfl
      · have hE := length_eq_nil_of_not_pos _ h
        show ({ n with Cases := _ } : SwitchExpression) = _
        rw [hE, listLifted_nil]
    · simp only [pieces_SwitchExpression]
      split_ifs <;> simp only [render_append, render_cons, render_nil, Piece.text, List.cons_append,
        List.nil_append, List.append_nil, List.append_assoc, String.append_assoc,
        String.append_empty, String.empty_append]
    · simp only [pieces_SwitchExpression]
      split_ifs <;> simp only [sourcesOf_append, sourcesOf_cons, sourcesOf_nil, Piece.sources,
        List.cons_append, List.nil_append, List.append_nil, List.append_assoc]
    · simp only [names_SwitchExpression]
      split_ifs with h
      · omega
      · rw [length_eq_nil_of_not_pos _ h, listNames_nil]
        omega

end

theorem writeTemplate_lifts (tf : TemplateFile) (t : HTMLTemplate) (i : Int) :
    Emits tf (generator.writeTemplate t) (fun x => x = (t.lifted i, none)) i (render (t.pieces i))
      (sourcesOf (t.pieces i)) (i + Node.listNames t.Children) := by
  have h1 := writeNodes_lifts tf t.Children 2
  apply Emits.relax
  · unfold generator.writeTemplate
    with_reducible repeat (first
      | assumption
      | exact Emits.ret _ rfl
      | exact Emits.ret _ trivial
      | apply Emits.after_pure
      | apply Emits.skip
      | apply Emits.write_then
      | apply Emits.writeIndent_then
      | apply Emits.add_then
      | apply Emits.var_then
      | apply Emits.tf_then
      | apply Emits.val_then (writeErrorHandler_emits _ _)
      | apply Emits.val_then (h1 _)
      | apply Emits.val_then (by assumption)
      | apply Emits.snd_then (by assumption)
      | apply Emits.any_then (by assumption)
      | apply Emits.branch
      | intro _
      | dsimp only)
  · intro a ha
    subst ha
    rfl
  · simp only [HTMLTemplate.pieces, indent_zero, render_append, render_cons, render_nil, Piece.text,
    List.cons_append, List.nil_append, List.append_nil, List.append_assoc, String.append_assoc,
    String.append_empty, String.empty_append]
  · simp only [HTMLTemplate.pieces, sourcesOf_append, sourcesOf_cons, sourcesOf_nil, Piece.sources,
    List.cons_append, List.nil_append, List.append_nil, List.append_assoc]
  · rfl

/-! ## The text of a template file -/

theorem writeCodeGeneratedComment_emits (tf : TemplateFile) (env : Env) (i : Int) :
    Emits tf (generator.writeCodeGeneratedComment env) (fun x => x = none) i
      ("// Code generated by templ@" ++ getVersion env ++ " DO NOT EDIT.\n\n") [] i := by
  apply Emits.reshape
  · unfold generator.writeCodeGeneratedComment
    with_reducible repeat (first
      | assumption
      | exact Emits.ret _ rfl
      | exact Emits.ret _ trivial
      | apply Emits.after_pure
      | apply Emits.skip
      | apply Emits.write_then
      | apply Emits.writeIndent_then
      | apply Emits.add_then
      | apply Emits.var_then
      | apply Emits.tf_then
      | apply Emits.val_then (writeErrorHandler_emits _ _)
      | apply Emits.val_then (by assumption)
      | apply Emits.snd_then (by assumption)
      | apply Emits.any_then (by assumption)
      | apply Emits.branch
      | intro _
      | dsimp only)
  · simp only [String.append_empty]
  · rfl
  · rfl

theorem writePackage_emits (tf : TemplateFile) (i : Int) :
    Emits tf generator.writePackage (fun x => x = none) i
      ("package " ++ tf.Package.Expression.Value ++ "\n\n"
        ++ "//lint:file-ignore SA4006 This context is only used if a nested component is present.\n\n")
      [tf.Package.Expression] i := by
  apply Emits.reshape
  · unfold generator.writePackage
    with_reducible repeat (first
      | assumption
      | exact Emits.ret _ rfl
      | exact Emits.ret _ trivial
      | apply Emits.after_pure
      | apply Emits.skip
      | apply Emits.write_then
      | apply Emits.writeIndent_then
      | apply Emits.add_then
      | apply Emits.var_then
      | apply Emits.tf_then
      | apply Emits.val_then (writeErrorHandler_emits _ _)
      | apply Emits.val_then (by assumption)
      | apply Emits.snd_then (by assumption)
      | apply Emits.any_then (by assumption)
      | apply Emits.branch
      | intro _
      | dsimp only)
  · simp only [String.append_assoc, String.append_empty]
  · rfl
  · rfl

theorem propertyError_known (p : CSSProperty) (rest : List CSSProperty) (h : p.known = true) :
    propertyError (p :: rest) = propertyError rest := by
  cases p <;> first | rfl | simp [CSSProperty.known] at h

theorem writeCSS_property_emits (tf : TemplateFile) (env : Env) (indentLevel : Nat)
    (p : CSSProperty) (i : Int) (h : p.known = true) :
    Emits tf (generator.writeCSS.property env indentLevel p) (fun x => x = none) i
      (render (p.pieces env indentLevel)) (sourcesOf (p.pieces env indentLevel)) i := by
  cases p with
  | ConstantCSSProperty name value =>
    apply Emits.reshape
    · unfold generator.writeCSS.property
      with_reducible repeat (first
        | assumption
        | exact Emits.ret _ rfl
        | exact Emits.ret _ trivial
        | apply Emits.after_pure
        | apply Emits.skip
        | apply Emits.write_then
        | apply Emits.writeIndent_then
        | apply Emits.add_then
        | apply Emits.var_then
        | apply Emits.tf_then
        | apply Emits.val_then (writeErrorHandler_emits _ _)
        | apply Emits.val_then (by assumption)
        | apply Emits.snd_then (by assumption)
        | apply Emits.any_then (by assumption)
        | apply Emits.branch
        | intro _
        | dsimp only)
    · simp only [CSSProperty.pieces, render_append, render_cons, render_nil, Piece.text,
      List.cons_append, List.nil_append, List.append_nil, List.append_assoc, String.append_assoc,
      String.append_empty, String.empty_append]
    · simp only [CSSProperty.pieces, sourcesOf_append, sourcesOf_cons, sourcesOf_nil, Piece.sources,
      List.cons_append, List.nil_append, List.append_nil, List.append_assoc]
    · rfl
  | ExpressionCSSProperty name value =>
    apply Emits.reshape
    · unfold generator.writeCSS.property
      with_reducible repeat (first
        | assumption
        | exact Emits.ret _ rfl
        | exact Emits.ret _ trivial
        | apply Emits.after_pure
        | apply Emits.skip
        | apply Emits.write_then
        | apply Emits.writeIndent_then
        | apply Emits.add_then
        | apply Emits.var_then
        | apply Emits.tf_then
        | apply Emits.val_then (writeErrorHandler_emits _ _)
        | apply Emits.val_then (by assumption)
        | apply Emits.snd_then (by assumption)
        | apply Emits.any_then (by assumption)
        | apply Emits.branch
        | intro _
        | dsimp only)
    · simp only [CSSProperty.pieces, render_append, render_cons, render_nil, Piece.text,
      List.cons_append, List.nil_append, List.append_nil, List.append_assoc, String.append_assoc,
      String.append_empty, String.empty_append]
    · simp only [CSSProperty.pieces, sourcesOf_append, sourcesOf_cons, sourcesOf_nil, Piece.sources,
      List.cons_append, List.nil_append, List.append_nil, List.append_assoc]
    · rfl
  | Other typeName => simp [CSSProperty.known] at h

theorem writeCSS_loop_emits (tf : TemplateFile) (env : Env) (indentLevel : Nat)
    (props : List CSSProperty) (i : Int) :
    Emits tf (generator.writeCSS.loop env indentLevel props) (fun x => x = propertyError props) i
      (render (propertyPieces env indentLevel props))
      (sourcesOf (propertyPieces env indentLevel props)) i := by
  induction props with
  | nil =>
    unfold generator.writeCSS.loop
    exact Emits.ret _ rfl
  | cons p rest ih =>
    by_cases hk : p.known = true
    · have h1 := writeCSS_property_emits tf env indentLevel p i hk
      rw [propertyError_known p rest hk]
      apply Emits.reshape
      · unfold generator.writeCSS.loop
        with_reducible repeat (first
          | assumption
          | exact Emits.ret _ rfl
          | exact Emits.ret _ trivial
          | apply Emits.after_pure
          | apply Emits.skip
          | apply Emits.write_then
          | apply Emits.writeIndent_then
          | apply Emits.add_then
          | apply Emits.var_then
          | apply Emits.tf_then
          | apply Emits.val_then (writeErrorHandler_emits _ _)
          | apply Emits.val_then (by assumption)
          | apply Emits.snd_then (by assumption)
          | apply Emits.any_then (by assumption)
          | apply Emits.branch
          | intro _
          | dsimp only)
      · simp only [propertyPieces, hk, if_true, render_append, render_cons, render_nil, Piece.text,
        List.cons_append, List.nil_append, List.append_nil, List.append_assoc, String.append_assoc,
        String.append_empty, String.empty_append]
      · simp only [propertyPieces, hk, if_true, sourcesOf_append, sourcesOf_cons, sourcesOf_nil,
        Piece.sources, List.cons_append, List.nil_append, List.append_nil, List.append_assoc]
      · rfl
    · cases p with
      | Other typeName =>
        apply Emits.reshape
        · unfold generator.writeCSS.loop
          unfold generator.writeCSS.property
          apply Emits.after_pure
          rw [if_pos (by simp)]
          exact Emits.ret _ rfl
        · simp [propertyPieces, CSSProperty.known, render]
        · simp [propertyPieces, CSSProperty.known, sourcesOf]
        · rfl
      | _ => simp [CSSProperty.known] at hk

set_option maxRecDepth 8192 in
theorem writeCSS_emits (tf : TemplateFile) (env : Env) (n : CSSTemplate) (i : Int) :
    Emits tf (generator.writeCSS env n) (fun x => x = propertyError n.Properties) i
      (render (n.pieces env)) (sourcesOf (n.pieces env)) i := by
  have h1 := writeCSS_loop_emits tf env 1 n.Properties i
  apply Emits.relax
  · unfold generator.writeCSS
    with_reducible repeat (first
      | assumption
      | exact Emits.ret _ rfl
      | exact Emits.ret _ trivial
      | apply Emits.after_pure
      | apply Emits.skip
      | apply Emits.write_then
      | apply Emits.writeIndent_then
      | apply Emits.add_then
      | apply Emits.var_then
      | apply Emits.tf_then
      | apply Emits.val_then (writeErrorHandler_emits _ _)
      | apply Emits.branch_eq
      | apply Emits.val_then (by assumption)
      | apply Emits.snd_then (by assumption)
      | apply Emits.any_then (by assumption)
      | apply Emits.branch
      | intro _
      | dsimp only)
  · intro a ha
    subst ha
    split_ifs with h
    · rfl
    · exact (not_not.mp h).symm
  · simp only [CSSTemplate.pieces]
    split_ifs <;> simp only [indent_zero, render_append, render_cons, render_nil, Piece.text,
      List.cons_append, List.nil_append, List.append_nil, List.append_assoc, String.append_assoc,
      String.append_empty, String.empty_append]
  · simp only [CSSTemplate.pieces]
    split_ifs <;> simp only [sourcesOf_append, sourcesOf_cons, sourcesOf_nil, Piece.sources,
      List.cons_append, List.nil_append, List.append_nil, List.append_assoc]
  · split_ifs <;> rfl

theorem writeScript_pieces_emits (tf : TemplateFile) (env : Env) (t : ScriptTemplate) (i : Int) :
    Emits tf (generator.writeScript env t) (fun x => x = none) i (render (t.pieces env))
      (sourcesOf (t.pieces env)) i := by
  apply Emits.reshape (writeScript_emits env t i)
  · simp only [scriptText, ScriptTemplate.pieces, indent_zero, render_append, render_cons,
    render_nil, Piece.text, List.cons_append, List.nil_append, List.append_nil, List.append_assoc,
    String.append_assoc, String.append_empty, String.empty_append]
  · rfl
  · rfl

theorem declarationPieces_cons (env : Env) (i : Int) (n : TemplateFileNode)
    (rest : List TemplateFileNode) :
    declarationPieces env i (n :: rest)
      = n.pieces env i
        ++ (if n.error ≠ none then [] else declarationPieces env (i + n.names) rest) := rfl

theorem declarationNames_cons (n : TemplateFileNode) (rest : List TemplateFileNode) :
    declarationNames (n :: rest)
      = n.names + (if n.error ≠ none then 0 else declarationNames rest) := rfl

theorem declarationError_cons (n : TemplateFileNode) (rest : List TemplateFileNode) :
    declarationError (n :: rest)
      = if n.error ≠ none then n.error else declarationError rest := rfl

theorem declarationsLifted_cons (i : Int) (n : TemplateFileNode) (rest : List TemplateFileNode) :
    declarationsLifted i (n :: rest)
      = n.lifted i :: (if n.error ≠ none then rest else declarationsLifted (i + n.names) rest) :=
  rfl

theorem writeTemplateNodes_loop_emits (tf : TemplateFile) (env : Env)
    (nodes : List TemplateFileNode) :
    ∀ i : Int, Emits tf (generator.writeTemplateNodes.loop env nodes)
      (fun x => x = (declarationsLifted i nodes, declarationError nodes)) i
      (render (declarationPieces env i nodes)) (sourcesOf (declarationPieces env i nodes))
      (i + declarationNames nodes) := by
  induction nodes with
  | nil =>
    intro i
    apply Emits.reshape
    · unfold generator.writeTemplateNodes.loop
      exact Emits.ret _ rfl
    · rfl
    · rfl
    · simp [declarationNames]
  | cons n rest ih =>
    intro i
    cases n with
    | HTMLTemplate t =>
      have h1 := writeTemplate_lifts tf t i
      have h2 := ih (i + Node.listNames t.Children)
      apply Emits.relax
      · unfold generator.writeTemplateNodes.loop
        with_reducible repeat (first
          | assumption
          | exact Emits.ret _ rfl
          | exact Emits.ret _ trivial
          | apply Emits.after_pure
          | apply Emits.skip
          | apply Emits.write_then
          | apply Emits.writeIndent_then
          | apply Emits.add_then
          | apply Emits.var_then
          | apply Emits.tf_then
          | apply Emits.val_then (writeErrorHandler_emits _ _)
          | apply Emits.val_then (by assumption)
          | apply Emits.snd_then (by assumption)
          | apply Emits.any_then (by assumption)
          | apply Emits.branch
          | intro _
          | dsimp only)
      · intro a ha
        subst ha
        simp [declarationsLifted_cons, declarationError_cons, TemplateFileNode.error,
          TemplateFileNode.lifted, TemplateFileNode.names]
      · simp only [declarationPieces_cons, TemplateFileNode.error, TemplateFileNode.pieces,
          TemplateFileNode.names, ne_eq, not_true_eq_false, if_false, render_append, render_cons,
            render_nil, Piece.text, List.cons_append, List.nil_append, List.append_nil,
            List.append_assoc, String.append_assoc, String.append_empty, String.empty_append]
      · simp only [declarationPieces_cons, TemplateFileNode.error, TemplateFileNode.pieces,
          TemplateFileNode.names, ne_eq, not_true_eq_false, if_false, sourcesOf_append,
            sourcesOf_cons, sourcesOf_nil, Piece.sources, List.cons_append, List.nil_append,
            List.append_nil, List.append_assoc]
      · simp only [declarationNames_cons, TemplateFileNode.error, TemplateFileNode.names, ne_eq,
          not_true_eq_false, if_false]
        omega
    | CSSTemplate c =>
      have h1 := writeCSS_emits tf env c i
      have h2 := ih i
      apply Emits.relax
      · unfold generator.writeTemplateNodes.loop
        with_reducible repeat (first
          | assumption
          | exact Emits.ret _ rfl
          | exact Emits.ret _ trivial
          | apply Emits.after_pure
          | apply Emits.skip
          | apply Emits.write_then
          | apply Emits.writeIndent_then
          | apply Emits.add_then
          | apply Emits.var_then
          | apply Emits.tf_then
          | apply Emits.val_then (writeErrorHandler_emits _ _)
          | apply Emits.branch_eq
          | apply Emits.val_then (by assumption)
          | apply Emits.snd_then (by assumption)
          | apply Emits.any_then (by assumption)
          | apply Emits.branch
          | intro _
          | dsimp only)
      · intro a ha
        subst ha
        simp only [declarationsLifted_cons, declarationError_cons, TemplateFileNode.error,
          TemplateFileNode.lifted, TemplateFileNode.names, add_zero]
        split_ifs <;> rfl
      · simp only [declarationPieces_cons, TemplateFileNode.error, TemplateFileNode.pieces,
          TemplateFileNode.names, add_zero]
        split_ifs <;> simp only [render_append, render_cons, render_nil, Piece.text,
          List.cons_append, List.nil_append, List.append_nil, List.append_assoc,
          String.append_assoc, String.append_empty, String.empty_append]
      · simp only [declarationPieces_cons, TemplateFileNode.error, TemplateFileNode.pieces,
          TemplateFileNode.names, add_zero]
        split_ifs <;> simp only [sourcesOf_append, sourcesOf_cons, sourcesOf_nil, Piece.sources,
          List.cons_append, List.nil_append, List.append_nil, List.append_assoc]
      · simp only [declarationNames_cons, TemplateFileNode.error, TemplateFileNode.names, add_zero]
        split_ifs <;> omega
    | ScriptTemplate t =>
      have h1 := writeScript_pieces_emits tf env t i
      have h2 := ih i
      apply Emits.relax
      · unfold generator.writeTemplateNodes.loop
        with_reducible repeat (first
          | assumption
          | exact Emits.ret _ rfl
          | exact Emits.ret _ trivial
          | apply Emits.after_pure
          | apply Emits.skip
          | apply Emits.write_then
          | apply Emits.writeIndent_then
          | apply Emits.add_then
          | apply Emits.var_then
          | apply Emits.tf_then
          | apply Emits.val_then (writeErrorHandler_emits _ _)
          | apply Emits.val_then (by assumption)
          | apply Emits.snd_then (by assumption)
          | apply Emits.any_then (by assumption)
          | apply Emits.branch
          | intro _
          | dsimp only)
      · intro a ha
        subst ha
        simp [declarationsLifted_cons, declarationError_cons, TemplateFileNode.error,
          TemplateFileNode.lifted, TemplateFileNode.names, add_zero]
      · simp only [declarationPieces_cons, TemplateFileNode.error, TemplateFileNode.pieces,
          TemplateFileNode.names, add_zero, ne_eq, not_true_eq_false, if_false, render_append,
            render_cons, render_nil, Piece.text, List.cons_append, List.nil_append, List.append_nil,
            List.append_assoc, String.append_assoc, String.append_empty, String.empty_append]
      · simp only [declarationPieces_cons, TemplateFileNode.error, TemplateFileNode.pieces,
          TemplateFileNode.names, add_zero, ne_eq, not_true_eq_false, if_false, sourcesOf_append,
            sourcesOf_cons, sourcesOf_nil, Piece.sources, List.cons_append, List.nil_append,
            List.append_nil, List.append_assoc]
      · simp only [declarationNames_cons, TemplateFileNode.error, TemplateFileNode.names, add_zero,
        ne_eq,
          not_true_eq_false, if_false]
        omega
    | Other typeName =>
      apply Emits.reshape
      · unfold generator.writeTemplateNodes.loop
        exact Emits.ret _ rfl
      · simp [declarationPieces_cons, TemplateFileNode.error, TemplateFileNode.pieces, render]
      · simp [declarationPieces_cons, TemplateFileNode.error, TemplateFileNode.pieces, sourcesOf]
      · simp [declarationNames_cons, TemplateFileNode.error, TemplateFileNode.names, add_zero]

theorem render_userImports (imports : List Import) :
    render (imports.map (fun im => Piece.plain 0 ("import " ++ im.Expression.Value ++ "\n")
      [im.Expression])) = userImportLines imports := by
  induction imports with
  | nil => rfl
  | cons im rest ih =>
    rw [List.map_cons, render_cons, ih]
    simp only [Piece.text, indent_zero, userImportLines, String.append_assoc,
      String.empty_append]

theorem sourcesOf_userImports (imports : List Import) :
    sourcesOf (imports.map (fun im => Piece.plain 0 ("import " ++ im.Expression.Value ++ "\n")
      [im.Expression])) = imports.map (fun im => im.Expression) := by
  induction imports with
  | nil => rfl
  | cons im rest ih =>
    rw [List.map_cons, sourcesOf_cons, ih]
    rfl

theorem render_importPieces (tf : TemplateFile) : render (importPieces tf) = importBlock tf := by
  unfold importPieces importBlock
  simp only [render_append, render_userImports]
  split_ifs <;> simp only [render_cons, render_nil, Piece.text, indent_zero, String.append_assoc,
    String.append_empty, String.empty_append]

theorem sourcesOf_importPieces (tf : TemplateFile) :
    sourcesOf (importPieces tf) = tf.Imports.map (fun im => im.Expression) := by
  unfold importPieces
  simp only [sourcesOf_append, sourcesOf_userImports]
  split_ifs <;> simp only [sourcesOf_cons, sourcesOf_nil, Piece.sources, List.append_nil,
    List.nil_append]

theorem Emits.bind_run {tf : TemplateFile} {α β : Type} {m : Gen α} {f : α → Gen β} {a : α}
    {i j : Int} {t : String} {e : List Expression} (h : Emits tf m (fun x => x = a) i t e j)
    (g : generator) (htf : g.tf = tf) (hacc : g.w.w.accepts) (hid : g.variableID = i) :
    (m >>= f) g = f a (m g).2 := by
  have h1 : (m g).1 = a := (h.run g htf hacc hid).1
  rw [Gen.bind_apply, h1]

theorem Emits.bind_skip {tf : TemplateFile} {m : Gen error} {k : Gen error}
    {i j : Int} {t : String} {e : List Expression} (h : Emits tf m (fun x => x = none) i t e j)
    (g : generator) (htf : g.tf = tf) (hacc : g.w.w.accepts) (hid : g.variableID = i) :
    (m >>= fun err => if err ≠ none then pure err else k) g = k (m g).2 := by
  rw [Emits.bind_run h g htf hacc hid, if_neg (fun h => h rfl)]

theorem writeTemplateNodes_apply (env : Env) (g : generator) :
    generator.writeTemplateNodes env g
      = ((generator.writeTemplateNodes.loop env g.tf.Nodes g).1.2,
          { (generator.writeTemplateNodes.loop env g.tf.Nodes g).2 with
            tf := { (generator.writeTemplateNodes.loop env g.tf.Nodes g).2.tf with
              Nodes := (generator.writeTemplateNodes.loop env g.tf.Nodes g).1.1 } }) := rfl

/-- On a sink that accepts all writes, `generate` returns the first error of
the top-level declarations, writes the pieces of the template file, records
their expressions, and leaves the declarations as `declarationsLifted` gives
them. -/
theorem generate_pieces (env : Env) (g : generator) (hacc : g.w.w.accepts)
    (hid : g.variableID = 0) :
    (generator.generate env g).1 = declarationError g.tf.Nodes ∧
    (generator.generate env g).2.tf = g.tf.lifted ∧
    (generator.generate env g).2.w.w.out = g.w.w.out ++ render (g.tf.pieces env) ∧
    (generator.generate env g).2.sourceMap.sources
      = g.sourceMap.sources ++ sourcesOf (g.tf.pieces env) := by
  have c1 := writeCodeGeneratedComment_emits g.tf env 0
  have r1 := c1.run g rfl hacc hid
  have c2 := writePackage_emits g.tf 0
  have r2 := c2.run _ r1.2.1 r1.2.2.1 r1.2.2.2.1
  have c3 := @writeImports_emits g.tf 0
  have r3 := c3.run _ r2.2.1 r2.2.2.1 r2.2.2.2.1
  have c4 := writeTemplateNodes_loop_emits g.tf env g.tf.Nodes 0
  have r4 := c4.run _ r3.2.1 r3.2.2.1 r3.2.2.2.1
  have e : generator.generate env g
      = generator.writeTemplateNodes env
          (generator.writeImports (generator.writePackage
            (generator.writeCodeGeneratedComment env g).2).2).2 := by
    unfold generator.generate
    simp only [Gen.bind_apply, Gen.pure_apply, r1.1, r2.1, r3.1, ne_eq, not_true_eq_false,
      if_false, ite_self]
    generalize generator.writeTemplateNodes env _ = x
    obtain ⟨a, s⟩ := x
    split_ifs <;> rfl
  rw [e, writeTemplateNodes_apply, r3.2.1]
  obtain ⟨v4, t4, -, -, o4, s4⟩ := r4
  obtain ⟨-, -, -, -, o3, s3⟩ := r3
  obtain ⟨-, -, -, -, o2, s2⟩ := r2
  obtain ⟨-, -, -, -, o1, s1⟩ := r1
  have v4' : (generator.writeTemplateNodes.loop env g.tf.Nodes
      (generator.writeImports (generator.writePackage
        (generator.writeCodeGeneratedComment env g).2).2).2).1
      = (declarationsLifted 0 g.tf.Nodes, declarationError g.tf.Nodes) := v4
  refine ⟨?_, ?_, ?_, ?_⟩
  · exact congrArg Prod.snd v4'
  · simp only [t4, v4']
    rfl
  · refine o4.trans ?_
    refine (congrArg (· ++ _) (o3.trans (congrArg (· ++ _) (o2.trans (congrArg (· ++ _) o1))))).trans ?_
    simp only [TemplateFile.pieces, render_append, render_cons, render_nil, render_importPieces,
      Piece.text, indent_zero, String.append_assoc, String.append_empty, String.empty_append]
  · refine s4.trans ?_
    refine (congrArg (· ++ _) (s3.trans (congrArg (· ++ _) (s2.trans (congrArg (· ++ _) s1))))).trans ?_
    simp only [TemplateFile.pieces, sourcesOf_append, sourcesOf_cons, sourcesOf_nil,
      sourcesOf_importPieces, Piece.sources, List.append_assoc, List.append_nil, List.nil_append,
      List.cons_append]

/-- On a sink that accepts all writes, `Generate` returns the first error of
the top-level declarations and the source map of the expressions of the pieces
of the template file, writes the text of those pieces, and leaves the template
file as `TemplateFile.lifted` gives it. -/
theorem Generate_pieces (env : Env) (template : TemplateFile) (w : Sink) (h : w.accepts) :
    (Generate env template w).err = declarationError template.Nodes ∧
    (Generate env template w).template = template.lifted ∧
    (Generate env template w).w.out = w.out ++ render (template.pieces env) ∧
    (Generate env template w).sm.sources = sourcesOf (template.pieces env) := by
  rw [Generate_eq]
  obtain ⟨h1, h2, h3, h4⟩ := generate_pieces env ⟨template, NewRangeWriter w, NewSourceMap, 0⟩ h rfl
  exact ⟨h1, h2, h3, h4⟩

/-! ## The temporaries that the generated text declares -/

theorem temporaryName_of_notVar (code : String) (h : notVar code = true) :
    temporaryName code = none := by
  unfold notVar at h
  unfold temporaryName strings.HasPrefix
  cases hd : code.data with
  | nil => rw [hd] at h; simp at h
  | cons c cs =>
    rw [hd] at h
    have hc : c ≠ 'v' := by simpa using h
    have e1 : "var var_".data = 'v' :: "ar var_".data := rfl
    have e2 : "var_".data = 'v' :: "ar_".data := rfl
    have hb : ('v' == c) = false := by
      simp only [beq_eq_false_iff_ne, ne_eq]
      exact fun h' => hc h'.symm
    rw [e1, e2]
    simp only [List.isPrefixOf, hb, Bool.false_and, Bool.false_eq_true, if_false]

theorem toDigitsCore_no_space (fuel n : Nat) (ds : List Char) (h : ∀ c ∈ ds, c ≠ ' ') :
    ∀ c ∈ Nat.toDigitsCore 10 fuel n ds, c ≠ ' ' := by
  induction fuel generalizing n ds with
  | zero => exact h
  | succ fuel ih =>
    have hd : Nat.digitChar (n % 10) ≠ ' ' := by
      have hlt : n % 10 < 10 := Nat.mod_lt _ (by decide)
      generalize n % 10 = d at hlt
      interval_cases d <;> decide
    unfold Nat.toDigitsCore
    by_cases h0 : n / 10 = 0
    · simp only [h0, if_true]
      intro c hc
      rcases List.mem_cons.mp hc with rfl | hc
      · exact hd
      · exact h c hc
    · simp only [h0, if_false]
      apply ih
      intro c hc
      rcases List.mem_cons.mp hc with rfl | hc
      · exact hd
      · exact h c hc

theorem repr_no_space (n : Nat) : ∀ c ∈ (Nat.repr n).data, c ≠ ' ' :=
  toDigitsCore_no_space _ _ [] (fun _ h => absurd h (List.not_mem_nil _))

theorem varName_no_space (k : Int) : ∀ c ∈ (varName k).data, c ≠ ' ' := by
  intro c hc
  unfold varName at hc
  rw [String.data_append] at hc
  rcases List.mem_append.mp hc with h | h
  · have h' : c ∈ ['v', 'a', 'r', '_'] := h
    simp only [List.mem_cons, List.mem_singleton, List.not_mem_nil, or_false] at h'
    rcases h' with rfl | rfl | rfl | rfl <;> decide
  · cases k with
    | ofNat n => exact repr_no_space n c h
    | negSucc n =>
      have h' : c ∈ ("-" ++ Nat.repr (n + 1)).data := h
      rw [String.data_append] at h'
      rcases List.mem_append.mp h' with h1 | h1
      · have h2 : c ∈ ['-'] := h1
        simp only [List.mem_singleton] at h2
        rw [h2]; decide
      · exact repr_no_space _ c h1

theorem takeWhile_no_space (xs ys : List Char) (h : ∀ c ∈ xs, c ≠ ' ') :
    (xs ++ ' ' :: ys).takeWhile (fun c => c != ' ') = xs := by
  induction xs with
  | nil => simp
  | cons x xs ih =>
    have hx : x ≠ ' ' := h x (List.mem_cons_self _ _)
    have ih' := ih (fun c hc => h c (List.mem_cons_of_mem _ hc))
    simp only [List.cons_append, List.takeWhile_cons, bne_iff_ne, ne_eq, hx, not_false_eq_true,
      if_true, ih']

theorem varName_data (k : Int) : (varName k).data = 'v' :: 'a' :: 'r' :: '_' :: (toString k).data := by
  unfold varName
  rw [String.data_append]
  rfl

theorem hasPrefix_space (a : String) (ha : strings.HasPrefix a " " = true) :
    ∃ r, a.data = ' ' :: r := by
  unfold strings.HasPrefix at ha
  obtain ⟨t, ht⟩ := List.isPrefixOf_iff_prefix.mp ha
  exact ⟨t, ht.symm⟩

theorem temporaryName_short (k : Int) (a b c : String) (ha : strings.HasPrefix a " " = true) :
    temporaryName (varName k ++ a ++ b ++ c) = some (varName k) := by
  obtain ⟨r, hr⟩ := hasPrefix_space a ha
  have hd : (varName k ++ a ++ b ++ c).data = (varName k).data ++ ' ' :: (r ++ b.data ++ c.data) := by
    simp only [String.data_append, hr, List.append_assoc, List.cons_append]
  have hv := varName_data k
  unfold temporaryName strings.HasPrefix
  have e1 : "var var_".data = 'v' :: 'a' :: 'r' :: ' ' :: "var_".data := rfl
  have e2 : "var_".data = ['v', 'a', 'r', '_'] := rfl
  have hn : ("var var_".data.isPrefixOf (varName k ++ a ++ b ++ c).data) = false := by
    rw [hd, hv, e1]
    simp [List.isPrefixOf]
  have hp : ("var_".data.isPrefixOf (varName k ++ a ++ b ++ c).data) = true := by
    rw [hd, hv, e2]
    simp [List.isPrefixOf]
  rw [hn, hp]
  simp only [Bool.false_eq_true, if_false, if_true]
  rw [hd, takeWhile_no_space _ _ (varName_no_space k)]

theorem temporaryName_var (k : Int) (a b c : String) (ha : strings.HasPrefix a " " = true) :
    temporaryName ("var " ++ varName k ++ a ++ b ++ c) = some (varName k) := by
  obtain ⟨r, hr⟩ := hasPrefix_space a ha
  have hd : ("var " ++ varName k ++ a ++ b ++ c).data
      = 'v' :: 'a' :: 'r' :: ' ' :: ((varName k).data ++ ' ' :: (r ++ b.data ++ c.data)) := by
    simp only [String.data_append, hr, List.append_assoc, List.cons_append]
    rfl
  have hv := varName_data k
  unfold temporaryName strings.HasPrefix
  have e1 : "var var_".data = ['v', 'a', 'r', ' ', 'v', 'a', 'r', '_'] := rfl
  have hp : ("var var_".data.isPrefixOf ("var " ++ varName k ++ a ++ b ++ c).data) = true := by
    rw [hd, hv, e1]
    simp [List.isPrefixOf]
  rw [hp]
  simp only [if_true]
  rw [hd]
  simp only [List.drop_succ_cons, List.drop_zero]
  rw [takeWhile_no_space _ _ (varName_no_space k)]

theorem temporaries_append (ps qs : List Piece) :
    temporaries (ps ++ qs) = temporaries ps ++ temporaries qs := by
  unfold temporaries
  rw [List.filterMap_append]

theorem namesBetween_self (i : Int) : namesBetween i i = [] := by
  unfold namesBetween
  simp

theorem namesBetween_append (i j k : Int) (hij : i ≤ j) (hjk : j ≤ k) :
    namesBetween i k = namesBetween i j ++ namesBetween j k := by
  unfold namesBetween
  have e : (k - i).toNat = (j - i).toNat + (k - j).toNat := by omega
  rw [e, List.range_add, List.map_append, List.map_map]
  congr 1
  apply List.map_congr_left
  intro x _
  show varName (i + 1 + (((j - i).toNat + x : Nat) : Int)) = varName (j + 1 + (x : Int))
  congr 1
  omega

theorem namesBetween_succ (i : Int) : namesBetween i (i + 1) = [varName (i + 1)] := by
  unfold namesBetween
  have e : (i + 1 - i).toNat = 1 := by omega
  rw [e]
  show [varName (i + 1 + ((0 : Nat) : Int))] = _
  simp

theorem Declares.empty (i : Int) : Declares [] i i :=
  ⟨le_refl _, by rw [namesBetween_self]; rfl⟩

theorem Declares.join {a b : List Piece} {i j k : Int} (ha : Declares a i j)
    (hb : Declares b j k) : Declares (a ++ b) i k :=
  ⟨le_trans ha.1 hb.1, by
    rw [temporaries_append, ha.2, hb.2, ← namesBetween_append i j k ha.1 hb.1]⟩

theorem Declares.pass {p : Piece} {rest : List Piece} {i j : Int} (h : p.temporary = none)
    (hr : Declares rest i j) : Declares (p :: rest) i j :=
  ⟨hr.1, by
    unfold temporaries
    rw [List.filterMap_cons_none h]
    exact hr.2⟩

theorem Declares.check {level : Nat} {rest : List Piece} {i j : Int} (hr : Declares rest i j) :
    Declares (.check level :: rest) i j := Declares.pass rfl hr

theorem Declares.assigns {level : Nat} {code : String} {sources : List Expression}
    {rest : List Piece} {i j : Int} (h : notVar code = true) (hr : Declares rest i j) :
    Declares (.assign level code sources :: rest) i j :=
  Declares.pass (temporaryName_of_notVar code h) hr

theorem Declares.other {level : Nat} {code : String} {sources : List Expression}
    {rest : List Piece} {i j : Int} (h : notVar code = true) (hr : Declares rest i j) :
    Declares (.plain level code sources :: rest) i j :=
  Declares.pass (temporaryName_of_notVar code h) hr

theorem Declares.decl {level : Nat} {code : String} {sources : List Expression}
    {rest : List Piece} {i j : Int} (h : temporaryName code = some (varName (i + 1)))
    (hr : Declares rest (i + 1) j) : Declares (.plain level code sources :: rest) i j :=
  ⟨by have := hr.1; omega, by
    have h1 : temporaries (.plain level code sources :: rest)
        = varName (i + 1) :: temporaries rest := by
      unfold temporaries
      exact List.filterMap_cons_some h
    rw [h1, hr.2, namesBetween_append i (i + 1) j (by omega) hr.1, namesBetween_succ]
    rfl⟩

theorem Declares.recount {ps : List Piece} {i j k : Int} (h : Declares ps i j) (hj : j = k) :
    Declares ps i k := hj ▸ h

theorem attribute_liftPieces_declares (level : Nat) (i : Int) (a : Attribute) :
    Declares (a.liftPieces level i) i (i + (if a.isClass then 1 else 0)) := by
  cases a <;> simp only [Attribute.liftPieces, Attribute.isClass, decide_eq_true_eq]
  case ExpressionAttribute name e =>
    split_ifs
    · apply Declares.recount
      · skip
        repeat (first
          | exact Declares.empty _
          | assumption
          | apply Declares.join
          | apply Declares.check
          | (apply Declares.assigns; rfl)
          | (apply Declares.other; rfl)
          | (apply Declares.decl; exact temporaryName_var _ _ _ _ rfl)
          | (apply Declares.decl; exact temporaryName_short _ _ _ _ rfl))
      · rfl
    · apply Declares.recount (Declares.empty _)
      simp
  all_goals
    apply Declares.recount (Declares.empty _)
    simp

theorem liftPieces_declares (level : Nat) (attributes : List Attribute) :
    ∀ i : Int, Declares (liftPieces level i attributes) i (i + classCount attributes) := by
  induction attributes with
  | nil =>
    intro i
    apply Declares.recount (Declares.empty _)
    simp [classCount]
  | cons a rest ih =>
    intro i
    have h1 := attribute_liftPieces_declares level i a
    have h2 := ih (i + (if a.isClass then 1 else 0))
    rw [liftPieces_cons, classCount_cons]
    apply Declares.recount
    · skip
      repeat (first
        | exact Declares.empty _
        | assumption
        | apply Declares.join
        | apply Declares.check
        | (apply Declares.assigns; rfl)
        | (apply Declares.other; rfl)
        | (apply Declares.decl; exact temporaryName_var _ _ _ _ rfl)
        | (apply Declares.decl; exact temporaryName_short _ _ _ _ rfl))
    · omega

theorem scriptPieces_declares (level : Nat) (attributes : List Attribute) (i : Int) :
    Declares (scriptPieces level attributes) i i := by
  unfold scriptPieces
  repeat (first
    | exact Declares.empty _
    | assumption
    | apply Declares.join
    | apply Declares.check
    | (apply Declares.assigns; rfl)
    | (apply Declares.other; rfl)
    | (apply Declares.decl; exact temporaryName_var _ _ _ _ rfl)
    | (apply Declares.decl; exact temporaryName_short _ _ _ _ rfl))

theorem attribute_pieces_declares (level : Nat) (elementName : String) (i : Int)
    (a : Attribute) : Declares (a.pieces level elementName i) i (i + a.names elementName) := by
  cases a <;> simp only [Attribute.pieces, Attribute.names]
  case ExpressionAttribute name e =>
    split_ifs
    all_goals
      apply Declares.recount
      · skip
        repeat (first
          | exact Declares.empty _
          | assumption
          | apply Declares.join
          | apply Declares.check
          | (apply Declares.assigns; rfl)
          | (apply Declares.other; rfl)
          | (apply Declares.decl; exact temporaryName_var _ _ _ _ rfl)
          | (apply Declares.decl; exact temporaryName_short _ _ _ _ rfl))
      · first | rfl | omega | simp
  all_goals
    apply Declares.recount
    · skip
      repeat (first
        | exact Declares.empty _
        | assumption
        | apply Declares.join
        | apply Declares.check
        | (apply Declares.assigns; rfl)
        | (apply Declares.other; rfl)
        | (apply Declares.decl; exact temporaryName_var _ _ _ _ rfl)
        | (apply Declares.decl; exact temporaryName_short _ _ _ _ rfl))
    · first | rfl | omega | simp

theorem attributePieces_declares (level : Nat) (elementName : String)
    (attributes : List Attribute) :
    ∀ i : Int, Declares (attributePieces level elementName i attributes) i
      (i + attributeNames elementName attributes) := by
  induction attributes with
  | nil =>
    intro i
    apply Declares.recount (Declares.empty _)
    simp [attributeNames]
  | cons a rest ih =>
    intro i
    have h1 := attribute_pieces_declares level elementName i a
    have h2 := ih (i + a.names elementName)
    rw [attributePieces_cons, attributeNames_cons]
    split_ifs
    · apply Declares.recount
      · skip
        repeat (first
          | exact Declares.empty _
          | assumption
          | apply Declares.join
          | apply Declares.check
          | (apply Declares.assigns; rfl)
          | (apply Declares.other; rfl)
          | (apply Declares.decl; exact temporaryName_var _ _ _ _ rfl)
          | (apply Declares.decl; exact temporaryName_short _ _ _ _ rfl))
      · omega
    · apply Declares.recount (Declares.empty _)
      simp

theorem attributePieces_lift_declares (level : Nat) (elementName : String)
    (attributes : List Attribute) (i j : Int) :
    Declares (attributePieces level elementName j (liftAttributes i attributes)) j
      (j + attributeNames elementName attributes) := by
  have h := attributePieces_declares level elementName (liftAttributes i attributes) j
  rw [attributeNames_lift] at h
  exact h

theorem voidElementPieces_declares (level : Nat) (i : Int) (n : Element) :
    Declares (voidElementPieces level i n) i (i + voidElementNames n) := by
  have h1 := attributePieces_declares level n.Name n.Attributes i
  unfold voidElementPieces voidElementNames
  split_ifs
  all_goals
    apply Declares.recount
    · skip
      repeat (first
        | exact Declares.empty _
        | assumption
        | apply Declares.join
        | apply Declares.check
        | (apply Declares.assigns; rfl)
        | (apply Declares.other; rfl)
        | (apply Declares.decl; exact temporaryName_var _ _ _ _ rfl)
        | (apply Declares.decl; exact temporaryName_short _ _ _ _ rfl))
    · first | rfl | omega | simp

theorem standardElementPieces_declares (level : Nat) (i : Int) (n : Element)
    (children : Int → List Piece) (names : Int)
    (hc : ∀ j, Declares (children j) j (j + names)) :
    Declares (standardElementPieces level i n children) i (i + standardElementNames n names) := by
  have h1 := liftPieces_declares level n.Attributes i
  have h2 := scriptPieces_declares level n.Attributes (i + classCount n.Attributes)
  have h3 := attributePieces_lift_declares level n.Name n.Attributes i
    (i + classCount n.Attributes)
  have h4 := hc i
  have h5 := hc (i + classCount n.Attributes + attributeNames n.Name n.Attributes)
  unfold standardElementPieces standardElementNames
  split_ifs
  all_goals
    apply Declares.recount
    · skip
      repeat (first
        | exact Declares.empty _
        | assumption
        | apply Declares.join
        | apply Declares.check
        | (apply Declares.assigns; rfl)
        | (apply Declares.other; rfl)
        | (apply Declares.decl; exact temporaryName_var _ _ _ _ rfl)
        | (apply Declares.decl; exact temporaryName_short _ _ _ _ rfl))
    · first | rfl | omega | simp

mutual

theorem node_pieces_declares :
    ∀ (node : Node) (level : Nat) (i : Int),
      Declares (Node.pieces level i node) i (i + Node.names node)
  | .DocType n, level, i => by
    rw [pieces_DocType, names_DocType]
    apply Declares.recount
    · skip
      repeat (first
        | exact Declares.empty _
        | assumption
        | apply Declares.join
        | apply Declares.check
        | (apply Declares.assigns; rfl)
        | (apply Declares.other; rfl)
        | (apply Declares.decl; exact temporaryName_var _ _ _ _ rfl)
        | (apply Declares.decl; exact temporaryName_short _ _ _ _ rfl))
    · first | rfl | omega | simp
  | .Element n, level, i => by
    have h1 := voidElementPieces_declares level i n
    have h2 := standardElementPieces_declares level i n
      (fun j => Node.listPieces level j n.Children) (Node.listNames n.Children)
      (fun j => list_pieces_declares n.Children level j)
    rw [pieces_Element, names_Element]
    split_ifs
    · exact h1
    · exact h2
  | .ForExpression n, level, i => by
    have h1 := list_pieces_declares n.Children (level + 1) i
    rw [pieces_ForExpression, names_ForExpression]
    apply Declares.recount
    · skip
      repeat (first
        | exact Declares.empty _
        | assumption
        | apply Declares.join
        | apply Declares.check
        | (apply Declares.assigns; rfl)
        | (apply Declares.other; rfl)
        | (apply Declares.decl; exact temporaryName_var _ _ _ _ rfl)
        | (apply Declares.decl; exact temporaryName_short _ _ _ _ rfl))
    · rfl
  | .CallTemplateExpression n, level, i => by
    rw [pieces_CallTemplateExpression, names_CallTemplateExpression]
    apply Declares.recount
    · skip
      repeat (first
        | exact Declares.empty _
        | assumption
        | apply Declares.join
        | apply Declares.check
        | (apply Declares.assigns; rfl)
        | (apply Declares.other; rfl)
        | (apply Declares.decl; exact temporaryName_var _ _ _ _ rfl)
        | (apply Declares.decl; exact temporaryName_short _ _ _ _ rfl))
    · first | rfl | omega | simp
  | .IfExpression n, level, i => by
    have h1 := list_pieces_declares n.Then (level + 1) i
    have h2 := list_pieces_declares n.Else (level + 1) (i + Node.listNames n.Then)
    rw [pieces_IfExpression, names_IfExpression]
    split_ifs with h
    · apply Declares.recount
      · skip
        repeat (first
          | exact Declares.empty _
          | assumption
          | apply Declares.join
          | apply Declares.check
          | (apply Declares.assigns; rfl)
          | (apply Declares.other; rfl)
          | (apply Declares.decl; exact temporaryName_var _ _ _ _ rfl)
          | (apply Declares.decl; exact temporaryName_short _ _ _ _ rfl))
      · omega
    · rw [length_eq_nil_of_not_pos _ h, listNames_nil]
      apply Declares.recount
      · skip
        repeat (first
          | exact Declares.empty _
          | assumption
          | apply Declares.join
          | apply Declares.check
          | (apply Declares.assigns; rfl)
          | (apply Declares.other; rfl)
          | (apply Declares.decl; exact temporaryName_var _ _ _ _ rfl)
          | (apply Declares.decl; exact temporaryName_short _ _ _ _ rfl))
      · omega
  | .SwitchExpression n, level, i => by
    have h1 := case_pieces_declares n.Cases level i
    have h2 := list_pieces_declares n.Default (level + 1) (i + Node.caseNames n.Cases)
    rw [pieces_SwitchExpression, names_SwitchExpression]
    split_ifs with h
    · apply Declares.recount
      · skip
        repeat (first
          | exact Declares.empty _
          | assumption
          | apply Declares.join
          | apply Declares.check
          | (apply Declares.assigns; rfl)
          | (apply Declares.other; rfl)
          | (apply Declares.decl; exact temporaryName_var _ _ _ _ rfl)
          | (apply Declares.decl; exact temporaryName_short _ _ _ _ rfl))
      · omega
    · rw [length_eq_nil_of_not_pos _ h, listNames_nil]
      apply Declares.recount
      · skip
        repeat (first
          | exact Declares.empty _
          | assumption
          | apply Declares.join
          | apply Declares.check
          | (apply Declares.assigns; rfl)
          | (apply Declares.other; rfl)
          | (apply Declares.decl; exact temporaryName_var _ _ _ _ rfl)
          | (apply Declares.decl; exact temporaryName_short _ _ _ _ rfl))
      · omega
  | .StringExpression n, level, i => by
    rw [pieces_StringExpression, names_StringExpression]
    apply Declares.recount
    · skip
      repeat (first
        | exact Declares.empty _
        | assumption
        | apply Declares.join
        | apply Declares.check
        | (apply Declares.assigns; rfl)
        | (apply Declares.other; rfl)
        | (apply Declares.decl; exact temporaryName_var _ _ _ _ rfl)
        | (apply Declares.decl; exact temporaryName_short _ _ _ _ rfl))
    · first | rfl | omega | simp
  | .Whitespace n, level, i => by
    rw [pieces_Whitespace, names_Whitespace]
    apply Declares.recount (Declares.empty _)
    simp
  | .Text n, level, i => by
    rw [pieces_Text, names_Text]
    apply Declares.recount
    · skip
      repeat (first
        | exact Declares.empty _
        | assumption
        | apply Declares.join
        | apply Declares.check
        | (apply Declares.assigns; rfl)
        | (apply Declares.other; rfl)
        | (apply Declares.decl; exact temporaryName_var _ _ _ _ rfl)
        | (apply Declares.decl; exact temporaryName_short _ _ _ _ rfl))
    · rfl
  | .Other typeName, level, i => by
    rw [pieces_Other, names_Other]
    apply Declares.recount
    · skip
      repeat (first
        | exact Declares.empty _
        | assumption
        | apply Declares.join
        | apply Declares.check
        | (apply Declares.assigns; rfl)
        | (apply Declares.other; rfl)
        | (apply Declares.decl; exact temporaryName_var _ _ _ _ rfl)
        | (apply Declares.decl; exact temporaryName_short _ _ _ _ rfl))
    · first | rfl | omega | simp

theorem list_pieces_declares :
    ∀ (nodes : List Node) (level : Nat) (i : Int),
      Declares (Node.listPieces level i nodes) i (i + Node.listNames nodes)
  | [], level, i => by
    rw [listPieces_nil, listNames_nil]
    apply Declares.recount (Declares.empty _)
    simp
  | node :: rest, level, i => by
    have h1 := node_pieces_declares node level i
    have h2 := list_pieces_declares rest level (i + Node.names node)
    rw [listPieces_cons, listNames_cons]
    apply Declares.recount
    · skip
      repeat (first
        | exact Declares.empty _
        | assumption
        | apply Declares.join
        | apply Declares.check
        | (apply Declares.assigns; rfl)
        | (apply Declares.other; rfl)
        | (apply Declares.decl; exact temporaryName_var _ _ _ _ rfl)
        | (apply Declares.decl; exact temporaryName_short _ _ _ _ rfl))
    · omega

theorem case_pieces_declares :
    ∀ (cases : List CaseExpression) (level : Nat) (i : Int),
      Declares (Node.casePieces level i cases) i (i + Node.caseNames cases)
  | [], level, i => by
    rw [casePieces_nil, caseNames_nil]
    apply Declares.recount (Declares.empty _)
    simp
  | c :: rest, level, i => by
    have h1 := list_pieces_declares c.Children (level + 1) i
    have h2 := case_pieces_declares rest level (i + Node.listNames c.Children)
    rw [casePieces_cons, caseNames_cons]
    apply Declares.recount
    · skip
      repeat (first
        | exact Declares.empty _
        | assumption
        | apply Declares.join
        | apply Declares.check
        | (apply Declares.assigns; rfl)
        | (apply Declares.other; rfl)
        | (apply Declares.decl; exact temporaryName_var _ _ _ _ rfl)
        | (apply Declares.decl; exact temporaryName_short _ _ _ _ rfl))
    · omega

end

theorem template_pieces_declares (t : HTMLTemplate) (i : Int) :
    Declares (t.pieces i) i (i + Node.listNames t.Children) := by
  have h1 := list_pieces_declares t.Children 2 i
  unfold HTMLTemplate.pieces
  apply Declares.recount
  · skip
    repeat (first
      | exact Declares.empty _
      | assumption
      | apply Declares.join
      | apply Declares.check
      | (apply Declares.assigns; rfl)
      | (apply Declares.other; rfl)
      | (apply Declares.decl; exact temporaryName_var _ _ _ _ rfl)
      | (apply Declares.decl; exact temporaryName_short _ _ _ _ rfl))
  · rfl

theorem propertyPieces_declares (env : Env) (level : Nat) (props : List CSSProperty) (i : Int) :
    Declares (propertyPieces env level props) i i := by
  induction props with
  | nil => exact Declares.empty _
  | cons p rest ih =>
    unfold propertyPieces
    split_ifs
    · cases p <;> simp only [CSSProperty.pieces]
      all_goals
        repeat (first
          | exact Declares.empty _
          | assumption
          | apply Declares.join
          | apply Declares.check
          | (apply Declares.assigns; rfl)
          | (apply Declares.other; rfl)
          | (apply Declares.decl; exact temporaryName_var _ _ _ _ rfl)
          | (apply Declares.decl; exact temporaryName_short _ _ _ _ rfl))
    · exact Declares.empty _

theorem css_pieces_declares (env : Env) (n : CSSTemplate) (i : Int) :
    Declares (n.pieces env) i i := by
  have h1 := propertyPieces_declares env 1 n.Properties i
  unfold CSSTemplate.pieces
  split_ifs
  all_goals
    repeat (first
      | exact Declares.empty _
      | assumption
      | apply Declares.join
      | apply Declares.check
      | (apply Declares.assigns; rfl)
      | (apply Declares.other; rfl)
      | (apply Declares.decl; exact temporaryName_var _ _ _ _ rfl)
      | (apply Declares.decl; exact temporaryName_short _ _ _ _ rfl)
      | (apply Declares.pass; rfl))

theorem script_pieces_declares (env : Env) (t : ScriptTemplate) (i : Int) :
    Declares (t.pieces env) i i := by
  unfold ScriptTemplate.pieces
  repeat (first
    | exact Declares.empty _
    | assumption
    | apply Declares.join
    | apply Declares.check
    | (apply Declares.assigns; rfl)
    | (apply Declares.other; rfl)
    | (apply Declares.decl; exact temporaryName_var _ _ _ _ rfl)
    | (apply Declares.decl; exact temporaryName_short _ _ _ _ rfl))

theorem declaration_pieces_declares (env : Env) (i : Int) (n : TemplateFileNode) :
    Declares (n.pieces env i) i (i + n.names) := by
  cases n with
  | HTMLTemplate t => exact template_pieces_declares t i
  | CSSTemplate c =>
    apply Declares.recount (css_pieces_declares env c i)
    simp [TemplateFileNode.names]
  | ScriptTemplate t =>
    apply Declares.recount (script_pieces_declares env t i)
    simp [TemplateFileNode.names]
  | Other typeName =>
    apply Declares.recount (Declares.empty _)
    simp [TemplateFileNode.names]

theorem declarationPieces_declares (env : Env) (nodes : List TemplateFileNode) :
    ∀ i : Int, Declares (declarationPieces env i nodes) i (i + declarationNames nodes) := by
  induction nodes with
  | nil =>
    intro i
    apply Declares.recount (Declares.empty _)
    simp [declarationNames]
  | cons n rest ih =>
    intro i
    have h1 := declaration_pieces_declares env i n
    have h2 := ih (i + n.names)
    rw [declarationPieces_cons, declarationNames_cons]
    split_ifs
    all_goals
      apply Declares.recount
      · skip
        repeat (first
          | exact Declares.empty _
          | assumption
          | apply Declares.join
          | apply Declares.check
          | (apply Declares.assigns; rfl)
          | (apply Declares.other; rfl)
          | (apply Declares.decl; exact temporaryName_var _ _ _ _ rfl)
          | (apply Declares.decl; exact temporaryName_short _ _ _ _ rfl))
      · omega

theorem userImports_declares (imports : List Import) (i : Int) :
    Declares (imports.map (fun im => Piece.plain 0 ("import " ++ im.Expression.Value ++ "\n")
      [im.Expression])) i i := by
  induction imports with
  | nil => exact Declares.empty _
  | cons im rest ih =>
    rw [List.map_cons]
    repeat (first
      | exact Declares.empty _
      | assumption
      | apply Declares.join
      | apply Declares.check
      | (apply Declares.assigns; rfl)
      | (apply Declares.other; rfl)
      | (apply Declares.decl; exact temporaryName_var _ _ _ _ rfl)
      | (apply Declares.decl; exact temporaryName_short _ _ _ _ rfl))

theorem importPieces_declares (tf : TemplateFile) (i : Int) :
    Declares (importPieces tf) i i := by
  have h1 := userImports_declares tf.Imports i
  unfold importPieces
  split_ifs
  all_goals
    repeat (first
      | exact Declares.empty _
      | assumption
      | apply Declares.join
      | apply Declares.check
      | (apply Declares.assigns; rfl)
      | (apply Declares.other; rfl)
      | (apply Declares.decl; exact temporaryName_var _ _ _ _ rfl)
      | (apply Declares.decl; exact temporaryName_short _ _ _ _ rfl))

theorem file_pieces_declares (env : Env) (tf : TemplateFile) :
    Declares (tf.pieces env) 0 (declarationNames tf.Nodes) := by
  have h1 := importPieces_declares tf 0
  have h2 := declarationPieces_declares env tf.Nodes 0
  unfold TemplateFile.pieces
  apply Declares.recount
  · skip
    repeat (first
      | exact Declares.empty _
      | assumption
      | apply Declares.join
      | apply Declares.check
      | (apply Declares.assigns; rfl)
      | (apply Declares.other; rfl)
      | (apply Declares.decl; exact temporaryName_var _ _ _ _ rfl)
      | (apply Declares.decl; exact temporaryName_short _ _ _ _ rfl))
  · first | rfl | omega | simp

/-! ## The names of the temporaries in the generated text -/

theorem namesBetween_zero (n : Int) :
    namesBetween 0 n
      = (List.range n.toNat).map (fun k : Nat => "var_" ++ toString ((k : Int) + 1)) := by
  unfold namesBetween
  rw [sub_zero]
  apply List.map_congr_left
  intro k _
  unfold varName
  congr 2
  omega

theorem file_temporaries (env : Env) (tf : TemplateFile) :
    temporaries (tf.pieces env)
      = (List.range (declarationNames tf.Nodes).toNat).map
          (fun k : Nat => "var_" ++ toString ((k : Int) + 1)) := by
  rw [(file_pieces_declares env tf).2, namesBetween_zero]

theorem head_names (n : Nat) :
    ∀ name ∈ ((List.range n).map (fun k : Nat => "var_" ++ toString ((k : Int) + 1))).head?,
      name = "var_1" := by
  intro name hname
  cases n with
  | zero => simp at hname
  | succ n =>
    rw [List.range_succ_eq_map] at hname
    simp only [List.map_cons, List.head?_cons, Option.mem_def, Option.some.injEq] at hname
    rw [← hname]
    rfl

/-- C18: within one `Generate` call the names that `createVariableName` returns
are `var_1`, `var_2`, … in this order and pairwise distinct, whatever the sink
does. On a sink that accepts all writes the output is the text of the pieces of
the template file, and the temporaries that these pieces declare, by a
statement that begins with `var var_` or with `var_`, are `var_1`, `var_2`, …
in the order of the text: the `k`-th one is `var_k`, counting from 1, as many
as the generator takes names; they are pairwise distinct, and the first one of
every call is `var_1`. -/
theorem Generate_variable_names (env : Env) (template : TemplateFile) (w : Sink) :
    (w.accepts →
      (Generate env template w).w.out = w.out ++ render (template.pieces env) ∧
      temporaries (template.pieces env)
        = (List.range (declarationNames template.Nodes).toNat).map
            (fun k : Nat => "var_" ++ toString ((k : Int) + 1)) ∧
      (temporaries (template.pieces env)).Nodup ∧
      ∀ name ∈ (temporaries (template.pieces env)).head?, name = "var_1") ∧
    ∃ (g : generator) (names : List String),
      Synth ⟨template, NewRangeWriter w, NewSourceMap, 0⟩ g names ∧
      (generator.generate env ⟨template, NewRangeWriter w, NewSourceMap, 0⟩).2.w = g.w ∧
      (generator.generate env ⟨template, NewRangeWriter w, NewSourceMap, 0⟩).2.sourceMap
        = g.sourceMap ∧
      (generator.generate env ⟨template, NewRangeWriter w, NewSourceMap, 0⟩).2.variableID
        = (names.length : Int) ∧
      names = (List.range names.length).map (fun k : Nat => "var_" ++ toString ((k : Int) + 1)) ∧
      names.Nodup := by
  refine ⟨fun h => ⟨(Generate_pieces env template w h).2.2.1, file_temporaries env template, ?_, ?_⟩,
    generate_synth_names env template w⟩
  · rw [file_temporaries]
    refine List.Nodup.map ?_ (List.nodup_range _)
    intro a b hab
    exact varName_injective a b hab
  · rw [file_temporaries]
    exact head_names _

/-- C18 at the template with the body `<div class={ x }></div>hi`, on the
empty sink that accepts all writes: the temporaries that the text declares are
`var_1`, for the classes, and `var_2`, for the text. -/
theorem Generate_variable_names_witness :
    acceptingSink.accepts ∧
    temporaries ((templateOf classThenText).pieces exampleEnv) = ["var_1", "var_2"] :=
  ⟨fun _ => rfl,
    (((Generate_variable_names exampleEnv (templateOf classThenText) acceptingSink).1
      (fun _ => rfl)).2.1).trans (by decide!)⟩

/-! ## The expressions that the source map records -/

theorem Records.none (xs : List Expression) : Records [] xs :=
  ⟨[], [], List.Perm.refl _, List.nil_subperm, fun _ h => absurd h (List.not_mem_nil _)⟩

theorem Records.all (xs : List Expression) : Records xs xs :=
  ⟨xs, [], by simp, List.Subperm.refl _, fun _ h => absurd h (List.not_mem_nil _)⟩

theorem Records.mono {es xs ys : List Expression} (h : Records es xs) (hs : xs.Subperm ys) :
    Records es ys := by
  obtain ⟨ins, syn, hp, hi, hsyn⟩ := h
  exact ⟨ins, syn, hp, hi.trans hs, hsyn⟩

theorem Records.reorder {es es' xs : List Expression} (h : Records es xs) (hp : es'.Perm es) :
    Records es' xs := by
  obtain ⟨ins, syn, hp', hi, hsyn⟩ := h
  exact ⟨ins, syn, hp.trans hp', hi, hsyn⟩

theorem Records.both {a b xs ys : List Expression} (ha : Records a xs) (hb : Records b ys) :
    Records (a ++ b) (xs ++ ys) := by
  obtain ⟨ia, sa, hpa, hia, hsa⟩ := ha
  obtain ⟨ib, sb, hpb, hib, hsb⟩ := hb
  refine ⟨ia ++ ib, sa ++ sb, ?_,
    ((List.subperm_append_right ib).mpr hia).trans ((List.subperm_append_left xs).mpr hib), ?_⟩
  · refine (hpa.append hpb).trans ?_
    rw [List.append_assoc, List.append_assoc]
    refine List.Perm.append_left ia ?_
    rw [← List.append_assoc, ← List.append_assoc]
    exact List.Perm.append_right sb List.perm_append_comm
  · intro e he
    rcases List.mem_append.mp he with h | h
    · exact hsa e h
    · exact hsb e h

theorem Records.input {es xs : List Expression} (e : Expression) (h : Records es xs) :
    Records (e :: es) (e :: xs) :=
  Records.both (Records.all [e]) h

theorem Records.lifted {es xs : List Expression} {e : Expression} (he : synthesized e)
    (h : Records es xs) : Records (e :: es) xs := by
  have h1 : Records [e] [] :=
    ⟨[], [e], List.Perm.refl _, List.nil_subperm, fun x hx => by
      rw [List.mem_singleton.mp hx]; exact he⟩
  exact Records.both h1 h

theorem Records.left {es xs : List Expression} (ys : List Expression) (h : Records es xs) :
    Records es (xs ++ ys) :=
  h.mono (List.Sublist.subperm (List.sublist_append_left _ _))

theorem Records.right {es ys : List Expression} (xs : List Expression) (h : Records es ys) :
    Records es (xs ++ ys) :=
  h.mono (List.Sublist.subperm (List.sublist_append_right _ _))

theorem Records.tail {es xs : List Expression} (x : Expression) (h : Records es xs) :
    Records es (x :: xs) :=
  h.mono (List.Sublist.subperm (List.sublist_cons_self _ _))

theorem attribute_pieces_sources (level : Nat) (elementName : String) (i : Int)
    (a : Attribute) : sourcesOf (a.pieces level elementName i) = a.exprs := by
  cases a <;> simp only [Attribute.pieces, Attribute.exprs]
  case ExpressionAttribute name e =>
    split_ifs <;> rfl
  all_goals rfl

theorem attributePieces_records (level : Nat) (elementName : String)
    (attributes : List Attribute) :
    ∀ i : Int, Records (sourcesOf (attributePieces level elementName i attributes))
      (attributes.flatMap Attribute.exprs) := by
  induction attributes with
  | nil => intro i; exact Records.none _
  | cons a rest ih =>
    intro i
    rw [attributePieces_cons, List.flatMap_cons]
    split_ifs
    · rw [sourcesOf_append, attribute_pieces_sources]
      exact Records.both (Records.all _) (ih _)
    · exact Records.none _

theorem liftPieces_records (level : Nat) (attributes : List Attribute) :
    ∀ i : Int, Records (sourcesOf (liftPieces level i attributes))
      (attributes.flatMap Attribute.exprs) := by
  induction attributes with
  | nil => intro i; exact Records.none _
  | cons a rest ih =>
    intro i
    rw [liftPieces_cons, List.flatMap_cons, sourcesOf_append]
    refine Records.both ?_ (ih _)
    cases a <;> simp only [Attribute.liftPieces, Attribute.exprs]
    case ExpressionAttribute name e =>
      split_ifs
      · exact Records.all _
      · exact Records.none _
    all_goals exact Records.none _

theorem synthesized_varName (k : Int) :
    synthesized { Value := varName k ++ ".String()", Range := default } := ⟨k, rfl⟩

theorem lifted_attributes_records (level : Nat) (elementName : String)
    (attributes : List Attribute) :
    ∀ i j : Int,
      Records (sourcesOf (liftPieces level i attributes)
        ++ sourcesOf (attributePieces level elementName j (liftAttributes i attributes)))
        (attributes.flatMap Attribute.exprs) := by
  induction attributes with
  | nil => intro i j; exact Records.none _
  | cons a rest ih =>
    intro i j
    rw [liftPieces_cons, liftAttributes_cons, attributePieces_cons, List.flatMap_cons,
      sourcesOf_append]
    by_cases hk : a.known = true
    · rw [Attribute.lift_known, if_pos hk, sourcesOf_append, attribute_pieces_sources]
      generalize j + (a.lift i).names elementName = j'
      have h := ih (i + (if a.isClass then 1 else 0)) j'
      generalize sourcesOf (liftPieces level (i + (if a.isClass then 1 else 0)) rest) = L at h ⊢
      generalize sourcesOf (attributePieces level elementName j'
        (liftAttributes (i + (if a.isClass then 1 else 0)) rest)) = P at h ⊢
      cases a with
      | ExpressionAttribute name e =>
        by_cases hc : html.EscapeString name = "class"
        · have e1 : sourcesOf (Attribute.liftPieces level i (.ExpressionAttribute name e)) = [e] := by
            simp only [Attribute.liftPieces, hc, if_true]
            rfl
          have e2 : (Attribute.lift i (.ExpressionAttribute name e)).exprs
              = [{ Value := varName (i + 1) ++ ".String()", Range := default }] := by
            simp only [Attribute.lift, hc, if_true, Attribute.exprs]
          rw [e1, e2]
          refine Records.reorder (Records.input e (Records.lifted (synthesized_varName (i + 1)) h)) ?_
          simp only [List.singleton_append, List.cons_append, List.nil_append, List.append_assoc]
          exact List.Perm.cons e List.perm_middle
        · have e1 : sourcesOf (Attribute.liftPieces level i (.ExpressionAttribute name e)) = [] := by
            simp only [Attribute.liftPieces, hc, if_false]
            rfl
          have e2 : (Attribute.lift i (.ExpressionAttribute name e)).exprs = [e] := by
            simp only [Attribute.lift, hc, if_false, Attribute.exprs]
          rw [e1, e2]
          refine Records.reorder (Records.input e h) ?_
          simp only [List.singleton_append, List.cons_append, List.nil_append, List.append_assoc]
          exact List.perm_middle
      | BoolExpressionAttribute name e =>
        refine Records.reorder (Records.input e h) ?_
        show (([] ++ L) ++ ([e] ++ P)).Perm (e :: (L ++ P))
        simp only [List.singleton_append, List.cons_append, List.nil_append, List.append_assoc]
        exact List.perm_middle
      | BoolConstantAttribute name => exact h
      | ConstantAttribute name value => exact h
      | Other typeName => simp [Attribute.known] at hk
    · rw [Attribute.lift_known, if_neg hk]
      cases a with
      | Other typeName =>
        have h := liftPieces_records level rest
          (i + (if (Attribute.Other typeName).isClass then 1 else 0))
        exact Records.reorder h (by
          show (([] ++ _) ++ []).Perm _
          simp)
      | _ => simp [Attribute.known] at hk

theorem voidElementPieces_records (level : Nat) (i : Int) (n : Element) :
    Records (sourcesOf (voidElementPieces level i n)) (n.Attributes.flatMap Attribute.exprs) := by
  have h := attributePieces_records level n.Name n.Attributes i
  unfold voidElementPieces
  split_ifs
  · exact Records.none _
  · exact Records.none _
  · simp only [sourcesOf_append, sourcesOf_cons, sourcesOf_nil, Piece.sources, List.cons_append,
    List.nil_append, List.append_nil, List.append_assoc]
    exact h
  · simp only [sourcesOf_append, sourcesOf_cons, sourcesOf_nil, Piece.sources, List.cons_append,
    List.nil_append, List.append_nil, List.append_assoc]
    exact h

theorem standardElementPieces_records (level : Nat) (i : Int) (n : Element)
    (children : Int → List Piece) (xs : List Expression)
    (hc : ∀ j, Records (sourcesOf (children j)) xs) :
    Records (sourcesOf (standardElementPieces level i n children))
      (n.Attributes.flatMap Attribute.exprs ++ xs) := by
  have h := lifted_attributes_records level n.Name n.Attributes i (i + classCount n.Attributes)
  unfold standardElementPieces scriptPieces
  split_ifs
  · simp only [sourcesOf_append, sourcesOf_cons, sourcesOf_nil, Piece.sources, List.cons_append,
    List.nil_append, List.append_nil, List.append_assoc]
    exact Records.right _ (hc _)
  · simp only [sourcesOf_append, sourcesOf_cons, sourcesOf_nil, Piece.sources, List.cons_append,
    List.nil_append, List.append_nil, List.append_assoc]
    exact Records.left _ h
  · simp only [sourcesOf_append, sourcesOf_cons, sourcesOf_nil, Piece.sources, List.cons_append,
    List.nil_append, List.append_nil, List.append_assoc]
    rw [← List.append_assoc]
    exact Records.both h (hc _)

theorem exprs_Element (n : Element) :
    Node.exprs (.Element n)
      = n.Attributes.flatMap Attribute.exprs ++ Node.exprsList n.Children := rfl

theorem exprs_ForExpression (n : ForExpression) :
    Node.exprs (.ForExpression n) = n.Expression :: Node.exprsList n.Children := rfl

theorem exprs_IfExpression (n : IfExpression) :
    Node.exprs (.IfExpression n)
      = n.Expression :: (Node.exprsList n.Then ++ Node.exprsList n.Else) := rfl

theorem exprs_SwitchExpression (n : SwitchExpression) :
    Node.exprs (.SwitchExpression n)
      = n.Expression :: (Node.exprsCases n.Cases ++ Node.exprsList n.Default) := rfl

theorem exprsList_cons (node : Node) (rest : List Node) :
    Node.exprsList (node :: rest) = Node.exprs node ++ Node.exprsList rest := rfl

theorem exprsCases_cons (c : CaseExpression) (rest : List CaseExpression) :
    Node.exprsCases (c :: rest)
      = c.Expression :: (Node.exprsList c.Children ++ Node.exprsCases rest) := rfl

mutual

theorem node_pieces_records :
    ∀ (node : Node) (level : Nat) (i : Int),
      Records (sourcesOf (Node.pieces level i node)) (Node.exprs node)
  | .DocType n, level, i => Records.none _
  | .Element n, level, i => by
    have h1 := voidElementPieces_records level i n
    have h2 := standardElementPieces_records level i n
      (fun j => Node.listPieces level j n.Children) (Node.exprsList n.Children)
      (fun j => list_pieces_records n.Children level j)
    rw [pieces_Element, exprs_Element]
    split_ifs
    · exact Records.left _ h1
    · exact h2
  | .ForExpression n, level, i => by
    have h1 := list_pieces_records n.Children (level + 1) i
    rw [pieces_ForExpression, exprs_ForExpression]
    simp only [sourcesOf_append, sourcesOf_cons, sourcesOf_nil, Piece.sources, List.cons_append,
      List.nil_append, List.append_nil, List.append_assoc]
    exact Records.input _ h1
  | .CallTemplateExpression n, level, i => Records.all _
  | .IfExpression n, level, i => by
    have h1 := list_pieces_records n.Then (level + 1) i
    have h2 := list_pieces_records n.Else (level + 1) (i + Node.listNames n.Then)
    rw [pieces_IfExpression, exprs_IfExpression]
    split_ifs
    · simp only [sourcesOf_append, sourcesOf_cons, sourcesOf_nil, Piece.sources, List.cons_append,
      List.nil_append, List.append_nil, List.append_assoc]
      exact Records.input _ (Records.both h1 h2)
    · simp only [sourcesOf_append, sourcesOf_cons, sourcesOf_nil, Piece.sources, List.cons_append,
      List.nil_append, List.append_nil, List.append_assoc]
      exact Records.input _ (Records.left _ h1)
  | .SwitchExpression n, level, i => by
    have h1 := case_pieces_records n.Cases level i
    have h2 := list_pieces_records n.Default (level + 1) (i + Node.caseNames n.Cases)
    rw [pieces_SwitchExpression, exprs_SwitchExpression]
    split_ifs
    · simp only [sourcesOf_append, sourcesOf_cons, sourcesOf_nil, Piece.sources, List.cons_append,
      List.nil_append, List.append_nil, List.append_assoc]
      exact Records.input _ (Records.both h1 h2)
    · simp only [sourcesOf_append, sourcesOf_cons, sourcesOf_nil, Piece.sources, List.cons_append,
      List.nil_append, List.append_nil, List.append_assoc]
      exact Records.input _ (Records.left _ h1)
  | .StringExpression n, level, i => Records.all _
  | .Whitespace n, level, i => Records.none _
  | .Text n, level, i => Records.none _
  | .Other typeName, level, i => Records.none _

theorem list_pieces_records :
    ∀ (nodes : List Node) (level : Nat) (i : Int),
      Records (sourcesOf (Node.listPieces level i nodes)) (Node.exprsList nodes)
  | [], level, i => Records.none _
  | node :: rest, level, i => by
    have h1 := node_pieces_records node level i
    have h2 := list_pieces_records rest level (i + Node.names node)
    rw [listPieces_cons, exprsList_cons, sourcesOf_append]
    exact Records.both h1 h2

theorem case_pieces_records :
    ∀ (cases : List CaseExpression) (level : Nat) (i : Int),
      Records (sourcesOf (Node.casePieces level i cases)) (Node.exprsCases cases)
  | [], level, i => Records.none _
  | c :: rest, level, i => by
    have h1 := list_pieces_records c.Children (level + 1) i
    have h2 := case_pieces_records rest level (i + Node.listNames c.Children)
    rw [casePieces_cons, exprsCases_cons]
    simp only [sourcesOf_append, sourcesOf_cons, sourcesOf_nil, Piece.sources, List.cons_append,
      List.nil_append, List.append_nil, List.append_assoc]
    exact Records.input _ (Records.both h1 h2)

end

theorem template_pieces_records (t : HTMLTemplate) (i : Int) :
    Records (sourcesOf (t.pieces i)) (t.Name :: t.Parameters :: Node.exprsList t.Children) := by
  have h1 := list_pieces_records t.Children 2 i
  unfold HTMLTemplate.pieces
  simp only [sourcesOf_append, sourcesOf_cons, sourcesOf_nil, Piece.sources, List.cons_append,
    List.nil_append, List.append_nil, List.append_assoc]
  exact Records.input _ (Records.input _ h1)

theorem propertyPieces_records (env : Env) (level : Nat) (props : List CSSProperty) :
    Records (sourcesOf (propertyPieces env level props)) (props.flatMap CSSProperty.exprs) := by
  induction props with
  | nil => exact Records.none _
  | cons p rest ih =>
    unfold propertyPieces
    rw [List.flatMap_cons]
    split_ifs
    · rw [sourcesOf_append]
      refine Records.both ?_ ih
      cases p with
      | ConstantCSSProperty name value => exact Records.none _
      | ExpressionCSSProperty name value => exact Records.all _
      | Other typeName => exact Records.none _
    · exact Records.none _

theorem css_pieces_records (env : Env) (n : CSSTemplate) :
    Records (sourcesOf (n.pieces env)) (n.Name :: n.Properties.flatMap CSSProperty.exprs) := by
  have h1 := propertyPieces_records env 1 n.Properties
  unfold CSSTemplate.pieces
  split_ifs
  · simp only [sourcesOf_append, sourcesOf_cons, sourcesOf_nil, Piece.sources, List.cons_append,
    List.nil_append, List.append_nil, List.append_assoc]
    exact Records.input _ h1
  · simp only [sourcesOf_append, sourcesOf_cons, sourcesOf_nil, Piece.sources, List.cons_append,
    List.nil_append, List.append_nil, List.append_assoc]
    exact Records.input _ h1

theorem declaration_pieces_records (env : Env) (i : Int) (n : TemplateFileNode) :
    Records (sourcesOf (n.pieces env i)) n.exprs := by
  cases n with
  | HTMLTemplate t => exact template_pieces_records t i
  | CSSTemplate c => exact css_pieces_records env c
  | ScriptTemplate t => exact Records.all _
  | Other typeName => exact Records.none _

theorem declarationPieces_records (env : Env) (nodes : List TemplateFileNode) :
    ∀ i : Int, Records (sourcesOf (declarationPieces env i nodes))
      (nodes.flatMap TemplateFileNode.exprs) := by
  induction nodes with
  | nil => intro i; exact Records.none _
  | cons n rest ih =>
    intro i
    have h1 := declaration_pieces_records env i n
    rw [declarationPieces_cons, List.flatMap_cons, sourcesOf_append]
    split_ifs
    · exact Records.both h1 (Records.none _)
    · exact Records.both h1 (ih _)

theorem file_pieces_records (env : Env) (tf : TemplateFile) :
    Records (sourcesOf (tf.pieces env)) tf.exprs := by
  have h1 := declarationPieces_records env tf.Nodes 0
  unfold TemplateFile.pieces TemplateFile.exprs
  simp only [sourcesOf_importPieces, sourcesOf_append, sourcesOf_cons, sourcesOf_nil, Piece.sources,
    List.cons_append, List.nil_append, List.append_nil, List.append_assoc]
  exact Records.input _ (Records.both (Records.all _) h1)

/-! ## Every expression of a template file is recorded once -/

theorem Covers.exact (xs : List Expression) : Covers xs xs :=
  ⟨[], by simp, fun _ h => absurd h (List.not_mem_nil _)⟩

theorem Covers.permute {es es' xs : List Expression} (h : Covers es xs) (hp : es'.Perm es) :
    Covers es' xs := by
  obtain ⟨syn, hp', hsyn⟩ := h
  exact ⟨syn, hp.trans hp', hsyn⟩

theorem Covers.union {a b xs ys : List Expression} (ha : Covers a xs) (hb : Covers b ys) :
    Covers (a ++ b) (xs ++ ys) := by
  obtain ⟨sa, hpa, hsa⟩ := ha
  obtain ⟨sb, hpb, hsb⟩ := hb
  refine ⟨sa ++ sb, ?_, ?_⟩
  · refine (hpa.append hpb).trans ?_
    rw [List.append_assoc, List.append_assoc]
    refine List.Perm.append_left xs ?_
    rw [← List.append_assoc, ← List.append_assoc]
    exact List.Perm.append_right sb List.perm_append_comm
  · intro e he
    rcases List.mem_append.mp he with h | h
    · exact hsa e h
    · exact hsb e h

theorem Covers.head {es xs : List Expression} (e : Expression) (h : Covers es xs) :
    Covers (e :: es) (e :: xs) :=
  Covers.union (Covers.exact [e]) h

theorem Covers.extra {es xs : List Expression} {e : Expression} (he : synthesized e)
    (h : Covers es xs) : Covers (e :: es) xs := by
  have h1 : Covers [e] [] :=
    ⟨[e], List.Perm.refl _, fun x hx => by rw [List.mem_singleton.mp hx]; exact he⟩
  exact Covers.union h1 h

theorem Covers.records {es xs : List Expression} (h : Covers es xs) : Records es xs := by
  obtain ⟨syn, hp, hsyn⟩ := h
  exact ⟨xs, syn, hp, List.Subperm.refl _, hsyn⟩

theorem attributeError_cons_none (a : Attribute) (rest : List Attribute)
    (h : attributeError (a :: rest) = none) : a.known = true ∧ attributeError rest = none := by
  cases a <;> first | exact ⟨rfl, h⟩ | simp [attributeError] at h

theorem lifted_attributes_covers (level : Nat) (elementName : String)
    (attributes : List Attribute) (hn : attributeError attributes = none) :
    ∀ i j : Int,
      Covers (sourcesOf (liftPieces level i attributes)
        ++ sourcesOf (attributePieces level elementName j (liftAttributes i attributes)))
        (attributes.flatMap Attribute.exprs) := by
  induction attributes with
  | nil => intro i j; exact Covers.exact _
  | cons a rest ih =>
    intro i j
    obtain ⟨hk, hr⟩ := attributeError_cons_none a rest hn
    rw [liftPieces_cons, liftAttributes_cons, attributePieces_cons, List.flatMap_cons,
      sourcesOf_append]
    rw [Attribute.lift_known, if_pos hk, sourcesOf_append, attribute_pieces_sources]
    generalize j + (a.lift i).names elementName = j'
    have h := ih hr (i + (if a.isClass then 1 else 0)) j'
    generalize sourcesOf (liftPieces level (i + (if a.isClass then 1 else 0)) rest) = L at h ⊢
    generalize sourcesOf (attributePieces level elementName j'
      (liftAttributes (i + (if a.isClass then 1 else 0)) rest)) = P at h ⊢
    cases a with
    | ExpressionAttribute name e =>
      by_cases hc : html.EscapeString name = "class"
      · have e1 : sourcesOf (Attribute.liftPieces level i (.ExpressionAttribute name e)) = [e] := by
          simp only [Attribute.liftPieces, hc, if_true]
          rfl
        have e2 : (Attribute.lift i (.ExpressionAttribute name e)).exprs
            = [{ Value := varName (i + 1) ++ ".String()", Range := default }] := by
          simp only [Attribute.lift, hc, if_true, Attribute.exprs]
        rw [e1, e2]
        refine Covers.permute (Covers.head e (Covers.extra (synthesized_varName (i + 1)) h)) ?_
        simp only [List.singleton_append, List.cons_append, List.nil_append, List.append_assoc]
        exact List.Perm.cons e List.perm_middle
      · have e1 : sourcesOf (Attribute.liftPieces level i (.ExpressionAttribute name e)) = [] := by
          simp only [Attribute.liftPieces, hc, if_false]
          rfl
        have e2 : (Attribute.lift i (.ExpressionAttribute name e)).exprs = [e] := by
          simp only [Attribute.lift, hc, if_false, Attribute.exprs]
        rw [e1, e2]
        refine Covers.permute (Covers.head e h) ?_
        simp only [List.singleton_append, List.cons_append, List.nil_append, List.append_assoc]
        exact List.perm_middle
    | BoolExpressionAttribute name e =>
      refine Covers.permute (Covers.head e h) ?_
      show (([] ++ L) ++ ([e] ++ P)).Perm (e :: (L ++ P))
      simp only [List.singleton_append, List.cons_append, List.nil_append, List.append_assoc]
      exact List.perm_middle
    | BoolConstantAttribute name => exact h
    | ConstantAttribute name value => exact h
    | Other typeName => simp [Attribute.known] at hk

theorem attributePieces_sources (level : Nat) (elementName : String)
    (attributes : List Attribute) (hn : attributeError attributes = none) :
    ∀ i : Int, sourcesOf (attributePieces level elementName i attributes)
      = attributes.flatMap Attribute.exprs := by
  induction attributes with
  | nil => intro i; rfl
  | cons a rest ih =>
    intro i
    obtain ⟨hk, hr⟩ := attributeError_cons_none a rest hn
    rw [attributePieces_cons, List.flatMap_cons, if_pos hk, sourcesOf_append,
      attribute_pieces_sources, ih hr]

theorem voidElementPieces_covers (level : Nat) (i : Int) (n : Element)
    (hn : attributeError n.Attributes = none) (hc : n.Children.isEmpty = true) :
    Covers (sourcesOf (voidElementPieces level i n)) (n.Attributes.flatMap Attribute.exprs) := by
  have h := attributePieces_sources level n.Name n.Attributes hn i
  have hl : ¬ n.Children.length > 0 := by
    rw [List.isEmpty_iff] at hc
    rw [hc]
    simp
  unfold voidElementPieces
  rw [if_neg hl]
  split_ifs with h0
  · rw [List.length_eq_zero.mp h0]
    exact Covers.exact _
  · simp only [sourcesOf_append, sourcesOf_cons, sourcesOf_nil, Piece.sources, List.cons_append,
    List.nil_append, List.append_nil, List.append_assoc]
    rw [h]
    exact Covers.exact _
  · simp only [sourcesOf_append, sourcesOf_cons, sourcesOf_nil, Piece.sources, List.cons_append,
    List.nil_append, List.append_nil, List.append_assoc]
    rw [h]
    exact Covers.exact _

theorem standardElementPieces_covers (level : Nat) (i : Int) (n : Element)
    (children : Int → List Piece) (xs : List Expression)
    (hn : attributeError n.Attributes = none)
    (hc : ∀ j, Covers (sourcesOf (children j)) xs) :
    Covers (sourcesOf (standardElementPieces level i n children))
      (n.Attributes.flatMap Attribute.exprs ++ xs) := by
  have h := lifted_attributes_covers level n.Name n.Attributes hn i (i + classCount n.Attributes)
  unfold standardElementPieces scriptPieces
  split_ifs with h0 h1
  · simp only [sourcesOf_append, sourcesOf_cons, sourcesOf_nil, Piece.sources, List.cons_append,
    List.nil_append, List.append_nil, List.append_assoc]
    rw [List.length_eq_zero.mp h0]
    exact hc _
  · exact absurd hn h1
  · simp only [sourcesOf_append, sourcesOf_cons, sourcesOf_nil, Piece.sources, List.cons_append,
    List.nil_append, List.append_nil, List.append_assoc]
    rw [← List.append_assoc]
    exact Covers.union h (hc _)

theorem regular_Element (n : Element) :
    Node.regular (.Element n)
      = (decide (attributeError n.Attributes = none)
          && (if n.Void then n.Children.isEmpty else Node.listRegular n.Children)) := rfl

theorem regular_ForExpression (n : ForExpression) :
    Node.regular (.ForExpression n) = Node.listRegular n.Children := rfl

theorem regular_IfExpression (n : IfExpression) :
    Node.regular (.IfExpression n)
      = (Node.listRegular n.Then && Node.listRegular n.Else) := rfl

theorem regular_SwitchExpression (n : SwitchExpression) :
    Node.regular (.SwitchExpression n)
      = (Node.casesRegular n.Cases && Node.listRegular n.Default) := rfl

theorem listRegular_cons (node : Node) (rest : List Node) :
    Node.listRegular (node :: rest) = (Node.regular node && Node.listRegular rest) := rfl

theorem casesRegular_cons (c : CaseExpression) (rest : List CaseExpression) :
    Node.casesRegular (c :: rest)
      = (Node.listRegular c.Children && Node.casesRegular rest) := rfl

mutual

theorem node_pieces_covers :
    ∀ (node : Node) (level : Nat) (i : Int), Node.regular node = true →
      Covers (sourcesOf (Node.pieces level i node)) (Node.exprs node)
  | .DocType n, level, i, _ => Covers.exact _
  | .Element n, level, i, h => by
    rw [regular_Element, Bool.and_eq_true, decide_eq_true_eq] at h
    obtain ⟨hn, hc⟩ := h
    rw [pieces_Element, exprs_Element]
    by_cases hv : n.Void = true
    · rw [if_pos hv] at hc ⊢
      have h1 := voidElementPieces_covers level i n hn hc
      rw [List.isEmpty_iff.mp hc]
      exact Covers.permute (Covers.union h1 (Covers.exact [])) (by simp)
    · rw [if_neg hv] at hc ⊢
      exact standardElementPieces_covers level i n
        (fun j => Node.listPieces level j n.Children) (Node.exprsList n.Children) hn
        (fun j => list_pieces_covers n.Children level j hc)
  | .ForExpression n, level, i, h => by
    rw [regular_ForExpression] at h
    have h1 := list_pieces_covers n.Children (level + 1) i h
    rw [pieces_ForExpression, exprs_ForExpression]
    simp only [sourcesOf_append, sourcesOf_cons, sourcesOf_nil, Piece.sources, List.cons_append,
      List.nil_append, List.append_nil, List.append_assoc]
    exact Covers.head _ h1
  | .CallTemplateExpression n, level, i, _ => Covers.exact _
  | .IfExpression n, level, i, h => by
    rw [regular_IfExpression, Bool.and_eq_true] at h
    have h1 := list_pieces_covers n.Then (level + 1) i h.1
    have h2 := list_pieces_covers n.Else (level + 1) (i + Node.listNames n.Then) h.2
    rw [pieces_IfExpression, exprs_IfExpression]
    split_ifs with hl
    · simp only [sourcesOf_append, sourcesOf_cons, sourcesOf_nil, Piece.sources, List.cons_append,
      List.nil_append, List.append_nil, List.append_assoc]
      exact Covers.head _ (Covers.union h1 h2)
    · simp only [sourcesOf_append, sourcesOf_cons, sourcesOf_nil, Piece.sources, List.cons_append,
      List.nil_append, List.append_nil, List.append_assoc]
      rw [length_eq_nil_of_not_pos _ hl]
      exact Covers.head _ (Covers.permute (Covers.union h1 (Covers.exact [])) (by simp))
  | .SwitchExpression n, level, i, h => by
    rw [regular_SwitchExpression, Bool.and_eq_true] at h
    have h1 := case_pieces_covers n.Cases level i h.1
    have h2 := list_pieces_covers n.Default (level + 1) (i + Node.caseNames n.Cases) h.2
    rw [pieces_SwitchExpression, exprs_SwitchExpression]
    split_ifs with hl
    · simp only [sourcesOf_append, sourcesOf_cons, sourcesOf_nil, Piece.sources, List.cons_append,
      List.nil_append, List.append_nil, List.append_assoc]
      exact Covers.head _ (Covers.union h1 h2)
    · simp only [sourcesOf_append, sourcesOf_cons, sourcesOf_nil, Piece.sources, List.cons_append,
      List.nil_append, List.append_nil, List.append_assoc]
      rw [length_eq_nil_of_not_pos _ hl]
      exact Covers.head _ (Covers.permute (Covers.union h1 (Covers.exact [])) (by simp))
  | .StringExpression n, level, i, _ => Covers.exact _
  | .Whitespace n, level, i, _ => Covers.exact _
  | .Text n, level, i, _ => Covers.exact _
  | .Other typeName, level, i, _ => Covers.exact _

theorem list_pieces_covers :
    ∀ (nodes : List Node) (level : Nat) (i : Int), Node.listRegular nodes = true →
      Covers (sourcesOf (Node.listPieces level i nodes)) (Node.exprsList nodes)
  | [], level, i, _ => Covers.exact _
  | node :: rest, level, i, h => by
    rw [listRegular_cons, Bool.and_eq_true] at h
    have h1 := node_pieces_covers node level i h.1
    have h2 := list_pieces_covers rest level (i + Node.names node) h.2
    rw [listPieces_cons, exprsList_cons, sourcesOf_append]
    exact Covers.union h1 h2

theorem case_pieces_covers :
    ∀ (cases : List CaseExpression) (level : Nat) (i : Int), Node.casesRegular cases = true →
      Covers (sourcesOf (Node.casePieces level i cases)) (Node.exprsCases cases)
  | [], level, i, _ => Covers.exact _
  | c :: rest, level, i, h => by
    rw [casesRegular_cons, Bool.and_eq_true] at h
    have h1 := list_pieces_covers c.Children (level + 1) i h.1
    have h2 := case_pieces_covers rest level (i + Node.listNames c.Children) h.2
    rw [casePieces_cons, exprsCases_cons]
    simp only [sourcesOf_append, sourcesOf_cons, sourcesOf_nil, Piece.sources, List.cons_append,
      List.nil_append, List.append_nil, List.append_assoc]
    exact Covers.head _ (Covers.union h1 h2)

end

theorem propertyError_cons_none (p : CSSProperty) (rest : List CSSProperty)
    (h : propertyError (p :: rest) = none) : p.known = true ∧ propertyError rest = none := by
  cases p <;> first | exact ⟨rfl, h⟩ | simp [propertyError] at h

theorem propertyPieces_sources (env : Env) (level : Nat) (props : List CSSProperty)
    (hn : propertyError props = none) :
    sourcesOf (propertyPieces env level props) = props.flatMap CSSProperty.exprs := by
  induction props with
  | nil => rfl
  | cons p rest ih =>
    obtain ⟨hk, hr⟩ := propertyError_cons_none p rest hn
    unfold propertyPieces
    rw [if_pos hk, List.flatMap_cons, sourcesOf_append, ih hr]
    cases p <;> rfl

theorem declaration_pieces_covers (env : Env) (i : Int) (n : TemplateFileNode)
    (h : n.regular = true) : Covers (sourcesOf (n.pieces env i)) n.exprs ∧ n.error = none := by
  cases n with
  | HTMLTemplate t =>
    have h1 := list_pieces_covers t.Children 2 i h
    refine ⟨?_, rfl⟩
    show Covers (sourcesOf (t.pieces i)) (t.Name :: t.Parameters :: Node.exprsList t.Children)
    unfold HTMLTemplate.pieces
    simp only [sourcesOf_append, sourcesOf_cons, sourcesOf_nil, Piece.sources, List.cons_append,
      List.nil_append, List.append_nil, List.append_assoc]
    exact Covers.head _ (Covers.head _ h1)
  | CSSTemplate c =>
    have hn : propertyError c.Properties = none := by
      simpa [TemplateFileNode.regular] using h
    refine ⟨?_, hn⟩
    show Covers (sourcesOf (c.pieces env)) (c.Name :: c.Properties.flatMap CSSProperty.exprs)
    unfold CSSTemplate.pieces
    rw [if_neg (not_not_intro hn)]
    simp only [sourcesOf_append, sourcesOf_cons, sourcesOf_nil, Piece.sources, List.cons_append,
      List.nil_append, List.append_nil, List.append_assoc]
    rw [propertyPieces_sources env 1 c.Properties hn]
    exact Covers.exact _
  | ScriptTemplate t => exact ⟨Covers.exact _, rfl⟩
  | Other typeName => simp [TemplateFileNode.regular] at h

theorem declarationPieces_covers (env : Env) (nodes : List TemplateFileNode)
    (h : nodes.all TemplateFileNode.regular = true) :
    ∀ i : Int, Covers (sourcesOf (declarationPieces env i nodes))
      (nodes.flatMap TemplateFileNode.exprs) ∧ declarationError nodes = none := by
  induction nodes with
  | nil => intro i; exact ⟨Covers.exact _, rfl⟩
  | cons n rest ih =>
    intro i
    rw [List.all_cons, Bool.and_eq_true] at h
    obtain ⟨h1, he⟩ := declaration_pieces_covers env i n h.1
    obtain ⟨h2, hr⟩ := ih h.2 (i + n.names)
    rw [declarationPieces_cons, declarationError_cons, List.flatMap_cons, sourcesOf_append,
      if_neg (not_not_intro he), if_neg (not_not_intro he)]
    exact ⟨Covers.union h1 h2, hr⟩

theorem file_pieces_covers (env : Env) (tf : TemplateFile) (h : tf.regular = true) :
    Covers (sourcesOf (tf.pieces env)) tf.exprs ∧ declarationError tf.Nodes = none := by
  obtain ⟨h1, he⟩ := declarationPieces_covers env tf.Nodes h 0
  refine ⟨?_, he⟩
  unfold TemplateFile.pieces TemplateFile.exprs
  simp only [sourcesOf_importPieces, sourcesOf_append, sourcesOf_cons, sourcesOf_nil, Piece.sources,
    List.cons_append, List.nil_append, List.append_nil, List.append_assoc]
  exact Covers.head _ (Covers.union (Covers.exact _) h1)

/-! ## The expressions of a piece are written in it -/

theorem sourced_nil : Sourced [] := fun _ h => absurd h (List.not_mem_nil _)

theorem sourced_append {a b : List Piece} (ha : Sourced a) (hb : Sourced b) : Sourced (a ++ b) :=
  fun p hp => by
    rcases List.mem_append.mp hp with h | h
    · exact ha p h
    · exact hb p h

theorem sourced_cons {p : Piece} {rest : List Piece} (h : p.sourced) (hr : Sourced rest) :
    Sourced (p :: rest) :=
  fun q hq => by
    rcases List.mem_cons.mp hq with h1 | h1
    · rw [h1]; exact h
    · exact hr q h1

theorem sourced_check {level : Nat} {rest : List Piece} (hr : Sourced rest) :
    Sourced (.check level :: rest) := sourced_cons trivial hr

theorem sourced_plain_one (level : Nat) (a b : String) (e : Expression) :
    (Piece.plain level (a ++ e.Value ++ b) [e]).sourced := ⟨a, b, rfl, trivial⟩

theorem sourced_assign_one (level : Nat) (a b : String) (e : Expression) :
    (Piece.assign level (a ++ e.Value ++ b) [e]).sourced := ⟨a, b, rfl, trivial⟩

theorem sourced_plain_two (level : Nat) (a b c : String) (e f : Expression) :
    (Piece.plain level (a ++ e.Value ++ b ++ f.Value ++ c) [e, f]).sourced :=
  ⟨a, b ++ f.Value ++ c, by simp only [String.append_assoc], b, c, rfl, trivial⟩

theorem attribute_liftPieces_sourced (level : Nat) (i : Int) (a : Attribute) :
    Sourced (a.liftPieces level i) := by
  cases a <;> simp only [Attribute.liftPieces]
  case ExpressionAttribute name e =>
    split_ifs
    all_goals
      repeat (first
        | exact sourced_nil
        | assumption
        | apply sourced_append
        | apply sourced_check
        | (apply sourced_cons; exact trivial)
        | (apply sourced_cons; exact sourced_plain_one _ _ _ _)
        | (apply sourced_cons; exact sourced_assign_one _ _ _ _))
  all_goals exact sourced_nil

theorem liftPieces_sourced (level : Nat) (attributes : List Attribute) :
    ∀ i : Int, Sourced (liftPieces level i attributes) := by
  induction attributes with
  | nil => intro i; exact sourced_nil
  | cons a rest ih =>
    intro i
    have h1 := attribute_liftPieces_sourced level i a
    have h2 := ih (i + (if a.isClass then 1 else 0))
    rw [liftPieces_cons]
    repeat (first
      | exact sourced_nil
      | assumption
      | apply sourced_append
      | apply sourced_check
      | (apply sourced_cons; exact trivial)
      | (apply sourced_cons; exact sourced_plain_one _ _ _ _)
      | (apply sourced_cons; exact sourced_assign_one _ _ _ _))

theorem scriptPieces_sourced (level : Nat) (attributes : List Attribute) :
    Sourced (scriptPieces level attributes) := by
  unfold scriptPieces
  repeat (first
    | exact sourced_nil
    | assumption
    | apply sourced_append
    | apply sourced_check
    | (apply sourced_cons; exact trivial)
    | (apply sourced_cons; exact sourced_plain_one _ _ _ _)
    | (apply sourced_cons; exact sourced_assign_one _ _ _ _))

theorem attribute_pieces_sourced (level : Nat) (elementName : String) (i : Int)
    (a : Attribute) : Sourced (a.pieces level elementName i) := by
  cases a <;> simp only [Attribute.pieces]
  case ExpressionAttribute name e =>
    split_ifs
    all_goals
      repeat (first
        | exact sourced_nil
        | assumption
        | apply sourced_append
        | apply sourced_check
        | (apply sourced_cons; exact trivial)
        | (apply sourced_cons; exact sourced_plain_one _ _ _ _)
        | (apply sourced_cons; exact sourced_assign_one _ _ _ _))
  all_goals
    repeat (first
      | exact sourced_nil
      | assumption
      | apply sourced_append
      | apply sourced_check
      | (apply sourced_cons; exact trivial)
      | (apply sourced_cons; exact sourced_plain_one _ _ _ _)
      | (apply sourced_cons; exact sourced_assign_one _ _ _ _))

theorem attributePieces_sourced (level : Nat) (elementName : String)
    (attributes : List Attribute) :
    ∀ i : Int, Sourced (attributePieces level elementName i attributes) := by
  induction attributes with
  | nil => intro i; exact sourced_nil
  | cons a rest ih =>
    intro i
    have h1 := attribute_pieces_sourced level elementName i a
    have h2 := ih (i + a.names elementName)
    rw [attributePieces_cons]
    split_ifs
    · skip
      repeat (first
        | exact sourced_nil
        | assumption
        | apply sourced_append
        | apply sourced_check
        | (apply sourced_cons; exact trivial)
        | (apply sourced_cons; exact sourced_plain_one _ _ _ _)
        | (apply sourced_cons; exact sourced_assign_one _ _ _ _))
    · exact sourced_nil

theorem voidElementPieces_sourced (level : Nat) (i : Int) (n : Element) :
    Sourced (voidElementPieces level i n) := by
  have h1 := attributePieces_sourced level n.Name n.Attributes i
  unfold voidElementPieces
  split_ifs
  all_goals
    repeat (first
      | exact sourced_nil
      | assumption
      | apply sourced_append
      | apply sourced_check
      | (apply sourced_cons; exact trivial)
      | (apply sourced_cons; exact sourced_plain_one _ _ _ _)
      | (apply sourced_cons; exact sourced_assign_one _ _ _ _))

theorem standardElementPieces_sourced (level : Nat) (i : Int) (n : Element)
    (children : Int → List Piece) (hc : ∀ j, Sourced (children j)) :
    Sourced (standardElementPieces level i n children) := by
  have h1 := liftPieces_sourced level n.Attributes i
  have h2 := scriptPieces_sourced level n.Attributes
  have h3 := attributePieces_sourced level n.Name (liftAttributes i n.Attributes)
    (i + classCount n.Attributes)
  have h4 := hc i
  have h5 := hc (i + classCount n.Attributes + attributeNames n.Name n.Attributes)
  unfold standardElementPieces
  split_ifs
  all_goals
    repeat (first
      | exact sourced_nil
      | assumption
      | apply sourced_append
      | apply sourced_check
      | (apply sourced_cons; exact trivial)
      | (apply sourced_cons; exact sourced_plain_one _ _ _ _)
      | (apply sourced_cons; exact sourced_assign_one _ _ _ _))

mutual

theorem node_pieces_sourced :
    ∀ (node : Node) (level : Nat) (i : Int), Sourced (Node.pieces level i node)
  | .DocType n, level, i => by
    rw [pieces_DocType]
    repeat (first
      | exact sourced_nil
      | assumption
      | apply sourced_append
      | apply sourced_check
      | (apply sourced_cons; exact trivial)
      | (apply sourced_cons; exact sourced_plain_one _ _ _ _)
      | (apply sourced_cons; exact sourced_assign_one _ _ _ _))
  | .Element n, level, i => by
    have h1 := voidElementPieces_sourced level i n
    have h2 := standardElementPieces_sourced level i n
      (fun j => Node.listPieces level j n.Children)
      (fun j => list_pieces_sourced n.Children level j)
    rw [pieces_Element]
    split_ifs
    · exact h1
    · exact h2
  | .ForExpression n, level, i => by
    have h1 := list_pieces_sourced n.Children (level + 1) i
    rw [pieces_ForExpression]
    repeat (first
      | exact sourced_nil
      | assumption
      | apply sourced_append
      | apply sourced_check
      | (apply sourced_cons; exact trivial)
      | (apply sourced_cons; exact sourced_plain_one _ _ _ _)
      | (apply sourced_cons; exact sourced_assign_one _ _ _ _))
  | .CallTemplateExpression n, level, i => by
    rw [pieces_CallTemplateExpression]
    repeat (first
      | exact sourced_nil
      | assumption
      | apply sourced_append
      | apply sourced_check
      | (apply sourced_cons; exact trivial)
      | (apply sourced_cons; exact sourced_plain_one _ _ _ _)
      | (apply sourced_cons; exact sourced_assign_one _ _ _ _))
  | .IfExpression n, level, i => by
    have h1 := list_pieces_sourced n.Then (level + 1) i
    have h2 := list_pieces_sourced n.Else (level + 1) (i + Node.listNames n.Then)
    rw [pieces_IfExpression]
    split_ifs
    all_goals
      repeat (first
        | exact sourced_nil
        | assumption
        | apply sourced_append
        | apply sourced_check
        | (apply sourced_cons; exact trivial)
        | (apply sourced_cons; exact sourced_plain_one _ _ _ _)
        | (apply sourced_cons; exact sourced_assign_one _ _ _ _))
  | .SwitchExpression n, level, i => by
    have h1 := case_pieces_sourced n.Cases level i
    have h2 := list_pieces_sourced n.Default (level + 1) (i + Node.caseNames n.Cases)
    rw [pieces_SwitchExpression]
    split_ifs
    all_goals
      repeat (first
        | exact sourced_nil
        | assumption
        | apply sourced_append
        | apply sourced_check
        | (apply sourced_cons; exact trivial)
        | (apply sourced_cons; exact sourced_plain_one _ _ _ _)
        | (apply sourced_cons; exact sourced_assign_one _ _ _ _))
  | .StringExpression n, level, i => by
    rw [pieces_StringExpression]
    repeat (first
      | exact sourced_nil
      | assumption
      | apply sourced_append
      | apply sourced_check
      | (apply sourced_cons; exact trivial)
      | (apply sourced_cons; exact sourced_plain_one _ _ _ _)
      | (apply sourced_cons; exact sourced_assign_one _ _ _ _))
  | .Whitespace n, level, i => sourced_nil
  | .Text n, level, i => by
    rw [pieces_Text]
    repeat (first
      | exact sourced_nil
      | assumption
      | apply sourced_append
      | apply sourced_check
      | (apply sourced_cons; exact trivial)
      | (apply sourced_cons; exact sourced_plain_one _ _ _ _)
      | (apply sourced_cons; exact sourced_assign_one _ _ _ _))
  | .Other typeName, level, i => by
    rw [pieces_Other]
    repeat (first
      | exact sourced_nil
      | assumption
      | apply sourced_append
      | apply sourced_check
      | (apply sourced_cons; exact trivial)
      | (apply sourced_cons; exact sourced_plain_one _ _ _ _)
      | (apply sourced_cons; exact sourced_assign_one _ _ _ _))

theorem list_pieces_sourced :
    ∀ (nodes : List Node) (level : Nat) (i : Int), Sourced (Node.listPieces level i nodes)
  | [], level, i => sourced_nil
  | node :: rest, level, i => by
    have h1 := node_pieces_sourced node level i
    have h2 := list_pieces_sourced rest level (i + Node.names node)
    rw [listPieces_cons]
    repeat (first
      | exact sourced_nil
      | assumption
      | apply sourced_append
      | apply sourced_check
      | (apply sourced_cons; exact trivial)
      | (apply sourced_cons; exact sourced_plain_one _ _ _ _)
      | (apply sourced_cons; exact sourced_assign_one _ _ _ _))

theorem case_pieces_sourced :
    ∀ (cases : List CaseExpression) (level : Nat) (i : Int),
      Sourced (Node.casePieces level i cases)
  | [], level, i => sourced_nil
  | c :: rest, level, i => by
    have h1 := list_pieces_sourced c.Children (level + 1) i
    have h2 := case_pieces_sourced rest level (i + Node.listNames c.Children)
    rw [casePieces_cons]
    repeat (first
      | exact sourced_nil
      | assumption
      | apply sourced_append
      | apply sourced_check
      | (apply sourced_cons; exact trivial)
      | (apply sourced_cons; exact sourced_plain_one _ _ _ _)
      | (apply sourced_cons; exact sourced_assign_one _ _ _ _))

end

theorem template_pieces_sourced (t : HTMLTemplate) (i : Int) : Sourced (t.pieces i) := by
  have h1 := list_pieces_sourced t.Children 2 i
  unfold HTMLTemplate.pieces
  repeat (first
    | exact sourced_nil
    | assumption
    | apply sourced_append
    | apply sourced_check
    | (apply sourced_cons; exact trivial)
    | (apply sourced_cons; exact sourced_plain_one _ _ _ _)
    | (apply sourced_cons; exact sourced_assign_one _ _ _ _)
    | (apply sourced_cons; exact sourced_plain_two _ _ _ _ _ _))

theorem propertyPieces_sourced (env : Env) (level : Nat) (props : List CSSProperty) :
    Sourced (propertyPieces env level props) := by
  induction props with
  | nil => exact sourced_nil
  | cons p rest ih =>
    unfold propertyPieces
    split_ifs
    · cases p <;> simp only [CSSProperty.pieces]
      all_goals
        repeat (first
          | exact sourced_nil
          | assumption
          | apply sourced_append
          | apply sourced_check
          | (apply sourced_cons; exact trivial)
          | (apply sourced_cons; exact sourced_plain_one _ _ _ _)
          | (apply sourced_cons; exact sourced_assign_one _ _ _ _))
    · exact sourced_nil

theorem css_pieces_sourced (env : Env) (n : CSSTemplate) : Sourced (n.pieces env) := by
  have h1 := propertyPieces_sourced env 1 n.Properties
  unfold CSSTemplate.pieces
  split_ifs
  all_goals
    repeat (first
      | exact sourced_nil
      | assumption
      | apply sourced_append
      | apply sourced_check
      | (apply sourced_cons; exact trivial)
      | (apply sourced_cons; exact sourced_plain_one _ _ _ _)
      | (apply sourced_cons; exact sourced_assign_one _ _ _ _))

theorem script_pieces_sourced (env : Env) (t : ScriptTemplate) : Sourced (t.pieces env) := by
  unfold ScriptTemplate.pieces
  repeat (first
    | exact sourced_nil
    | assumption
    | apply sourced_append
    | apply sourced_check
    | (apply sourced_cons; exact trivial)
    | (apply sourced_cons; exact sourced_plain_one _ _ _ _)
    | (apply sourced_cons; exact sourced_assign_one _ _ _ _)
    | (apply sourced_cons; exact sourced_plain_two _ _ _ _ _ _))

theorem declaration_pieces_sourced (env : Env) (i : Int) (n : TemplateFileNode) :
    Sourced (n.pieces env i) := by
  cases n with
  | HTMLTemplate t => exact template_pieces_sourced t i
  | CSSTemplate c => exact css_pieces_sourced env c
  | ScriptTemplate t => exact script_pieces_sourced env t
  | Other typeName => exact sourced_nil

theorem declarationPieces_sourced (env : Env) (nodes : List TemplateFileNode) :
    ∀ i : Int, Sourced (declarationPieces env i nodes) := by
  induction nodes with
  | nil => intro i; exact sourced_nil
  | cons n rest ih =>
    intro i
    have h1 := declaration_pieces_sourced env i n
    have h2 := ih (i + n.names)
    rw [declarationPieces_cons]
    split_ifs
    all_goals
      repeat (first
        | exact sourced_nil
        | assumption
        | apply sourced_append
        | apply sourced_check
        | (apply sourced_cons; exact trivial)
        | (apply sourced_cons; exact sourced_plain_one _ _ _ _)
        | (apply sourced_cons; exact sourced_assign_one _ _ _ _))

theorem userImports_sourced (imports : List Import) :
    Sourced (imports.map (fun im => Piece.plain 0 ("import " ++ im.Expression.Value ++ "\n")
      [im.Expression])) := by
  induction imports with
  | nil => exact sourced_nil
  | cons im rest ih =>
    rw [List.map_cons]
    repeat (first
      | exact sourced_nil
      | assumption
      | apply sourced_append
      | apply sourced_check
      | (apply sourced_cons; exact trivial)
      | (apply sourced_cons; exact sourced_plain_one _ _ _ _)
      | (apply sourced_cons; exact sourced_assign_one _ _ _ _))

theorem importPieces_sourced (tf : TemplateFile) : Sourced (importPieces tf) := by
  have h1 := userImports_sourced tf.Imports
  unfold importPieces
  split_ifs
  all_goals
    repeat (first
      | exact sourced_nil
      | assumption
      | apply sourced_append
      | apply sourced_check
      | (apply sourced_cons; exact trivial)
      | (apply sourced_cons; exact sourced_plain_one _ _ _ _)
      | (apply sourced_cons; exact sourced_assign_one _ _ _ _))

theorem file_pieces_sourced (env : Env) (tf : TemplateFile) : Sourced (tf.pieces env) := by
  have h1 := importPieces_sourced tf
  have h2 := declarationPieces_sourced env tf.Nodes 0
  unfold TemplateFile.pieces
  repeat (first
    | exact sourced_nil
    | assumption
    | apply sourced_append
    | apply sourced_check
    | (apply sourced_cons; exact trivial)
    | (apply sourced_cons; exact sourced_plain_one _ _ _ _)
    | (apply sourced_cons; exact sourced_assign_one _ _ _ _))

/-! ## The entries of the source map -/

/-- C3 as amended: on a sink that accepts all writes, the output of `Generate`
is the text of the pieces of the template file, and the source map holds
exactly one entry for each expression that is recorded with one of these
pieces, in the order of the text; the text of every expression recorded with a
piece is written in the code of the piece. Up to their order the recorded
expressions are occurrences of expressions of the input template file, each
occurrence recorded at most once, and expressions `var_N.String()` that
`writeElementCSS` has put in the place of the expression of a `class`
attribute. For a template
file that the generator goes through to the end, with no declaration, property
or attribute of unknown kind and no void element with children, `Generate`
returns no error and every occurrence of an expression of the input is
recorded exactly once. Whatever the sink does, every entry records an
expression of the input template file or such an expression
`var_N.String()`. -/
theorem Generate_sourceMap_sources (env : Env) (template : TemplateFile) (w : Sink) :
    (w.accepts →
      (Generate env template w).w.out = w.out ++ render (template.pieces env) ∧
      (Generate env template w).sm.sources = sourcesOf (template.pieces env) ∧
      Sourced (template.pieces env) ∧
      (∃ ins syn : List Expression,
        (Generate env template w).sm.sources.Perm (ins ++ syn) ∧
        ins.Subperm template.exprs ∧ ∀ e ∈ syn, synthesized e) ∧
      (template.regular = true →
        (Generate env template w).err = none ∧
        ∃ syn : List Expression,
          (Generate env template w).sm.sources.Perm (template.exprs ++ syn) ∧
          ∀ e ∈ syn, synthesized e)) ∧
    ∀ item ∈ (Generate env template w).sm.Items,
      item.Source ∈ template.exprs ∨ synthesized item.Source := by
  refine ⟨fun h => ?_, Generate_sourceMap_origin env template w⟩
  obtain ⟨h1, -, h3, h4⟩ := Generate_pieces env template w h
  refine ⟨h3, h4, file_pieces_sourced env template, ?_, fun hr => ?_⟩
  · rw [h4]
    exact file_pieces_records env template
  · obtain ⟨hc, he⟩ := file_pieces_covers env template hr
    rw [h1, h4]
    exact ⟨he, hc⟩

/-- C3 as amended, at the template with the body `<div class={ x }></div>`, on
the empty sink that accepts all writes: the source map holds the package, the
name and the parameters of the template, the expression `x` of the class
attribute, and `var_1.String()`. -/
theorem Generate_sourceMap_sources_witness :
    acceptingSink.accepts ∧
    (Generate exampleEnv (templateOf [.Element classElement]) acceptingSink).sm.sources
      = [⟨"main", ⟨⟨8, 1, 8⟩, ⟨12, 1, 12⟩⟩⟩, ⟨"render", ⟨⟨20, 3, 6⟩, ⟨26, 3, 12⟩⟩⟩,
         ⟨"", ⟨⟨27, 3, 13⟩, ⟨27, 3, 13⟩⟩⟩, ⟨"x", ⟨⟨30, 3, 12⟩, ⟨31, 3, 13⟩⟩⟩,
         ⟨"var_1.String()", default⟩] :=
  ⟨fun _ => rfl,
    (((Generate_sourceMap_sources exampleEnv (templateOf [.Element classElement])
      acceptingSink).1 (fun _ => rfl)).2.1).trans (by decide!)⟩

/-! ## The pass changes nothing but the expressions of the lifted `class` attributes -/

theorem writeStandardElement_frame (indentLevel : Nat) (n : Element)
    (writeChildren : Gen (List Node × error)) (hv : n.Void = false)
    (hwc : Val writeChildren (fun a => Node.eraseLiftedList a.1 = Node.eraseLiftedList n.Children)) :
    Val (generator.writeStandardElement indentLevel n writeChildren)
      (fun a => Node.eraseLifted (.Element a.1) = Node.eraseLifted (.Element n)) := by
  have hcss : Val (generator.writeElementCSS indentLevel n)
      (fun a => a.1.map Attribute.eraseClass = n.Attributes.map Attribute.eraseClass) :=
    (writeElementCSS_loop_val indentLevel n.Attributes).weaken
      (fun _ h => rewritten_map_eraseClass h)
  unfold generator.writeStandardElement
  with_reducible repeat' (first
    | refine Val.of_pure_bind _ ?_
    | refine Val.bind_of (by assumption) ?_
    | refine Val.of_bind ?_
    | refine Val.of_ite ?_ ?_
    | intro _
    | rintro ⟨_, _⟩
    | dsimp only)
  all_goals (refine Val.of_pure _ ?_; simp_all [Node.eraseLifted])

mutual

theorem writeNode_frame :
    ∀ (node : Node) (indentLevel : Nat),
      Val (generator.writeNode indentLevel node)
        (fun a => Node.eraseLifted a.1 = Node.eraseLifted node)
  | .DocType n, indentLevel => by
    rw [writeNode_DocType]
    with_reducible repeat' (first
      | refine Val.of_pure_bind _ ?_
      | refine Val.bind_of (by assumption) ?_
      | refine Val.of_bind ?_
      | refine Val.of_ite ?_ ?_
      | intro _
      | rintro ⟨_, _⟩
      | dsimp only)
    all_goals (refine Val.of_pure _ ?_; simp_all [Node.eraseLifted])
  | .Element n, indentLevel => by
    have h1 := writeElement_frame n indentLevel
    rw [writeNode_Element]
    refine Val.bind_of h1 ?_
    rintro ⟨a, err⟩ ha
    exact Val.of_pure _ ha
  | .ForExpression n, indentLevel => by
    have h1 := writeForExpression_frame n indentLevel
    rw [writeNode_ForExpression]
    with_reducible repeat' (first
      | refine Val.of_pure_bind _ ?_
      | refine Val.bind_of (by assumption) ?_
      | refine Val.of_bind ?_
      | refine Val.of_ite ?_ ?_
      | intro _
      | rintro ⟨_, _⟩
      | dsimp only)
    all_goals (refine Val.of_pure _ ?_; simp_all [Node.eraseLifted])
  | .CallTemplateExpression n, indentLevel => by
    rw [writeNode_CallTemplateExpression]
    with_reducible repeat' (first
      | refine Val.of_pure_bind _ ?_
      | refine Val.bind_of (by assumption) ?_
      | refine Val.of_bind ?_
      | refine Val.of_ite ?_ ?_
      | intro _
      | rintro ⟨_, _⟩
      | dsimp only)
    all_goals (refine Val.of_pure _ ?_; simp_all [Node.eraseLifted])
  | .IfExpression n, indentLevel => by
    have h1 := writeIfExpression_frame n indentLevel
    rw [writeNode_IfExpression]
    with_reducible repeat' (first
      | refine Val.of_pure_bind _ ?_
      | refine Val.bind_of (by assumption) ?_
      | refine Val.of_bind ?_
      | refine Val.of_ite ?_ ?_
      | intro _
      | rintro ⟨_, _⟩
      | dsimp only)
    all_goals (refine Val.of_pure _ ?_; simp_all [Node.eraseLifted])
  | .SwitchExpression n, indentLevel => by
    have h1 := writeSwitchExpression_frame n indentLevel
    rw [writeNode_SwitchExpression]
    with_reducible repeat' (first
      | refine Val.of_pure_bind _ ?_
      | refine Val.bind_of (by assumption) ?_
      | refine Val.of_bind ?_
      | refine Val.of_ite ?_ ?_
      | intro _
      | rintro ⟨_, _⟩
      | dsimp only)
    all_goals (refine Val.of_pure _ ?_; simp_all [Node.eraseLifted])
  | .StringExpression n, indentLevel => by
    rw [writeNode_StringExpression]
    with_reducible repeat' (first
      | refine Val.of_pure_bind _ ?_
      | refine Val.bind_of (by assumption) ?_
      | refine Val.of_bind ?_
      | refine Val.of_ite ?_ ?_
      | intro _
      | rintro ⟨_, _⟩
      | dsimp only)
    all_goals (refine Val.of_pure _ ?_; simp_all [Node.eraseLifted])
  | .Whitespace n, indentLevel => by
    rw [writeNode_Whitespace]
    exact Val.of_pure _ rfl
  | .Text n, indentLevel => by
    rw [writeNode_Text]
    with_reducible repeat' (first
      | refine Val.of_pure_bind _ ?_
      | refine Val.bind_of (by assumption) ?_
      | refine Val.of_bind ?_
      | refine Val.of_ite ?_ ?_
      | intro _
      | rintro ⟨_, _⟩
      | dsimp only)
    all_goals (refine Val.of_pure _ ?_; simp_all [Node.eraseLifted])
  | .Other typeName, indentLevel => by
    rw [writeNode_Other]
    with_reducible repeat' (first
      | refine Val.of_pure_bind _ ?_
      | refine Val.bind_of (by assumption) ?_
      | refine Val.of_bind ?_
      | refine Val.of_ite ?_ ?_
      | intro _
      | rintro ⟨_, _⟩
      | dsimp only)
    all_goals (refine Val.of_pure _ ?_; simp_all [Node.eraseLifted])

theorem writeNodes_frame :
    ∀ (nodes : List Node) (indentLevel : Nat),
      Val (generator.writeNodes indentLevel nodes)
        (fun a => Node.eraseLiftedList a.1 = Node.eraseLiftedList nodes)
  | [], indentLevel => by
    unfold generator.writeNodes
    exact Val.of_pure _ rfl
  | node :: rest, indentLevel => by
    have h1 := writeNode_frame node indentLevel
    have h2 := writeNodes_frame rest indentLevel
    unfold generator.writeNodes
    with_reducible repeat' (first
      | refine Val.of_pure_bind _ ?_
      | refine Val.bind_of (by assumption) ?_
      | refine Val.of_bind ?_
      | refine Val.of_ite ?_ ?_
      | intro _
      | rintro ⟨_, _⟩
      | dsimp only)
    all_goals (refine Val.of_pure _ ?_; simp_all [Node.eraseLiftedList])

theorem writeElement_frame :
    ∀ (n : Element) (indentLevel : Nat),
      Val (generator.writeElement indentLevel n)
        (fun a => Node.eraseLifted (.Element a.1) = Node.eraseLifted (.Element n))
  | n, indentLevel => by
    have h1 := writeNodes_frame n.Children indentLevel
    unfold generator.writeElement
    refine Val.of_ite (fun _ => ?_) (fun hv => ?_)
    · refine Val.of_bind ?_
      intro _
      exact Val.of_pure _ rfl
    · have hv' : n.Void = false := by
        cases hb : n.Void with
        | false => rfl
        | true => exact absurd (show n.IsVoidElement = true from hb) hv
      exact writeStandardElement_frame indentLevel n _ hv' h1

theorem writeForExpression_frame :
    ∀ (n : ForExpression) (indentLevel : Nat),
      Val (generator.writeForExpression indentLevel n)
        (fun a => Node.eraseLifted (.ForExpression a.1) = Node.eraseLifted (.ForExpression n))
  | n, indentLevel => by
    have h1 := writeNodes_frame n.Children (indentLevel + 1)
    unfold generator.writeForExpression
    with_reducible repeat' (first
      | refine Val.of_pure_bind _ ?_
      | refine Val.bind_of (by assumption) ?_
      | refine Val.of_bind ?_
      | refine Val.of_ite ?_ ?_
      | intro _
      | rintro ⟨_, _⟩
      | dsimp only)
    all_goals (refine Val.of_pure _ ?_; simp_all [Node.eraseLifted])

theorem writeIfExpression_frame :
    ∀ (n : IfExpression) (indentLevel : Nat),
      Val (generator.writeIfExpression indentLevel n)
        (fun a => Node.eraseLifted (.IfExpression a.1) = Node.eraseLifted (.IfExpression n))
  | n, indentLevel => by
    have h1 := writeNodes_frame n.Then (indentLevel + 1)
    have h2 := writeNodes_frame n.Else (indentLevel + 1)
    unfold generator.writeIfExpression
    with_reducible repeat' (first
      | refine Val.of_pure_bind _ ?_
      | refine Val.bind_of (by assumption) ?_
      | refine Val.of_bind ?_
      | refine Val.of_ite ?_ ?_
      | intro _
      | rintro ⟨_, _⟩
      | dsimp only)
    all_goals (refine Val.of_pure _ ?_; simp_all [Node.eraseLifted])

theorem writeSwitchExpression_cases_frame :
    ∀ (cases : List CaseExpression) (indentLevel : Nat),
      Val (generator.writeSwitchExpression.cases indentLevel cases)
        (fun a => Node.eraseLiftedCases a.1 = Node.eraseLiftedCases cases)
  | [], indentLevel => by
    unfold generator.writeSwitchExpression.cases
    exact Val.of_pure _ rfl
  | c :: rest, indentLevel => by
    have h1 := writeNodes_frame c.Children (indentLevel + 1)
    have h2 := writeSwitchExpression_cases_frame rest indentLevel
    unfold generator.writeSwitchExpression.cases
    with_reducible repeat' (first
      | refine Val.of_pure_bind _ ?_
      | refine Val.bind_of (by assumption) ?_
      | refine Val.of_bind ?_
      | refine Val.of_ite ?_ ?_
      | intro _
      | rintro ⟨_, _⟩
      | dsimp only)
    all_goals (refine Val.of_pure _ ?_; simp_all [Node.eraseLiftedCases])

theorem writeSwitchExpression_frame :
    ∀ (n : SwitchExpression) (indentLevel : Nat),
      Val (generator.writeSwitchExpression indentLevel n)
        (fun a => Node.eraseLifted (.SwitchExpression a.1)
          = Node.eraseLifted (.SwitchExpression n))
  | n, indentLevel => by
    have h1 := writeSwitchExpression_cases_frame n.Cases indentLevel
    have h2 := writeNodes_frame n.Default (indentLevel + 1)
    unfold generator.writeSwitchExpression
    with_reducible repeat' (first
      | refine Val.of_pure_bind _ ?_
      | refine Val.bind_of (by assumption) ?_
      | refine Val.of_bind ?_
      | refine Val.of_ite ?_ ?_
      | intro _
      | rintro ⟨_, _⟩
      | dsimp only)
    all_goals (refine Val.of_pure _ ?_; simp_all [Node.eraseLifted])

end

set_option maxRecDepth 16384 in
theorem writeTemplate_frame (t : HTMLTemplate) :
    Val (generator.writeTemplate t)
      (fun a => Node.eraseLiftedList a.1.Children = Node.eraseLiftedList t.Children ∧
        a.1.Name = t.Name ∧ a.1.Parameters = t.Parameters) := by
  have h1 := writeNodes_frame t.Children 2
  unfold generator.writeTemplate
  with_reducible repeat' (first
    | refine Val.of_pure_bind _ ?_
    | refine Val.bind_of (by assumption) ?_
    | refine Val.of_bind ?_
    | refine Val.of_ite ?_ ?_
    | intro _
    | rintro ⟨_, _⟩
    | dsimp only)
  all_goals (refine Val.of_pure _ ?_; simp_all)

theorem writeTemplateNodes_loop_frame (env : Env) (nodes : List TemplateFileNode) :
    Val (generator.writeTemplateNodes.loop env nodes)
      (fun a => a.1.map TemplateFileNode.eraseLifted = nodes.map TemplateFileNode.eraseLifted) := by
  induction nodes with
  | nil =>
    unfold generator.writeTemplateNodes.loop
    exact Val.of_pure _ rfl
  | cons node rest ih =>
    cases node with
    | HTMLTemplate n =>
      have h1 := writeTemplate_frame n
      unfold generator.writeTemplateNodes.loop
      with_reducible repeat' (first
        | refine Val.of_pure_bind _ ?_
        | refine Val.bind_of (by assumption) ?_
        | refine Val.of_bind ?_
        | refine Val.of_ite ?_ ?_
        | intro _
        | rintro ⟨_, _⟩
        | dsimp only)
      all_goals (refine Val.of_pure _ ?_; simp_all [TemplateFileNode.eraseLifted])
    | CSSTemplate n =>
      unfold generator.writeTemplateNodes.loop
      with_reducible repeat' (first
        | refine Val.of_pure_bind _ ?_
        | refine Val.bind_of (by assumption) ?_
        | refine Val.of_bind ?_
        | refine Val.of_ite ?_ ?_
        | intro _
        | rintro ⟨_, _⟩
        | dsimp only)
      all_goals (refine Val.of_pure _ ?_; simp_all [TemplateFileNode.eraseLifted])
    | ScriptTemplate n =>
      unfold generator.writeTemplateNodes.loop
      with_reducible repeat' (first
        | refine Val.of_pure_bind _ ?_
        | refine Val.bind_of (by assumption) ?_
        | refine Val.of_bind ?_
        | refine Val.of_ite ?_ ?_
        | intro _
        | rintro ⟨_, _⟩
        | dsimp only)
      all_goals (refine Val.of_pure _ ?_; simp_all [TemplateFileNode.eraseLifted])
    | Other typeName =>
      unfold generator.writeTemplateNodes.loop
      exact Val.of_pure _ rfl

theorem writeTemplateNodes_frame (env : Env) (g0 : generator) (F : generator → Prop) :
    Triple (Inv (fun _ => True) g0 F) (generator.writeTemplateNodes env)
      (fun _ g => g.tf.eraseLifted = g0.tf.eraseLifted) := by
  unfold generator.writeTemplateNodes
  refine Triple.bind triple_tf ?_
  intro tf
  refine Triple.pre_pure (fun htf => ?_)
  subst htf
  refine Triple.bind (Triple.keeps_val
    (writeTemplateNodes_loop_keeps (fun _ _ => trivial) env g0.tf.Nodes (fun _ _ => trivial))
    (writeTemplateNodes_loop_frame env g0.tf.Nodes)) ?_
  rintro ⟨nodes, err⟩
  refine ⟨fun g hg => ?_⟩
  have htf : g.tf = g0.tf := hg.1.tf_eq
  have hn : nodes.map TemplateFileNode.eraseLifted
      = g0.tf.Nodes.map TemplateFileNode.eraseLifted := hg.2
  show TemplateFile.eraseLifted { g.tf with Nodes := nodes } = _
  rw [htf]
  unfold TemplateFile.eraseLifted
  simp only [hn]

theorem inv_frame {g0 : generator} {F : generator → Prop} (g : generator)
    (h : Inv (fun _ => True) g0 F g) : g.tf.eraseLifted = g0.tf.eraseLifted := by
  rw [h.1.tf_eq]

theorem generate_frame (env : Env) (g0 : generator) :
    (generator.generate env g0).2.tf.eraseLifted = g0.tf.eraseLifted := by
  have key : Triple (Inv (fun _ => True) g0 (fun _ => True)) (generator.generate env)
      (fun _ g => g.tf.eraseLifted = g0.tf.eraseLifted) := by
    unfold generator.generate
    with_reducible repeat (first
      | exact Triple.pure _ inv_frame
      | exact Triple.pure _ (fun _ h => h)
      | refine Triple.pure_bind _ ?_
      | refine Triple.bind (writeCodeGeneratedComment_keeps _).triple ?_
      | refine Triple.bind (writePackage_keeps g0 trivial _) ?_
      | refine Triple.bind (writeImports_keeps g0 (fun _ _ => trivial) _) ?_
      | refine Triple.bind (writeTemplateNodes_frame env g0 _) ?_
      | refine Triple.ite ?_ ?_
      | intro _
      | dsimp only)
  exact key.run g0 ⟨Reach.refl, trivial⟩

/-! ## The AST after the pass -/

/-- Whatever the sink does, `Generate` leaves the input AST as it was up to the
expressions of the expression attributes named `class` of the elements that
are not void. -/
theorem Generate_template_frame (env : Env) (template : TemplateFile) (w : Sink) :
    (Generate env template w).template.eraseLifted = template.eraseLifted := by
  rw [Generate_eq]
  exact generate_frame env ⟨template, NewRangeWriter w, NewSourceMap, 0⟩

/-- C4 as amended: on a sink that accepts all writes, the AST after `Generate`
is `template.lifted`: the input AST in which the expression of every
expression attribute whose escaped name is `class`, of the elements that are
not void and that the pass goes through, is `var_N.String()`, where `var_N` is
the temporary that holds the classes; a void element is left as it is, and so
is every attribute that is no such `class` attribute. Whatever the sink does,
the AST after `Generate` is the input AST up to the expressions of the
expression attributes named `class` of the elements that are not void. -/
theorem Generate_template_lifted (env : Env) (template : TemplateFile) (w : Sink) :
    (w.accepts → (Generate env template w).template = template.lifted) ∧
    (∀ (i : Int) (n : Element), n.Void = true → Node.lifted i (.Element n) = .Element n) ∧
    (∀ (i : Int) (name : String) (e : Expression), html.EscapeString name = "class" →
      Attribute.lift i (.ExpressionAttribute name e)
        = .ExpressionAttribute name
            { Value := "var_" ++ toString (i + 1) ++ ".String()", Range := default }) ∧
    (∀ (i : Int) (a : Attribute), a.isClass = false → a.lift i = a) ∧
    (Generate env template w).template.eraseLifted = template.eraseLifted := by
  refine ⟨fun h => (Generate_pieces env template w h).2.1, ?_, ?_, ?_,
    Generate_template_frame env template w⟩
  · intro i n hv
    rw [lifted_Element, if_pos hv]
  · intro i name e hc
    simp only [Attribute.lift, hc, if_true]
    rfl
  · intro i a ha
    cases a with
    | ExpressionAttribute name e =>
      have hc : ¬ html.EscapeString name = "class" := by
        simpa [Attribute.isClass] using ha
      simp only [Attribute.lift, hc, if_false]
    | _ => rfl

/-- C4 as amended, at the template with the body `<div class={ x }></div>`, on
the empty sink that accepts all writes: the class attribute of the element
reads `var_1.String()` after the pass. -/
theorem Generate_template_lifted_witness :
    acceptingSink.accepts ∧
    firstElementAttributes (templateOf [.Element classElement]).lifted
      = [.ExpressionAttribute "class" ⟨"var_1.String()", default⟩] ∧
    (Generate exampleEnv (templateOf [.Element classElement]) acceptingSink).template
      = (templateOf [.Element classElement]).lifted :=
  ⟨fun _ => rfl, by decide!,
    (Generate_template_lifted exampleEnv (templateOf [.Element classElement]) acceptingSink).1
      (fun _ => rfl)⟩

end Templ
